import Mathlib

/-!
# Karamelo (Material Point Method): kinematic and constitutive kernels

A shallow embedding of the per-particle kernels of `src/solid.cpp`
(`Solid::compute_rate_deformation_gradient_TL`,
`Solid::update_deformation_gradient`, `Solid::update_stress`), of
`StrengthJohnsonCook::update_deviatoric_stress` (`src/strength_jc.cpp`) and of
`DamageJohnsonCook::compute_damage` (`src/damage_jc.cpp`).

Conventions of the embedding:

* a C++ `double` is an element of a linearly ordered field `𝕜` with exact
  arithmetic (theorems that need `sqrt`, `log`, `exp`, `pow` are stated over `ℝ`
  with the real functions); rounding, infinities and NaN are outside the model, and
  a quotient by zero is a number of the field (`x/0 = 0`): the theorems of the claims
  exclude such inputs or name the quotient without using its value;
* the CFL reduction of `Solid::update_stress`, which tests for NaN, is embedded a
  second time on the type `Double`, with NaN and the two infinities;
* `Eigen::Matrix3d` is `Matrix (Fin 3) (Fin 3) 𝕜`, `Eigen::Vector3d` is `Fin 3 → 𝕜`;
* a per-particle array is a function `Nat → _`, an assignment `a[ip] = e` is
  `Function.update a ip e`;
* `error->all(FLERR, msg)` and `exit(1)` end the run: the kernels return
  `Except String _` and a loop stops at the first error.
-/

namespace Karamelo

/-! ## Numbers, matrices and the C math library -/

/-- The type of `Eigen::Matrix3d`. -/
abbrev Matrix3d (𝕜 : Type) := Matrix (Fin 3) (Fin 3) 𝕜

/-- The type of `Eigen::Vector3d`. -/
abbrev Vector3d (𝕜 : Type) := Fin 3 → 𝕜

/-- The functions of `<math.h>` used by the kernels (`sqrt`, `log`, `exp`, `pow`).
Over `ℝ` they are instantiated as `Libm.mk Real.sqrt Real.log Real.exp Real.rpow`. -/
structure Libm (𝕜 : Type) where
  sqrt : 𝕜 → 𝕜
  log : 𝕜 → 𝕜
  exp : 𝕜 → 𝕜
  pow : 𝕜 → 𝕜 → 𝕜

section Prelude

variable {𝕜 : Type} [LinearOrderedField 𝕜]

/-- Modelled from the spec: the macro `MAX(A,B)` (its header is not among the
sources), the larger of its two arguments, `((A) > (B) ? (A) : (B))`. -/
def MAX (a b : 𝕜) : 𝕜 := if a > b then a else b

/-- Modelled from the spec: the macro `MIN(A,B)` (its header is not among the
sources), the smaller of its two arguments, `((A) < (B) ? (A) : (B))`. -/
def MIN (a b : 𝕜) : 𝕜 := if a < b then a else b

/-- The test `std::isnan(x)`: an element of an ordered field is never NaN. -/
def isnan (_x : 𝕜) : Bool := false

/-- The determinant `M.determinant()` of a 3×3 matrix, by expansion along the first row. -/
def determinant (M : Matrix3d 𝕜) : 𝕜 :=
  M 0 0 * (M 1 1 * M 2 2 - M 1 2 * M 2 1)
    - M 0 1 * (M 1 0 * M 2 2 - M 1 2 * M 2 0)
    + M 0 2 * (M 1 0 * M 2 1 - M 1 1 * M 2 0)

/-- The cofactor matrix used by Eigen for the inverse of a 3×3 matrix, already
transposed (entry `(i, j)` is the cofactor of `M j i`). -/
def cofactors (M : Matrix3d 𝕜) : Matrix3d 𝕜 :=
  !![M 1 1 * M 2 2 - M 1 2 * M 2 1, M 0 2 * M 2 1 - M 0 1 * M 2 2, M 0 1 * M 1 2 - M 0 2 * M 1 1;
     M 1 2 * M 2 0 - M 1 0 * M 2 2, M 0 0 * M 2 2 - M 0 2 * M 2 0, M 0 2 * M 1 0 - M 0 0 * M 1 2;
     M 1 0 * M 2 1 - M 1 1 * M 2 0, M 0 1 * M 2 0 - M 0 0 * M 2 1, M 0 0 * M 1 1 - M 0 1 * M 1 0]

/-- The inverse `M.inverse()` of a 3×3 matrix as Eigen computes it for fixed size 3:
the cofactor matrix times the reciprocal of the determinant. -/
def inverse (M : Matrix3d 𝕜) : Matrix3d 𝕜 := (1 / determinant M) • cofactors M

/-- The squared Frobenius norm `M.squaredNorm()`. -/
def squaredNorm (M : Matrix3d 𝕜) : 𝕜 :=
  M 0 0 * M 0 0 + M 0 1 * M 0 1 + M 0 2 * M 0 2
    + M 1 0 * M 1 0 + M 1 1 * M 1 1 + M 1 2 * M 1 2
    + M 2 0 * M 2 0 + M 2 1 * M 2 1 + M 2 2 * M 2 2

/-- The Frobenius norm `M.norm()`, the square root of the sum of the squared entries. -/
def norm (m : Libm 𝕜) (M : Matrix3d 𝕜) : 𝕜 := m.sqrt (squaredNorm M)

/-- Modelled from the spec: `MPM_Math::Deviator` (`mpm_math.h` is not among the
sources), `deviator(M) = M − (tr M)/3·I`. -/
def Deviator (M : Matrix3d 𝕜) : Matrix3d 𝕜 := M - (M.trace / 3) • (1 : Matrix3d 𝕜)

/-- The sequential loop `for (int ip = 0; ip < n; ip++) body(ip)`, whose body may end
the run with an error; the state after `n` iterations. -/
def forLoop {σ ε : Type} (body : Nat → σ → Except ε σ) : Nat → σ → Except ε σ
  | 0, s => .ok s
  | n + 1, s =>
    match forLoop body n s with
    | .ok s' => body n s'
    | .error e => .error e

/-- The loop `for (int j = 0; j < n; j++) body(j)` whose body cannot fail. -/
def loop {σ : Type} (body : Nat → σ → σ) : Nat → σ → σ
  | 0, s => s
  | n + 1, s => body n (loop body n s)

end Prelude

/-! ## Materials, grid and solid -/

/-- The interface of an equation of state: `compute_pressure(J, rho, T, damage)`. -/
structure EOS (𝕜 : Type) where
  compute_pressure : 𝕜 → 𝕜 → 𝕜 → 𝕜 → 𝕜

/-- The interface of a strength model as `update_stress` calls it (solid.cpp 890): the
shear modulus `G()` and `update_deviatoric_stress(sigma, D, plastic_strain_increment&,
eff_plastic_strain, epsdot, damage)`, which returns the new deviator and the plastic
strain increment it wrote through the reference. (The definition in strength_jc.cpp
has no `damage` parameter.) -/
structure Strength (𝕜 : Type) where
  G : 𝕜
  update_deviatoric_stress :
    Matrix3d 𝕜 → Matrix3d 𝕜 → 𝕜 → 𝕜 → 𝕜 → Matrix3d 𝕜 × 𝕜

/-- The interface of a damage model as `update_stress` calls it (solid.cpp 901):
`compute_damage(damage_init&, damage&, pH, Sdev, epsdot, plastic_strain_increment)`
returns the new `(damage_init, damage)`, or ends the run. (damage.h declares a further
`temperature` parameter that neither the call nor damage_jc.cpp has.) -/
structure Damage (𝕜 : Type) where
  compute_damage : 𝕜 → 𝕜 → 𝕜 → Matrix3d 𝕜 → 𝕜 → 𝕜 → Except String (𝕜 × 𝕜)

/-- Modelled from the spec: the material record `Mat` (`material.h` is not among the
sources): reference density, bulk modulus `K`, shear modulus `G`, Lamé `lambda`,
signal velocity, and the three sub-models, each possibly null. -/
structure Mat (𝕜 : Type) where
  rho0 : 𝕜
  K : 𝕜
  G : 𝕜
  lambda : 𝕜
  signal_velocity : 𝕜
  eos : Option (EOS 𝕜)
  strength : Option (Strength 𝕜)
  damage : Option (Damage 𝕜)

/-- Modelled from the spec: the background grid (`grid.h` is not among the sources):
node positions, nodal mass, velocities and forces, and the cell size. -/
structure Grid (𝕜 : Type) where
  nnodes : Nat
  cellsize : 𝕜
  x : Nat → Vector3d 𝕜
  x0 : Nat → Vector3d 𝕜
  v : Nat → Vector3d 𝕜
  v_update : Nat → Vector3d 𝕜
  mb : Nat → Vector3d 𝕜
  f : Nat → Vector3d 𝕜
  mass : Nat → 𝕜

/-- The particle container `class Solid` of `solid.h` (struct of arrays). -/
structure Solid (𝕜 : Type) where
  np : Nat
  np_local : Nat
  ptag : Nat → Nat
  x : Nat → Vector3d 𝕜
  x0 : Nat → Vector3d 𝕜
  rp : Nat → Vector3d 𝕜
  rp0 : Nat → Vector3d 𝕜
  xpc : Nat → Vector3d 𝕜
  xpc0 : Nat → Vector3d 𝕜
  nc : Nat
  v : Nat → Vector3d 𝕜
  v_update : Nat → Vector3d 𝕜
  a : Nat → Vector3d 𝕜
  mb : Nat → Vector3d 𝕜
  f : Nat → Vector3d 𝕜
  sigma : Nat → Matrix3d 𝕜
  strain_el : Nat → Matrix3d 𝕜
  vol0PK1 : Nat → Matrix3d 𝕜
  L : Nat → Matrix3d 𝕜
  F : Nat → Matrix3d 𝕜
  R : Nat → Matrix3d 𝕜
  U : Nat → Matrix3d 𝕜
  D : Nat → Matrix3d 𝕜
  Finv : Nat → Matrix3d 𝕜
  Fdot : Nat → Matrix3d 𝕜
  Di : Nat → Matrix3d 𝕜
  J : Nat → 𝕜
  vol0 : Nat → 𝕜
  vol : Nat → 𝕜
  vtot : 𝕜
  rho0 : Nat → 𝕜
  rho : Nat → 𝕜
  mass : Nat → 𝕜
  eff_plastic_strain : Nat → 𝕜
  eff_plastic_strain_rate : Nat → 𝕜
  damage : Nat → 𝕜
  damage_init : Nat → 𝕜
  mask : Nat → Nat
  min_inv_p_wave_speed : 𝕜
  dtCFL : 𝕜
  numneigh_pn : Nat → Nat
  numneigh_np : Nat → Nat
  neigh_pn : Nat → Nat → Nat
  neigh_np : Nat → Nat → Nat
  wf_pn : Nat → Nat → 𝕜
  wf_np : Nat → Nat → 𝕜
  wfd_pn : Nat → Nat → Vector3d 𝕜
  wfd_np : Nat → Nat → Vector3d 𝕜

section Kernels

variable {𝕜 : Type} [LinearOrderedField 𝕜]

/-! ## `Solid::update_deformation_gradient` (solid.cpp 807-859) -/

/-- Lines 822-823: the new deformation gradient of one particle, `F + dt*Fdot` when
the flag `tl` is set and `(eye + dt*L) * F` otherwise. -/
def deformation_update (tl : Bool) (dt : 𝕜) (F Fdot L : Matrix3d 𝕜) : Matrix3d 𝕜 :=
  if tl then F + dt • Fdot else (1 + dt • L) * F

/-- Lines 814-815 (and 871-872): the flag `tl`, true exactly for the style string "tlmpm". -/
def is_tlmpm (method_style : String) : Bool := method_style == "tlmpm"

/-- Line 817: the flag that `update_deformation_gradient` calls `nh`; it is true when
the material has both an EOS and a strength model. -/
def has_eos_and_strength (mat : Mat 𝕜) : Bool := mat.eos.isSome && mat.strength.isSome

/-- The body of the loop of `update_deformation_gradient` for particle `ip`
(lines 821-857). `PolDec F flag` stands for `MPM_Math::PolDec` (not among the
sources) and returns its status and the factors `R` and `U`. -/
def update_deformation_gradient_particle
    (PolDec : Matrix3d 𝕜 → Bool → Bool × Matrix3d 𝕜 × Matrix3d 𝕜)
    (dt : 𝕜) (method_style : String) (mat : Mat 𝕜) (ip : Nat) (s : Solid 𝕜) :
    Except String (Solid 𝕜) :=
  let tl := is_tlmpm method_style
  let nh := has_eos_and_strength mat
  let s1 := { s with F := Function.update s.F ip (deformation_update tl dt (s.F ip) (s.Fdot ip) (s.L ip)) }
  let s2 := { s1 with Finv := Function.update s1.Finv ip (inverse (s1.F ip)) }
  let s3 := { s2 with J := Function.update s2.J ip (determinant (s2.F ip)) }
  if s3.J ip < 0 then .error ""
  else
    let s4 := { s3 with vol := Function.update s3.vol ip (s3.J ip * s3.vol0 ip) }
    let s5 := { s4 with rho := Function.update s4.rho ip (s4.rho0 ip / s4.J ip) }
    if nh then
      let s6 := if is_tlmpm method_style
        then { s5 with L := Function.update s5.L ip (s5.Fdot ip * s5.Finv ip) }
        else s5
      let pd := PolDec (s6.F ip) false
      let s7 := { s6 with R := Function.update s6.R ip pd.2.1 }
      let Dtl := (1 / 2 : 𝕜) • ((s7.R ip).transpose * (s7.L ip + (s7.L ip).transpose) * s7.R ip)
      let Dul := (1 / 2 : 𝕜) • (s7.L ip + (s7.L ip).transpose)
      let s8 := if is_tlmpm method_style
        then { s7 with D := Function.update s7.D ip Dtl }
        else { s7 with D := Function.update s7.D ip Dul }
      if !pd.1 then .error "" else .ok s8
    else .ok s5

/-- The kernel `Solid::update_deformation_gradient`: the loop over the `np` particles. -/
def update_deformation_gradient
    (PolDec : Matrix3d 𝕜 → Bool → Bool × Matrix3d 𝕜 × Matrix3d 𝕜)
    (dt : 𝕜) (method_style : String) (mat : Mat 𝕜) (s : Solid 𝕜) :
    Except String (Solid 𝕜) :=
  forLoop (update_deformation_gradient_particle PolDec dt method_style mat) s.np s

/-! ## `Solid::compute_rate_deformation_gradient_TL` (solid.cpp 515-556) -/

/-- The matrix after the statement `M(i,k) += e`. -/
def addAt (M : Matrix3d 𝕜) (i k : Fin 3) (e : 𝕜) : Matrix3d 𝕜 :=
  fun i' k' => if i' = i ∧ k' = k then M i' k' + e else M i' k'

/-- Line 525: the statement of the inner loop in dimension 1. -/
def rate_accumulate_1d (vn wfd : Vector3d 𝕜) (M : Matrix3d 𝕜) : Matrix3d 𝕜 :=
  addAt M 0 0 (vn 0 * wfd 0)

/-- Lines 533-536: the statements of the inner loop in dimension 2. -/
def rate_accumulate_2d (vn wfd : Vector3d 𝕜) (M : Matrix3d 𝕜) : Matrix3d 𝕜 :=
  let M1 := addAt M 0 0 (vn 0 * wfd 0)
  let M2 := addAt M1 0 1 (vn 0 * wfd 1)
  let M3 := addAt M2 1 0 (vn 1 * wfd 0)
  addAt M3 1 1 (vn 1 * wfd 1)

/-- Lines 544-552: the statements of the inner loop in dimension 3. -/
def rate_accumulate_3d (vn wfd : Vector3d 𝕜) (M : Matrix3d 𝕜) : Matrix3d 𝕜 :=
  let M1 := addAt M 0 0 (vn 0 * wfd 0)
  let M2 := addAt M1 0 1 (vn 0 * wfd 1)
  let M3 := addAt M2 0 2 (vn 0 * wfd 2)
  let M4 := addAt M3 1 0 (vn 1 * wfd 0)
  let M5 := addAt M4 1 1 (vn 1 * wfd 1)
  let M6 := addAt M5 1 2 (vn 1 * wfd 2)
  let M7 := addAt M6 2 0 (vn 2 * wfd 0)
  let M8 := addAt M7 2 1 (vn 2 * wfd 1)
  addAt M8 2 2 (vn 2 * wfd 2)

/-- The body of the particle loop of `compute_rate_deformation_gradient_TL`:
`Fdot[ip].setZero()` followed by the loop over the neighbouring nodes, with
`accumulate` the statements of the dimension at hand. -/
def rate_deformation_gradient_TL_particle
    (accumulate : Vector3d 𝕜 → Vector3d 𝕜 → Matrix3d 𝕜 → Matrix3d 𝕜)
    (vn : Nat → Vector3d 𝕜) (ip : Nat) (s : Solid 𝕜) : Solid 𝕜 :=
  let s0 := { s with Fdot := Function.update s.Fdot ip 0 }
  loop (fun j t =>
      let node := t.neigh_pn ip j
      { t with Fdot := Function.update t.Fdot ip (accumulate (vn node) (t.wfd_pn ip j) (t.Fdot ip)) })
    (s0.numneigh_pn ip) s0

/-- The kernel `Solid::compute_rate_deformation_gradient_TL`; `dimension` is
`domain->dimension` and the nodal velocity is `grid->v`. For a dimension other than
1, 2 or 3 no branch is taken. -/
def compute_rate_deformation_gradient_TL (dimension : Nat) (grid : Grid 𝕜) (s : Solid 𝕜) :
    Solid 𝕜 :=
  let vn := grid.v
  if dimension = 1 then
    loop (rate_deformation_gradient_TL_particle rate_accumulate_1d vn) s.np s
  else if dimension = 2 then
    loop (rate_deformation_gradient_TL_particle rate_accumulate_2d vn) s.np s
  else if dimension = 3 then
    loop (rate_deformation_gradient_TL_particle rate_accumulate_3d vn) s.np s
  else s

/-! ## `Solid::update_stress` (solid.cpp 861-941) -/

/-- Lines 868-869: the flag that `update_stress` calls `nh`; it is false exactly when
the material has both an EOS and a strength model. -/
def update_stress_nh (mat : Mat 𝕜) : Bool := !(mat.eos.isSome && mat.strength.isSome)

/-- Lines 881-885: the Neo-Hookean branch of the loop body for particle `ip`. -/
def update_stress_neo_hookean (m : Libm 𝕜) (mat : Mat 𝕜) (ip : Nat) (s : Solid 𝕜) : Solid 𝕜 :=
  let FinvT := (s.Finv ip).transpose
  let PK1 := mat.G • (s.F ip - FinvT) + (mat.lambda * m.log (s.J ip)) • FinvT
  let s1 := { s with vol0PK1 := Function.update s.vol0PK1 ip (s.vol0 ip • PK1) }
  let s2 := { s1 with sigma := Function.update s1.sigma ip ((1 / s1.J ip) • (s1.F ip * PK1.transpose)) }
  { s2 with strain_el := Function.update s2.strain_el ip ((1 / 2 : 𝕜) • ((s2.F ip).transpose * s2.F ip - 1)) }

/-- Lines 889-912: the EOS + strength (+ damage) branch of the loop body for
particle `ip`, with the material's sub-models already dereferenced. -/
def update_stress_eos_strength (dt : 𝕜) (tl : Bool) (grid : Grid 𝕜) (mat : Mat 𝕜)
    (eos : EOS 𝕜) (strength : Strength 𝕜) (ip : Nat) (s : Solid 𝕜) : Except String (Solid 𝕜) :=
  let pH := eos.compute_pressure (s.J ip) (s.rho ip) 0 (s.damage ip)
  let r := strength.update_deviatoric_stress (s.sigma ip) (s.D ip) (s.eff_plastic_strain ip)
    (s.eff_plastic_strain_rate ip) (s.damage ip)
  let sigma_dev := r.1
  let plastic_strain_increment := r.2
  let eps := s.eff_plastic_strain ip + plastic_strain_increment
  let s1 := { s with eff_plastic_strain := Function.update s.eff_plastic_strain ip eps }
  let tav := 1000 * grid.cellsize / mat.signal_velocity
  let rate1 := s1.eff_plastic_strain_rate ip - s1.eff_plastic_strain_rate ip * dt / tav
  let s2 := { s1 with eff_plastic_strain_rate := Function.update s1.eff_plastic_strain_rate ip rate1 }
  let rate2 := s2.eff_plastic_strain_rate ip + plastic_strain_increment / tav
  let s3 := { s2 with eff_plastic_strain_rate := Function.update s2.eff_plastic_strain_rate ip rate2 }
  let rate3 := MAX (0 : 𝕜) (s3.eff_plastic_strain_rate ip)
  let s4 := { s3 with eff_plastic_strain_rate := Function.update s3.eff_plastic_strain_rate ip rate3 }
  let damaged : Except String (Solid 𝕜) :=
    match mat.damage with
    | none => .ok s4
    | some dmg =>
      match dmg.compute_damage (s4.damage_init ip) (s4.damage ip) pH sigma_dev
          (s4.eff_plastic_strain_rate ip) plastic_strain_increment with
      | .error e => .error e
      | .ok out =>
        .ok { s4 with damage_init := Function.update s4.damage_init ip out.1,
                      damage := Function.update s4.damage ip out.2 }
  match damaged with
  | .error e => .error e
  | .ok s5 =>
    let s6 := { s5 with sigma := Function.update s5.sigma ip ((-pH) • (1 : Matrix3d 𝕜) + sigma_dev) }
    let trace_part := ((dt * (s6.D ip).trace + (s6.strain_el ip).trace) / 3) • (1 : Matrix3d 𝕜)
    let dev_part := (1 / (mat.G * (1 - s6.damage ip))) • sigma_dev
    let s7 := if s6.damage ip > (1 / 10 ^ 10 : 𝕜)
      then { s6 with strain_el := Function.update s6.strain_el ip (trace_part + dev_part) }
      else { s6 with strain_el := Function.update s6.strain_el ip trace_part }
    let rotated := s7.R ip * s7.sigma ip * (s7.R ip).transpose
    let pk := ((s7.vol0 ip * s7.J ip) • rotated) * (s7.Finv ip).transpose
    let s8 := if tl then { s7 with vol0PK1 := Function.update s7.vol0PK1 ip pk } else s7
    .ok s8

/-- The body of the first loop of `update_stress` for particle `ip` (lines 878-913). -/
def update_stress_particle (m : Libm 𝕜) (dt : 𝕜) (tl nh : Bool) (grid : Grid 𝕜) (mat : Mat 𝕜)
    (ip : Nat) (s : Solid 𝕜) : Except String (Solid 𝕜) :=
  if nh then .ok (update_stress_neo_hookean m mat ip s)
  else
    match mat.eos, mat.strength with
    | some eos, some strength => update_stress_eos_strength dt tl grid mat eos strength ip s
    | _, _ => .error "null pointer dereferenced"

/-- The literal `1.333333333333333333333333333333333333333` of line 917. -/
def four_third : 𝕜 := 1333333333333333333333333333333333333333 / 10 ^ 39

/-- The body of the second loop of `update_stress` for particle `ip` (lines 919-931);
the state is the solid together with the local variable `min_h_ratio`. -/
def update_stress_cfl_particle (mat : Mat 𝕜) (ip : Nat) (st : Solid 𝕜 × 𝕜) :
    Except String (Solid 𝕜 × 𝕜) :=
  let s := st.1
  let F := s.F ip
  let c := MIN s.min_inv_p_wave_speed (s.rho ip / (mat.K + four_third * mat.G))
  let s1 := { s with min_inv_p_wave_speed := c }
  let h1 := MIN st.2 (F 0 0 * F 0 0 + F 0 1 * F 0 1 + F 0 2 * F 0 2)
  let h2 := MIN h1 (F 1 0 * F 1 0 + F 1 1 * F 1 1 + F 1 2 * F 1 2)
  let h3 := MIN h2 (F 2 0 * F 2 0 + F 2 1 * F 2 1 + F 2 2 * F 2 2)
  if isnan s1.min_inv_p_wave_speed then .error ""
  else if s1.min_inv_p_wave_speed < 0 then .error ""
  else .ok (s1, h3)

/-- The kernel `Solid::update_stress`; `m` is the math library, `dt` is `update->dt`,
`method_style` is `update->method_style`. -/
def update_stress (m : Libm 𝕜) (dt : 𝕜) (method_style : String) (grid : Grid 𝕜) (mat : Mat 𝕜)
    (s : Solid 𝕜) : Except String (Solid 𝕜) :=
  let s0 := { s with min_inv_p_wave_speed := (10 ^ 22 : 𝕜) }
  let nh := update_stress_nh mat
  let tl := is_tlmpm method_style
  match forLoop (update_stress_particle m dt tl nh grid mat) s0.np s0 with
  | .error e => .error e
  | .ok s1 =>
    match forLoop (update_stress_cfl_particle mat) s1.np (s1, (10 ^ 22 : 𝕜)) with
    | .error e => .error e
    | .ok st =>
      let s2 := { st.1 with min_inv_p_wave_speed := m.sqrt st.1.min_inv_p_wave_speed }
      let bound := s2.min_inv_p_wave_speed * grid.cellsize * m.sqrt st.2
      let s3 := { s2 with dtCFL := MIN s2.dtCFL bound }
      if isnan s3.dtCFL then .error "" else .ok s3

/-! ## `StrengthJohnsonCook` (strength_jc.cpp) -/

/-- The parameters stored by the constructor of `StrengthJohnsonCook`. -/
structure StrengthJohnsonCook (𝕜 : Type) where
  G_ : 𝕜
  A : 𝕜
  B : 𝕜
  n : 𝕜
  epsdot0 : 𝕜
  C : 𝕜

/-- Lines 49-52: the Johnson-Cook yield stress. -/
def StrengthJohnsonCook.yieldStress (m : Libm 𝕜) (p : StrengthJohnsonCook 𝕜)
    (eff_plastic_strain epsdot : 𝕜) : 𝕜 :=
  let epsdot_ratio := epsdot / p.epsdot0
  let epsdot_ratio := MAX epsdot_ratio 1
  (p.A + p.B * m.pow eff_plastic_strain p.n) * m.pow (1 + epsdot_ratio) p.C

/-- Lines 56-62: the trial deviator `sigmaTrial_dev`. -/
def StrengthJohnsonCook.sigmaTrial_dev (dt : 𝕜) (p : StrengthJohnsonCook 𝕜)
    (sigma D : Matrix3d 𝕜) : Matrix3d 𝕜 :=
  let dev_rate := (2 * p.G_) • Deviator D
  let sigmaInitial_dev := Deviator sigma
  sigmaInitial_dev + dt • dev_rate

/-- The method `StrengthJohnsonCook::update_deviatoric_stress` (lines 44-93); the
result is the returned deviator and the value written to
`plastic_strain_increment`. -/
def StrengthJohnsonCook.update_deviatoric_stress (m : Libm 𝕜) (dt : 𝕜)
    (p : StrengthJohnsonCook 𝕜) (sigma D : Matrix3d 𝕜) (eff_plastic_strain epsdot : 𝕜) :
    Matrix3d 𝕜 × 𝕜 :=
  let yieldStress := p.yieldStress m eff_plastic_strain epsdot
  let sigmaTrial_dev := p.sigmaTrial_dev dt sigma D
  let J2 := m.sqrt (3 / 2) * norm m sigmaTrial_dev
  let sigmaFinal_dev := sigmaTrial_dev
  if J2 < yieldStress then (sigmaFinal_dev, 0)
  else ((yieldStress / J2) • sigmaFinal_dev, (J2 - yieldStress) / (3 * p.G_))

/-- The Johnson-Cook model seen through the `Strength` interface at time step `dt`
(the model does not read the damage argument). -/
def StrengthJohnsonCook.toStrength (m : Libm 𝕜) (dt : 𝕜) (p : StrengthJohnsonCook 𝕜) :
    Strength 𝕜 where
  G := p.G_
  update_deviatoric_stress := fun sigma D eff_plastic_strain epsdot _ =>
    p.update_deviatoric_stress m dt sigma D eff_plastic_strain epsdot

/-! ## `DamageJohnsonCook` (damage_jc.cpp) -/

/-- The parameters stored by the constructor of `DamageJohnsonCook`. -/
structure DamageJohnsonCook (𝕜 : Type) where
  d1 : 𝕜
  d2 : 𝕜
  d3 : 𝕜
  d4 : 𝕜
  epsdot0 : 𝕜

/-- Line 40: the von Mises equivalent stress `vm`. -/
def DamageJohnsonCook.vm (m : Libm 𝕜) (Sdev : Matrix3d 𝕜) : 𝕜 :=
  m.sqrt (3 / 2) * norm m Sdev

/-- Lines 48-54: the stress triaxiality `triax`. -/
def DamageJohnsonCook.triax (m : Libm 𝕜) (pH : 𝕜) (Sdev : Matrix3d 𝕜) : 𝕜 :=
  let vm := DamageJohnsonCook.vm m Sdev
  let triax : 𝕜 := if pH ≠ 0 ∧ vm ≠ 0 then -pH / (vm + 1 / 100 * |pH|) else 0
  if triax > 3 then 3 else triax

/-- Lines 56-64: the Johnson-Cook failure strain `jc_failure_strain` for a given
triaxiality and plastic strain rate. -/
def DamageJohnsonCook.jc_failure_strain (m : Libm 𝕜) (p : DamageJohnsonCook 𝕜)
    (triax epsdot : 𝕜) : 𝕜 :=
  let jc_failure_strain := p.d1 + p.d2 * m.exp (p.d3 * triax)
  if p.d4 > 0 then
    if epsdot > p.epsdot0 then
      let epdot_ratio := epsdot / p.epsdot0
      jc_failure_strain * (1 + p.d4 * m.log epdot_ratio)
    else jc_failure_strain
  else jc_failure_strain

/-- The method `DamageJohnsonCook::compute_damage` (lines 38-69); the result is the
new value of `(damage_init, damage)`, or the `exit(1)` of line 44. -/
def DamageJohnsonCook.compute_damage (m : Libm 𝕜) (p : DamageJohnsonCook 𝕜)
    (damage_init damage pH : 𝕜) (Sdev : Matrix3d 𝕜) (epsdot plastic_strain_increment : 𝕜) :
    Except String (𝕜 × 𝕜) :=
  let vm := DamageJohnsonCook.vm m Sdev
  if vm < 0 then .error "vm < 0.0, surely must be an error"
  else
    let triax := DamageJohnsonCook.triax m pH Sdev
    let jc_failure_strain := p.jc_failure_strain m triax epsdot
    let damage_init' := damage_init + plastic_strain_increment / jc_failure_strain
    let damage' := if damage_init' ≥ 1 then MIN ((damage_init' - 1) * 10) 1 else damage
    .ok (damage_init', damage')

/-- The Johnson-Cook model seen through the `Damage` interface. -/
def DamageJohnsonCook.toDamage (m : Libm 𝕜) (p : DamageJohnsonCook 𝕜) : Damage 𝕜 where
  compute_damage := p.compute_damage m

/-! ## The initialisation loop of `Solid::populate` (solid.cpp 1385-1413) -/

/-- The body of the last loop of `populate` for particle `i`: every field of the new
particle is set to its initial value. -/
def populate_initialise_particle (mat : Mat 𝕜) (vol_ mass_ : 𝕜) (ptag0 : Nat) (i : Nat)
    (s : Solid 𝕜) : Solid 𝕜 :=
  { s with
    a := Function.update s.a i 0
    v := Function.update s.v i 0
    f := Function.update s.f i 0
    mb := Function.update s.mb i 0
    v_update := Function.update s.v_update i 0
    vol0 := Function.update s.vol0 i vol_
    vol := Function.update s.vol i vol_
    rho0 := Function.update s.rho0 i mat.rho0
    rho := Function.update s.rho i mat.rho0
    mass := Function.update s.mass i mass_
    eff_plastic_strain := Function.update s.eff_plastic_strain i 0
    eff_plastic_strain_rate := Function.update s.eff_plastic_strain_rate i 0
    damage := Function.update s.damage i 0
    damage_init := Function.update s.damage_init i 0
    strain_el := Function.update s.strain_el i 0
    sigma := Function.update s.sigma i 0
    vol0PK1 := Function.update s.vol0PK1 i 0
    L := Function.update s.L i 0
    F := Function.update s.F i 1
    R := Function.update s.R i 1
    U := Function.update s.U i 0
    D := Function.update s.D i 0
    Finv := Function.update s.Finv i 0
    Fdot := Function.update s.Fdot i 0
    Di := Function.update s.Di i 0
    J := Function.update s.J i 1
    ptag := Function.update s.ptag i (ptag0 + i + 1) }

/-- The last loop of `populate` (lines 1385-1413), over the `np_local` particles
created on this rank. -/
def populate_initialise (mat : Mat 𝕜) (vol_ mass_ : 𝕜) (ptag0 : Nat) (s : Solid 𝕜) : Solid 𝕜 :=
  loop (populate_initialise_particle mat vol_ mass_ ptag0) s.np_local s

/-! ## Particle-to-grid kernels (solid.cpp 347-400) -/

/-- The body of the node loop of `compute_mass_nodes` for node `node` (lines 352-357):
the optional reset, then the accumulation over the particles listed for the node. -/
def compute_mass_nodes_node (reset : Bool) (s : Solid 𝕜) (node : Nat) (g : Grid 𝕜) : Grid 𝕜 :=
  let g0 := if reset then { g with mass := Function.update g.mass node 0 } else g
  loop (fun j t =>
      let ip := s.neigh_np node j
      { t with mass := Function.update t.mass node (t.mass node + s.wf_np node j * s.mass ip) })
    (s.numneigh_np node) g0

/-- The kernel `Solid::compute_mass_nodes`: the loop over the `grid->nnodes` nodes; the
result is the grid with its new nodal masses. -/
def compute_mass_nodes (reset : Bool) (s : Solid 𝕜) (grid : Grid 𝕜) : Grid 𝕜 :=
  loop (compute_mass_nodes_node reset s) grid.nnodes grid

/-- The Eigen statement `v /= c` on a vector: every coefficient is divided by `c`. -/
def vdiv (v : Vector3d 𝕜) (c : 𝕜) : Vector3d 𝕜 := fun i => v i / c

/-- The body of the node loop of `compute_velocity_nodes` for node `node`
(lines 370-380): the optional reset, then, for a node of positive mass, the sum
`vtemp` divided by the nodal mass and added to `vn[node]`. -/
def compute_velocity_nodes_node (reset : Bool) (s : Solid 𝕜) (node : Nat) (g : Grid 𝕜) :
    Grid 𝕜 :=
  let g0 := if reset then { g with v := Function.update g.v node 0 } else g
  if g0.mass node > 0 then
    let vtemp : Vector3d 𝕜 := loop (fun j vtemp =>
        let ip := s.neigh_np node j
        vtemp + (s.wf_np node j * s.mass ip) • s.v ip)
      (s.numneigh_np node) 0
    let vtemp := vdiv vtemp (g0.mass node)
    { g0 with v := Function.update g0.v node (g0.v node + vtemp) }
  else g0

/-- The kernel `Solid::compute_velocity_nodes`. -/
def compute_velocity_nodes (reset : Bool) (s : Solid 𝕜) (grid : Grid 𝕜) : Grid 𝕜 :=
  loop (compute_velocity_nodes_node reset s) grid.nnodes grid

/-- The body of the node loop of `compute_velocity_nodes_APIC` for node `node`
(lines 392-398): every term is divided by the nodal mass before it is added. -/
def compute_velocity_nodes_APIC_node (reset : Bool) (s : Solid 𝕜) (node : Nat) (g : Grid 𝕜) :
    Grid 𝕜 :=
  let g0 := if reset then { g with v := Function.update g.v node 0 } else g
  if g0.mass node > 0 then
    loop (fun j t =>
        let ip := s.neigh_np node j
        let term := (s.wf_np node j * s.mass ip) • (s.v ip + (s.Fdot ip).mulVec (t.x0 node - s.x0 ip))
        { t with v := Function.update t.v node (t.v node + vdiv term (t.mass node)) })
      (s.numneigh_np node) g0
  else g0

/-- The kernel `Solid::compute_velocity_nodes_APIC`. -/
def compute_velocity_nodes_APIC (reset : Bool) (s : Solid 𝕜) (grid : Grid 𝕜) : Grid 𝕜 :=
  loop (compute_velocity_nodes_APIC_node reset s) grid.nnodes grid

/-! ## `Solid::update_particle_position` and `update_particle_velocities` (solid.cpp 487-513) -/

/-- Lines 491-492: the flag `ul`, true for every style string other than "tlmpm". -/
def is_not_tlmpm (method_style : String) : Bool := method_style != "tlmpm"

/-- The body of the loop of `update_particle_position` for particle `ip` (lines 495-505).
`inside` stands for `domain->inside` (not among the sources), which returns 0 for a
point outside the problem box. -/
def update_particle_position_particle (inside : Vector3d 𝕜 → Int) (dt : 𝕜) (ul : Bool)
    (ip : Nat) (s : Solid 𝕜) : Except String (Solid 𝕜) :=
  let s1 := { s with x := Function.update s.x ip (s.x ip + dt • s.v_update ip) }
  if ul then
    if inside (s1.x ip) = 0 then .error "Error: Particle left the domain"
    else .ok s1
  else .ok s1

/-- The kernel `Solid::update_particle_position`; `dt` is `update->dt` and `method_style`
is `update->method_style`. -/
def update_particle_position (inside : Vector3d 𝕜 → Int) (dt : 𝕜) (method_style : String)
    (s : Solid 𝕜) : Except String (Solid 𝕜) :=
  let ul := is_not_tlmpm method_style
  forLoop (update_particle_position_particle inside dt ul) s.np s

/-- The kernel `Solid::update_particle_velocities(FLIP)`; `dt` is `update->dt`. -/
def update_particle_velocities (dt FLIP : 𝕜) (s : Solid 𝕜) : Solid 𝕜 :=
  loop (fun ip t =>
      let blend := (1 - FLIP) • t.v_update ip + FLIP • (t.v ip + dt • t.a ip)
      { t with v := Function.update t.v ip blend })
    s.np s

/-! ## The Updated-Lagrangian and APIC rate kernels (solid.cpp 558-642, 703-753) -/

/-- The body of the particle loop of `compute_rate_deformation_gradient_UL_MUSL` and
`_UL_USL`: `L[ip].setZero()` followed by the loop over the neighbouring nodes, with
`accumulate` the statements of the dimension at hand. -/
def rate_deformation_gradient_UL_particle
    (accumulate : Vector3d 𝕜 → Vector3d 𝕜 → Matrix3d 𝕜 → Matrix3d 𝕜)
    (vn : Nat → Vector3d 𝕜) (ip : Nat) (s : Solid 𝕜) : Solid 𝕜 :=
  let s0 := { s with L := Function.update s.L ip 0 }
  loop (fun j t =>
      let node := t.neigh_pn ip j
      { t with L := Function.update t.L ip (accumulate (vn node) (t.wfd_pn ip j) (t.L ip)) })
    (s0.numneigh_pn ip) s0

/-- The kernel `Solid::compute_rate_deformation_gradient_UL_MUSL`: the nodal velocity
is `grid->v`. For a dimension other than 1, 2 or 3 no branch is taken. -/
def compute_rate_deformation_gradient_UL_MUSL (dimension : Nat) (grid : Grid 𝕜) (s : Solid 𝕜) :
    Solid 𝕜 :=
  let vn := grid.v
  if dimension = 1 then
    loop (rate_deformation_gradient_UL_particle rate_accumulate_1d vn) s.np s
  else if dimension = 2 then
    loop (rate_deformation_gradient_UL_particle rate_accumulate_2d vn) s.np s
  else if dimension = 3 then
    loop (rate_deformation_gradient_UL_particle rate_accumulate_3d vn) s.np s
  else s

/-- The kernel `Solid::compute_rate_deformation_gradient_UL_USL`: the nodal velocity
is `grid->v_update`. -/
def compute_rate_deformation_gradient_UL_USL (dimension : Nat) (grid : Grid 𝕜) (s : Solid 𝕜) :
    Solid 𝕜 :=
  let vn := grid.v_update
  if dimension = 1 then
    loop (rate_deformation_gradient_UL_particle rate_accumulate_1d vn) s.np s
  else if dimension = 2 then
    loop (rate_deformation_gradient_UL_particle rate_accumulate_2d vn) s.np s
  else if dimension = 3 then
    loop (rate_deformation_gradient_UL_particle rate_accumulate_3d vn) s.np s
  else s

/-- Line 717: the statement of the inner loop of the APIC kernel in dimension 1. -/
def apic_accumulate_1d (vn dx : Vector3d 𝕜) (wf : 𝕜) (M : Matrix3d 𝕜) : Matrix3d 𝕜 :=
  addAt M 0 0 (vn 0 * dx 0 * wf)

/-- Lines 727-730: the statements of the inner loop of the APIC kernel in dimension 2. -/
def apic_accumulate_2d (vn dx : Vector3d 𝕜) (wf : 𝕜) (M : Matrix3d 𝕜) : Matrix3d 𝕜 :=
  let M1 := addAt M 0 0 (vn 0 * dx 0 * wf)
  let M2 := addAt M1 0 1 (vn 0 * dx 1 * wf)
  let M3 := addAt M2 1 0 (vn 1 * dx 0 * wf)
  addAt M3 1 1 (vn 1 * dx 1 * wf)

/-- Lines 740-748: the statements of the inner loop of the APIC kernel in dimension 3. -/
def apic_accumulate_3d (vn dx : Vector3d 𝕜) (wf : 𝕜) (M : Matrix3d 𝕜) : Matrix3d 𝕜 :=
  let M1 := addAt M 0 0 (vn 0 * dx 0 * wf)
  let M2 := addAt M1 0 1 (vn 0 * dx 1 * wf)
  let M3 := addAt M2 0 2 (vn 0 * dx 2 * wf)
  let M4 := addAt M3 1 0 (vn 1 * dx 0 * wf)
  let M5 := addAt M4 1 1 (vn 1 * dx 1 * wf)
  let M6 := addAt M5 1 2 (vn 1 * dx 2 * wf)
  let M7 := addAt M6 2 0 (vn 2 * dx 0 * wf)
  let M8 := addAt M7 2 1 (vn 2 * dx 1 * wf)
  addAt M8 2 2 (vn 2 * dx 2 * wf)

/-- The body of the particle loop of `compute_rate_deformation_gradient_TL_APIC`:
`Fdot[ip].setZero()`, the loop over the neighbouring nodes with `dx = x0n[in] - x0[ip]`,
and the final matrix product `Fdot[ip] *= Di[ip]`. -/
def rate_deformation_gradient_TL_APIC_particle
    (accumulate : Vector3d 𝕜 → Vector3d 𝕜 → 𝕜 → Matrix3d 𝕜 → Matrix3d 𝕜)
    (x0n vn : Nat → Vector3d 𝕜) (ip : Nat) (s : Solid 𝕜) : Solid 𝕜 :=
  let s0 := { s with Fdot := Function.update s.Fdot ip 0 }
  let s1 := loop (fun j t =>
      let node := t.neigh_pn ip j
      let dx := x0n node - t.x0 ip
      { t with Fdot := Function.update t.Fdot ip (accumulate (vn node) dx (t.wf_pn ip j) (t.Fdot ip)) })
    (s0.numneigh_pn ip) s0
  { s1 with Fdot := Function.update s1.Fdot ip (s1.Fdot ip * s1.Di ip) }

/-- The kernel `Solid::compute_rate_deformation_gradient_TL_APIC`: the nodal positions
are `grid->x0` and the nodal velocity is `grid->v_update`. -/
def compute_rate_deformation_gradient_TL_APIC (dimension : Nat) (grid : Grid 𝕜) (s : Solid 𝕜) :
    Solid 𝕜 :=
  let x0n := grid.x0
  let vn := grid.v_update
  if dimension = 1 then
    loop (rate_deformation_gradient_TL_APIC_particle apic_accumulate_1d x0n vn) s.np s
  else if dimension = 2 then
    loop (rate_deformation_gradient_TL_APIC_particle apic_accumulate_2d x0n vn) s.np s
  else if dimension = 3 then
    loop (rate_deformation_gradient_TL_APIC_particle apic_accumulate_3d x0n vn) s.np s
  else s

/-! ## `Solid::compute_inertia_tensor` (solid.cpp 944-1005) -/

/-- The kernel `Solid::compute_inertia_tensor(form_function)`: for each particle `Di` is
set to a multiple of the identity chosen by the name of the shape function; for any
other name `Di` is left as it is. -/
def compute_inertia_tensor (form_function : String) (grid : Grid 𝕜) (s : Solid 𝕜) : Solid 𝕜 :=
  let eye : Matrix3d 𝕜 := 1
  let cellsizeSqInv : 𝕜 := 1 / (grid.cellsize * grid.cellsize)
  loop (fun ip t =>
      if form_function == "linear" then
        { t with Di := Function.update t.Di ip ((16 / 3 * cellsizeSqInv) • eye) }
      else if form_function == "quadratic-spline" then
        { t with Di := Function.update t.Di ip ((4 * cellsizeSqInv) • eye) }
      else if form_function == "cubic-spline" then
        { t with Di := Function.update t.Di ip ((3 * cellsizeSqInv) • eye) }
      else if form_function == "Bernstein-quadratic" then
        { t with Di := Function.update t.Di ip ((12 * cellsizeSqInv) • eye) }
      else t)
    s.np s

/-! ## `Solid::populate` (solid.cpp 1036-1415) -/

/-- Modelled from the spec: what `populate` reads from the rest of the program (`domain`
and its regions, `update->method`, `input` and `universe` are not among the sources): the
dimension, the lower bound of the problem box, the bounds of this rank's subdomain and
its membership test, the index and the limits `(xlo, xhi, ylo, yhi, zlo, zhi)` of the
region with its membership test, the flags of the method, the parsed number of particles
per cell, and for the message passing the rank `me`, the number of ranks and the
`np_local` that every other rank contributes. -/
structure PopulateEnv (𝕜 : Type) where
  dimension : Nat
  boxlo : Vector3d 𝕜
  sublo : Vector3d 𝕜
  subhi : Vector3d 𝕜
  inside_subdomain : Vector3d 𝕜 → Bool
  iregion : Int
  limits : Nat → 𝕜
  region_inside : 𝕜 → 𝕜 → 𝕜 → Int
  is_TL : Bool
  is_CPDI : Bool
  np_per_cell : Int
  me : Nat
  nprocs : Nat
  np_local_of : Nat → Nat

/-- The C conversion `(int) x` of a double: truncation toward zero. -/
def int_of_double [FloorRing 𝕜] (x : 𝕜) : Int := if 0 ≤ x then ⌊x⌋ else ⌈x⌉

/-- The loop `while (n*delta <= L-0.5*delta) n++;` (line 1095 and its five siblings);
`fuel` bounds the number of times the condition is tested, and the result is `none` when
the loop has not ended by then. -/
def populate_round_cells (delta L : 𝕜) : Nat → Int → Option Int
  | 0, _ => none
  | fuel + 1, n =>
    if (n : 𝕜) * delta ≤ L - 1 / 2 * delta then populate_round_cells delta L fuel (n + 1)
    else some n

/-- Lines 1094-1095: `n = (int) (L/delta); while (n*delta <= L-0.5*delta) n++;`. -/
def populate_cell_count [FloorRing 𝕜] (fuel : Nat) (delta L : 𝕜) : Option Int :=
  populate_round_cells delta L fuel (int_of_double (L / delta))

/-- Lines 1051-1056: the lower bounds of the region. -/
def populate_solidlo (env : PopulateEnv 𝕜) : Vector3d 𝕜 :=
  ![env.limits 0, env.limits 2, env.limits 4]

/-- Lines 1051-1056: the upper bounds of the region. -/
def populate_solidhi (env : PopulateEnv 𝕜) : Vector3d 𝕜 :=
  ![env.limits 1, env.limits 3, env.limits 5]

/-- Lines 1058-1060: the lower bounds of the part of the region in this subdomain. -/
def populate_solidsublo (env : PopulateEnv 𝕜) : Vector3d 𝕜 :=
  fun c => MAX (populate_solidlo env c) (env.sublo c)

/-- Lines 1062-1064: the upper bounds of the part of the region in this subdomain. -/
def populate_solidsubhi (env : PopulateEnv 𝕜) : Vector3d 𝕜 :=
  fun c => MIN (populate_solidhi env c) (env.subhi c)

/-- Lines 1085-1123: the numbers `(nsubx, nsuby, nsubz)` of lattice cells of this rank along
the three axes (each one more than the rounded quotient); the counts `nx`, `ny`, `nz` of
the whole region are computed on the way and not used afterwards. -/
def populate_counts [FloorRing 𝕜] (fuel : Nat) (env : PopulateEnv 𝕜) (delta : 𝕜) :
    Option (Int × Int × Int) := do
  let Lx := populate_solidhi env 0 - populate_solidlo env 0
  let Ly := populate_solidhi env 1 - populate_solidlo env 1
  let Lz := populate_solidhi env 2 - populate_solidlo env 2
  let Lsubx := populate_solidsubhi env 0 - populate_solidsublo env 0
  let Lsuby := populate_solidsubhi env 1 - populate_solidsublo env 1
  let Lsubz := populate_solidsubhi env 2 - populate_solidsublo env 2
  let _nx ← populate_cell_count fuel delta Lx
  let nsubx ← populate_cell_count fuel delta Lsubx
  let nsubx := nsubx + 1
  let nsuby ← if env.dimension ≥ 2 then do
      let _ny ← populate_cell_count fuel delta Ly
      let nsuby ← populate_cell_count fuel delta Lsuby
      pure (nsuby + 1)
    else pure 1
  let nsubz ← if env.dimension = 3 then do
      let _nz ← populate_cell_count fuel delta Lz
      let nsubz ← populate_cell_count fuel delta Lsubz
      pure (nsubz + 1)
    else pure 1
  pure (nsubx, nsuby, nsubz)

/-- Lines 1178-1185: the table `intpoints` for two particles per cell and direction. -/
def intpoints_2 (xi : 𝕜) : List 𝕜 :=
  [-xi, -xi, -xi,
   -xi, xi, -xi,
   xi, -xi, -xi,
   xi, xi, -xi,
   -xi, -xi, xi,
   -xi, xi, xi,
   xi, -xi, xi,
   xi, xi, xi]

/-- Lines 1200-1226: the table `intpoints` for three particles per cell and direction. -/
def intpoints_3 (xi : 𝕜) : List 𝕜 :=
  [-xi, -xi, -xi,
   -xi, 0, -xi,
   -xi, xi, -xi,
   0, -xi, -xi,
   0, 0, -xi,
   0, xi, -xi,
   xi, -xi, -xi,
   xi, 0, -xi,
   xi, xi, -xi,
   -xi, -xi, 0,
   -xi, 0, 0,
   -xi, xi, 0,
   0, -xi, 0,
   0, 0, 0,
   0, xi, 0,
   xi, -xi, 0,
   xi, 0, 0,
   xi, xi, 0,
   -xi, -xi, xi,
   -xi, 0, xi,
   -xi, xi, xi,
   0, -xi, xi,
   0, 0, xi,
   0, xi, xi,
   xi, -xi, xi,
   xi, 0, xi,
   xi, xi, xi]

/-- The integration points of one cell: the offset `xi`, the half-length `lp`, the number
`nip` of points and the table `intpoints`. -/
structure IntPoints (𝕜 : Type) where
  xi : 𝕜
  lp : 𝕜
  nip : Nat
  intpoints : List 𝕜

/-- Lines 1152-1230: the integration points chosen by the number of particles per cell;
any number other than 1, 2, 3 ends the run. -/
def populate_intpoints (m : Libm 𝕜) (np_per_cell : Int) (dimension nc : Nat) (delta : 𝕜) :
    Except String (IntPoints 𝕜) :=
  if np_per_cell = 1 then
    .ok { xi := 1 / 2, lp := delta * (1 / 2), nip := 1, intpoints := [0, 0, 0] }
  else if np_per_cell = 2 then
    let nip := if dimension = 1 then 2 else if dimension = 2 then 4 else 8
    let xi : 𝕜 := if nc = 0 then (1 / 2) / m.sqrt 3 else 1 / 4
    .ok { xi := xi, lp := delta * (1 / 4), nip := nip, intpoints := intpoints_2 xi }
  else if np_per_cell = 3 then
    let xi : 𝕜 := if nc = 0 then (7746 / 10000) / 2 else 1 / 3
    let nip := if dimension = 1 then 3 else if dimension = 2 then 9 else 27
    .ok { xi := xi, lp := delta * (1 / 6), nip := nip, intpoints := intpoints_3 xi }
  else .error "Error: solid command 4th argument should be 1 or 2"

/-- The array after the statement `a[idx][c] = e`. -/
def setAt (a : Nat → Vector3d 𝕜) (idx : Nat) (c : Fin 3) (e : 𝕜) : Nat → Vector3d 𝕜 :=
  Function.update a idx (Function.update (a idx) c e)

/-- Lines 1283-1296: the CPDI domain vectors written for the accepted particle `l`. -/
def populate_domain_vectors (dim : Nat) (lp : 𝕜) (l : Nat) (s : Solid 𝕜) : Solid 𝕜 :=
  let s := { s with rp := setAt s.rp (dim * l) 0 lp, rp0 := setAt s.rp0 (dim * l) 0 lp }
  let s := { s with rp := setAt s.rp (dim * l) 1 0, rp0 := setAt s.rp0 (dim * l) 1 0 }
  let s := { s with rp := setAt s.rp (dim * l) 2 0, rp0 := setAt s.rp0 (dim * l) 2 0 }
  if dim ≥ 2 then
    let s := { s with rp := setAt s.rp (dim * l + 1) 0 0, rp0 := setAt s.rp0 (dim * l + 1) 0 0 }
    let s := { s with rp := setAt s.rp (dim * l + 1) 1 lp, rp0 := setAt s.rp0 (dim * l + 1) 1 lp }
    let s := { s with rp := setAt s.rp (dim * l + 1) 2 0, rp0 := setAt s.rp0 (dim * l + 1) 2 0 }
    if dim = 3 then
      let s := { s with rp := setAt s.rp (dim * l + 1) 0 0, rp0 := setAt s.rp0 (dim * l + 2) 0 0 }
      let s := { s with rp := setAt s.rp (dim * l + 1) 1 0, rp0 := setAt s.rp0 (dim * l + 2) 1 0 }
      { s with rp := setAt s.rp (dim * l + 1) 0 lp, rp0 := setAt s.rp0 (dim * l + 2) 0 lp }
    else s
  else s

/-- The body of the innermost loop of `populate` (lines 1267-1305) for the cell `(i, j, k)`
and the integration point `ip`; the state is the solid together with the counter `l`, and
`np_local` is the number of particles allocated by `grow`. -/
def populate_create_point (env : PopulateEnv 𝕜) (delta : 𝕜) (boundlo : Vector3d 𝕜)
    (noffset : Fin 3 → Int) (pts : IntPoints 𝕜) (np_local : Int) (i j k : Int) (ip : Nat)
    (st : Solid 𝕜 × Nat) : Except String (Solid 𝕜 × Nat) :=
  let s := st.1
  let l := st.2
  let dim := env.dimension
  if (l : Int) ≥ np_local then .error ""
  else
    let px := boundlo 0 + delta * (((noffset 0 + i : Int) : 𝕜) + 1 / 2 + pts.intpoints.getD (3 * ip + 0) 0)
    let py := boundlo 1 + delta * (((noffset 1 + j : Int) : 𝕜) + 1 / 2 + pts.intpoints.getD (3 * ip + 1) 0)
    let pz := if dim = 3
      then boundlo 2 + delta * (((noffset 2 + k : Int) : 𝕜) + 1 / 2 + pts.intpoints.getD (3 * ip + 2) 0)
      else 0
    let s := { s with x := Function.update s.x l ![px, py, pz], x0 := Function.update s.x0 l ![px, py, pz] }
    if env.inside_subdomain (s.x0 l) && env.region_inside (s.x0 l 0) (s.x0 l 1) (s.x0 l 2) == 1 then
      let s := if env.is_CPDI && s.nc != 0 then populate_domain_vectors dim pts.lp l s else s
      .ok (s, l + 1)
    else .ok (s, l)

/-- The loop `for (int i = a; i < b; i++)` over machine integers. -/
def forRange {σ ε : Type} (a b : Int) (body : Int → σ → Except ε σ) (s : σ) : Except ε σ :=
  forLoop (fun t => body (a + (t : Int))) (b - a).toNat s

/-- Lines 1245-1309: the four nested loops that create the particles of this rank; the
result is the solid with the positions written and the number `l` of accepted points. -/
def populate_create [FloorRing 𝕜] (env : PopulateEnv 𝕜) (delta : 𝕜) (nsub : Int × Int × Int)
    (pts : IntPoints 𝕜) (np_local : Int) (s : Solid 𝕜) : Except String (Solid 𝕜 × Nat) :=
  let boundlo := if env.is_TL then populate_solidlo env else env.boxlo
  let nsubx0 := int_of_double (((int_of_double (env.sublo 0 - boundlo 0) : Int) : 𝕜) / delta)
  let nsuby0 := int_of_double (((int_of_double (env.sublo 1 - boundlo 1) : Int) : 𝕜) / delta)
  let nsubz0 := int_of_double (((int_of_double (env.sublo 2 - boundlo 2) : Int) : 𝕜) / delta)
  let Loffset : Vector3d 𝕜 := fun c => MAX 0 (env.sublo c - boundlo c)
  let noffset : Fin 3 → Int := fun c => int_of_double (Loffset c / delta)
  forRange nsubx0 nsub.1 (fun i =>
    forRange nsuby0 nsub.2.1 (fun j =>
      forRange nsubz0 nsub.2.2 (fun k =>
        forLoop (populate_create_point env delta boundlo noffset pts np_local i j k) pts.nip)))
    (s, 0)

/-- Modelled from the spec: the result of `MPI_Allreduce(…, MPI_SUM, …)` over the ranks,
rank `proc` contributing `value proc`. -/
def mpi_allreduce_sum (nprocs : Nat) (value : Nat → Nat) : Nat :=
  ∑ proc in Finset.range nprocs, value proc

/-- The `np_local` of every rank as seen from this one: its own count `l`, and what the
other ranks contribute. -/
def populate_np_local_all (env : PopulateEnv 𝕜) (l : Nat) (proc : Nat) : Nat :=
  if proc = env.me then l else env.np_local_of proc

/-- Lines 1365-1378: the loop over the ranks that adds to `ptag0` the `np_local` broadcast
by every rank below this one. -/
def populate_ptag0 (env : PopulateEnv 𝕜) (l : Nat) : Nat :=
  loop (fun proc ptag0 =>
      let np_local_bcast := populate_np_local_all env l proc
      if env.me > proc then ptag0 + np_local_bcast else ptag0)
    env.nprocs 0

/-- Lines 1129-1143 and 1232-1413 of `Solid::populate`: the volume and mass of a particle,
the number of particles allocated, the creation loops, the global count and the tags, and
the initialisation loop, for the cell counts `nsub` and the integration points `pts`. -/
def populate_finish [FloorRing 𝕜] (env : PopulateEnv 𝕜) (grid : Grid 𝕜) (mat : Mat 𝕜)
    (nsub : Int × Int × Int) (pts : IntPoints 𝕜) (s : Solid 𝕜) : Except String (Solid 𝕜) :=
  let delta := grid.cellsize
  let np_local : Int := nsub.1 * nsub.2.1 * nsub.2.2
  let vol_ : 𝕜 := if env.dimension = 1 then delta
    else if env.dimension = 2 then delta * delta
    else delta * delta * delta
  let mass_ := mat.rho0 * vol_
  let np_local := np_local * (pts.nip : Int)
  let mass_ := mass_ / (pts.nip : 𝕜)
  let vol_ := vol_ / (pts.nip : 𝕜)
  match populate_create env delta nsub pts np_local s with
  | .error e => .error e
  | .ok st =>
    let l := st.2
    let np := mpi_allreduce_sum env.nprocs (populate_np_local_all env l)
    let s := { st.1 with np_local := l, np := np }
    let ptag0 := populate_ptag0 env l
    .ok (populate_initialise mat vol_ mass_ ptag0 s)

/-- Lines 1036-1413 of `Solid::populate`: everything before its last statement. `fuel`
bounds the iterations of each rounding loop (the result is `none` when one of them has not
ended by then); `grid->init` (line 1082) only changes the grid and is left out. -/
def populate_body [FloorRing 𝕜] (fuel : Nat) (m : Libm 𝕜) (env : PopulateEnv 𝕜) (grid : Grid 𝕜)
    (mat : Mat 𝕜) (s : Solid 𝕜) : Option (Except String (Solid 𝕜)) :=
  if env.iregion = -1 then some (.error "Error: region ID not does not exist.")
  else
    match populate_counts fuel env grid.cellsize with
    | none => none
    | some nsub =>
      match populate_intpoints m env.np_per_cell env.dimension s.nc grid.cellsize with
      | .error e => some (.error e)
      | .ok pts => some (populate_finish env grid mat nsub pts s)

/-- The method `Solid::populate`: its last statement (line 1414) is an unconditional
`error->all(FLERR, "")`. -/
def populate [FloorRing 𝕜] (fuel : Nat) (m : Libm 𝕜) (env : PopulateEnv 𝕜) (grid : Grid 𝕜)
    (mat : Mat 𝕜) (s : Solid 𝕜) : Option (Except String (Solid 𝕜)) :=
  match populate_body fuel m env grid mat s with
  | none => none
  | some (.error e) => some (.error e)
  | some (.ok _) => some (.error "")

/-! ## `Solid::copy_particle` (solid.cpp 1007-1034) -/

/-- The method `Solid::copy_particle(i, j)`: its 26 assignments `field[j] = field[i]`, of
which the fourth is `v_update[j] = v[i]`. Every right-hand side reads an entry that the
earlier assignments have left as it was, so the assignments are written as one update. -/
def copy_particle (i j : Nat) (s : Solid 𝕜) : Solid 𝕜 :=
  { s with
    x0 := Function.update s.x0 j (s.x0 i)
    x := Function.update s.x j (s.x i)
    v := Function.update s.v j (s.v i)
    v_update := Function.update s.v_update j (s.v i)
    a := Function.update s.a j (s.a i)
    mb := Function.update s.mb j (s.mb i)
    f := Function.update s.f j (s.f i)
    vol0 := Function.update s.vol0 j (s.vol0 i)
    vol := Function.update s.vol j (s.vol i)
    rho0 := Function.update s.rho0 j (s.rho0 i)
    rho := Function.update s.rho j (s.rho i)
    mass := Function.update s.mass j (s.mass i)
    eff_plastic_strain := Function.update s.eff_plastic_strain j (s.eff_plastic_strain i)
    eff_plastic_strain_rate := Function.update s.eff_plastic_strain_rate j (s.eff_plastic_strain_rate i)
    damage := Function.update s.damage j (s.damage i)
    damage_init := Function.update s.damage_init j (s.damage_init i)
    sigma := Function.update s.sigma j (s.sigma i)
    vol0PK1 := Function.update s.vol0PK1 j (s.vol0PK1 i)
    L := Function.update s.L j (s.L i)
    F := Function.update s.F j (s.F i)
    R := Function.update s.R j (s.R i)
    U := Function.update s.U j (s.U i)
    D := Function.update s.D j (s.D i)
    Finv := Function.update s.Finv j (s.Finv i)
    Fdot := Function.update s.Fdot j (s.Fdot i)
    J := Function.update s.J j (s.J i) }

/-! ## The command-line scan of `MPM::MPM` (mpm.cpp 21-35) -/

/-- The loop `while (iarg < narg)` of the constructor of `MPM` (lines 25-35), started with
the loop variable `iarg` and the flag `inflag`; `arg` is the argument vector and `narg` its
length. `fuel` bounds the number of times the loop condition is tested: the result is
`none` when the loop has not ended by then, the `exit(1)` of line 30 is an error, and a
normal end of the loop gives the final `inflag`. -/
def MPM_command_line_loop (arg : List String) : Nat → Nat → Nat → Option (Except String Nat)
  | 0, _, _ => none
  | fuel + 1, iarg, inflag =>
    if iarg < arg.length then
      if arg.getD iarg "" = "-in" ∨ arg.getD iarg "" = "-i" then
        if iarg + 2 > arg.length then some (.error "Invalid command-line argument")
        else MPM_command_line_loop arg fuel (iarg + 2) (iarg + 1)
      else MPM_command_line_loop arg fuel iarg inflag
    else some (.ok inflag)

/-- Lines 21-35 of the constructor of `MPM`: `inflag = 0; iarg = 1;` and the loop. -/
def MPM_command_line (arg : List String) (fuel : Nat) : Option (Except String Nat) :=
  MPM_command_line_loop arg fuel 1 0

/-! ## The file name of `DumpPyPlot::write` (dump_pyplot.cpp 33-45) -/

/-- The value `std::string::npos`, the largest `size_t` (64 bits). -/
def npos : Nat := 2 ^ 64 - 1

/-- The difference `a - b` of two `size_t` values, modulo `2^64`. -/
def size_t_sub (a b : Nat) : Nat := (a + 2 ^ 64 - b % 2 ^ 64) % 2 ^ 64

/-- The sum `a + b` of two `size_t` values, modulo `2^64`. -/
def size_t_add (a b : Nat) : Nat := (a + b) % 2 ^ 64

/-- The call `s.find(c)` of `std::string`: the position of the first `c`, or `npos`. -/
def string_find (s : List Char) (c : Char) : Nat :=
  if c ∈ s then s.indexOf c else npos

/-- The call `s.substr(pos, len)` of `std::string`: the characters from `pos` on, at most
`len` of them; it throws `std::out_of_range` when `pos` is beyond the end. -/
def string_substr (s : List Char) (pos len : Nat) : Except String (List Char) :=
  if pos > s.length then .error "std::out_of_range" else .ok ((s.drop pos).take len)

/-- The call `to_string(n)` for a timestep `n ≥ 0`: its decimal digits. -/
def to_string (n : Nat) : List Char := Nat.toDigits 10 n

/-- Lines 34-45 of `DumpPyPlot::write`: the name `fdump` of the dump file computed from the
pattern `filename` and `update->ntimestep`. `pos_asterisk` is a `size_t`, so the test
`pos_asterisk >= 0` of line 37 compares an unsigned number with zero. -/
def DumpPyPlot_write_fdump (filename : List Char) (ntimestep : Nat) :
    Except String (List Char) :=
  let pos_asterisk := string_find filename '*'
  if pos_asterisk ≥ 0 then
    match string_substr filename 0 pos_asterisk with
    | .error e => .error e
    | .ok head =>
      let fdump := head ++ to_string ntimestep
      if size_t_sub (size_t_sub filename.length pos_asterisk) 1 > 0 then
        match string_substr filename (size_t_add pos_asterisk 1)
            (size_t_sub (size_t_sub filename.length pos_asterisk) 1) with
        | .error e => .error e
        | .ok tail => .ok (fdump ++ tail)
      else .ok fdump
  else .ok filename

/-! ## The arguments of the `solid` command (solid.cpp 28-37, 187-213) -/

/-- Lines 31-37 of the constructor of `Solid`: a method must have been defined, and the
token list `args` must have at least three tokens. -/
def Solid_check_args (method_defined : Bool) (args : List String) : Except String Unit :=
  if !method_defined then
    .error "Error: a method should be defined before creating a solid!"
  else if args.length < 3 then .error "Error: solid command not enough arguments."
  else .ok ()

/-- The method `Solid::options(args, it)`, with the iterator `it` given by its index.
`find_material` stands for `material->find_material` (not among the sources), and
`cellsize_is_zero` for the test `grid->cellsize == 0`. The result is the index of the
material and, when `grid->setup` is called, the token passed to it. -/
def Solid_options (find_material : String → Int) (cellsize_is_zero : Bool) (args : List String)
    (it : Nat) : Except String (Option (Int × Option String)) :=
  if args.length < it + 2 then .error "Error: not enough arguments."
  else if args.length > it then
    let iMat := find_material (args.getD it "")
    if iMat = -1 then .error ""
    else
      let it := it + 1
      let setup := if cellsize_is_zero then some (args.getD it "") else none
      let it := it + 1
      if it ≠ args.length then .error "Error: too many arguments."
      else .ok (some (iMat, setup))
  else .ok none

/-- Lines 31-92 of the constructor of `Solid`: the two checks and the call
`options(&args, args.begin()+3)`; the call of `populate` follows. -/
def Solid_parse_args (method_defined : Bool) (find_material : String → Int)
    (cellsize_is_zero : Bool) (args : List String) :
    Except String (Option (Int × Option String)) :=
  match Solid_check_args method_defined args with
  | .error e => .error e
  | .ok _ => Solid_options find_material cellsize_is_zero args 3

/-! ## `FixInitialVelocityParticles` (fix_initial_velocity_particles.cpp) -/

/-- Modelled from the spec: the state of a `FixInitialVelocityParticles`. The flags `xset`,
`yset`, `zset` and the parsed expressions `xvalue`, `yvalue`, `zvalue` are set by the
constructor; an expression (`var.h` is not among the sources) is represented by its value
`result()` as a function of the variables `x`, `y`, `z`. `groupbit` and `solid` stand for
the group bit of the fix and for `group->solid[igroup]` (`fix.h` and `group.h` are not
among the sources). -/
structure FixInitialVelocityParticles (𝕜 : Type) where
  xset : Bool
  yset : Bool
  zset : Bool
  xvalue : 𝕜 → 𝕜 → 𝕜 → 𝕜
  yvalue : 𝕜 → 𝕜 → 𝕜 → 𝕜
  zvalue : 𝕜 → 𝕜 → 𝕜 → 𝕜
  groupbit : Nat
  solid : Int

/-- The constructor of `FixInitialVelocityParticles` (lines 17-45): at least six tokens, a
group of particles, and for each of the tokens 3, 4, 5 other than the literal `NULL` the
parsed expression with its flag. `parsev` stands for `input->parsev`, `pon` for
`group->pon[igroup]`; a component that is not set keeps a default expression. -/
def FixInitialVelocityParticles.create (parsev : String → 𝕜 → 𝕜 → 𝕜 → 𝕜) (pon : String)
    (groupbit : Nat) (solid : Int) (args : List String) :
    Except String (FixInitialVelocityParticles 𝕜) :=
  if args.length < 6 then
    .error "Error: too few arguments for fix_initial_velocity_particles"
  else if pon ≠ "particles" ∧ pon ≠ "all" then
    .error "fix_initial_velocity_particles needs to be given a group of particles"
  else
    .ok { xset := args.getD 3 "" ≠ "NULL"
          yset := args.getD 4 "" ≠ "NULL"
          zset := args.getD 5 "" ≠ "NULL"
          xvalue := if args.getD 3 "" ≠ "NULL" then parsev (args.getD 3 "") else fun _ _ _ => 0
          yvalue := if args.getD 4 "" ≠ "NULL" then parsev (args.getD 4 "") else fun _ _ _ => 0
          zvalue := if args.getD 5 "" ≠ "NULL" then parsev (args.getD 5 "") else fun _ _ _ => 0
          groupbit := groupbit
          solid := solid }

/-- The body of the particle loop of `initial_integrate` (lines 81-97 and 104-120) for
particle `ip` of the solid `s`. -/
def FixInitialVelocityParticles.initial_integrate_particle (fix : FixInitialVelocityParticles 𝕜)
    (ip : Nat) (s : Solid 𝕜) : Solid 𝕜 :=
  if s.mask ip &&& fix.groupbit ≠ 0 then
    let x := s.x ip 0
    let y := s.x ip 1
    let z := s.x ip 2
    let s := if fix.xset then { s with v := setAt s.v ip 0 (fix.xvalue x y z) } else s
    let s := if fix.yset then { s with v := setAt s.v ip 1 (fix.yvalue x y z) } else s
    if fix.zset then { s with v := setAt s.v ip 2 (fix.zvalue x y z) } else s
  else s

/-- The particle loop of `initial_integrate` over the `np_local` particles of a solid. -/
def FixInitialVelocityParticles.initial_integrate_solid (fix : FixInitialVelocityParticles 𝕜)
    (s : Solid 𝕜) : Solid 𝕜 :=
  loop fix.initial_integrate_particle s.np_local s

/-- The method `FixInitialVelocityParticles::initial_integrate` (lines 65-123);
`ntimestep` is `update->ntimestep` and `solids` is `domain->solids` with its size
`nsolids`. The result is the new array of solids. -/
def FixInitialVelocityParticles.initial_integrate (fix : FixInitialVelocityParticles 𝕜)
    (ntimestep : Int) (nsolids : Nat) (solids : Nat → Solid 𝕜) : Nat → Solid 𝕜 :=
  if ntimestep ≠ 1 then solids
  else if fix.solid = -1 then
    loop (fun isolid solids =>
        Function.update solids isolid (fix.initial_integrate_solid (solids isolid)))
      nsolids solids
  else
    Function.update solids fix.solid.toNat
      (fix.initial_integrate_solid (solids fix.solid.toNat))

/-! ## The CFL reduction with the special values of a `double` (solid.cpp 863, 916-941) -/

/-- A `double` with its special values: NaN, the two infinities, and the finite values,
which are taken exactly (no rounding, no overflow, and a zero without sign). -/
inductive Double (𝕜 : Type) where
  | nan : Double 𝕜
  | neg_inf : Double 𝕜
  | pos_inf : Double 𝕜
  | finite (x : 𝕜) : Double 𝕜

/-- The test `std::isnan(x)` on a `double`. -/
def Double.isnan : Double 𝕜 → Bool
  | .nan => true
  | .neg_inf => false
  | .pos_inf => false
  | .finite _ => false

/-- The comparison `a < b` of two doubles: false as soon as one of them is NaN. -/
def Double.lt : Double 𝕜 → Double 𝕜 → Bool
  | .nan, _ => false
  | .neg_inf, .nan => false
  | .neg_inf, .neg_inf => false
  | .neg_inf, .pos_inf => true
  | .neg_inf, .finite _ => true
  | .pos_inf, _ => false
  | .finite _, .nan => false
  | .finite _, .neg_inf => false
  | .finite _, .pos_inf => true
  | .finite x, .finite y => decide (x < y)

/-- The sum `a + b` of two doubles: NaN for a NaN operand and for infinities of opposite
signs. -/
def Double.add : Double 𝕜 → Double 𝕜 → Double 𝕜
  | .nan, _ => .nan
  | .neg_inf, .nan => .nan
  | .neg_inf, .neg_inf => .neg_inf
  | .neg_inf, .pos_inf => .nan
  | .neg_inf, .finite _ => .neg_inf
  | .pos_inf, .nan => .nan
  | .pos_inf, .neg_inf => .nan
  | .pos_inf, .pos_inf => .pos_inf
  | .pos_inf, .finite _ => .pos_inf
  | .finite _, .nan => .nan
  | .finite _, .neg_inf => .neg_inf
  | .finite _, .pos_inf => .pos_inf
  | .finite x, .finite y => .finite (x + y)

/-- The product `a * b` of two doubles: NaN for a NaN operand and for zero times an
infinity. -/
def Double.mul : Double 𝕜 → Double 𝕜 → Double 𝕜
  | .nan, _ => .nan
  | .neg_inf, .nan => .nan
  | .neg_inf, .neg_inf => .pos_inf
  | .neg_inf, .pos_inf => .neg_inf
  | .neg_inf, .finite y => if y = 0 then .nan else if 0 < y then .neg_inf else .pos_inf
  | .pos_inf, .nan => .nan
  | .pos_inf, .neg_inf => .neg_inf
  | .pos_inf, .pos_inf => .pos_inf
  | .pos_inf, .finite y => if y = 0 then .nan else if 0 < y then .pos_inf else .neg_inf
  | .finite _, .nan => .nan
  | .finite x, .neg_inf => if x = 0 then .nan else if 0 < x then .neg_inf else .pos_inf
  | .finite x, .pos_inf => if x = 0 then .nan else if 0 < x then .pos_inf else .neg_inf
  | .finite x, .finite y => .finite (x * y)

/-- The quotient `a / b` of two doubles: NaN for a NaN operand, for an infinity divided by
an infinity and for zero divided by zero; a finite value other than zero divided by zero
is the infinity with the sign of the dividend, and a finite value divided by an infinity
is zero. -/
def Double.div : Double 𝕜 → Double 𝕜 → Double 𝕜
  | .nan, _ => .nan
  | .neg_inf, .nan => .nan
  | .neg_inf, .neg_inf => .nan
  | .neg_inf, .pos_inf => .nan
  | .neg_inf, .finite y => if y < 0 then .pos_inf else .neg_inf
  | .pos_inf, .nan => .nan
  | .pos_inf, .neg_inf => .nan
  | .pos_inf, .pos_inf => .nan
  | .pos_inf, .finite y => if y < 0 then .neg_inf else .pos_inf
  | .finite _, .nan => .nan
  | .finite _, .neg_inf => .finite 0
  | .finite _, .pos_inf => .finite 0
  | .finite x, .finite y =>
    if y = 0 then
      if x = 0 then .nan
      else if 0 < x then .pos_inf
      else .neg_inf
    else .finite (x / y)

/-- The function `sqrt` on a `double`: NaN for NaN and for a negative argument. -/
def Double.sqrt (m : Libm 𝕜) : Double 𝕜 → Double 𝕜
  | .nan => .nan
  | .neg_inf => .nan
  | .pos_inf => .pos_inf
  | .finite x => if x < 0 then .nan else .finite (m.sqrt x)

/-- Modelled from the spec: the macro `MIN(A,B)` on doubles, `((A) < (B) ? (A) : (B))`: it
is `B` as soon as one of the two is NaN. -/
def Double.MIN (a b : Double 𝕜) : Double 𝕜 := if a.lt b then a else b

/-- The body of the second loop of `update_stress` for particle `ip` (lines 919-931) on
doubles with their special values; the state is the pair of `min_inv_p_wave_speed` and
`min_h_ratio`. -/
def update_stress_cfl_double_particle (rho : Nat → Double 𝕜)
    (F : Nat → Fin 3 → Fin 3 → Double 𝕜) (K G : Double 𝕜) (ip : Nat)
    (st : Double 𝕜 × Double 𝕜) : Except String (Double 𝕜 × Double 𝕜) :=
  let c := Double.MIN st.1 ((rho ip).div (K.add ((Double.finite four_third).mul G)))
  let h1 := Double.MIN st.2 ((((F ip 0 0).mul (F ip 0 0)).add ((F ip 0 1).mul (F ip 0 1))).add
    ((F ip 0 2).mul (F ip 0 2)))
  let h2 := Double.MIN h1 ((((F ip 1 0).mul (F ip 1 0)).add ((F ip 1 1).mul (F ip 1 1))).add
    ((F ip 1 2).mul (F ip 1 2)))
  let h3 := Double.MIN h2 ((((F ip 2 0).mul (F ip 2 0)).add ((F ip 2 1).mul (F ip 2 1))).add
    ((F ip 2 2).mul (F ip 2 2)))
  if c.isnan then .error ""
  else if c.lt (.finite 0) then .error ""
  else .ok (c, h3)

/-- Lines 863 and 916-941 of `Solid::update_stress` on doubles with their special values:
the start value `1.0e22` of `min_inv_p_wave_speed` (the first loop, lines 876-914, writes
neither `rho`, `F`, `min_inv_p_wave_speed` nor `dtCFL`), the second loop, and the
reduction of `dtCFL` with its NaN test. The result is the pair of the new
`min_inv_p_wave_speed` and the new `dtCFL`. -/
def update_stress_cfl_double (m : Libm 𝕜) (np : Nat) (rho : Nat → Double 𝕜)
    (F : Nat → Fin 3 → Fin 3 → Double 𝕜) (K G cellsize dtCFL : Double 𝕜) :
    Except String (Double 𝕜 × Double 𝕜) :=
  match forLoop (update_stress_cfl_double_particle rho F K G) np
      (.finite (10 ^ 22), .finite (10 ^ 22)) with
  | .error e => .error e
  | .ok st =>
    let min_inv_p_wave_speed := Double.sqrt m st.1
    let bound := (min_inv_p_wave_speed.mul cellsize).mul (Double.sqrt m st.2)
    let dtCFL := Double.MIN dtCFL bound
    if dtCFL.isnan then .error "" else .ok (min_inv_p_wave_speed, dtCFL)

/-! ## Reference definitions, following the words of the specification -/

/-- The Neo-Hookean first Piola-Kirchhoff stress of the specification,
`PK1 = G·(F − F⁻ᵀ) + λ·ln(J)·F⁻ᵀ`, for given `F`, `Finv` and `J`. -/
def neo_hookean_PK1 (m : Libm 𝕜) (G lambda : 𝕜) (F Finv : Matrix3d 𝕜) (J : 𝕜) : Matrix3d 𝕜 :=
  G • (F - Finv.transpose) + (lambda * m.log J) • Finv.transpose

/-- The Frobenius norm in the words of the specification: the square root of the sum of
the squares of all entries. -/
def frobenius_norm (m : Libm 𝕜) (M : Matrix3d 𝕜) : 𝕜 := m.sqrt (∑ i, ∑ j, M i j ^ 2)

/-- The reference damage accumulation of the specification for a given triaxiality
`chi`: `ε_f = d1 + d2·exp(d3·χ)`, scaled by `1 + d4·ln(ε̇/ε̇₀)` exactly when `d4 > 0`
and `ε̇ > ε̇₀`; `damage_init` grows by `Δε_p/ε_f`; once the new `damage_init ≥ 1`,
`damage = min(10·(damage_init − 1), 1)`, otherwise `damage` is unchanged. -/
def damage_accumulation_reference (m : Libm 𝕜) (p : DamageJohnsonCook 𝕜) (chi : 𝕜)
    (damage_init damage epsdot plastic_strain_increment : 𝕜) : 𝕜 × 𝕜 :=
  let eps_f0 := p.d1 + p.d2 * m.exp (p.d3 * chi)
  let eps_f := if p.d4 > 0 ∧ epsdot > p.epsdot0
    then eps_f0 * (1 + p.d4 * m.log (epsdot / p.epsdot0)) else eps_f0
  let damage_init' := damage_init + plastic_strain_increment / eps_f
  (damage_init', if damage_init' ≥ 1 then min (10 * (damage_init' - 1)) 1 else damage)

/-- Modelled from the spec: the stress triaxiality as the specification words it,
`χ = min(−pH / (σ_vm + 0.01·|pH|), 3)` with `σ_vm = √(3/2)·‖Sdev‖`, for every
pressure and deviator. -/
def triaxiality_reference (m : Libm 𝕜) (pH : 𝕜) (Sdev : Matrix3d 𝕜) : 𝕜 :=
  min (-pH / (m.sqrt (3 / 2) * frobenius_norm m Sdev + 1 / 100 * |pH|)) 3

/-- Modelled from the spec: the least of the values `c 0, …, c n`. -/
def min_upto (c : Nat → 𝕜) : Nat → 𝕜
  | 0 => c 0
  | n + 1 => min (min_upto c n) (c (n + 1))

/-- Modelled from the spec: the CFL bound as the specification words it, for a solid with
at least one particle: `min_inv_c·Δx·√min_h_ratio` with `min_inv_c = √(min_ip ρ/(K + 4G/3))`
and `min_h_ratio` the least squared Euclidean norm of a row of a deformation gradient. -/
def cfl_bound_reference (m : Libm 𝕜) (grid : Grid 𝕜) (mat : Mat 𝕜) (s : Solid 𝕜) : 𝕜 :=
  let min_inv_c := m.sqrt (min_upto (fun ip => s.rho ip / (mat.K + 4 * mat.G / 3)) (s.np - 1))
  let min_h_ratio := min_upto (fun ip =>
    min (min (∑ k, s.F ip 0 k ^ 2) (∑ k, s.F ip 1 k ^ 2)) (∑ k, s.F ip 2 k ^ 2)) (s.np - 1)
  min_inv_c * grid.cellsize * m.sqrt min_h_ratio

/-- Modelled from the spec: the run of scenario S3, `k` calls of `compute_damage` with the
same pressure, deviator, strain rate and plastic-strain increment, starting from
`damage_init = damage = 0`; the result is the pair `(damage_init, damage)` after the
`k`-th call. -/
def compute_damage_calls (m : Libm 𝕜) (p : DamageJohnsonCook 𝕜) (pH : 𝕜) (Sdev : Matrix3d 𝕜)
    (epsdot plastic_strain_increment : 𝕜) : Nat → Except String (𝕜 × 𝕜)
  | 0 => .ok (0, 0)
  | k + 1 =>
    match compute_damage_calls m p pH Sdev epsdot plastic_strain_increment k with
    | .error e => .error e
    | .ok st => p.compute_damage m st.1 st.2 pH Sdev epsdot plastic_strain_increment

/-- Modelled from the spec: one time step of scenario S1, the three kernels
`compute_rate_deformation_gradient_TL`, `update_deformation_gradient` and `update_stress`
in this order, in dimension 1 with the style "tlmpm", `dt = 0.01`, the grid `grid` and the
material `mat`. `PolDec` is not reached for a material without EOS and strength model. -/
def scenario_S1_step (m : Libm 𝕜) (grid : Grid 𝕜) (mat : Mat 𝕜) (s : Solid 𝕜) :
    Except String (Solid 𝕜) :=
  let s1 := compute_rate_deformation_gradient_TL 1 grid s
  match update_deformation_gradient (fun F _ => (true, 1, F)) (1 / 100) "tlmpm" mat s1 with
  | .error e => .error e
  | .ok s2 => update_stress m (1 / 100) "tlmpm" grid mat s2

/-- Modelled from the spec: the state of scenario S1 after `k` time steps, started from the
particle `s`. -/
def scenario_S1 (m : Libm 𝕜) (grid : Grid 𝕜) (mat : Mat 𝕜) (s : Solid 𝕜) :
    Nat → Except String (Solid 𝕜)
  | 0 => .ok s
  | k + 1 =>
    match scenario_S1 m grid mat s k with
    | .error e => .error e
    | .ok t => scenario_S1_step m grid mat t

/-- The condition under which iteration `i` of `update_deformation_gradient` ends the
run, in terms of the state `s` before the call: the new determinant is negative
(line 828), or the material has both sub-models and `PolDec` reports failure
(line 849). -/
def update_deformation_gradient_fails_at
    (PolDec : Matrix3d 𝕜 → Bool → Bool × Matrix3d 𝕜 × Matrix3d 𝕜)
    (dt : 𝕜) (method_style : String) (mat : Mat 𝕜) (s : Solid 𝕜) (i : Nat) : Prop :=
  let F' := deformation_update (is_tlmpm method_style) dt (s.F i) (s.Fdot i) (s.L i)
  determinant F' < 0 ∨ (has_eos_and_strength mat = true ∧ (PolDec F' false).1 = false)

/-- The state after the first `n` iterations of `update_deformation_gradient` started
in `s`, when none of them has ended the run. -/
def update_deformation_gradient_after
    (PolDec : Matrix3d 𝕜 → Bool → Bool × Matrix3d 𝕜 × Matrix3d 𝕜)
    (dt : 𝕜) (method_style : String) (mat : Mat 𝕜) (n : Nat) (s : Solid 𝕜) : Solid 𝕜 :=
  let tl := is_tlmpm method_style
  let nh := has_eos_and_strength mat
  let F' := fun i => deformation_update tl dt (s.F i) (s.Fdot i) (s.L i)
  let L' := fun i => if nh && tl then s.Fdot i * inverse (F' i) else s.L i
  let R' := fun i => (PolDec (F' i) false).2.1
  { s with
    F := fun i => if i < n then F' i else s.F i
    Finv := fun i => if i < n then inverse (F' i) else s.Finv i
    J := fun i => if i < n then determinant (F' i) else s.J i
    vol := fun i => if i < n then determinant (F' i) * s.vol0 i else s.vol i
    rho := fun i => if i < n then s.rho0 i / determinant (F' i) else s.rho i
    L := fun i => if i < n then L' i else s.L i
    R := fun i => if i < n ∧ nh then R' i else s.R i
    D := fun i => if i < n ∧ nh then
        (if tl then (1 / 2 : 𝕜) • ((R' i).transpose * (L' i + (L' i).transpose) * R' i)
         else (1 / 2 : 𝕜) • (L' i + (L' i).transpose))
      else s.D i }

/-- The matrix accumulated for particle `ip` by the inner loop of a rate kernel: the
statements `accumulate` run over the neighbouring nodes, starting from zero. -/
def rate_of (accumulate : Vector3d 𝕜 → Vector3d 𝕜 → Matrix3d 𝕜 → Matrix3d 𝕜)
    (vn : Nat → Vector3d 𝕜) (s : Solid 𝕜) (ip : Nat) : Matrix3d 𝕜 :=
  loop (fun j M => accumulate (vn (s.neigh_pn ip j)) (s.wfd_pn ip j) M) (s.numneigh_pn ip) 0

/-- The state after the first `n` iterations of the first loop of `update_stress`
started in `s`, in the Neo-Hookean branch. -/
def update_stress_neo_hookean_after (m : Libm 𝕜) (mat : Mat 𝕜) (n : Nat) (s : Solid 𝕜) :
    Solid 𝕜 :=
  let PK1 := fun i => mat.G • (s.F i - (s.Finv i).transpose)
    + (mat.lambda * m.log (s.J i)) • (s.Finv i).transpose
  { s with
    vol0PK1 := fun i => if i < n then s.vol0 i • PK1 i else s.vol0PK1 i
    sigma := fun i => if i < n then (1 / s.J i) • (s.F i * (PK1 i).transpose) else s.sigma i
    strain_el := fun i =>
      if i < n then (1 / 2 : 𝕜) • ((s.F i).transpose * s.F i - 1) else s.strain_el i }

/-- The running value of `min_inv_p_wave_speed` after `n` iterations of the second
loop of `update_stress`, started from `1.0e22`. -/
def cfl_min_inv (mat : Mat 𝕜) (s : Solid 𝕜) : Nat → 𝕜
  | 0 => 10 ^ 22
  | n + 1 => MIN (cfl_min_inv mat s n) (s.rho n / (mat.K + four_third * mat.G))

/-- The running value of `min_h_ratio` after `n` iterations of the second loop of
`update_stress`, started from `1.0e22`. -/
def cfl_min_h_ratio (s : Solid 𝕜) : Nat → 𝕜
  | 0 => 10 ^ 22
  | n + 1 =>
    let F := s.F n
    MIN (MIN (MIN (cfl_min_h_ratio s n) (F 0 0 * F 0 0 + F 0 1 * F 0 1 + F 0 2 * F 0 2))
      (F 1 0 * F 1 0 + F 1 1 * F 1 1 + F 1 2 * F 1 2))
      (F 2 0 * F 2 0 + F 2 1 * F 2 1 + F 2 2 * F 2 2)

/-- The last statements of `update_stress` (lines 934-935) applied to the state `s`
left by the first loop, with the minima found by the second loop. -/
def update_stress_finish (m : Libm 𝕜) (grid : Grid 𝕜) (mat : Mat 𝕜) (s : Solid 𝕜) : Solid 𝕜 :=
  { s with
    min_inv_p_wave_speed := m.sqrt (cfl_min_inv mat s s.np)
    dtCFL := MIN s.dtCFL (m.sqrt (cfl_min_inv mat s s.np) * grid.cellsize
      * m.sqrt (cfl_min_h_ratio s s.np)) }

/-- The damage that the linear ramp of `compute_damage` assigns to a value of
`damage_init`: zero below 1, then `MIN((damage_init - 1)*10, 1)`. -/
def damage_ramp (damage_init : 𝕜) : 𝕜 :=
  if damage_init ≥ 1 then MIN ((damage_init - 1) * 10) 1 else 0

/-- The call of the damage model made by iteration `i` of the EOS + strength branch of
`update_stress` (lines 899-902), in terms of the state `s` before the loop; without a
damage model the pair `(damage_init, damage)` is kept. -/
def update_stress_damage_call (dt : 𝕜) (grid : Grid 𝕜) (mat : Mat 𝕜) (eos : EOS 𝕜)
    (strength : Strength 𝕜) (s : Solid 𝕜) (i : Nat) : Except String (𝕜 × 𝕜) :=
  let pH := eos.compute_pressure (s.J i) (s.rho i) 0 (s.damage i)
  let r := strength.update_deviatoric_stress (s.sigma i) (s.D i) (s.eff_plastic_strain i)
    (s.eff_plastic_strain_rate i) (s.damage i)
  let tav := 1000 * grid.cellsize / mat.signal_velocity
  let rate := MAX (0 : 𝕜) (s.eff_plastic_strain_rate i - s.eff_plastic_strain_rate i * dt / tav
    + r.2 / tav)
  match mat.damage with
  | none => .ok (s.damage_init i, s.damage i)
  | some dmg => dmg.compute_damage (s.damage_init i) (s.damage i) pH r.1 rate r.2

/-- The state after the first `n` iterations of the first loop of `update_stress`
started in `s`, in the EOS + strength branch, when no call of the damage model has ended
the run. -/
def update_stress_eos_strength_after (dt : 𝕜) (tl : Bool) (grid : Grid 𝕜) (mat : Mat 𝕜)
    (eos : EOS 𝕜) (strength : Strength 𝕜) (n : Nat) (s : Solid 𝕜) : Solid 𝕜 :=
  let pH := fun i => eos.compute_pressure (s.J i) (s.rho i) 0 (s.damage i)
  let r := fun i => strength.update_deviatoric_stress (s.sigma i) (s.D i) (s.eff_plastic_strain i)
    (s.eff_plastic_strain_rate i) (s.damage i)
  let tav := 1000 * grid.cellsize / mat.signal_velocity
  let rate := fun i => MAX (0 : 𝕜) (s.eff_plastic_strain_rate i
    - s.eff_plastic_strain_rate i * dt / tav + (r i).2 / tav)
  let out : Nat → 𝕜 × 𝕜 := fun i => match update_stress_damage_call dt grid mat eos strength s i with
    | .ok o => o
    | .error _ => (s.damage_init i, s.damage i)
  let sigma := fun i => (-(pH i)) • (1 : Matrix3d 𝕜) + (r i).1
  let trace_part := fun i => ((dt * (s.D i).trace + (s.strain_el i).trace) / 3) • (1 : Matrix3d 𝕜)
  let strain := fun i => if (out i).2 > (1 / 10 ^ 10 : 𝕜)
    then trace_part i + (1 / (mat.G * (1 - (out i).2))) • (r i).1
    else trace_part i
  let pk := fun i => ((s.vol0 i * s.J i) • (s.R i * sigma i * (s.R i).transpose))
    * (s.Finv i).transpose
  { s with
    eff_plastic_strain := fun i =>
      if i < n then s.eff_plastic_strain i + (r i).2 else s.eff_plastic_strain i
    eff_plastic_strain_rate := fun i => if i < n then rate i else s.eff_plastic_strain_rate i
    damage_init := fun i => if i < n then (out i).1 else s.damage_init i
    damage := fun i => if i < n then (out i).2 else s.damage i
    sigma := fun i => if i < n then sigma i else s.sigma i
    strain_el := fun i => if i < n then strain i else s.strain_el i
    vol0PK1 := fun i => if i < n ∧ tl then pk i else s.vol0PK1 i }

/-- The state that one iteration of the EOS + strength branch of `update_stress` leaves
for particle `ip` when the damage model has returned `out` (lines 889-912 as one
record update). -/
def update_stress_eos_strength_result (dt : 𝕜) (tl : Bool) (grid : Grid 𝕜) (mat : Mat 𝕜)
    (eos : EOS 𝕜) (strength : Strength 𝕜) (ip : Nat) (s : Solid 𝕜) (out : 𝕜 × 𝕜) : Solid 𝕜 :=
  let pH := eos.compute_pressure (s.J ip) (s.rho ip) 0 (s.damage ip)
  let r := strength.update_deviatoric_stress (s.sigma ip) (s.D ip) (s.eff_plastic_strain ip)
    (s.eff_plastic_strain_rate ip) (s.damage ip)
  let tav := 1000 * grid.cellsize / mat.signal_velocity
  let rate := MAX (0 : 𝕜) (s.eff_plastic_strain_rate ip
    - s.eff_plastic_strain_rate ip * dt / tav + r.2 / tav)
  let sigma := (-pH) • (1 : Matrix3d 𝕜) + r.1
  let trace_part := ((dt * (s.D ip).trace + (s.strain_el ip).trace) / 3) • (1 : Matrix3d 𝕜)
  let strain := if out.2 > (1 / 10 ^ 10 : 𝕜)
    then trace_part + (1 / (mat.G * (1 - out.2))) • r.1
    else trace_part
  let pk := ((s.vol0 ip * s.J ip) • (s.R ip * sigma * (s.R ip).transpose))
    * (s.Finv ip).transpose
  { s with
    eff_plastic_strain := Function.update s.eff_plastic_strain ip (s.eff_plastic_strain ip + r.2)
    eff_plastic_strain_rate := Function.update s.eff_plastic_strain_rate ip rate
    damage_init := Function.update s.damage_init ip out.1
    damage := Function.update s.damage ip out.2
    sigma := Function.update s.sigma ip sigma
    strain_el := Function.update s.strain_el ip strain
    vol0PK1 := if tl then Function.update s.vol0PK1 ip pk else s.vol0PK1 }

/-- The sum that `compute_mass_nodes` accumulates for node `node`:
`Σ_j wf_np[node][j] * mass[neigh_np[node][j]]`. -/
def nodal_mass_sum (s : Solid 𝕜) (node : Nat) : 𝕜 :=
  ∑ j in Finset.range (s.numneigh_np node), s.wf_np node j * s.mass (s.neigh_np node j)

/-- The node-keyed neighbour lists as a multiset of entries `(node, particle, weight)`. -/
def node_keyed_entries (nnodes : Nat) (s : Solid 𝕜) : Multiset (Nat × Nat × 𝕜) :=
  (Multiset.range nnodes).bind fun node =>
    (Multiset.range (s.numneigh_np node)).map fun j => (node, s.neigh_np node j, s.wf_np node j)

/-- The particle-keyed neighbour lists as a multiset of entries `(node, particle, weight)`. -/
def particle_keyed_entries (s : Solid 𝕜) : Multiset (Nat × Nat × 𝕜) :=
  (Multiset.range s.np).bind fun ip =>
    (Multiset.range (s.numneigh_pn ip)).map fun k => (s.neigh_pn ip k, ip, s.wf_pn ip k)

/-- The velocity that the particle-to-grid scatter gives node `node` from the particle
velocities `vp`: `(Σ_j wf_np[node][j]*mass[p_j]*vp[p_j]) / mass[node]`. -/
def scatter_velocity (s : Solid 𝕜) (grid : Grid 𝕜) (node : Nat) (vp : Nat → Vector3d 𝕜) :
    Vector3d 𝕜 :=
  vdiv (∑ j in Finset.range (s.numneigh_np node),
      (s.wf_np node j * s.mass (s.neigh_np node j)) • vp (s.neigh_np node j))
    (grid.mass node)

/-- The matrix accumulated for particle `ip` by the inner loop of the APIC rate kernel: the
statements `accumulate` run over the neighbouring nodes, starting from zero. -/
def apic_rate_of (accumulate : Vector3d 𝕜 → Vector3d 𝕜 → 𝕜 → Matrix3d 𝕜 → Matrix3d 𝕜)
    (x0n vn : Nat → Vector3d 𝕜) (s : Solid 𝕜) (ip : Nat) : Matrix3d 𝕜 :=
  loop (fun j M => accumulate (vn (s.neigh_pn ip j)) (x0n (s.neigh_pn ip j) - s.x0 ip)
    (s.wf_pn ip j) M) (s.numneigh_pn ip) 0

/-- The call `r` returns a state that satisfies `P`. -/
def returns_with {σ : Type} (r : Except String σ) (P : σ → Prop) : Prop :=
  match r with
  | .ok s => P s
  | .error _ => False

instance returns_with_decidable {σ : Type} (r : Except String σ) (P : σ → Prop)
    [DecidablePred P] : Decidable (returns_with r P) :=
  match r with
  | .ok s => inferInstanceAs (Decidable (P s))
  | .error _ => isFalse (fun h => h)

/-- The centre of the cell of the `10×10×10` lattice on the unit cube that is number `r` in
the order of the creation loops (`r = 100*i + 10*j + k`). -/
def cube_centre (r : Nat) : Vector3d 𝕜 :=
  ![1 / 10 * (((r / 100 : Nat) : 𝕜) + 1 / 2), 1 / 10 * (((r / 10 % 10 : Nat) : 𝕜) + 1 / 2),
    1 / 10 * (((r % 10 : Nat) : 𝕜) + 1 / 2)]

/-- The number of cell centres of the unit cube among the lattice points that the creation
loops, running over `11×11×11` points, visit before the point `(i, j, k)`. -/
def cube_count (i j k : Nat) : Nat :=
  if i ≥ 10 then 1000 else if j ≥ 10 then 100 * i + 100 else 100 * i + 10 * j + min k 10

/-- The velocity that `initial_integrate` gives particle `ip` of the solid `s` at
timestep 1: for a particle of the group among the first `n`, the components that are set
are replaced by the value of their expression at the position of the particle. -/
def initial_velocity_after (fix : FixInitialVelocityParticles 𝕜) (n : Nat) (s : Solid 𝕜)
    (ip : Nat) : Vector3d 𝕜 :=
  if ip < n ∧ s.mask ip &&& fix.groupbit ≠ 0 then
    ![if fix.xset then fix.xvalue (s.x ip 0) (s.x ip 1) (s.x ip 2) else s.v ip 0,
      if fix.yset then fix.yvalue (s.x ip 0) (s.x ip 1) (s.x ip 2) else s.v ip 1,
      if fix.zset then fix.zvalue (s.x ip 0) (s.x ip 1) (s.x ip 2) else s.v ip 2]
  else s.v ip

/-- The quotient `rho[ip] / (K + four_third*G)` of line 919 on doubles. -/
def cfl_quotient_double (rho : Nat → Double 𝕜) (K G : Double 𝕜) (ip : Nat) : Double 𝕜 :=
  (rho ip).div (K.add ((Double.finite four_third).mul G))

/-- The running minimum `min_inv_p_wave_speed` of the second loop of `update_stress` on
doubles, after `n` particles. -/
def cfl_min_inv_double (rho : Nat → Double 𝕜) (K G : Double 𝕜) : Nat → Double 𝕜
  | 0 => .finite (10 ^ 22)
  | n + 1 => Double.MIN (cfl_min_inv_double rho K G n) (cfl_quotient_double rho K G n)

/-- The squared norm of row `r` of `F[ip]` as line 921 and its siblings compute it. -/
def cfl_row_double (F : Nat → Fin 3 → Fin 3 → Double 𝕜) (ip : Nat) (r : Fin 3) : Double 𝕜 :=
  (((F ip r 0).mul (F ip r 0)).add ((F ip r 1).mul (F ip r 1))).add ((F ip r 2).mul (F ip r 2))

/-- The running minimum `min_h_ratio` of the second loop of `update_stress` on doubles,
after `n` particles. -/
def cfl_min_h_ratio_double (F : Nat → Fin 3 → Fin 3 → Double 𝕜) : Nat → Double 𝕜
  | 0 => .finite (10 ^ 22)
  | n + 1 => Double.MIN (Double.MIN (Double.MIN (cfl_min_h_ratio_double F n)
      (cfl_row_double F n 0)) (cfl_row_double F n 1)) (cfl_row_double F n 2)

/-- The bound `min_inv_p_wave_speed * grid->cellsize * sqrt(min_h_ratio)` of line 935 on
doubles, for `np` particles. -/
def cfl_bound_double (m : Libm 𝕜) (np : Nat) (rho : Nat → Double 𝕜)
    (F : Nat → Fin 3 → Fin 3 → Double 𝕜) (K G cellsize : Double 𝕜) : Double 𝕜 :=
  ((Double.sqrt m (cfl_min_inv_double rho K G np)).mul cellsize).mul
    (Double.sqrt m (cfl_min_h_ratio_double F np))

/-! ## Example data -/

/-- A solid with `np` particles all of whose arrays are zero. -/
def Solid.blank (np : Nat) : Solid 𝕜 where
  np := np
  np_local := np
  ptag := fun _ => 0
  x := fun _ => 0
  x0 := fun _ => 0
  rp := fun _ => 0
  rp0 := fun _ => 0
  xpc := fun _ => 0
  xpc0 := fun _ => 0
  nc := 0
  v := fun _ => 0
  v_update := fun _ => 0
  a := fun _ => 0
  mb := fun _ => 0
  f := fun _ => 0
  sigma := fun _ => 0
  strain_el := fun _ => 0
  vol0PK1 := fun _ => 0
  L := fun _ => 0
  F := fun _ => 0
  R := fun _ => 0
  U := fun _ => 0
  D := fun _ => 0
  Finv := fun _ => 0
  Fdot := fun _ => 0
  Di := fun _ => 0
  J := fun _ => 0
  vol0 := fun _ => 0
  vol := fun _ => 0
  vtot := 0
  rho0 := fun _ => 0
  rho := fun _ => 0
  mass := fun _ => 0
  eff_plastic_strain := fun _ => 0
  eff_plastic_strain_rate := fun _ => 0
  damage := fun _ => 0
  damage_init := fun _ => 0
  mask := fun _ => 0
  min_inv_p_wave_speed := 0
  dtCFL := 0
  numneigh_pn := fun _ => 0
  numneigh_np := fun _ => 0
  neigh_pn := fun _ _ => 0
  neigh_np := fun _ _ => 0
  wf_pn := fun _ _ => 0
  wf_np := fun _ _ => 0
  wfd_pn := fun _ _ => 0
  wfd_np := fun _ _ => 0

/-- A solid with `np` particles in the state set by `populate` (`F = R = I`, `J = 1`,
unit reference volume and density) and the given rate `Fdot` and velocity gradient `L`
on every particle. -/
def Solid.atRest (np : Nat) (Fdot L : Matrix3d 𝕜) : Solid 𝕜 :=
  { (Solid.blank np : Solid 𝕜) with
    F := fun _ => 1
    R := fun _ => 1
    J := fun _ => 1
    vol0 := fun _ => 1
    vol := fun _ => 1
    rho0 := fun _ => 1
    rho := fun _ => 1
    mass := fun _ => 1
    Fdot := fun _ => Fdot
    L := fun _ => L }

/-- A single particle at rest between two nodes (`neigh_pn = {0, 1}`) with the linear
shape-function gradients `-1` and `1` along the first axis. -/
def Solid.singleCell : Solid 𝕜 :=
  { (Solid.atRest 1 0 0 : Solid 𝕜) with
    numneigh_pn := fun _ => 2
    neigh_pn := fun _ j => j
    wfd_pn := fun _ j => if j = 0 then ![-1, 0, 0] else ![1, 0, 0] }

/-- A grid of the given cell size all of whose nodal arrays are zero. -/
def Grid.blank (cellsize : 𝕜) : Grid 𝕜 where
  nnodes := 0
  cellsize := cellsize
  x := fun _ => 0
  x0 := fun _ => 0
  v := fun _ => 0
  v_update := fun _ => 0
  mb := fun _ => 0
  f := fun _ => 0
  mass := fun _ => 0

/-- The linear equation of state `K·(ρ/ρ₀ − 1)` named by the spec, as an example EOS. -/
def EOS.linear (K rho0 : 𝕜) : EOS 𝕜 where
  compute_pressure := fun _ rho _ _ => K * (rho / rho0 - 1)

/-- A material without EOS, strength and damage model. -/
def Mat.plain (rho0 K G lambda signal_velocity : 𝕜) : Mat 𝕜 where
  rho0 := rho0
  K := K
  G := G
  lambda := lambda
  signal_velocity := signal_velocity
  eos := none
  strength := none
  damage := none

/-- A material with the linear EOS of the spec but without strength and damage model. -/
def Mat.eosOnly (rho0 K G lambda signal_velocity : 𝕜) : Mat 𝕜 where
  rho0 := rho0
  K := K
  G := G
  lambda := lambda
  signal_velocity := signal_velocity
  eos := some (EOS.linear K rho0)
  strength := none
  damage := none

/-- A polar decomposition routine that always succeeds with `R = I` and `U = F`. -/
def PolDec_identity (F : Matrix3d 𝕜) (_ : Bool) : Bool × Matrix3d 𝕜 × Matrix3d 𝕜 := (true, 1, F)

/-- Johnson-Cook damage parameters with a negative `d1`: `d1 = -0.09`, `d2 = 0.25`,
`d3 = -0.5`, `d4 = 0`, `epsdot0 = 1`. The failure strain is `0.16` at triaxiality 0 and
negative at triaxiality 3. -/
def DamageJohnsonCook.negative_d1 : DamageJohnsonCook 𝕜 where
  d1 := -9 / 100
  d2 := 1 / 4
  d3 := -1 / 2
  d4 := 0
  epsdot0 := 1

/-- A stress deviator with von Mises stress 3: `diag(2, -1, -1)`. -/
def Sdev_uniaxial : Matrix3d 𝕜 := !![2, 0, 0; 0, -1, 0; 0, 0, -1]

/-- The Johnson-Cook strength parameters of a structural steel: `G = 80e9`, `A = 350e6`,
`B = 275e6`, `n = 0.36`, `epsdot0 = 1`, `C = 0.022`. -/
def StrengthJohnsonCook.steel : StrengthJohnsonCook 𝕜 where
  G_ := 80 * 10 ^ 9
  A := 350 * 10 ^ 6
  B := 275 * 10 ^ 6
  n := 36 / 100
  epsdot0 := 1
  C := 22 / 1000

/-- A material with the linear EOS of the spec, a Johnson-Cook strength model run at
time step `dt`, and optionally a Johnson-Cook damage model. -/
def Mat.johnsonCook (m : Libm 𝕜) (dt rho0 K lambda signal_velocity : 𝕜)
    (p : StrengthJohnsonCook 𝕜) (d : Option (DamageJohnsonCook 𝕜)) : Mat 𝕜 where
  rho0 := rho0
  K := K
  G := p.G_
  lambda := lambda
  signal_velocity := signal_velocity
  eos := some (EOS.linear K rho0)
  strength := some (p.toStrength m dt)
  damage := d.map (DamageJohnsonCook.toDamage m)

/-- A polar decomposition routine that is exact on rotations: it succeeds with `R = F`
and `U = I`. -/
def PolDec_rotation (F : Matrix3d 𝕜) (_ : Bool) : Bool × Matrix3d 𝕜 × Matrix3d 𝕜 := (true, F, 1)

/-- The rotation about the third axis with cosine `3/5` and sine `4/5`. -/
def rotation_3_4_5 : Matrix3d 𝕜 := !![3 / 5, -4 / 5, 0; 4 / 5, 3 / 5, 0; 0, 0, 1]

/-- A single particle that the time step `dt = 1/10` carries onto the rotation
`rotation_3_4_5` while it is stretched along the first axis: `Fdot = diag(1,0,0)·R` and
`F = R - Fdot/10`. -/
def Solid.rotating : Solid 𝕜 :=
  { (Solid.atRest 1 !![3 / 5, -4 / 5, 0; 0, 0, 0; 0, 0, 0] 0 : Solid 𝕜) with
    F := fun _ => !![27 / 50, -18 / 25, 0; 4 / 5, 3 / 5, 0; 0, 0, 1] }

/-- A single particle compressed to half its length along the first axis:
`F = diag(1/2, 1, 1)`, `J = 1/2`, `vol = 1/2` and `rho = 2` for `vol0 = rho0 = 1`. -/
def Solid.compressed : Solid 𝕜 :=
  { (Solid.atRest 1 0 0 : Solid 𝕜) with
    F := fun _ => !![1 / 2, 0, 0; 0, 1, 0; 0, 0, 1]
    Finv := fun _ => !![2, 0, 0; 0, 1, 0; 0, 0, 1]
    J := fun _ => 1 / 2
    vol := fun _ => 1 / 2
    rho := fun _ => 2
    dtCFL := 10 ^ 22 }

/-- A single undeformed particle of density `1e23` with the initial `dtCFL = 1e22`. -/
def Solid.dense : Solid 𝕜 :=
  { (Solid.atRest 1 0 0 : Solid 𝕜) with
    Finv := fun _ => 1
    rho0 := fun _ => 10 ^ 23
    rho := fun _ => 10 ^ 23
    dtCFL := 10 ^ 22 }

/-- A grid of two nodes at `x = 0` and `x = 1` on the first axis. -/
def Grid.twoNodes : Grid 𝕜 :=
  { (Grid.blank 1 : Grid 𝕜) with
    nnodes := 2
    x := fun node => ![(node : 𝕜), 0, 0]
    x0 := fun node => ![(node : 𝕜), 0, 0] }

/-- A single particle of mass 2 at `x = 3/4` between the two nodes of `Grid.twoNodes`, with
the linear weights `1/4` and `3/4`, listed both by particle and by node; it moves with
velocity `(1, 0, 0)` and `Fdot = diag(1, 0, 0)`. -/
def Solid.twoNodes : Solid 𝕜 :=
  { (Solid.singleCell : Solid 𝕜) with
    x := fun _ => ![3 / 4, 0, 0]
    x0 := fun _ => ![3 / 4, 0, 0]
    v := fun _ => ![1, 0, 0]
    Fdot := fun _ => !![1, 0, 0; 0, 0, 0; 0, 0, 0]
    mass := fun _ => 2
    wf_pn := fun _ j => if j = 0 then 1 / 4 else 3 / 4
    numneigh_np := fun _ => 1
    neigh_np := fun _ _ => 0
    wf_np := fun node _ => if node = 0 then 1 / 4 else 3 / 4 }

/-- Modelled from the spec: the test `domain->inside` for the problem box `[0,1]³`; it
returns 1 for a point of the box and 0 for any other point. -/
def inside_unit_box (x : Vector3d 𝕜) : Int :=
  if 0 ≤ x 0 ∧ x 0 ≤ 1 ∧ 0 ≤ x 1 ∧ x 1 ≤ 1 ∧ 0 ≤ x 2 ∧ x 2 ≤ 1 then 1 else 0

/-- A single particle at `x = (1/2, 0, 0)` with `v_update = (1, 0, 0)`: a step `dt = 1`
carries it to `(3/2, 0, 0)`, outside the box `[0,1]³`. -/
def Solid.leaving : Solid 𝕜 :=
  { (Solid.atRest 1 0 0 : Solid 𝕜) with
    x := fun _ => ![1 / 2, 0, 0]
    x0 := fun _ => ![1 / 2, 0, 0]
    v_update := fun _ => ![1, 0, 0] }

/-- The grid of `Grid.twoNodes` with node 1 moving along the first axis: `v = (1/100,0,0)`
and `v_update = (1/50,0,0)` there, node 0 at rest. -/
def Grid.pulled : Grid 𝕜 :=
  { (Grid.twoNodes : Grid 𝕜) with
    v := fun node => if node = 1 then ![1 / 100, 0, 0] else 0
    v_update := fun node => if node = 1 then ![1 / 50, 0, 0] else 0 }

/-- Two particles with the tags 1 and 2, both with `v = (1,0,0)` and `v_update = (2,0,0)`;
particle 0 carries `strain_el = I`, `Di = I` and `mask = 1`, particle 1 carries zeros. -/
def Solid.pair : Solid 𝕜 :=
  { (Solid.atRest 2 0 0 : Solid 𝕜) with
    ptag := fun i => i + 1
    v := fun _ => ![1, 0, 0]
    v_update := fun _ => ![2, 0, 0]
    strain_el := fun i => if i = 0 then 1 else 0
    Di := fun i => if i = 0 then 1 else 0
    mask := fun i => if i = 0 then 1 else 0 }

/-- The Johnson-Cook damage parameters of scenario S3: `d1 = 0.05`, `d2 = 3.44`,
`d3 = -2.12`, `d4 = 0`, `epsdot0 = 1`. -/
def DamageJohnsonCook.scenario_S3 : DamageJohnsonCook 𝕜 where
  d1 := 5 / 100
  d2 := 344 / 100
  d3 := -212 / 100
  d4 := 0
  epsdot0 := 1

/-- The strain rate of scenario S2: `D = diag(1, -0.5, -0.5)·1e-3`. -/
def D_scenario_S2 : Matrix3d 𝕜 := (1 / 1000 : 𝕜) • !![1, 0, 0; 0, -1 / 2, 0; 0, 0, -1 / 2]

/-- A single undeformed particle that has failed (`damage_init = 2`, `damage = 1`) and is
strained at the rate of scenario S2. -/
def Solid.failed : Solid 𝕜 :=
  { (Solid.atRest 1 0 0 : Solid 𝕜) with
    Finv := fun _ => 1
    D := fun _ => D_scenario_S2
    damage_init := fun _ => 2
    damage := fun _ => 1
    dtCFL := 10 ^ 22 }

/-- A single undeformed particle of unit density with the initial `dtCFL = 1e22`. -/
def Solid.undeformed : Solid 𝕜 :=
  { (Solid.atRest 1 0 0 : Solid 𝕜) with
    Finv := fun _ => 1
    dtCFL := 10 ^ 22 }

/-- Modelled from the spec: a one-dimensional problem on the box `[0, len]`, filled by the
region, seen from the rank that owns the subdomain `[sublo, subhi]`; the membership tests
of the subdomain and of the region look at the first coordinate. -/
def PopulateEnv.line (len sublo subhi : 𝕜) (np_per_cell : Int) (me nprocs : Nat)
    (np_local_of : Nat → Nat) : PopulateEnv 𝕜 where
  dimension := 1
  boxlo := 0
  sublo := ![sublo, 0, 0]
  subhi := ![subhi, 0, 0]
  inside_subdomain := fun x => decide (sublo ≤ x 0 ∧ x 0 ≤ subhi)
  iregion := 0
  limits := fun n => if n = 1 then len else 0
  region_inside := fun x _ _ => if 0 ≤ x ∧ x ≤ len then 1 else 0
  is_TL := true
  is_CPDI := false
  np_per_cell := np_per_cell
  me := me
  nprocs := nprocs
  np_local_of := np_local_of

/-- Modelled from the spec: the unit cube `[0,1]^3` in three dimensions, region and
subdomain of a single rank, with one particle per cell. -/
def PopulateEnv.cube : PopulateEnv 𝕜 where
  dimension := 3
  boxlo := 0
  sublo := 0
  subhi := fun _ => 1
  inside_subdomain := fun x =>
    decide (0 ≤ x 0 ∧ x 0 ≤ 1 ∧ 0 ≤ x 1 ∧ x 1 ≤ 1 ∧ 0 ≤ x 2 ∧ x 2 ≤ 1)
  iregion := 0
  limits := fun n => if n % 2 = 0 then 0 else 1
  region_inside := fun x y z =>
    if 0 ≤ x ∧ x ≤ 1 ∧ 0 ≤ y ∧ y ≤ 1 ∧ 0 ≤ z ∧ z ≤ 1 then 1 else 0
  is_TL := true
  is_CPDI := false
  np_per_cell := 1
  me := 0
  nprocs := 1
  np_local_of := fun _ => 0

/-- Modelled from the spec: the environment of `PopulateEnv.cube` with a CPDI method. -/
def PopulateEnv.cube_CPDI : PopulateEnv 𝕜 :=
  { (PopulateEnv.cube : PopulateEnv 𝕜) with is_CPDI := true }

/-- A single particle stretched to twice its length along the first axis:
`F = diag(2, 1, 1)`, `Finv = diag(1/2, 1, 1)`, `J = 2`, `vol = 2` and `rho = 1/2` for
`vol0 = rho0 = 1`. -/
def Solid.stretched : Solid 𝕜 :=
  { (Solid.atRest 1 0 0 : Solid 𝕜) with
    F := fun _ => !![2, 0, 0; 0, 1, 0; 0, 0, 1]
    Finv := fun _ => !![1 / 2, 0, 0; 0, 1, 0; 0, 0, 1]
    J := fun _ => 2
    vol := fun _ => 2
    rho := fun _ => 1 / 2
    dtCFL := 10 ^ 22 }

end Kernels

/-! # Theorems -/

section Lemmas

variable {𝕜 : Type} [LinearOrderedField 𝕜]

/-! ## Arrays, loops and 3×3 matrices -/

/-- Two solids with the same fields are equal. -/
theorem Solid.eq_of_fields {𝕂 : Type} (s t : Solid 𝕂)
    (h_np : s.np = t.np)
    (h_np_local : s.np_local = t.np_local)
    (h_ptag : s.ptag = t.ptag)
    (h_x : s.x = t.x)
    (h_x0 : s.x0 = t.x0)
    (h_rp : s.rp = t.rp)
    (h_rp0 : s.rp0 = t.rp0)
    (h_xpc : s.xpc = t.xpc)
    (h_xpc0 : s.xpc0 = t.xpc0)
    (h_nc : s.nc = t.nc)
    (h_v : s.v = t.v)
    (h_v_update : s.v_update = t.v_update)
    (h_a : s.a = t.a)
    (h_mb : s.mb = t.mb)
    (h_f : s.f = t.f)
    (h_sigma : s.sigma = t.sigma)
    (h_strain_el : s.strain_el = t.strain_el)
    (h_vol0PK1 : s.vol0PK1 = t.vol0PK1)
    (h_L : s.L = t.L)
    (h_F : s.F = t.F)
    (h_R : s.R = t.R)
    (h_U : s.U = t.U)
    (h_D : s.D = t.D)
    (h_Finv : s.Finv = t.Finv)
    (h_Fdot : s.Fdot = t.Fdot)
    (h_Di : s.Di = t.Di)
    (h_J : s.J = t.J)
    (h_vol0 : s.vol0 = t.vol0)
    (h_vol : s.vol = t.vol)
    (h_vtot : s.vtot = t.vtot)
    (h_rho0 : s.rho0 = t.rho0)
    (h_rho : s.rho = t.rho)
    (h_mass : s.mass = t.mass)
    (h_eff_plastic_strain : s.eff_plastic_strain = t.eff_plastic_strain)
    (h_eff_plastic_strain_rate : s.eff_plastic_strain_rate = t.eff_plastic_strain_rate)
    (h_damage : s.damage = t.damage)
    (h_damage_init : s.damage_init = t.damage_init)
    (h_mask : s.mask = t.mask)
    (h_min_inv_p_wave_speed : s.min_inv_p_wave_speed = t.min_inv_p_wave_speed)
    (h_dtCFL : s.dtCFL = t.dtCFL)
    (h_numneigh_pn : s.numneigh_pn = t.numneigh_pn)
    (h_numneigh_np : s.numneigh_np = t.numneigh_np)
    (h_neigh_pn : s.neigh_pn = t.neigh_pn)
    (h_neigh_np : s.neigh_np = t.neigh_np)
    (h_wf_pn : s.wf_pn = t.wf_pn)
    (h_wf_np : s.wf_np = t.wf_np)
    (h_wfd_pn : s.wfd_pn = t.wfd_pn)
    (h_wfd_np : s.wfd_np = t.wfd_np) :
    s = t := by
  cases s
  cases t
  simp only [Solid.mk.injEq]
  exact ⟨h_np, h_np_local, h_ptag, h_x, h_x0, h_rp, h_rp0, h_xpc, h_xpc0, h_nc, h_v, h_v_update, h_a, h_mb, h_f, h_sigma, h_strain_el, h_vol0PK1, h_L, h_F, h_R, h_U, h_D, h_Finv, h_Fdot, h_Di, h_J, h_vol0, h_vol, h_vtot, h_rho0, h_rho, h_mass, h_eff_plastic_strain, h_eff_plastic_strain_rate, h_damage, h_damage_init, h_mask, h_min_inv_p_wave_speed, h_dtCFL, h_numneigh_pn, h_numneigh_np, h_neigh_pn, h_neigh_np, h_wf_pn, h_wf_np, h_wfd_pn, h_wfd_np⟩

/-- Writing a new entry `n` into an array that is updated below `n` gives the array
updated below `n + 1`. -/
theorem update_below (α : Type) (n : Nat) (a b : Nat → α) (x : α) (hx : x = a n) :
    Function.update (fun i => if i < n then a i else b i) n x
      = fun i => if i < n + 1 then a i else b i := by
  funext i
  by_cases h : i = n
  · subst h; simp [hx]
  · rw [Function.update_noteq h]
    have : (i < n + 1) ↔ (i < n) := by omega
    simp [this]

/-- An invariant of a loop that cannot fail. -/
theorem loop_invariant {σ : Type} (P : σ → Prop) (body : Nat → σ → σ) (n : Nat) (s : σ)
    (h0 : P s) (hstep : ∀ j, j < n → ∀ t, P t → P (body j t)) : P (loop body n s) := by
  induction n with
  | zero => exact h0
  | succ n ih =>
    rw [loop]
    exact hstep n (Nat.lt_succ_self n) _ (ih (fun j hj t ht => hstep j (Nat.lt_succ_of_lt hj) t ht))

/-- The macro `MIN` is the minimum. -/
theorem MIN_eq_min (a b : 𝕜) : MIN a b = min a b := by
  unfold MIN
  split
  · rw [min_eq_left]; exact le_of_lt ‹_›
  · rw [min_eq_right]; exact not_lt.mp ‹_›

/-- The cofactor expansion agrees with the determinant of Mathlib. -/
theorem determinant_eq_det (M : Matrix3d 𝕜) : determinant M = Matrix.det M := by
  rw [Matrix.det_fin_three]; unfold determinant; ring

/-- Eigen's cofactor inverse is a left inverse when the determinant is not zero. -/
theorem inverse_mul_self (M : Matrix3d 𝕜) (h : determinant M ≠ 0) : inverse M * M = 1 := by
  unfold inverse cofactors
  unfold determinant at h ⊢
  ext i j
  fin_cases i <;> fin_cases j <;>
    simp [Matrix.mul_apply, Fin.sum_univ_three, Matrix.one_apply] <;>
    field_simp <;> ring

/-- Eigen's cofactor inverse is a right inverse when the determinant is not zero. -/
theorem mul_inverse_self (M : Matrix3d 𝕜) (h : determinant M ≠ 0) : M * inverse M = 1 := by
  unfold inverse cofactors
  unfold determinant at h ⊢
  ext i j
  fin_cases i <;> fin_cases j <;>
    simp [Matrix.mul_apply, Fin.sum_univ_three, Matrix.one_apply] <;>
    field_simp <;> ring

/-- The determinant of the identity. -/
theorem determinant_one : determinant (1 : Matrix3d 𝕜) = 1 := by
  simp [determinant]

/-- The determinant of the zero matrix. -/
theorem determinant_zero : determinant (0 : Matrix3d 𝕜) = 0 := by
  simp [determinant]

/-- The inverse of the identity. -/
theorem inverse_one : inverse (1 : Matrix3d 𝕜) = 1 := by
  unfold inverse cofactors
  rw [determinant_one]
  ext i j
  fin_cases i <;> fin_cases j <;> simp [Matrix.vecHead, Matrix.vecTail]

/-- The squared norm is the sum of the squared entries. -/
theorem squaredNorm_eq_sum (M : Matrix3d 𝕜) : squaredNorm M = ∑ i, ∑ j, M i j ^ 2 := by
  simp only [squaredNorm, Fin.sum_univ_three]
  ring

/-- The squared norm is non-negative. -/
theorem squaredNorm_nonneg (M : Matrix3d 𝕜) : 0 ≤ squaredNorm M := by
  rw [squaredNorm_eq_sum]
  positivity

/-- Only the zero matrix has squared norm zero. -/
theorem squaredNorm_eq_zero (M : Matrix3d 𝕜) (h : squaredNorm M = 0) : M = 0 := by
  unfold squaredNorm at h
  ext i j
  have h00 := mul_self_nonneg (M 0 0)
  have h01 := mul_self_nonneg (M 0 1)
  have h02 := mul_self_nonneg (M 0 2)
  have h10 := mul_self_nonneg (M 1 0)
  have h11 := mul_self_nonneg (M 1 1)
  have h12 := mul_self_nonneg (M 1 2)
  have h20 := mul_self_nonneg (M 2 0)
  have h21 := mul_self_nonneg (M 2 1)
  have h22 := mul_self_nonneg (M 2 2)
  fin_cases i <;> fin_cases j <;> simp only [Matrix.zero_apply] <;>
    apply mul_self_eq_zero.mp <;>
    exact le_antisymm (by simp only [Fin.mk_zero, Fin.zero_eta, Fin.mk_one, Fin.reduceFinMk] at *; linarith) (mul_self_nonneg _)


/-- The style "tlmpm" sets the flag `tl`. -/
theorem is_tlmpm_tlmpm : is_tlmpm "tlmpm" = true := by decide

/-- The style "tlcpdi" does not set the flag `tl`. -/
theorem is_tlmpm_tlcpdi : is_tlmpm "tlcpdi" = false := by decide

/-- The flag `tl` is set for the style "tlmpm" only. -/
theorem is_tlmpm_iff (method_style : String) : is_tlmpm method_style = true ↔ method_style = "tlmpm" := by
  simp [is_tlmpm]


/-- The literal `four_third` is positive. -/
theorem four_third_pos : (0 : 𝕜) < four_third := by
  unfold four_third
  positivity

/-! ## The deformation update: claims C1, C2, C3 -/

/-- One iteration of `update_deformation_gradient` on the closed form. -/
theorem update_deformation_gradient_particle_after
    (PolDec : Matrix3d 𝕜 → Bool → Bool × Matrix3d 𝕜 × Matrix3d 𝕜)
    (dt : 𝕜) (method_style : String) (mat : Mat 𝕜) (n : Nat) (s : Solid 𝕜) :
    update_deformation_gradient_particle PolDec dt method_style mat n
        (update_deformation_gradient_after PolDec dt method_style mat n s)
      = if determinant (deformation_update (is_tlmpm method_style) dt (s.F n) (s.Fdot n) (s.L n)) < 0
            ∨ (has_eos_and_strength mat = true ∧
                (PolDec (deformation_update (is_tlmpm method_style) dt (s.F n) (s.Fdot n) (s.L n)) false).1 = false)
        then .error ""
        else .ok (update_deformation_gradient_after PolDec dt method_style mat (n + 1) s) := by
  unfold update_deformation_gradient_particle update_deformation_gradient_after
  simp only [Function.update_same, lt_irrefl, if_false, false_and]
  generalize is_tlmpm method_style = tl
  generalize has_eos_and_strength mat = nh
  by_cases hJ : determinant (deformation_update tl dt (s.F n) (s.Fdot n) (s.L n)) < 0
  · simp [hJ]
  · simp only [hJ, if_false, false_or]
    cases nh <;> cases tl <;>
    cases hp : (PolDec (deformation_update _ dt (s.F n) (s.Fdot n) (s.L n)) false).1 <;>
    simp only [hp, if_true, if_false, true_and, false_and, and_true, and_false, Function.update_same,
      Bool.not_false, Bool.not_true, Bool.false_eq_true, not_true_eq_false, not_false_eq_true,
      Bool.and_true, Bool.and_false, Bool.true_and, Bool.false_and] <;>
    (try (congr 1; apply Solid.eq_of_fields <;> simp only [] <;>
      (funext i; by_cases h : i = n
       · subst h; simp
       · have h1 : (i < n + 1) ↔ (i < n) := by omega
         simp [Function.update_noteq h, h1])))

/-- Before the first iteration the closed form is the initial state. -/
theorem update_deformation_gradient_after_zero
    (PolDec : Matrix3d 𝕜 → Bool → Bool × Matrix3d 𝕜 × Matrix3d 𝕜)
    (dt : 𝕜) (method_style : String) (mat : Mat 𝕜) (s : Solid 𝕜) :
    update_deformation_gradient_after PolDec dt method_style mat 0 s = s := by
  unfold update_deformation_gradient_after
  apply Solid.eq_of_fields <;> simp

/-- When no iteration below `n` fails, the loop reaches the closed form. -/
theorem update_deformation_gradient_loop_ok
    (PolDec : Matrix3d 𝕜 → Bool → Bool × Matrix3d 𝕜 × Matrix3d 𝕜)
    (dt : 𝕜) (method_style : String) (mat : Mat 𝕜) (s : Solid 𝕜) (n : Nat)
    (h : ∀ i, i < n → ¬ update_deformation_gradient_fails_at PolDec dt method_style mat s i) :
    forLoop (update_deformation_gradient_particle PolDec dt method_style mat) n s
      = .ok (update_deformation_gradient_after PolDec dt method_style mat n s) := by
  induction n with
  | zero => simp [forLoop, update_deformation_gradient_after_zero]
  | succ n ih =>
    rw [forLoop, ih (fun i hi => h i (Nat.lt_succ_of_lt hi))]
    simp only []
    rw [update_deformation_gradient_particle_after]
    have hn := h n (Nat.lt_succ_self n)
    unfold update_deformation_gradient_fails_at at hn
    simp only [] at hn
    rw [if_neg hn]

/-- When some iteration below `n` fails, the loop ends the run. -/
theorem update_deformation_gradient_loop_error
    (PolDec : Matrix3d 𝕜 → Bool → Bool × Matrix3d 𝕜 × Matrix3d 𝕜)
    (dt : 𝕜) (method_style : String) (mat : Mat 𝕜) (s : Solid 𝕜) (n : Nat)
    (h : ∃ i, i < n ∧ update_deformation_gradient_fails_at PolDec dt method_style mat s i) :
    forLoop (update_deformation_gradient_particle PolDec dt method_style mat) n s
      = .error "" := by
  induction n with
  | zero => obtain ⟨i, hi, _⟩ := h; omega
  | succ n ih =>
    by_cases hprev : ∃ i, i < n ∧ update_deformation_gradient_fails_at PolDec dt method_style mat s i
    · rw [forLoop, ih hprev]
    · have hall : ∀ i, i < n →
          ¬ update_deformation_gradient_fails_at PolDec dt method_style mat s i := by
        intro i hi hb; exact hprev ⟨i, hi, hb⟩
      rw [forLoop, update_deformation_gradient_loop_ok PolDec dt method_style mat s n hall]
      simp only []
      rw [update_deformation_gradient_particle_after]
      obtain ⟨i, hi, hb⟩ := h
      have hin : i = n := by
        by_contra hne
        exact hall i (by omega) hb
      subst hin
      unfold update_deformation_gradient_fails_at at hb
      simp only [] at hb
      rw [if_pos hb]

/-- The result of `update_deformation_gradient` in closed form: an error exactly when some
particle fails, and the closed-form state otherwise. -/
theorem update_deformation_gradient_eq
    (PolDec : Matrix3d 𝕜 → Bool → Bool × Matrix3d 𝕜 × Matrix3d 𝕜)
    (dt : 𝕜) (method_style : String) (mat : Mat 𝕜) (s : Solid 𝕜) :
    ((∃ i, i < s.np ∧ update_deformation_gradient_fails_at PolDec dt method_style mat s i) ∧
        update_deformation_gradient PolDec dt method_style mat s = .error "") ∨
    ((∀ i, i < s.np → ¬ update_deformation_gradient_fails_at PolDec dt method_style mat s i) ∧
        update_deformation_gradient PolDec dt method_style mat s
          = .ok (update_deformation_gradient_after PolDec dt method_style mat s.np s)) := by
  by_cases h : ∃ i, i < s.np ∧ update_deformation_gradient_fails_at PolDec dt method_style mat s i
  · exact Or.inl ⟨h, update_deformation_gradient_loop_error PolDec dt method_style mat s s.np h⟩
  · have hall : ∀ i, i < s.np →
        ¬ update_deformation_gradient_fails_at PolDec dt method_style mat s i := by
      intro i hi hb; exact h ⟨i, hi, hb⟩
    exact Or.inr ⟨hall, update_deformation_gradient_loop_ok PolDec dt method_style mat s s.np hall⟩

/-- C1 (amended): `update_deformation_gradient` ends the run if and only if, for some
particle, the updated deformation gradient has a negative determinant, or the material
has both an EOS and a strength model and `PolDec` reports failure on it. When the call
returns, every particle carries the updated `F`, `J = det F`, and `J ≥ 0`. -/
theorem update_deformation_gradient_fails_iff
    (PolDec : Matrix3d 𝕜 → Bool → Bool × Matrix3d 𝕜 × Matrix3d 𝕜)
    (dt : 𝕜) (method_style : String) (mat : Mat 𝕜) (s : Solid 𝕜) :
    ((∃ e, update_deformation_gradient PolDec dt method_style mat s = .error e) ↔
      ∃ ip, ip < s.np ∧
        (determinant (deformation_update (is_tlmpm method_style) dt (s.F ip) (s.Fdot ip) (s.L ip)) < 0
          ∨ (has_eos_and_strength mat = true ∧
              (PolDec (deformation_update (is_tlmpm method_style) dt (s.F ip) (s.Fdot ip) (s.L ip))
                false).1 = false)))
    ∧ ∀ s', update_deformation_gradient PolDec dt method_style mat s = .ok s' →
        ∀ ip, ip < s.np →
          s'.F ip = deformation_update (is_tlmpm method_style) dt (s.F ip) (s.Fdot ip) (s.L ip)
          ∧ s'.J ip = determinant (s'.F ip) ∧ 0 ≤ s'.J ip := by
  rcases update_deformation_gradient_eq PolDec dt method_style mat s with ⟨hbad, herr⟩ | ⟨hgood, hok⟩
  · refine ⟨⟨fun _ => hbad, fun _ => ⟨_, herr⟩⟩, ?_⟩
    intro s' hs'
    rw [herr] at hs'
    cases hs'
  · refine ⟨⟨?_, ?_⟩, ?_⟩
    · rintro ⟨e, he⟩
      rw [hok] at he
      cases he
    · rintro ⟨ip, hip, hb⟩
      exact absurd hb (hgood ip hip)
    · intro s' hs' ip hip
      rw [hok] at hs'
      injection hs' with hs'
      subst hs'
      have hb := hgood ip hip
      unfold update_deformation_gradient_fails_at at hb
      simp only [not_or, not_lt] at hb
      simp only [update_deformation_gradient_after, hip, if_true]
      exact ⟨trivial, trivial, hb.1⟩


/-- C1, counterexample: one particle with `F = I`, `Fdot = -I`, `dt = 1` in tlmpm has
the updated `F = 0` and `det F = 0 ≤ 0`, yet `update_deformation_gradient` returns
normally, and `J[0] > 0` does not hold afterwards. -/
theorem update_deformation_gradient_accepts_zero_determinant :
    (∃ ip, ip < (Solid.atRest 1 (-1) 0 : Solid ℚ).np ∧
      determinant (deformation_update (is_tlmpm "tlmpm") (1 : ℚ)
        ((Solid.atRest 1 (-1) 0 : Solid ℚ).F ip) ((Solid.atRest 1 (-1) 0 : Solid ℚ).Fdot ip)
        ((Solid.atRest 1 (-1) 0 : Solid ℚ).L ip)) ≤ 0)
    ∧ ∃ s', update_deformation_gradient PolDec_identity (1 : ℚ) "tlmpm" (Mat.plain 1 1 1 1 1)
          (Solid.atRest 1 (-1) 0) = .ok s' ∧ ¬ (0 < s'.J 0) := by
  have hF : deformation_update (is_tlmpm "tlmpm") (1 : ℚ) (1 : Matrix3d ℚ) (-1) 0 = 0 := by
    simp [deformation_update, is_tlmpm_tlmpm]
  refine ⟨⟨0, by simp [Solid.atRest, Solid.blank], ?_⟩, ?_⟩
  · simp only [Solid.atRest]
    rw [hF, determinant_zero]
  · rcases update_deformation_gradient_eq PolDec_identity (1 : ℚ) "tlmpm" (Mat.plain 1 1 1 1 1)
        (Solid.atRest 1 (-1) 0) with ⟨⟨i, _, hb⟩, _⟩ | ⟨_, hok⟩
    · exfalso
      simp only [update_deformation_gradient_fails_at, Solid.atRest] at hb
      rw [hF, determinant_zero] at hb
      simp [has_eos_and_strength, Mat.plain] at hb
    · refine ⟨_, hok, ?_⟩
      simp only [update_deformation_gradient_after, Solid.atRest, Solid.blank]
      simp [hF, determinant_zero]


/-- C2 (amended): after `update_deformation_gradient` returns, every particle has
`J = det F`, `vol = J*vol0`, `rho = rho0/J` (with `vol0`, `rho0` unchanged); and every
particle with `J ≠ 0` has `Finv` the two-sided inverse of `F` and
`rho*vol = rho0*vol0`. -/
theorem update_deformation_gradient_volume_density
    (PolDec : Matrix3d 𝕜 → Bool → Bool × Matrix3d 𝕜 × Matrix3d 𝕜)
    (dt : 𝕜) (method_style : String) (mat : Mat 𝕜) (s s' : Solid 𝕜)
    (hs' : update_deformation_gradient PolDec dt method_style mat s = .ok s')
    (ip : Nat) (hip : ip < s.np) :
    s'.J ip = determinant (s'.F ip) ∧ s'.vol ip = s'.J ip * s'.vol0 ip
      ∧ s'.rho ip = s'.rho0 ip / s'.J ip
      ∧ s'.vol0 ip = s.vol0 ip ∧ s'.rho0 ip = s.rho0 ip
      ∧ (s'.J ip ≠ 0 →
          s'.Finv ip * s'.F ip = 1 ∧ s'.F ip * s'.Finv ip = 1
            ∧ s'.rho ip * s'.vol ip = s'.rho0 ip * s'.vol0 ip) := by
  rcases update_deformation_gradient_eq PolDec dt method_style mat s with ⟨_, herr⟩ | ⟨_, hok⟩
  · rw [herr] at hs'
    cases hs'
  · rw [hok] at hs'
    injection hs' with hs'
    subst hs'
    simp only [update_deformation_gradient_after, hip, if_true]
    refine ⟨trivial, trivial, trivial, trivial, trivial, ?_⟩
    intro hJ
    refine ⟨inverse_mul_self _ hJ, mul_inverse_self _ hJ, ?_⟩
    field_simp
    ring

/-- C2, witness: one particle with `F = I`, `Fdot = I`, `dt = 1` has `J = 8`,
`vol = 8`, `rho = 1/8` after the update. -/
theorem update_deformation_gradient_volume_density_witness :
    ∃ s', update_deformation_gradient PolDec_identity (1 : ℚ) "tlmpm" (Mat.plain 1 1 1 1 1)
          (Solid.atRest 1 1 0) = .ok s'
      ∧ s'.J 0 = 8 ∧ s'.vol 0 = 8 ∧ s'.rho 0 = 1 / 8 ∧ s'.Finv 0 * s'.F 0 = 1
      ∧ s'.rho 0 * s'.vol 0 = s'.rho0 0 * s'.vol0 0 := by
  have hF : deformation_update (is_tlmpm "tlmpm") (1 : ℚ) (1 : Matrix3d ℚ) 1 0 = (2 : ℚ) • 1 := by
    simp [deformation_update, is_tlmpm_tlmpm, two_smul]
  have hdet : determinant ((2 : ℚ) • (1 : Matrix3d ℚ)) = 8 := by
    simp [determinant]; norm_num
  rcases update_deformation_gradient_eq PolDec_identity (1 : ℚ) "tlmpm" (Mat.plain 1 1 1 1 1)
      (Solid.atRest 1 1 0) with ⟨⟨i, _, hb⟩, _⟩ | ⟨_, hok⟩
  · exfalso
    simp only [update_deformation_gradient_fails_at, Solid.atRest] at hb
    rw [hF, hdet] at hb
    norm_num [has_eos_and_strength, Mat.plain] at hb
  · refine ⟨_, hok, ?_⟩
    have h := update_deformation_gradient_volume_density PolDec_identity (1 : ℚ) "tlmpm"
      (Mat.plain 1 1 1 1 1) (Solid.atRest 1 1 0) _ hok 0 (by simp [Solid.atRest, Solid.blank])
    have hJ : (update_deformation_gradient_after PolDec_identity (1 : ℚ) "tlmpm"
        (Mat.plain 1 1 1 1 1) (Solid.atRest 1 1 0 : Solid ℚ).np (Solid.atRest 1 1 0)).J 0 = 8 := by
      simp only [update_deformation_gradient_after, Solid.atRest, Solid.blank]
      simp [hF, hdet]
    obtain ⟨_, h2, h3, h4, h5, h6⟩ := h
    rw [h4] at h2
    rw [h5] at h3
    rw [hJ] at h2 h3 h6
    have h6' := h6 (by norm_num)
    have hv0 : (Solid.atRest 1 1 0 : Solid ℚ).vol0 0 = 1 := rfl
    have hr0 : (Solid.atRest 1 1 0 : Solid ℚ).rho0 0 = 1 := rfl
    rw [hv0] at h2
    rw [hr0] at h3
    exact ⟨hJ, by rw [h2]; norm_num, h3, h6'.1, h6'.2.2⟩

/-- C2, counterexample: for one particle with `F = I`, `Fdot = -I`, `dt = 1`,
`rho0 = vol0 = 1` the call returns normally with a singular `F[0]`: `Finv[0]` is not
its inverse (no matrix is), and `rho*vol ≠ rho0*vol0`. -/
theorem update_deformation_gradient_singular_no_inverse :
    ∃ s', update_deformation_gradient PolDec_identity (1 : ℚ) "tlmpm" (Mat.plain 1 1 1 1 1)
          (Solid.atRest 1 (-1) 0) = .ok s'
      ∧ s'.Finv 0 * s'.F 0 ≠ 1 ∧ (∀ M : Matrix3d ℚ, M * s'.F 0 ≠ 1)
      ∧ s'.rho 0 * s'.vol 0 ≠ s'.rho0 0 * s'.vol0 0 := by
  have hF : deformation_update (is_tlmpm "tlmpm") (1 : ℚ) (1 : Matrix3d ℚ) (-1) 0 = 0 := by
    simp [deformation_update, is_tlmpm_tlmpm]
  have h10 : (1 : Matrix3d ℚ) ≠ 0 := by
    intro h
    have := congrFun (congrFun h 0) 0
    simp at this
  rcases update_deformation_gradient_eq PolDec_identity (1 : ℚ) "tlmpm" (Mat.plain 1 1 1 1 1)
      (Solid.atRest 1 (-1) 0) with ⟨⟨i, _, hb⟩, _⟩ | ⟨_, hok⟩
  · exfalso
    simp only [update_deformation_gradient_fails_at, Solid.atRest] at hb
    rw [hF, determinant_zero] at hb
    simp [has_eos_and_strength, Mat.plain] at hb
  · refine ⟨_, hok, ?_⟩
    simp only [update_deformation_gradient_after, Solid.atRest, Solid.blank]
    simp only [hF, determinant_zero, Nat.lt_one_iff, if_true, mul_zero, zero_mul, div_zero]
    refine ⟨fun h => h10 h.symm, fun M h => h10 h.symm, ?_⟩
    norm_num

/-- C3, the code at the failing input: in the Total-Lagrangian style "tlcpdi", one
particle with `F = I`, `Fdot = I`, `L = 0`, `dt = 1` keeps `F = I` (the code applies
`(I + dt*L)*F`), while `F + dt*Fdot = 2I`. -/
theorem update_deformation_gradient_tlcpdi_ignores_Fdot :
    ∃ s', update_deformation_gradient PolDec_identity (1 : ℚ) "tlcpdi" (Mat.plain 1 1 1 1 1)
          (Solid.atRest 1 1 0) = .ok s'
      ∧ s'.F 0 = 1
      ∧ (Solid.atRest 1 1 0 : Solid ℚ).F 0 + (1 : ℚ) • (Solid.atRest 1 1 0 : Solid ℚ).Fdot 0
          = (2 : ℚ) • (1 : Matrix3d ℚ)
      ∧ s'.F 0 ≠ (Solid.atRest 1 1 0 : Solid ℚ).F 0
          + (1 : ℚ) • (Solid.atRest 1 1 0 : Solid ℚ).Fdot 0 := by
  have hF : deformation_update (is_tlmpm "tlcpdi") (1 : ℚ) (1 : Matrix3d ℚ) 1 0 = 1 := by
    simp [deformation_update, is_tlmpm_tlcpdi]
  have h12 : (1 : Matrix3d ℚ) ≠ (2 : ℚ) • (1 : Matrix3d ℚ) := by
    intro h
    have := congrFun (congrFun h 0) 0
    simp at this
  rcases update_deformation_gradient_eq PolDec_identity (1 : ℚ) "tlcpdi" (Mat.plain 1 1 1 1 1)
      (Solid.atRest 1 1 0) with ⟨⟨i, _, hb⟩, _⟩ | ⟨_, hok⟩
  · exfalso
    simp only [update_deformation_gradient_fails_at, Solid.atRest] at hb
    rw [hF, determinant_one] at hb
    norm_num [has_eos_and_strength, Mat.plain] at hb
  · refine ⟨_, hok, ?_⟩
    simp only [update_deformation_gradient_after, Solid.atRest, Solid.blank]
    simp only [hF, Nat.lt_one_iff, if_true, one_smul]
    refine ⟨trivial, ?_, ?_⟩
    · rw [two_smul]
    · rw [← two_smul ℚ (1 : Matrix3d ℚ)]
      exact h12

/-! ## The stress update: claims C4, C5 -/

/-- The flag `nh` of `update_stress` is set exactly when a sub-model is missing. -/
theorem update_stress_nh_iff {𝕂 : Type} (mat : Mat 𝕂) :
    update_stress_nh mat = true ↔ (mat.eos = none ∨ mat.strength = none) := by
  unfold update_stress_nh
  cases mat.eos <;> cases mat.strength <;> simp

/-- Without an EOS the flag of `update_deformation_gradient` is off. -/
theorem has_eos_and_strength_of_none {𝕂 : Type} (mat : Mat 𝕂) (h : mat.eos = none) :
    has_eos_and_strength mat = false := by
  simp [has_eos_and_strength, h]

/-- Before the first iteration the Neo-Hookean closed form is the initial state. -/
theorem update_stress_neo_hookean_after_zero (m : Libm 𝕜) (mat : Mat 𝕜) (s : Solid 𝕜) :
    update_stress_neo_hookean_after m mat 0 s = s := by
  unfold update_stress_neo_hookean_after
  apply Solid.eq_of_fields <;> simp

/-- One Neo-Hookean iteration on the closed form. -/
theorem update_stress_neo_hookean_step (m : Libm 𝕜) (mat : Mat 𝕜) (n : Nat) (s : Solid 𝕜) :
    update_stress_neo_hookean m mat n (update_stress_neo_hookean_after m mat n s)
      = update_stress_neo_hookean_after m mat (n + 1) s := by
  unfold update_stress_neo_hookean update_stress_neo_hookean_after
  simp only []
  apply Solid.eq_of_fields <;> simp only [] <;>
    (funext i; by_cases h : i = n
     · subst h; simp
     · have h1 : (i < n + 1) ↔ (i < n) := by omega
       simp [Function.update_noteq h, h1])

/-- The first loop of `update_stress` in the Neo-Hookean branch never fails and
reaches the closed form. -/
theorem update_stress_neo_hookean_loop (m : Libm 𝕜) (dt : 𝕜) (tl : Bool) (grid : Grid 𝕜)
    (mat : Mat 𝕜) (n : Nat) (s : Solid 𝕜) :
    forLoop (update_stress_particle m dt tl true grid mat) n s
      = .ok (update_stress_neo_hookean_after m mat n s) := by
  induction n with
  | zero => simp [forLoop, update_stress_neo_hookean_after_zero]
  | succ n ih =>
    rw [forLoop, ih]
    simp only [update_stress_particle, if_true]
    rw [update_stress_neo_hookean_step]

/-- The second loop of `update_stress` when the running minimum stays non-negative. -/
theorem cfl_loop_ok (mat : Mat 𝕜) (s : Solid 𝕜) (n : Nat)
    (h0 : s.min_inv_p_wave_speed = 10 ^ 22)
    (h : ∀ i, i < n → ¬ cfl_min_inv mat s (i + 1) < 0) :
    forLoop (update_stress_cfl_particle mat) n (s, (10 ^ 22 : 𝕜))
      = .ok ({ s with min_inv_p_wave_speed := cfl_min_inv mat s n }, cfl_min_h_ratio s n) := by
  induction n with
  | zero => simp [forLoop, cfl_min_inv, cfl_min_h_ratio, ← h0]
  | succ n ih =>
    rw [forLoop, ih (fun i hi => h i (Nat.lt_succ_of_lt hi))]
    have hn := h n (Nat.lt_succ_self n)
    rw [cfl_min_inv] at hn
    simp only [update_stress_cfl_particle, isnan, Bool.false_eq_true, if_false, hn]
    simp only [cfl_min_inv, cfl_min_h_ratio]

/-- The second loop of `update_stress` ends the run when the running minimum becomes
negative. -/
theorem cfl_loop_error (mat : Mat 𝕜) (s : Solid 𝕜) (n : Nat)
    (h0 : s.min_inv_p_wave_speed = 10 ^ 22)
    (h : ∃ i, i < n ∧ cfl_min_inv mat s (i + 1) < 0) :
    forLoop (update_stress_cfl_particle mat) n (s, (10 ^ 22 : 𝕜))
      = .error "" := by
  induction n with
  | zero => obtain ⟨i, hi, _⟩ := h; omega
  | succ n ih =>
    by_cases hprev : ∃ i, i < n ∧ cfl_min_inv mat s (i + 1) < 0
    · rw [forLoop, ih hprev]
    · have hall : ∀ i, i < n → ¬ cfl_min_inv mat s (i + 1) < 0 := by
        intro i hi hb; exact hprev ⟨i, hi, hb⟩
      rw [forLoop, cfl_loop_ok mat s n h0 hall]
      obtain ⟨i, hi, hb⟩ := h
      have hin : i = n := by
        by_contra hne
        exact hall i (by omega) hb
      subst hin
      rw [cfl_min_inv] at hb
      simp only [update_stress_cfl_particle, isnan, Bool.false_eq_true, if_false, hb, if_true]


/-- The result of `update_stress` from the state left by its first loop. -/
theorem update_stress_of_first_loop (m : Libm 𝕜) (dt : 𝕜) (method_style : String)
    (grid : Grid 𝕜) (mat : Mat 𝕜) (s s1 : Solid 𝕜)
    (h1 : forLoop (update_stress_particle m dt (is_tlmpm method_style) (update_stress_nh mat) grid mat)
      s.np { s with min_inv_p_wave_speed := (10 ^ 22 : 𝕜) } = .ok s1)
    (hmin : s1.min_inv_p_wave_speed = 10 ^ 22) :
    ((∃ i, i < s1.np ∧ cfl_min_inv mat s1 (i + 1) < 0) ∧
        update_stress m dt method_style grid mat s = .error "") ∨
    ((∀ i, i < s1.np → ¬ cfl_min_inv mat s1 (i + 1) < 0) ∧
        update_stress m dt method_style grid mat s = .ok (update_stress_finish m grid mat s1)) := by
  by_cases h : ∃ i, i < s1.np ∧ cfl_min_inv mat s1 (i + 1) < 0
  · refine Or.inl ⟨h, ?_⟩
    unfold update_stress
    simp only [h1, cfl_loop_error mat s1 s1.np hmin h]
  · have hall : ∀ i, i < s1.np → ¬ cfl_min_inv mat s1 (i + 1) < 0 := by
      intro i hi hb; exact h ⟨i, hi, hb⟩
    refine Or.inr ⟨hall, ?_⟩
    unfold update_stress
    simp only [h1, cfl_loop_ok mat s1 s1.np hmin hall, isnan, Bool.false_eq_true, if_false]
    rfl

/-- The running minimum is non-negative when every `rho/(K + four_third*G)` is. -/
theorem cfl_min_inv_nonneg (mat : Mat 𝕜) (s : Solid 𝕜) (n : Nat)
    (h : ∀ i, i < n → 0 ≤ s.rho i / (mat.K + four_third * mat.G)) :
    0 ≤ cfl_min_inv mat s n := by
  induction n with
  | zero => simp [cfl_min_inv]
  | succ n ih =>
    rw [cfl_min_inv]
    unfold MIN
    split
    · exact ih (fun i hi => h i (Nat.lt_succ_of_lt hi))
    · exact h n (Nat.lt_succ_self n)

/-- In the Neo-Hookean branch `update_stress` returns when every
`rho/(K + four_third*G)` is non-negative. -/
theorem update_stress_neo_hookean_returns (m : Libm 𝕜) (dt : 𝕜) (method_style : String)
    (grid : Grid 𝕜) (mat : Mat 𝕜) (s : Solid 𝕜) (hnh : update_stress_nh mat = true)
    (hrho : ∀ i, i < s.np → 0 ≤ s.rho i / (mat.K + four_third * mat.G)) :
    ∃ s', update_stress m dt method_style grid mat s = .ok s' := by
  have hloop := update_stress_neo_hookean_loop m dt (is_tlmpm method_style) grid mat s.np
    { s with min_inv_p_wave_speed := (10 ^ 22 : 𝕜) }
  rw [← hnh] at hloop
  rcases update_stress_of_first_loop m dt method_style grid mat s _ hloop rfl
    with ⟨⟨i, hi, hb⟩, _⟩ | ⟨_, hok⟩
  · exfalso
    have := cfl_min_inv_nonneg mat
      (update_stress_neo_hookean_after m mat s.np { s with min_inv_p_wave_speed := (10 ^ 22 : 𝕜) })
      (i + 1) (fun j hj => hrho j (by
        have : i < s.np := hi
        omega))
    exact absurd hb (not_lt.mpr this)
  · exact ⟨_, hok⟩

/-- In the Neo-Hookean branch a returned state is the closed form. -/
theorem update_stress_neo_hookean_eq (m : Libm 𝕜) (dt : 𝕜) (method_style : String)
    (grid : Grid 𝕜) (mat : Mat 𝕜) (s s' : Solid 𝕜) (hnh : update_stress_nh mat = true)
    (hs' : update_stress m dt method_style grid mat s = .ok s') :
    s' = update_stress_finish m grid mat
      (update_stress_neo_hookean_after m mat s.np { s with min_inv_p_wave_speed := (10 ^ 22 : 𝕜) }) := by
  have hloop := update_stress_neo_hookean_loop m dt (is_tlmpm method_style) grid mat s.np
    { s with min_inv_p_wave_speed := (10 ^ 22 : 𝕜) }
  rw [← hnh] at hloop
  rcases update_stress_of_first_loop m dt method_style grid mat s _ hloop rfl
    with ⟨_, herr⟩ | ⟨_, hok⟩
  · rw [herr] at hs'
    cases hs'
  · rw [hok] at hs'
    injection hs' with hs'
    exact hs'.symm


/-- C4 (amended): `update_stress` takes the Neo-Hookean branch if and only if at
least one of the material's EOS and strength model is null: then the loop body is the
Neo-Hookean one; and when both are present the loop body is the EOS + strength one. -/
theorem update_stress_branch (m : Libm 𝕜) (dt : 𝕜) (tl : Bool) (grid : Grid 𝕜) (mat : Mat 𝕜)
    (ip : Nat) (s : Solid 𝕜) :
    (update_stress_nh mat = true ↔ (mat.eos = none ∨ mat.strength = none))
    ∧ ((mat.eos = none ∨ mat.strength = none) →
        update_stress_particle m dt tl (update_stress_nh mat) grid mat ip s
          = .ok (update_stress_neo_hookean m mat ip s))
    ∧ (∀ eos strength, mat.eos = some eos → mat.strength = some strength →
        update_stress_particle m dt tl (update_stress_nh mat) grid mat ip s
          = update_stress_eos_strength dt tl grid mat eos strength ip s) := by
  refine ⟨update_stress_nh_iff mat, ?_, ?_⟩
  · intro h
    rw [(update_stress_nh_iff mat).mpr h]
    simp [update_stress_particle]
  · intro eos strength he hs
    have hnh : update_stress_nh mat = false := by
      simp [update_stress_nh, he, hs]
    rw [hnh]
    simp [update_stress_particle, he, hs]

/-- C4, witness: a material without sub-models takes the Neo-Hookean body. -/
theorem update_stress_branch_witness :
    update_stress_particle (Libm.mk Real.sqrt Real.log Real.exp Real.rpow) (1 : ℝ) true
        (update_stress_nh (Mat.plain 1 1 1 1 1 : Mat ℝ)) (Grid.blank 1) (Mat.plain 1 1 1 1 1) 0
        (Solid.atRest 1 0 0)
      = .ok (update_stress_neo_hookean (Libm.mk Real.sqrt Real.log Real.exp Real.rpow) (Mat.plain 1 1 1 1 1) 0
          (Solid.atRest 1 0 0)) :=
  (update_stress_branch (Libm.mk Real.sqrt Real.log Real.exp Real.rpow) (1 : ℝ) true (Grid.blank 1)
    (Mat.plain 1 1 1 1 1) 0 (Solid.atRest 1 0 0)).2.1 (Or.inl rfl)

/-- C4, counterexample: a material with an EOS and without strength model is not
"both null", yet `update_stress` sets `nh` and runs the Neo-Hookean body. -/
theorem update_stress_eos_without_strength_is_neo_hookean :
    ¬ ((Mat.eosOnly 1 1 1 1 1 : Mat ℝ).eos = none ∧ (Mat.eosOnly 1 1 1 1 1 : Mat ℝ).strength = none)
    ∧ update_stress_nh (Mat.eosOnly 1 1 1 1 1 : Mat ℝ) = true
    ∧ update_stress_particle (Libm.mk Real.sqrt Real.log Real.exp Real.rpow) (1 : ℝ) true
          (update_stress_nh (Mat.eosOnly 1 1 1 1 1 : Mat ℝ)) (Grid.blank 1) (Mat.eosOnly 1 1 1 1 1) 0
          (Solid.atRest 1 0 0)
        = .ok (update_stress_neo_hookean (Libm.mk Real.sqrt Real.log Real.exp Real.rpow) (Mat.eosOnly 1 1 1 1 1) 0
            (Solid.atRest 1 0 0)) := by
  refine ⟨?_, ?_, ?_⟩
  · simp [Mat.eosOnly]
  · simp [update_stress_nh, Mat.eosOnly]
  · simp [update_stress_particle, update_stress_nh, Mat.eosOnly]


/-- C5: in the Neo-Hookean branch of `update_stress`, whenever the call returns, every
particle has `vol0PK1 = vol0*PK1`, `sigma = (1/J)*F*PK1ᵀ` and
`strain_el = (FᵀF − I)/2` with `PK1 = G*(F − Finvᵀ) + lambda*ln(J)*Finvᵀ`, computed
from the particle's `F`, `Finv`, `J` (which the call leaves unchanged); and the call
does return when `K + four_third*G > 0` and no density is negative (the check of the
second loop). -/
theorem update_stress_neo_hookean_formulas (m : Libm 𝕜) (dt : 𝕜) (method_style : String)
    (grid : Grid 𝕜) (mat : Mat 𝕜) (s : Solid 𝕜) (hnh : update_stress_nh mat = true) :
    (0 < mat.K + four_third * mat.G → (∀ i, i < s.np → 0 ≤ s.rho i) →
        ∃ s', update_stress m dt method_style grid mat s = .ok s')
    ∧ ∀ s', update_stress m dt method_style grid mat s = .ok s' → ∀ ip, ip < s.np →
        s'.F ip = s.F ip ∧ s'.Finv ip = s.Finv ip ∧ s'.J ip = s.J ip ∧ s'.vol0 ip = s.vol0 ip
        ∧ s'.vol0PK1 ip
            = s.vol0 ip • neo_hookean_PK1 m mat.G mat.lambda (s.F ip) (s.Finv ip) (s.J ip)
        ∧ s'.sigma ip = (1 / s.J ip) • (s.F ip *
            (neo_hookean_PK1 m mat.G mat.lambda (s.F ip) (s.Finv ip) (s.J ip)).transpose)
        ∧ s'.strain_el ip = (1 / 2 : 𝕜) • ((s.F ip).transpose * s.F ip - 1) := by
  constructor
  · intro hK hrho
    exact update_stress_neo_hookean_returns m dt method_style grid mat s hnh
      (fun i hi => div_nonneg (hrho i hi) (le_of_lt hK))
  · intro s' hs' ip hip
    rw [update_stress_neo_hookean_eq m dt method_style grid mat s s' hnh hs']
    simp [update_stress_finish, update_stress_neo_hookean_after, neo_hookean_PK1, hip]

/-- C5, witness: one particle with `F = I` and a material without sub-models; the
stress update returns and `strain_el = 0`. -/
theorem update_stress_neo_hookean_formulas_witness :
    ∃ s', update_stress (Libm.mk Real.sqrt Real.log Real.exp Real.rpow) (1 : ℝ) "tlmpm"
            (Grid.blank 1) (Mat.plain 1 1 1 1 1) (Solid.atRest 1 0 0) = .ok s'
      ∧ s'.strain_el 0 = 0 := by
  have h := update_stress_neo_hookean_formulas (Libm.mk Real.sqrt Real.log Real.exp Real.rpow)
    (1 : ℝ) "tlmpm" (Grid.blank 1) (Mat.plain 1 1 1 1 1) (Solid.atRest 1 0 0) rfl
  have hpos : (0 : ℝ) < 1 + four_third * 1 := by
    have := four_third_pos (𝕜 := ℝ)
    positivity
  obtain ⟨s', hs'⟩ := h.1 hpos (fun _ _ => zero_le_one)
  refine ⟨s', hs', ?_⟩
  have h7 := (h.2 s' hs' 0 (by simp [Solid.atRest, Solid.blank])).2.2.2.2.2.2
  rw [h7]
  simp [Solid.atRest]

/-! ## The Neo-Hookean round trip: claim C6 -/

/-- The inner loop of a rate kernel only rewrites `Fdot[ip]`. -/
theorem rate_inner_loop {𝕂 : Type} (accumulate : Vector3d 𝕂 → Vector3d 𝕂 → Matrix3d 𝕂 → Matrix3d 𝕂)
    (vn : Nat → Vector3d 𝕂) (ip k : Nat) (s : Solid 𝕂) :
    loop (fun j t =>
        let node := t.neigh_pn ip j
        { t with Fdot := Function.update t.Fdot ip (accumulate (vn node) (t.wfd_pn ip j) (t.Fdot ip)) })
      k s
    = { s with Fdot := (Function.update s.Fdot ip
          (loop (fun j M => accumulate (vn (s.neigh_pn ip j)) (s.wfd_pn ip j) M) k (s.Fdot ip))) } := by
  induction k with
  | zero =>
    simp only [loop]
    apply Solid.eq_of_fields <;> simp
  | succ k ih =>
    rw [loop, ih]
    simp only [loop, Function.update_same, Function.update_idem]

/-- One iteration of the particle loop of a rate kernel writes `Fdot[ip]` only. -/
theorem rate_deformation_gradient_TL_particle_eq
    (accumulate : Vector3d 𝕜 → Vector3d 𝕜 → Matrix3d 𝕜 → Matrix3d 𝕜)
    (vn : Nat → Vector3d 𝕜) (ip : Nat) (s : Solid 𝕜) :
    rate_deformation_gradient_TL_particle accumulate vn ip s
      = { s with Fdot := Function.update s.Fdot ip (rate_of accumulate vn s ip) } := by
  unfold rate_deformation_gradient_TL_particle rate_of
  simp only []
  rw [rate_inner_loop]
  simp only [Function.update_same, Function.update_idem]

/-- The particle loop of a rate kernel in closed form. -/
theorem rate_deformation_gradient_TL_loop
    (accumulate : Vector3d 𝕜 → Vector3d 𝕜 → Matrix3d 𝕜 → Matrix3d 𝕜)
    (vn : Nat → Vector3d 𝕜) (n : Nat) (s : Solid 𝕜) :
    loop (rate_deformation_gradient_TL_particle accumulate vn) n s
      = { s with Fdot := fun i => if i < n then rate_of accumulate vn s i else s.Fdot i } := by
  induction n with
  | zero =>
    simp only [loop]
    apply Solid.eq_of_fields <;> simp
  | succ n ih =>
    rw [loop, ih, rate_deformation_gradient_TL_particle_eq]
    simp only []
    congr 1
    exact update_below _ n _ _ _ rfl

/-- Adding zero to an entry changes nothing. -/
theorem addAt_zero (M : Matrix3d 𝕜) (i k : Fin 3) : addAt M i k 0 = M := by
  funext i' k'
  simp [addAt]

/-- Neighbouring nodes at rest accumulate a zero rate. -/
theorem rate_of_zero_velocity
    (accumulate : Vector3d 𝕜 → Vector3d 𝕜 → Matrix3d 𝕜 → Matrix3d 𝕜)
    (hacc : ∀ w M, accumulate 0 w M = M)
    (vn : Nat → Vector3d 𝕜) (s : Solid 𝕜) (ip : Nat)
    (hv : ∀ j, j < s.numneigh_pn ip → vn (s.neigh_pn ip j) = 0) :
    rate_of accumulate vn s ip = 0 := by
  unfold rate_of
  apply loop_invariant (fun M => M = 0)
  · rfl
  · intro j hj M hM
    rw [hv j hj, hacc, hM]

/-- A node at rest contributes nothing in dimension 1. -/
theorem rate_accumulate_1d_zero (w : Vector3d 𝕜) (M : Matrix3d 𝕜) :
    rate_accumulate_1d 0 w M = M := by
  simp [rate_accumulate_1d, addAt_zero]

/-- A node at rest contributes nothing in dimension 2. -/
theorem rate_accumulate_2d_zero (w : Vector3d 𝕜) (M : Matrix3d 𝕜) :
    rate_accumulate_2d 0 w M = M := by
  simp [rate_accumulate_2d, addAt_zero]

/-- A node at rest contributes nothing in dimension 3. -/
theorem rate_accumulate_3d_zero (w : Vector3d 𝕜) (M : Matrix3d 𝕜) :
    rate_accumulate_3d 0 w M = M := by
  simp [rate_accumulate_3d, addAt_zero]

/-- The effect of `compute_rate_deformation_gradient_TL`: only `Fdot` changes, and it
is zero on every particle whose neighbouring nodes are at rest. -/
theorem compute_rate_deformation_gradient_TL_at_rest (dimension : Nat) (grid : Grid 𝕜)
    (s : Solid 𝕜) (hdim : dimension = 1 ∨ dimension = 2 ∨ dimension = 3) :
    ∃ Fdot', compute_rate_deformation_gradient_TL dimension grid s = { s with Fdot := Fdot' }
      ∧ ∀ ip, ip < s.np → (∀ j, j < s.numneigh_pn ip → grid.v (s.neigh_pn ip j) = 0) →
          Fdot' ip = 0 := by
  rcases hdim with h | h | h <;> subst h <;>
    simp only [compute_rate_deformation_gradient_TL, rate_deformation_gradient_TL_loop] <;>
    refine ⟨_, rfl, ?_⟩ <;> intro ip hip hv <;> simp only [hip, if_true]
  · exact rate_of_zero_velocity _ rate_accumulate_1d_zero _ _ _ hv
  · exact rate_of_zero_velocity _ rate_accumulate_2d_zero _ _ _ hv
  · exact rate_of_zero_velocity _ rate_accumulate_3d_zero _ _ _ hv

/-- In tlmpm a zero rate leaves `F = I` unchanged. -/
theorem deformation_update_at_rest (dt : 𝕜) (L : Matrix3d 𝕜) :
    deformation_update (is_tlmpm "tlmpm") dt 1 0 L = 1 := by
  simp [deformation_update, is_tlmpm_tlmpm]

/-- C6: Neo-Hookean round trip. For a Neo-Hookean material (no EOS, no strength) in
tlmpm and dimension 1, 2 or 3, run `compute_rate_deformation_gradient_TL`,
`update_deformation_gradient` and `update_stress` in sequence. Whenever the sequence
returns, every particle with `F = I` whose neighbouring nodes all have zero velocity
has `Fdot = 0`, `F = I`, `J = 1`, `sigma = 0`, `vol0PK1 = 0` and `strain_el = 0`, for
every `G`, `lambda` and `dt`; and the sequence does return when every particle is in
that situation, `K + four_third*G > 0` and no reference density is negative (the check
of the second loop of `update_stress`). -/
theorem neo_hookean_round_trip
    (PolDec : Matrix3d ℝ → Bool → Bool × Matrix3d ℝ × Matrix3d ℝ)
    (dimension : Nat) (grid : Grid ℝ) (mat : Mat ℝ) (dt : ℝ) (s : Solid ℝ)
    (hdim : dimension = 1 ∨ dimension = 2 ∨ dimension = 3)
    (hmat : mat.eos = none ∧ mat.strength = none) :
    (0 < mat.K + four_third * mat.G →
      (∀ i, i < s.np → s.F i = 1 ∧ (∀ j, j < s.numneigh_pn i → grid.v (s.neigh_pn i j) = 0)
          ∧ 0 ≤ s.rho0 i) →
      ∃ s', update_deformation_gradient PolDec dt "tlmpm" mat
              (compute_rate_deformation_gradient_TL dimension grid s)
            >>= update_stress (Libm.mk Real.sqrt Real.log Real.exp Real.rpow) dt "tlmpm" grid mat
          = .ok s')
    ∧ ∀ s', update_deformation_gradient PolDec dt "tlmpm" mat
              (compute_rate_deformation_gradient_TL dimension grid s)
            >>= update_stress (Libm.mk Real.sqrt Real.log Real.exp Real.rpow) dt "tlmpm" grid mat
          = .ok s' →
        ∀ ip, ip < s.np → s.F ip = 1 →
          (∀ j, j < s.numneigh_pn ip → grid.v (s.neigh_pn ip j) = 0) →
          s'.Fdot ip = 0 ∧ s'.F ip = 1 ∧ s'.J ip = 1 ∧ s'.sigma ip = 0 ∧ s'.vol0PK1 ip = 0
            ∧ s'.strain_el ip = 0 := by
  obtain ⟨Fdot', hrate, hzero⟩ := compute_rate_deformation_gradient_TL_at_rest dimension grid s hdim
  rw [hrate]
  have hnh : update_stress_nh mat = true := (update_stress_nh_iff mat).mpr (Or.inl hmat.1)
  have hes : has_eos_and_strength mat = false := has_eos_and_strength_of_none mat hmat.1
  constructor
  · intro hK hall
    have hgood : ∀ i, i < s.np → ¬ update_deformation_gradient_fails_at PolDec dt "tlmpm" mat
        { s with Fdot := Fdot' } i := by
      intro i hi
      obtain ⟨hF, hv, _⟩ := hall i hi
      simp only [update_deformation_gradient_fails_at, hes, hF, hzero i hi hv,
        deformation_update_at_rest, determinant_one]
      norm_num
    have hok := update_deformation_gradient_loop_ok PolDec dt "tlmpm" mat
      { s with Fdot := Fdot' } s.np hgood
    have hok' : update_deformation_gradient PolDec dt "tlmpm" mat { s with Fdot := Fdot' }
        = .ok (update_deformation_gradient_after PolDec dt "tlmpm" mat s.np { s with Fdot := Fdot' }) :=
      hok
    rw [hok']
    apply update_stress_neo_hookean_returns _ dt "tlmpm" grid mat _ hnh
    intro i hi
    have hi' : i < s.np := hi
    obtain ⟨hF, hv, hr⟩ := hall i hi'
    simp only [update_deformation_gradient_after, hi', if_true, hF, hzero i hi' hv,
      deformation_update_at_rest, determinant_one, div_one]
    exact div_nonneg hr (le_of_lt hK)
  · intro s' hs' ip hip hF hv
    rcases update_deformation_gradient_eq PolDec dt "tlmpm" mat { s with Fdot := Fdot' }
      with ⟨_, herr⟩ | ⟨_, hok⟩
    · rw [herr] at hs'
      cases hs'
    · rw [hok] at hs'
      have hs'' : update_stress (Libm.mk Real.sqrt Real.log Real.exp Real.rpow) dt "tlmpm" grid mat
          (update_deformation_gradient_after PolDec dt "tlmpm" mat s.np { s with Fdot := Fdot' })
          = .ok s' := hs'
      rw [update_stress_neo_hookean_eq _ dt "tlmpm" grid mat _ s' hnh hs'']
      simp [update_stress_finish, update_stress_neo_hookean_after,
        update_deformation_gradient_after, hip, hF, hzero ip hip hv,
        deformation_update_at_rest, determinant_one, inverse_one]

/-- C6, witness: one particle at rest between two nodes at rest, `dt = 1/100`,
`G = lambda = K = 1`, dimension 1. -/
theorem neo_hookean_round_trip_witness :
    ∃ s', update_deformation_gradient PolDec_identity (1 / 100 : ℝ) "tlmpm" (Mat.plain 1 1 1 1 1)
              (compute_rate_deformation_gradient_TL 1 (Grid.blank 1) Solid.singleCell)
            >>= update_stress (Libm.mk Real.sqrt Real.log Real.exp Real.rpow) (1 / 100 : ℝ) "tlmpm"
              (Grid.blank 1) (Mat.plain 1 1 1 1 1)
          = .ok s'
      ∧ s'.Fdot 0 = 0 ∧ s'.F 0 = 1 ∧ s'.J 0 = 1 ∧ s'.sigma 0 = 0 ∧ s'.vol0PK1 0 = 0
      ∧ s'.strain_el 0 = 0 := by
  have h := neo_hookean_round_trip PolDec_identity 1 (Grid.blank 1) (Mat.plain 1 1 1 1 1)
    (1 / 100 : ℝ) Solid.singleCell (Or.inl rfl) ⟨rfl, rfl⟩
  have hpos : (0 : ℝ) < 1 + four_third * 1 := by
    have := four_third_pos (𝕜 := ℝ)
    positivity
  obtain ⟨s', hs'⟩ := h.1 hpos (by
    intro i _
    exact ⟨rfl, fun _ _ => rfl, zero_le_one⟩)
  exact ⟨s', hs', h.2 s' hs' 0 (by simp [Solid.singleCell, Solid.atRest, Solid.blank]) rfl
    (fun _ _ => rfl)⟩

/-! ## Johnson-Cook damage: claims C8, C9, C10 -/


/-- Over the reals the von Mises stress is non-negative. -/
theorem vm_nonneg (Sdev : Matrix3d ℝ) :
    0 ≤ DamageJohnsonCook.vm (Libm.mk Real.sqrt Real.log Real.exp Real.rpow) Sdev := by
  unfold DamageJohnsonCook.vm norm
  exact mul_nonneg (Real.sqrt_nonneg _) (Real.sqrt_nonneg _)

/-- Over the reals `compute_damage` never takes the `exit(1)` of line 44. -/
theorem compute_damage_eq (p : DamageJohnsonCook ℝ) (damage_init damage pH : ℝ)
    (Sdev : Matrix3d ℝ) (epsdot plastic_strain_increment : ℝ) :
    p.compute_damage (Libm.mk Real.sqrt Real.log Real.exp Real.rpow) damage_init damage pH Sdev
        epsdot plastic_strain_increment
      = .ok (damage_init + plastic_strain_increment
              / p.jc_failure_strain (Libm.mk Real.sqrt Real.log Real.exp Real.rpow)
                  (DamageJohnsonCook.triax (Libm.mk Real.sqrt Real.log Real.exp Real.rpow) pH Sdev)
                  epsdot,
            if damage_init + plastic_strain_increment
              / p.jc_failure_strain (Libm.mk Real.sqrt Real.log Real.exp Real.rpow)
                  (DamageJohnsonCook.triax (Libm.mk Real.sqrt Real.log Real.exp Real.rpow) pH Sdev)
                  epsdot ≥ 1
            then MIN ((damage_init + plastic_strain_increment
              / p.jc_failure_strain (Libm.mk Real.sqrt Real.log Real.exp Real.rpow)
                  (DamageJohnsonCook.triax (Libm.mk Real.sqrt Real.log Real.exp Real.rpow) pH Sdev)
                  epsdot - 1) * 10) 1
            else damage) := by
  unfold DamageJohnsonCook.compute_damage
  simp only [not_lt.mpr (vm_nonneg Sdev), if_false]

/-- C8: over the reals `DamageJohnsonCook::compute_damage` always returns, and its
result is the reference accumulation of the specification evaluated at the triaxiality
`triax` of the call; in particular `damage = 1` after a call whenever the new
`damage_init` is at least `1.1`. -/
theorem compute_damage_eq_reference (p : DamageJohnsonCook ℝ) (damage_init damage pH : ℝ)
    (Sdev : Matrix3d ℝ) (epsdot plastic_strain_increment : ℝ) :
    p.compute_damage (Libm.mk Real.sqrt Real.log Real.exp Real.rpow) damage_init damage pH Sdev
        epsdot plastic_strain_increment
      = .ok (damage_accumulation_reference (Libm.mk Real.sqrt Real.log Real.exp Real.rpow) p
          (DamageJohnsonCook.triax (Libm.mk Real.sqrt Real.log Real.exp Real.rpow) pH Sdev)
          damage_init damage epsdot plastic_strain_increment)
    ∧ ∀ out, p.compute_damage (Libm.mk Real.sqrt Real.log Real.exp Real.rpow) damage_init damage
          pH Sdev epsdot plastic_strain_increment = .ok out →
        out.1 ≥ 11 / 10 → out.2 = 1 := by
  have hfs : ∀ chi : ℝ,
      p.jc_failure_strain (Libm.mk Real.sqrt Real.log Real.exp Real.rpow) chi epsdot
        = (if p.d4 > 0 ∧ epsdot > p.epsdot0
            then (p.d1 + p.d2 * Real.exp (p.d3 * chi)) * (1 + p.d4 * Real.log (epsdot / p.epsdot0))
            else p.d1 + p.d2 * Real.exp (p.d3 * chi)) := by
    intro chi
    unfold DamageJohnsonCook.jc_failure_strain
    by_cases h4 : p.d4 > 0 <;> by_cases he : epsdot > p.epsdot0 <;> simp [h4, he]
  constructor
  · rw [compute_damage_eq]
    unfold damage_accumulation_reference
    simp only [hfs, MIN_eq_min, mul_comm _ (10 : ℝ)]
  · intro out hout h
    rw [compute_damage_eq] at hout
    injection hout with hout
    subst hout
    simp only [] at h ⊢
    rw [if_pos (by linarith), MIN_eq_min]
    apply min_eq_right
    linarith

/-- C8, witness: with failure strain 1, `damage_init = 1` and increment `0.2` the new
`damage_init` is `1.2 ≥ 1.1` and the new damage is 1. -/
theorem compute_damage_eq_reference_witness :
    ∃ out, (DamageJohnsonCook.mk 1 0 0 0 1 : DamageJohnsonCook ℝ).compute_damage
          (Libm.mk Real.sqrt Real.log Real.exp Real.rpow) 1 0 0 0 0 (1 / 5) = .ok out
      ∧ out.1 ≥ 11 / 10 ∧ out.2 = 1 := by
  have h := compute_damage_eq_reference (DamageJohnsonCook.mk 1 0 0 0 1) 1 0 0 0 0 (1 / 5)
  refine ⟨_, h.1, ?_⟩
  have h1 : (damage_accumulation_reference (Libm.mk Real.sqrt Real.log Real.exp Real.rpow)
        (DamageJohnsonCook.mk 1 0 0 0 1)
        (DamageJohnsonCook.triax (Libm.mk Real.sqrt Real.log Real.exp Real.rpow) 0 0)
        1 0 0 (1 / 5)).1 ≥ 11 / 10 := by
    simp [damage_accumulation_reference]
    norm_num
  exact ⟨h1, h.2 _ h.1 h1⟩

/-- The triaxiality of a stress-free state is zero. -/
theorem triax_zero_pressure (Sdev : Matrix3d ℝ) :
    DamageJohnsonCook.triax (Libm.mk Real.sqrt Real.log Real.exp Real.rpow) 0 Sdev = 0 := by
  simp [DamageJohnsonCook.triax]

/-- The von Mises stress of `diag(2, -1, -1)` is 3. -/
theorem vm_Sdev_uniaxial :
    DamageJohnsonCook.vm (Libm.mk Real.sqrt Real.log Real.exp Real.rpow) Sdev_uniaxial = 3 := by
  have hsq : squaredNorm (Sdev_uniaxial : Matrix3d ℝ) = 6 := by
    simp [squaredNorm, Sdev_uniaxial, Matrix.vecHead, Matrix.vecTail]
    norm_num
  unfold DamageJohnsonCook.vm norm
  simp only [hsq]
  rw [← Real.sqrt_mul (by norm_num : (0 : ℝ) ≤ 3 / 2)]
  rw [show (3 / 2 : ℝ) * 6 = 3 ^ 2 by norm_num]
  exact Real.sqrt_sq (by norm_num)

/-- Under the tension `pH = -100` the triaxiality of `diag(2, -1, -1)` is clamped to 3. -/
theorem triax_Sdev_uniaxial :
    DamageJohnsonCook.triax (Libm.mk Real.sqrt Real.log Real.exp Real.rpow) (-100) Sdev_uniaxial
      = 3 := by
  unfold DamageJohnsonCook.triax
  simp only [vm_Sdev_uniaxial]
  norm_num

/-- The failure strain of the parameters `negative_d1` at triaxiality 0 is `0.16`. -/
theorem failure_strain_negative_d1_zero :
    (DamageJohnsonCook.negative_d1 : DamageJohnsonCook ℝ).jc_failure_strain
      (Libm.mk Real.sqrt Real.log Real.exp Real.rpow) 0 0 = 4 / 25 := by
  simp [DamageJohnsonCook.jc_failure_strain, DamageJohnsonCook.negative_d1]
  norm_num

/-- The failure strain of the parameters `negative_d1` at triaxiality 3 lies between
`-0.09` and `-0.02`. -/
theorem failure_strain_negative_d1_three :
    -9 / 100 < (DamageJohnsonCook.negative_d1 : DamageJohnsonCook ℝ).jc_failure_strain
        (Libm.mk Real.sqrt Real.log Real.exp Real.rpow) 3 0
    ∧ (DamageJohnsonCook.negative_d1 : DamageJohnsonCook ℝ).jc_failure_strain
        (Libm.mk Real.sqrt Real.log Real.exp Real.rpow) 3 0 ≤ -1 / 50 := by
  have hpos : 0 < Real.exp (-(3 / 2)) := Real.exp_pos _
  have hle : Real.exp (-(3 / 2)) ≤ 8 / 29 := by
    rw [Real.exp_neg]
    have h1 : (29 / 8 : ℝ) ≤ Real.exp (3 / 2) := by
      have := Real.quadratic_le_exp_of_nonneg (by norm_num : (0 : ℝ) ≤ 3 / 2)
      linarith
    rw [inv_le_comm₀ (Real.exp_pos _) (by norm_num)]
    linarith
  have he : (DamageJohnsonCook.negative_d1 : DamageJohnsonCook ℝ).jc_failure_strain
        (Libm.mk Real.sqrt Real.log Real.exp Real.rpow) 3 0
      = -9 / 100 + 1 / 4 * Real.exp (-(3 / 2)) := by
    simp only [DamageJohnsonCook.jc_failure_strain, DamageJohnsonCook.negative_d1, gt_iff_lt,
      lt_irrefl, if_false]
    norm_num
  rw [he]
  constructor <;> linarith


/-- The damage ramp is monotone in `damage_init`. -/
theorem damage_ramp_mono (a b : ℝ) (h : a ≤ b) : damage_ramp a ≤ damage_ramp b := by
  unfold damage_ramp
  simp only [MIN_eq_min]
  by_cases ha : a ≥ 1
  · have hb : b ≥ 1 := le_trans ha h
    rw [if_pos ha, if_pos hb]
    exact min_le_min (by linarith) le_rfl
  · rw [if_neg ha]
    by_cases hb : b ≥ 1
    · rw [if_pos hb]
      exact le_min (by linarith) (by norm_num)
    · rw [if_neg hb]

/-- The damage ramp takes its values in `[0, 1]`. -/
theorem damage_ramp_range (a : ℝ) : 0 ≤ damage_ramp a ∧ damage_ramp a ≤ 1 := by
  unfold damage_ramp
  simp only [MIN_eq_min]
  by_cases ha : a ≥ 1
  · rw [if_pos ha]
    exact ⟨le_min (by linarith) (by norm_num), min_le_right _ _⟩
  · rw [if_neg ha]
    exact ⟨le_rfl, by norm_num⟩

/-- C9 (amended): for every call of `compute_damage` with a non-negative plastic strain
increment and a positive Johnson-Cook failure strain, made in a state with
`damage ≤ damage_ramp damage_init` (true of the initial state `0, 0` and kept by such
calls), the call returns, the damage after the call is at least the damage before,
and `damage_init` does not decrease. -/
theorem compute_damage_monotone (p : DamageJohnsonCook ℝ) (damage_init damage pH : ℝ)
    (Sdev : Matrix3d ℝ) (epsdot plastic_strain_increment : ℝ)
    (hinc : 0 ≤ plastic_strain_increment)
    (hf : 0 < p.jc_failure_strain (Libm.mk Real.sqrt Real.log Real.exp Real.rpow)
      (DamageJohnsonCook.triax (Libm.mk Real.sqrt Real.log Real.exp Real.rpow) pH Sdev) epsdot)
    (hramp : damage ≤ damage_ramp damage_init) :
    ∃ out, p.compute_damage (Libm.mk Real.sqrt Real.log Real.exp Real.rpow) damage_init damage pH
          Sdev epsdot plastic_strain_increment = .ok out
      ∧ damage ≤ out.2 ∧ damage_init ≤ out.1 ∧ out.2 ≤ damage_ramp out.1 := by
  refine ⟨_, compute_damage_eq _ _ _ _ _ _ _, ?_⟩
  simp only []
  set e := p.jc_failure_strain (Libm.mk Real.sqrt Real.log Real.exp Real.rpow)
      (DamageJohnsonCook.triax (Libm.mk Real.sqrt Real.log Real.exp Real.rpow) pH Sdev) epsdot
  have hq : 0 ≤ plastic_strain_increment / e := div_nonneg hinc (le_of_lt hf)
  have hle : damage_init ≤ damage_init + plastic_strain_increment / e := by linarith
  have hmono := damage_ramp_mono _ _ hle
  refine ⟨?_, hle, ?_⟩
  · by_cases h1 : damage_init + plastic_strain_increment / e ≥ 1
    · rw [if_pos h1]
      have : damage_ramp (damage_init + plastic_strain_increment / e)
          = MIN ((damage_init + plastic_strain_increment / e - 1) * 10) 1 := by
        unfold damage_ramp
        rw [if_pos h1]
      rw [← this]
      exact le_trans hramp hmono
    · rw [if_neg h1]
  · by_cases h1 : damage_init + plastic_strain_increment / e ≥ 1
    · rw [if_pos h1]
      unfold damage_ramp
      rw [if_pos h1]
    · rw [if_neg h1]
      exact le_trans hramp hmono

/-- C9, witness: the first call of the counterexample, from the initial state at
triaxiality 0 (failure strain `0.16`). -/
theorem compute_damage_monotone_witness :
    ∃ out, (DamageJohnsonCook.negative_d1 : DamageJohnsonCook ℝ).compute_damage
          (Libm.mk Real.sqrt Real.log Real.exp Real.rpow) 0 0 0 0 0 (21 / 125) = .ok out
      ∧ (0 : ℝ) ≤ out.2 ∧ (0 : ℝ) ≤ out.1 ∧ out.2 ≤ damage_ramp out.1 :=
  compute_damage_monotone DamageJohnsonCook.negative_d1 0 0 0 0 0 (21 / 125) (by norm_num)
    (by rw [triax_zero_pressure, failure_strain_negative_d1_zero]; norm_num)
    (by unfold damage_ramp; norm_num)

/-- C9, counterexample: with the parameters `d1 = -0.09`, `d2 = 0.25`, `d3 = -0.5`,
`d4 = 0`, starting from `damage_init = damage = 0`, a first call at triaxiality 0 with
increment `0.168` (`pH = 0`, deviator `diag(2, -1, -1)`) gives `damage = 1/2`; a second
call under tension (`pH = -100`,
deviator `diag(2, -1, -1)`, triaxiality clamped to 3, negative failure strain) with
increment `0.001` returns a damage strictly below `1/2`. -/
theorem compute_damage_decreases_damage :
    ∃ out1 out2,
      (DamageJohnsonCook.negative_d1 : DamageJohnsonCook ℝ).compute_damage
          (Libm.mk Real.sqrt Real.log Real.exp Real.rpow) 0 0 0 Sdev_uniaxial 0 (21 / 125)
        = .ok out1
      ∧ (DamageJohnsonCook.negative_d1 : DamageJohnsonCook ℝ).compute_damage
          (Libm.mk Real.sqrt Real.log Real.exp Real.rpow) out1.1 out1.2 (-100) Sdev_uniaxial 0
          (1 / 1000) = .ok out2
      ∧ out1.2 = 1 / 2 ∧ out2.2 < out1.2 := by
  obtain ⟨hlo, hhi⟩ := failure_strain_negative_d1_three
  refine ⟨_, _, compute_damage_eq _ _ _ _ _ _ _, compute_damage_eq _ _ _ _ _ _ _, ?_⟩
  simp only [triax_zero_pressure, triax_Sdev_uniaxial, failure_strain_negative_d1_zero]
  set e := (DamageJohnsonCook.negative_d1 : DamageJohnsonCook ℝ).jc_failure_strain
        (Libm.mk Real.sqrt Real.log Real.exp Real.rpow) 3 0 with he
  have hneg : e < 0 := by linarith
  have h1 : (0 : ℝ) + 21 / 125 / (4 / 25) = 21 / 20 := by norm_num
  have hfirst : (if (0 : ℝ) + 21 / 125 / (4 / 25) ≥ 1
      then MIN (((0 : ℝ) + 21 / 125 / (4 / 25) - 1) * 10) 1 else 0) = 1 / 2 := by
    rw [h1, if_pos (by norm_num), MIN_eq_min]
    norm_num
  rw [hfirst, h1]
  refine ⟨rfl, ?_⟩
  have hq1 : (1 / 1000 : ℝ) / e < 0 := div_neg_of_pos_of_neg (by norm_num) hneg
  have hq2 : -(1 / 20 : ℝ) ≤ (1 / 1000 : ℝ) / e := by
    rw [le_div_iff_of_neg hneg]
    linarith
  rw [if_pos (by linarith), MIN_eq_min]
  have : ((21 / 20 : ℝ) + 1 / 1000 / e - 1) * 10 < 1 / 2 := by linarith
  exact lt_of_le_of_lt (min_le_left _ _) this

/-- The initialisation loop of `populate` zeroes the damage variables of the particles
it has visited. -/
theorem populate_initialise_loop_damage (mat : Mat 𝕜) (vol_ mass_ : 𝕜) (ptag0 : Nat)
    (s : Solid 𝕜) (n i : Nat) (hi : i < n) :
    (loop (populate_initialise_particle mat vol_ mass_ ptag0) n s).damage i = 0
    ∧ (loop (populate_initialise_particle mat vol_ mass_ ptag0) n s).damage_init i = 0 := by
  induction n with
  | zero => omega
  | succ n ih =>
    rw [loop]
    by_cases h : i = n
    · subst h
      simp [populate_initialise_particle]
    · have hlt : i < n := by omega
      simp only [populate_initialise_particle, Function.update_noteq h]
      exact ih hlt

/-- The initialisation loop of `populate` does not change `np_local`. -/
theorem populate_initialise_np_local (mat : Mat 𝕜) (vol_ mass_ : 𝕜) (ptag0 : Nat)
    (s : Solid 𝕜) (n : Nat) :
    (loop (populate_initialise_particle mat vol_ mass_ ptag0) n s).np_local = s.np_local := by
  induction n with
  | zero => rfl
  | succ n ih =>
    rw [loop]
    simp only [populate_initialise_particle]
    exact ih

/-- C10 (amended): if `damage ∈ [0,1]` and `damage_init ≥ 0` before a call of
`compute_damage` with a non-negative plastic strain increment and a positive
Johnson-Cook failure strain, the call returns with `damage ∈ [0,1]` and
`damage_init ≥ 0`; and the initialisation loop of `populate` sets
`damage = damage_init = 0` for every particle below `np_local`. -/
theorem compute_damage_range (p : DamageJohnsonCook ℝ) (damage_init damage pH : ℝ)
    (Sdev : Matrix3d ℝ) (epsdot plastic_strain_increment : ℝ)
    (hd0 : 0 ≤ damage) (hd1 : damage ≤ 1) (hdi : 0 ≤ damage_init)
    (hinc : 0 ≤ plastic_strain_increment)
    (hf : 0 < p.jc_failure_strain (Libm.mk Real.sqrt Real.log Real.exp Real.rpow)
      (DamageJohnsonCook.triax (Libm.mk Real.sqrt Real.log Real.exp Real.rpow) pH Sdev) epsdot) :
    (∃ out, p.compute_damage (Libm.mk Real.sqrt Real.log Real.exp Real.rpow) damage_init damage pH
          Sdev epsdot plastic_strain_increment = .ok out
      ∧ 0 ≤ out.2 ∧ out.2 ≤ 1 ∧ 0 ≤ out.1)
    ∧ ∀ (mat : Mat ℝ) (vol_ mass_ : ℝ) (ptag0 : Nat) (s : Solid ℝ) (i : Nat), i < s.np_local →
        (populate_initialise mat vol_ mass_ ptag0 s).damage i = 0
        ∧ (populate_initialise mat vol_ mass_ ptag0 s).damage_init i = 0 := by
  constructor
  · refine ⟨_, compute_damage_eq _ _ _ _ _ _ _, ?_⟩
    simp only []
    set e := p.jc_failure_strain (Libm.mk Real.sqrt Real.log Real.exp Real.rpow)
        (DamageJohnsonCook.triax (Libm.mk Real.sqrt Real.log Real.exp Real.rpow) pH Sdev) epsdot
    have hq : 0 ≤ plastic_strain_increment / e := div_nonneg hinc (le_of_lt hf)
    refine ⟨?_, ?_, by linarith⟩
    · by_cases h1 : damage_init + plastic_strain_increment / e ≥ 1
      · rw [if_pos h1, MIN_eq_min]
        exact le_min (by linarith) (by norm_num)
      · rw [if_neg h1]; exact hd0
    · by_cases h1 : damage_init + plastic_strain_increment / e ≥ 1
      · rw [if_pos h1, MIN_eq_min]
        exact min_le_right _ _
      · rw [if_neg h1]; exact hd1
  · intro mat vol_ mass_ ptag0 s i hi
    exact populate_initialise_loop_damage mat vol_ mass_ ptag0 s s.np_local i hi

/-- C10, witness: a call from the initial state at triaxiality 0 (failure strain
`0.16`) with increment `0.168`. -/
theorem compute_damage_range_witness :
    ∃ out, (DamageJohnsonCook.negative_d1 : DamageJohnsonCook ℝ).compute_damage
          (Libm.mk Real.sqrt Real.log Real.exp Real.rpow) 0 0 0 0 0 (21 / 125) = .ok out
      ∧ (0 : ℝ) ≤ out.2 ∧ out.2 ≤ 1 ∧ (0 : ℝ) ≤ out.1 :=
  (compute_damage_range DamageJohnsonCook.negative_d1 0 0 0 0 0 (21 / 125) le_rfl (by norm_num)
    le_rfl (by norm_num)
    (by rw [triax_zero_pressure, failure_strain_negative_d1_zero]; norm_num)).1

/-- C10, counterexample: from `damage_init = damage = 0` (so `damage ∈ [0,1]`,
`damage_init ≥ 0`) a call with the non-negative increment `0.001` under tension
(`pH = -100`, deviator `diag(2, -1, -1)`) with the parameters `d1 = -0.09`,
`d2 = 0.25`, `d3 = -0.5` leaves `damage_init < 0`. -/
theorem compute_damage_negative_damage_init :
    ∃ out, (DamageJohnsonCook.negative_d1 : DamageJohnsonCook ℝ).compute_damage
          (Libm.mk Real.sqrt Real.log Real.exp Real.rpow) 0 0 (-100) Sdev_uniaxial 0 (1 / 1000)
        = .ok out
      ∧ out.1 < 0 := by
  obtain ⟨hlo, hhi⟩ := failure_strain_negative_d1_three
  refine ⟨_, compute_damage_eq _ _ _ _ _ _ _, ?_⟩
  simp only [triax_Sdev_uniaxial, zero_add]
  exact div_neg_of_pos_of_neg (by norm_num) (by linarith)

/-! ## Stress triaxiality: claim C20 -/

/-- The norm of the kernels is the Frobenius norm of the specification. -/
theorem norm_eq_frobenius_norm (m : Libm 𝕜) (M : Matrix3d 𝕜) : norm m M = frobenius_norm m M := by
  unfold norm frobenius_norm
  rw [squaredNorm_eq_sum]

/-- C20 (amended): the triaxiality used by `compute_damage` is
`min(-pH/(σ_vm + 0.01·|pH|), 3)` when `pH ≠ 0` and `σ_vm ≠ 0`, and 0 when `pH = 0` or
`σ_vm = 0`; it never exceeds 3, and there is no lower clamp: whenever the quotient is
at most 3 (in particular when it is negative) the triaxiality is the quotient itself. -/
theorem triax_eq_reference_or_zero (pH : ℝ) (Sdev : Matrix3d ℝ) :
    ((pH ≠ 0 ∧ DamageJohnsonCook.vm (Libm.mk Real.sqrt Real.log Real.exp Real.rpow) Sdev ≠ 0) →
        DamageJohnsonCook.triax (Libm.mk Real.sqrt Real.log Real.exp Real.rpow) pH Sdev
          = triaxiality_reference (Libm.mk Real.sqrt Real.log Real.exp Real.rpow) pH Sdev)
    ∧ ((pH = 0 ∨ DamageJohnsonCook.vm (Libm.mk Real.sqrt Real.log Real.exp Real.rpow) Sdev = 0) →
        DamageJohnsonCook.triax (Libm.mk Real.sqrt Real.log Real.exp Real.rpow) pH Sdev = 0)
    ∧ DamageJohnsonCook.triax (Libm.mk Real.sqrt Real.log Real.exp Real.rpow) pH Sdev ≤ 3
    ∧ ((pH ≠ 0 ∧ DamageJohnsonCook.vm (Libm.mk Real.sqrt Real.log Real.exp Real.rpow) Sdev ≠ 0
          ∧ -pH / (DamageJohnsonCook.vm (Libm.mk Real.sqrt Real.log Real.exp Real.rpow) Sdev
              + 1 / 100 * |pH|) ≤ 3) →
        DamageJohnsonCook.triax (Libm.mk Real.sqrt Real.log Real.exp Real.rpow) pH Sdev
          = -pH / (DamageJohnsonCook.vm (Libm.mk Real.sqrt Real.log Real.exp Real.rpow) Sdev
              + 1 / 100 * |pH|)) := by
  refine ⟨?_, ?_, ?_, ?_⟩
  · intro h
    unfold DamageJohnsonCook.triax triaxiality_reference
    simp only [h, and_self, ne_eq, not_false_eq_true, if_true]
    unfold DamageJohnsonCook.vm
    rw [norm_eq_frobenius_norm]
    split
    · rw [min_eq_right (le_of_lt (by assumption))]
    · rw [min_eq_left (not_lt.mp (by assumption))]
  · intro h
    unfold DamageJohnsonCook.triax
    have hg : ¬ (pH ≠ 0 ∧ DamageJohnsonCook.vm (Libm.mk Real.sqrt Real.log Real.exp Real.rpow) Sdev ≠ 0) := by
      rintro ⟨h1, h2⟩
      rcases h with h | h
      · exact h1 h
      · exact h2 h
    simp only [hg, if_false]
    norm_num
  · unfold DamageJohnsonCook.triax
    simp only []
    split_ifs <;> linarith
  · rintro ⟨h1, h2, h3⟩
    unfold DamageJohnsonCook.triax
    simp only [h1, h2, and_self, ne_eq, not_false_eq_true, if_true]
    rw [if_neg (not_lt.mpr h3)]

/-- C20, counterexample: at pressure `pH = 1` with a zero deviator (`σ_vm = 0`) the
code's triaxiality is 0, while `min(-pH/(σ_vm + 0.01·|pH|), 3) = -100`. -/
theorem triax_zero_deviator :
    DamageJohnsonCook.triax (Libm.mk Real.sqrt Real.log Real.exp Real.rpow) 1 0 = 0
    ∧ triaxiality_reference (Libm.mk Real.sqrt Real.log Real.exp Real.rpow) 1 0 = -100
    ∧ DamageJohnsonCook.triax (Libm.mk Real.sqrt Real.log Real.exp Real.rpow) 1 0
        ≠ triaxiality_reference (Libm.mk Real.sqrt Real.log Real.exp Real.rpow) 1 0 := by
  have hvm : DamageJohnsonCook.vm (Libm.mk Real.sqrt Real.log Real.exp Real.rpow) (0 : Matrix3d ℝ) = 0 := by
    simp [DamageJohnsonCook.vm, norm, squaredNorm]
  have h1 : DamageJohnsonCook.triax (Libm.mk Real.sqrt Real.log Real.exp Real.rpow) 1 0 = 0 := by
    unfold DamageJohnsonCook.triax
    simp only [hvm]
    norm_num
  have h2 : triaxiality_reference (Libm.mk Real.sqrt Real.log Real.exp Real.rpow) 1 0 = -100 := by
    unfold triaxiality_reference
    rw [← norm_eq_frobenius_norm]
    have hn : norm (Libm.mk Real.sqrt Real.log Real.exp Real.rpow) (0 : Matrix3d ℝ) = 0 := by
      simp [norm, squaredNorm]
    rw [hn]
    norm_num
  refine ⟨h1, h2, ?_⟩
  rw [h1, h2]
  norm_num

/-! ## The rate of deformation: claim C12 -/

/-- The style strings of the Updated-Lagrangian methods are not "tlmpm". -/
theorem is_tlmpm_ul (method_style : String)
    (h : method_style = "ulmpm" ∨ method_style = "ulcpdi" ∨ method_style = "ulcpdi2") :
    is_tlmpm method_style = false := by
  rcases h with h | h | h <;> subst h <;> decide

/-- C12 (amended): for a material with both an EOS and a strength model,
`update_deformation_gradient` ends the run when `PolDec` reports failure on the updated
`F` of some particle; when it returns, every particle has `R` the rotation factor that
`PolDec` gives for the updated `F`; in the style "tlmpm", `L = Fdot*Finv` and
`D = (1/2)*Rᵀ*(L + Lᵀ)*R`; in the Updated-Lagrangian styles `L` is kept and
`D = (1/2)*(L + Lᵀ)`. -/
theorem update_deformation_gradient_rate_of_deformation
    (PolDec : Matrix3d 𝕜 → Bool → Bool × Matrix3d 𝕜 × Matrix3d 𝕜)
    (dt : 𝕜) (method_style : String) (mat : Mat 𝕜) (s : Solid 𝕜)
    (hmat : has_eos_and_strength mat = true) :
    ((∃ ip, ip < s.np ∧
          (PolDec (deformation_update (is_tlmpm method_style) dt (s.F ip) (s.Fdot ip) (s.L ip))
            false).1 = false) →
        ∃ e, update_deformation_gradient PolDec dt method_style mat s = .error e)
    ∧ ∀ s', update_deformation_gradient PolDec dt method_style mat s = .ok s' →
        ∀ ip, ip < s.np →
          s'.F ip = deformation_update (is_tlmpm method_style) dt (s.F ip) (s.Fdot ip) (s.L ip)
          ∧ (PolDec (s'.F ip) false).1 = true
          ∧ s'.R ip = (PolDec (s'.F ip) false).2.1
          ∧ (method_style = "tlmpm" →
              s'.L ip = s.Fdot ip * s'.Finv ip
              ∧ s'.D ip = (1 / 2 : 𝕜) •
                  ((s'.R ip).transpose * (s'.L ip + (s'.L ip).transpose) * s'.R ip))
          ∧ ((method_style = "ulmpm" ∨ method_style = "ulcpdi" ∨ method_style = "ulcpdi2") →
              s'.L ip = s.L ip
              ∧ s'.D ip = (1 / 2 : 𝕜) • (s'.L ip + (s'.L ip).transpose)) := by
  rcases update_deformation_gradient_eq PolDec dt method_style mat s with ⟨_, herr⟩ | ⟨hgood, hok⟩
  · refine ⟨fun _ => ⟨_, herr⟩, ?_⟩
    intro s' hs'
    rw [herr] at hs'
    cases hs'
  · refine ⟨?_, ?_⟩
    · rintro ⟨ip, hip, hb⟩
      exact absurd (Or.inr ⟨hmat, hb⟩) (hgood ip hip)
    · intro s' hs' ip hip
      rw [hok] at hs'
      injection hs' with hs'
      subst hs'
      have hb := hgood ip hip
      unfold update_deformation_gradient_fails_at at hb
      simp only [not_or, not_and, hmat, true_implies, Bool.not_eq_false] at hb
      simp only [update_deformation_gradient_after, hip, hmat, if_true, true_and, and_true,
        Bool.true_and]
      refine ⟨hb.2, ?_, ?_⟩
      · intro htl
        have h1 : is_tlmpm method_style = true := (is_tlmpm_iff method_style).mpr htl
        simp only [h1, if_true]
        exact ⟨trivial, trivial⟩
      · intro hul
        have h1 : is_tlmpm method_style = false := is_tlmpm_ul method_style hul
        simp only [h1, Bool.false_eq_true, if_false]
        exact ⟨trivial, trivial⟩

/-- The step `dt = 1/10` carries the particle of `Solid.rotating` onto the rotation. -/
theorem deformation_update_rotating :
    deformation_update true (1 / 10 : ℝ) ((Solid.rotating : Solid ℝ).F 0)
      ((Solid.rotating : Solid ℝ).Fdot 0) ((Solid.rotating : Solid ℝ).L 0) = rotation_3_4_5 := by
  simp only [deformation_update, if_true, Solid.rotating, Solid.atRest, rotation_3_4_5]
  ext i j
  simp only [Matrix.smul_apply, Matrix.add_apply, smul_eq_mul]
  fin_cases i <;> fin_cases j <;> simp [Matrix.vecHead, Matrix.vecTail] <;> norm_num

/-- The rotation has determinant 1. -/
theorem determinant_rotation_3_4_5 : determinant (rotation_3_4_5 : Matrix3d ℝ) = 1 := by
  simp [determinant, rotation_3_4_5]
  norm_num

/-- The inverse of the rotation is its transpose. -/
theorem inverse_rotation_3_4_5 :
    inverse (rotation_3_4_5 : Matrix3d ℝ) = !![3 / 5, 4 / 5, 0; -4 / 5, 3 / 5, 0; 0, 0, 1] := by
  unfold inverse
  rw [determinant_rotation_3_4_5]
  simp only [cofactors, rotation_3_4_5]
  ext i j
  simp only [Matrix.smul_apply, smul_eq_mul]
  fin_cases i <;> fin_cases j <;> simp [Matrix.vecHead, Matrix.vecTail] <;> norm_num

/-- The state that `update_deformation_gradient` returns for `Solid.rotating`. -/
theorem update_deformation_gradient_rotating :
    ∃ s', update_deformation_gradient PolDec_rotation (1 / 10 : ℝ) "tlmpm"
          (Mat.johnsonCook (Libm.mk Real.sqrt Real.log Real.exp Real.rpow) (1 / 10) 1 1 1 1
            StrengthJohnsonCook.steel none) Solid.rotating = .ok s'
      ∧ s'.R 0 = rotation_3_4_5
      ∧ s'.L 0 = !![1, 0, 0; 0, 0, 0; 0, 0, 0]
      ∧ s'.D 0 = !![9 / 25, -12 / 25, 0; -12 / 25, 16 / 25, 0; 0, 0, 0] := by
  rcases update_deformation_gradient_eq PolDec_rotation (1 / 10 : ℝ) "tlmpm"
      (Mat.johnsonCook (Libm.mk Real.sqrt Real.log Real.exp Real.rpow) (1 / 10) 1 1 1 1
        StrengthJohnsonCook.steel none) Solid.rotating with ⟨⟨i, hi, hb⟩, _⟩ | ⟨_, hok⟩
  · exfalso
    have hi0 : i = 0 := by
      have : i < 1 := hi
      omega
    subst hi0
    simp only [update_deformation_gradient_fails_at, is_tlmpm_tlmpm] at hb
    rw [deformation_update_rotating, determinant_rotation_3_4_5] at hb
    norm_num [PolDec_rotation] at hb
  · refine ⟨_, hok, ?_⟩
    have hnp : (Solid.rotating : Solid ℝ).np = 1 := rfl
    have hmat : has_eos_and_strength (Mat.johnsonCook (Libm.mk Real.sqrt Real.log Real.exp Real.rpow)
        (1 / 10 : ℝ) 1 1 1 1 StrengthJohnsonCook.steel none) = true := rfl
    have hFd : (Solid.rotating : Solid ℝ).Fdot 0 = !![3 / 5, -4 / 5, 0; 0, 0, 0; 0, 0, 0] := rfl
    have hL : (Solid.rotating : Solid ℝ).Fdot 0 * inverse (rotation_3_4_5 : Matrix3d ℝ)
        = !![1, 0, 0; 0, 0, 0; 0, 0, 0] := by
      rw [hFd, inverse_rotation_3_4_5]
      ext i j
      simp only [Matrix.mul_apply, Fin.sum_univ_three]
      fin_cases i <;> fin_cases j <;> simp [Matrix.vecHead, Matrix.vecTail] <;> norm_num
    simp only [update_deformation_gradient_after, hnp, hmat, is_tlmpm_tlmpm, Nat.lt_one_iff,
      if_true, and_true, Bool.and_true, true_and]
    rw [deformation_update_rotating, hL]
    refine ⟨rfl, rfl, ?_⟩
    simp only [PolDec_rotation, rotation_3_4_5]
    ext i j
    simp only [Matrix.smul_apply, Matrix.mul_apply, Matrix.add_apply, Matrix.transpose_apply,
      Fin.sum_univ_three, smul_eq_mul]
    fin_cases i <;> fin_cases j <;> simp [Matrix.vecHead, Matrix.vecTail] <;> norm_num

/-- C12, witness: for the particle of `Solid.rotating` in "tlmpm" the call returns with
`L = diag(1,0,0)`, `R` the rotation, and `D = (1/2)*Rᵀ*(L + Lᵀ)*R`. -/
theorem update_deformation_gradient_rate_of_deformation_witness :
    ∃ s', update_deformation_gradient PolDec_rotation (1 / 10 : ℝ) "tlmpm"
          (Mat.johnsonCook (Libm.mk Real.sqrt Real.log Real.exp Real.rpow) (1 / 10) 1 1 1 1
            StrengthJohnsonCook.steel none) Solid.rotating = .ok s'
      ∧ s'.R 0 = (PolDec_rotation (s'.F 0) false).2.1
      ∧ s'.L 0 = (Solid.rotating : Solid ℝ).Fdot 0 * s'.Finv 0
      ∧ s'.D 0 = (1 / 2 : ℝ) • ((s'.R 0).transpose * (s'.L 0 + (s'.L 0).transpose) * s'.R 0) := by
  obtain ⟨s', hs', _⟩ := update_deformation_gradient_rotating
  have h := (update_deformation_gradient_rate_of_deformation PolDec_rotation (1 / 10 : ℝ) "tlmpm"
    (Mat.johnsonCook (Libm.mk Real.sqrt Real.log Real.exp Real.rpow) (1 / 10) 1 1 1 1
      StrengthJohnsonCook.steel none) Solid.rotating rfl).2 s' hs' 0 (by decide)
  exact ⟨s', hs', h.2.2.1, (h.2.2.2.1 rfl).1, (h.2.2.2.1 rfl).2⟩

/-- C12, counterexample: for the particle of `Solid.rotating` in "tlmpm" the call
returns with `L + Lᵀ = diag(2,0,0)` and `R` the rotation with cosine 3/5 and sine 4/5;
the stored `D` has the entry `D(0,1) = -12/25`, while `(1/2)*R*(L + Lᵀ)*Rᵀ` has 12/25
there. -/
theorem update_deformation_gradient_rotates_by_transpose :
    ∃ s', update_deformation_gradient PolDec_rotation (1 / 10 : ℝ) "tlmpm"
          (Mat.johnsonCook (Libm.mk Real.sqrt Real.log Real.exp Real.rpow) (1 / 10) 1 1 1 1
            StrengthJohnsonCook.steel none) Solid.rotating = .ok s'
      ∧ s'.D 0 = !![9 / 25, -12 / 25, 0; -12 / 25, 16 / 25, 0; 0, 0, 0]
      ∧ (1 / 2 : ℝ) • (s'.R 0 * (s'.L 0 + (s'.L 0).transpose) * (s'.R 0).transpose)
          = !![9 / 25, 12 / 25, 0; 12 / 25, 16 / 25, 0; 0, 0, 0]
      ∧ s'.D 0 ≠ (1 / 2 : ℝ) • (s'.R 0 * (s'.L 0 + (s'.L 0).transpose) * (s'.R 0).transpose) := by
  obtain ⟨s', hs', hR, hL, hD⟩ := update_deformation_gradient_rotating
  have hc : (1 / 2 : ℝ) • (s'.R 0 * (s'.L 0 + (s'.L 0).transpose) * (s'.R 0).transpose)
      = !![9 / 25, 12 / 25, 0; 12 / 25, 16 / 25, 0; 0, 0, 0] := by
    rw [hR, hL]
    simp only [rotation_3_4_5]
    ext i j
    simp only [Matrix.smul_apply, Matrix.mul_apply, Matrix.add_apply, Matrix.transpose_apply,
      Fin.sum_univ_three, smul_eq_mul]
    fin_cases i <;> fin_cases j <;> simp [Matrix.vecHead, Matrix.vecTail] <;> norm_num
  refine ⟨s', hs', hD, hc, ?_⟩
  rw [hD, hc]
  intro h
  have := congrFun (congrFun h 0) 1
  norm_num at this

/-! ## The EOS + strength branch of the stress update: claim C11 -/

/-- An invariant carried through a fallible loop holds of the state it returns. -/
theorem forLoop_invariant {σ ε : Type} (P : Nat → σ → Prop) (body : Nat → σ → Except ε σ)
    (n : Nat) (s : σ) (h0 : P 0 s)
    (hstep : ∀ i t t', i < n → P i t → body i t = .ok t' → P (i + 1) t') :
    ∀ s', forLoop body n s = .ok s' → P n s' := by
  induction n with
  | zero =>
    intro s' h
    simp only [forLoop] at h
    injection h with h
    subst h
    exact h0
  | succ n ih =>
    intro s' h
    rw [forLoop] at h
    cases hn : forLoop body n s with
    | error e =>
      rw [hn] at h
      cases h
    | ok t =>
      rw [hn] at h
      exact hstep n t s' (Nat.lt_succ_self n)
        (ih (fun i t t' hi => hstep i t t' (Nat.lt_succ_of_lt hi)) t hn) h

/-- Before the first iteration the closed form is the initial state. -/
theorem update_stress_eos_strength_after_zero (dt : 𝕜) (tl : Bool) (grid : Grid 𝕜) (mat : Mat 𝕜)
    (eos : EOS 𝕜) (strength : Strength 𝕜) (s : Solid 𝕜) :
    update_stress_eos_strength_after dt tl grid mat eos strength 0 s = s := by
  unfold update_stress_eos_strength_after
  apply Solid.eq_of_fields <;> simp

/-- One iteration of the EOS + strength branch as a single record update. -/
theorem update_stress_eos_strength_eq_result (dt : 𝕜) (tl : Bool) (grid : Grid 𝕜) (mat : Mat 𝕜)
    (eos : EOS 𝕜) (strength : Strength 𝕜) (ip : Nat) (s : Solid 𝕜) :
    update_stress_eos_strength dt tl grid mat eos strength ip s
      = match update_stress_damage_call dt grid mat eos strength s ip with
        | .error e => .error e
        | .ok out => .ok (update_stress_eos_strength_result dt tl grid mat eos strength ip s out) := by
  unfold update_stress_eos_strength update_stress_damage_call update_stress_eos_strength_result
  simp only [Function.update_same, Function.update_idem]
  cases hd : mat.damage with
  | none =>
    simp only [Function.update_eq_self]
    congr 1
    by_cases hdam : s.damage ip > (1 / 10 ^ 10 : 𝕜) <;> cases tl <;>
      simp only [hdam, if_true, if_false, Bool.false_eq_true, Function.update_same]
  | some dmg =>
    simp only []
    generalize dmg.compute_damage _ _ _ _ _ _ = call
    cases call with
    | error e => rfl
    | ok out =>
      simp only [Function.update_same]
      congr 1
      by_cases hdam : out.2 > (1 / 10 ^ 10 : 𝕜) <;> cases tl <;>
        simp only [hdam, if_true, if_false, Bool.false_eq_true, Function.update_same]

/-- The damage call of iteration `n` reads only entries that the first `n` iterations
have left untouched. -/
theorem update_stress_damage_call_after (dt : 𝕜) (tl : Bool) (grid : Grid 𝕜) (mat : Mat 𝕜)
    (eos : EOS 𝕜) (strength : Strength 𝕜) (n : Nat) (s : Solid 𝕜) :
    update_stress_damage_call dt grid mat eos strength
        (update_stress_eos_strength_after dt tl grid mat eos strength n s) n
      = update_stress_damage_call dt grid mat eos strength s n := by
  unfold update_stress_damage_call update_stress_eos_strength_after
  simp only [lt_irrefl, if_false]

/-- One iteration of the EOS + strength branch on the closed form. -/
theorem update_stress_eos_strength_step (dt : 𝕜) (tl : Bool) (grid : Grid 𝕜) (mat : Mat 𝕜)
    (eos : EOS 𝕜) (strength : Strength 𝕜) (n : Nat) (s : Solid 𝕜) :
    update_stress_eos_strength dt tl grid mat eos strength n
        (update_stress_eos_strength_after dt tl grid mat eos strength n s)
      = match update_stress_damage_call dt grid mat eos strength s n with
        | .error e => .error e
        | .ok _ => .ok (update_stress_eos_strength_after dt tl grid mat eos strength (n + 1) s) := by
  rw [update_stress_eos_strength_eq_result, update_stress_damage_call_after]
  cases hc : update_stress_damage_call dt grid mat eos strength s n with
  | error e => rfl
  | ok out =>
    simp only []
    congr 1
    unfold update_stress_eos_strength_result update_stress_eos_strength_after
    simp only [lt_irrefl, if_false, false_and]
    cases tl <;>
    (apply Solid.eq_of_fields <;> simp only [] <;>
      (funext i; by_cases h : i = n
       · subst h; simp [hc]
       · have h1 : (i < n + 1) ↔ (i < n) := by omega
         simp [Function.update_noteq h, h1]))

/-- With both sub-models present the loop body of `update_stress` is the EOS + strength
one. -/
theorem update_stress_particle_eos_strength (m : Libm 𝕜) (dt : 𝕜) (tl : Bool) (grid : Grid 𝕜)
    (mat : Mat 𝕜) (eos : EOS 𝕜) (strength : Strength 𝕜) (he : mat.eos = some eos)
    (hs : mat.strength = some strength) (ip : Nat) (s : Solid 𝕜) :
    update_stress_particle m dt tl (update_stress_nh mat) grid mat ip s
      = update_stress_eos_strength dt tl grid mat eos strength ip s := by
  simp [update_stress_particle, update_stress_nh, he, hs]

/-- When no damage call below `n` ends the run, the first loop reaches the closed form. -/
theorem update_stress_eos_strength_loop_ok (m : Libm 𝕜) (dt : 𝕜) (tl : Bool) (grid : Grid 𝕜)
    (mat : Mat 𝕜) (eos : EOS 𝕜) (strength : Strength 𝕜) (he : mat.eos = some eos)
    (hs : mat.strength = some strength) (s : Solid 𝕜) (n : Nat)
    (h : ∀ i, i < n → ∃ out, update_stress_damage_call dt grid mat eos strength s i = .ok out) :
    forLoop (update_stress_particle m dt tl (update_stress_nh mat) grid mat) n s
      = .ok (update_stress_eos_strength_after dt tl grid mat eos strength n s) := by
  induction n with
  | zero => simp [forLoop, update_stress_eos_strength_after_zero]
  | succ n ih =>
    rw [forLoop, ih (fun i hi => h i (Nat.lt_succ_of_lt hi))]
    simp only []
    rw [update_stress_particle_eos_strength m dt tl grid mat eos strength he hs,
      update_stress_eos_strength_step]
    obtain ⟨out, hout⟩ := h n (Nat.lt_succ_self n)
    rw [hout]

/-- When some damage call below `n` ends the run, so does the first loop. -/
theorem update_stress_eos_strength_loop_error (m : Libm 𝕜) (dt : 𝕜) (tl : Bool) (grid : Grid 𝕜)
    (mat : Mat 𝕜) (eos : EOS 𝕜) (strength : Strength 𝕜) (he : mat.eos = some eos)
    (hs : mat.strength = some strength) (s : Solid 𝕜) (n : Nat)
    (h : ∃ i, i < n ∧ ∃ e, update_stress_damage_call dt grid mat eos strength s i = .error e) :
    ∃ e, forLoop (update_stress_particle m dt tl (update_stress_nh mat) grid mat) n s
      = .error e := by
  induction n with
  | zero => obtain ⟨i, hi, _⟩ := h; omega
  | succ n ih =>
    by_cases hprev : ∃ i, i < n ∧
        ∃ e, update_stress_damage_call dt grid mat eos strength s i = .error e
    · obtain ⟨e, he'⟩ := ih hprev
      exact ⟨e, by rw [forLoop, he']⟩
    · have hall : ∀ i, i < n →
          ∃ out, update_stress_damage_call dt grid mat eos strength s i = .ok out := by
        intro i hi
        cases hc : update_stress_damage_call dt grid mat eos strength s i with
        | error e => exact absurd ⟨i, hi, e, hc⟩ hprev
        | ok out => exact ⟨out, rfl⟩
      obtain ⟨i, hi, e, hb⟩ := h
      have hin : i = n := by
        by_contra hne
        obtain ⟨out, hout⟩ := hall i (by omega)
        rw [hout] at hb
        cases hb
      subst hin
      refine ⟨e, ?_⟩
      rw [forLoop, update_stress_eos_strength_loop_ok m dt tl grid mat eos strength he hs s i hall]
      simp only []
      rw [update_stress_particle_eos_strength m dt tl grid mat eos strength he hs,
        update_stress_eos_strength_step, hb]

/-- The running minimum of the second loop depends on the densities only. -/
theorem cfl_min_inv_congr (mat : Mat 𝕜) (s t : Solid 𝕜) (h : s.rho = t.rho) (n : Nat) :
    cfl_min_inv mat s n = cfl_min_inv mat t n := by
  induction n with
  | zero => rfl
  | succ n ih => rw [cfl_min_inv, cfl_min_inv, ih, h]

/-- The running `min_h_ratio` of the second loop depends on the deformation gradients
only. -/
theorem cfl_min_h_ratio_congr (s t : Solid 𝕜) (h : s.F = t.F) (n : Nat) :
    cfl_min_h_ratio s n = cfl_min_h_ratio t n := by
  induction n with
  | zero => rfl
  | succ n ih => rw [cfl_min_h_ratio, cfl_min_h_ratio, ih, h]

/-- The result of `update_stress` in the EOS + strength branch, in closed form: the run
ends when a damage call does or when the running CFL minimum becomes negative, and
otherwise the closed-form state is returned. -/
theorem update_stress_eos_strength_eq (m : Libm 𝕜) (dt : 𝕜) (method_style : String)
    (grid : Grid 𝕜) (mat : Mat 𝕜) (eos : EOS 𝕜) (strength : Strength 𝕜)
    (he : mat.eos = some eos) (hs : mat.strength = some strength) (s : Solid 𝕜) :
    ((∃ i, i < s.np ∧ ∃ e, update_stress_damage_call dt grid mat eos strength s i = .error e)
        ∧ ∃ e, update_stress m dt method_style grid mat s = .error e)
    ∨ ((∀ i, i < s.np → ∃ out, update_stress_damage_call dt grid mat eos strength s i = .ok out)
        ∧ (∃ i, i < s.np ∧ cfl_min_inv mat s (i + 1) < 0)
        ∧ update_stress m dt method_style grid mat s = .error "")
    ∨ ((∀ i, i < s.np → ∃ out, update_stress_damage_call dt grid mat eos strength s i = .ok out)
        ∧ (∀ i, i < s.np → ¬ cfl_min_inv mat s (i + 1) < 0)
        ∧ update_stress m dt method_style grid mat s
            = .ok (update_stress_finish m grid mat
                (update_stress_eos_strength_after dt (is_tlmpm method_style) grid mat eos strength
                  s.np { s with min_inv_p_wave_speed := (10 ^ 22 : 𝕜) }))) := by
  have hcall : ∀ i, update_stress_damage_call dt grid mat eos strength
      { s with min_inv_p_wave_speed := (10 ^ 22 : 𝕜) } i
      = update_stress_damage_call dt grid mat eos strength s i := fun _ => rfl
  by_cases hd : ∃ i, i < s.np ∧
      ∃ e, update_stress_damage_call dt grid mat eos strength s i = .error e
  · refine Or.inl ⟨hd, ?_⟩
    obtain ⟨e, he'⟩ := update_stress_eos_strength_loop_error m dt (is_tlmpm method_style) grid mat
      eos strength he hs { s with min_inv_p_wave_speed := (10 ^ 22 : 𝕜) } s.np
      (by simpa only [hcall] using hd)
    refine ⟨e, ?_⟩
    unfold update_stress
    simp only [he']
  · have hall : ∀ i, i < s.np →
        ∃ out, update_stress_damage_call dt grid mat eos strength s i = .ok out := by
      intro i hi
      cases hc : update_stress_damage_call dt grid mat eos strength s i with
      | error e => exact absurd ⟨i, hi, e, hc⟩ hd
      | ok out => exact ⟨out, rfl⟩
    have hloop := update_stress_eos_strength_loop_ok m dt (is_tlmpm method_style) grid mat
      eos strength he hs { s with min_inv_p_wave_speed := (10 ^ 22 : 𝕜) } s.np
      (by simpa only [hcall] using hall)
    have hcfl : ∀ n, cfl_min_inv mat (update_stress_eos_strength_after dt (is_tlmpm method_style)
        grid mat eos strength s.np { s with min_inv_p_wave_speed := (10 ^ 22 : 𝕜) }) n
        = cfl_min_inv mat s n := fun n => cfl_min_inv_congr mat _ s (by rfl) n
    rcases update_stress_of_first_loop m dt method_style grid mat s _ hloop rfl
      with ⟨⟨i, hi, hb⟩, herr⟩ | ⟨hgood, hok⟩
    · rw [hcfl] at hb
      exact Or.inr (Or.inl ⟨hall, ⟨i, hi, hb⟩, herr⟩)
    · refine Or.inr (Or.inr ⟨hall, ?_, hok⟩)
      intro i hi
      have := hgood i hi
      rw [hcfl] at this
      exact this

/-- The deviator of a matrix is traceless. -/
theorem trace_Deviator (M : Matrix3d 𝕜) : (Deviator M).trace = 0 := by
  unfold Deviator
  rw [Matrix.trace_sub, Matrix.trace_smul, Matrix.trace_one]
  simp only [Fintype.card_fin, smul_eq_mul, Nat.cast_ofNat]
  field_simp

/-- In the exact model the deviator returned by the Johnson-Cook strength model is
traceless: it is the trial deviator or a multiple of it. -/
theorem trace_update_deviatoric_stress (m : Libm 𝕜) (dt : 𝕜) (p : StrengthJohnsonCook 𝕜)
    (sigma D : Matrix3d 𝕜) (eff_plastic_strain epsdot : 𝕜) :
    (p.update_deviatoric_stress m dt sigma D eff_plastic_strain epsdot).1.trace = 0 := by
  have ht : (p.sigmaTrial_dev dt sigma D).trace = 0 := by
    unfold StrengthJohnsonCook.sigmaTrial_dev
    simp only [Matrix.trace_add, Matrix.trace_smul, trace_Deviator, smul_zero, add_zero]
  unfold StrengthJohnsonCook.update_deviatoric_stress
  simp only []
  split
  · exact ht
  · simp only [Matrix.trace_smul, ht, smul_zero]

/-! ## The CFL reduction: claim C13 -/

/-- One iteration of the first loop of `update_stress` leaves the particle count, the
densities, the deformation gradients and the two CFL scalars as they are. -/
theorem update_stress_particle_frame (m : Libm 𝕜) (dt : 𝕜) (tl nh : Bool) (grid : Grid 𝕜)
    (mat : Mat 𝕜) (ip : Nat) (t t' : Solid 𝕜)
    (h : update_stress_particle m dt tl nh grid mat ip t = .ok t') :
    t'.np = t.np ∧ t'.rho = t.rho ∧ t'.F = t.F
      ∧ t'.min_inv_p_wave_speed = t.min_inv_p_wave_speed ∧ t'.dtCFL = t.dtCFL := by
  unfold update_stress_particle at h
  split at h
  · injection h with h
    subst h
    exact ⟨rfl, rfl, rfl, rfl, rfl⟩
  · split at h
    · rw [update_stress_eos_strength_eq_result] at h
      split at h
      · cases h
      · injection h with h
        subst h
        exact ⟨rfl, rfl, rfl, rfl, rfl⟩
    · cases h

/-- The first loop of `update_stress` leaves the particle count, the densities, the
deformation gradients and the two CFL scalars as they are. -/
theorem update_stress_first_loop_frame (m : Libm 𝕜) (dt : 𝕜) (tl nh : Bool) (grid : Grid 𝕜)
    (mat : Mat 𝕜) (n : Nat) (s s1 : Solid 𝕜)
    (h : forLoop (update_stress_particle m dt tl nh grid mat) n s = .ok s1) :
    s1.np = s.np ∧ s1.rho = s.rho ∧ s1.F = s.F
      ∧ s1.min_inv_p_wave_speed = s.min_inv_p_wave_speed ∧ s1.dtCFL = s.dtCFL := by
  refine forLoop_invariant
    (fun _ t => t.np = s.np ∧ t.rho = s.rho ∧ t.F = s.F
      ∧ t.min_inv_p_wave_speed = s.min_inv_p_wave_speed ∧ t.dtCFL = s.dtCFL)
    _ n s ⟨rfl, rfl, rfl, rfl, rfl⟩ ?_ s1 h
  intro i t t' _ hP ht
  obtain ⟨h1, h2, h3, h4, h5⟩ := update_stress_particle_frame m dt tl nh grid mat i t t' ht
  exact ⟨h1.trans hP.1, h2.trans hP.2.1, h3.trans hP.2.2.1, h4.trans hP.2.2.2.1,
    h5.trans hP.2.2.2.2⟩

/-- The running minimum of the second loop is the least element of the set made of the
initial value `1e22` and the quotients `rho/(K + four_third*G)` of the particles seen. -/
theorem cfl_min_inv_isLeast (mat : Mat 𝕜) (s : Solid 𝕜) (n : Nat) :
    IsLeast (insert (10 ^ 22 : 𝕜)
        {y | ∃ ip, ip < n ∧ y = s.rho ip / (mat.K + four_third * mat.G)})
      (cfl_min_inv mat s n) := by
  induction n with
  | zero =>
    refine ⟨Or.inl rfl, ?_⟩
    rintro y (hy | ⟨ip, hip, _⟩)
    · rw [hy]; exact le_refl _
    · omega
  | succ n ih =>
    rw [cfl_min_inv, MIN_eq_min]
    refine ⟨?_, ?_⟩
    · rcases min_choice (cfl_min_inv mat s n) (s.rho n / (mat.K + four_third * mat.G))
        with h | h
      · rw [h]
        rcases ih.1 with h1 | ⟨ip, hip, h1⟩
        · exact Or.inl h1
        · exact Or.inr ⟨ip, Nat.lt_succ_of_lt hip, h1⟩
      · rw [h]
        exact Or.inr ⟨n, Nat.lt_succ_self n, rfl⟩
    · rintro y (hy | ⟨ip, hip, hy⟩)
      · exact le_trans (min_le_left _ _) (ih.2 (Or.inl hy))
      · by_cases hn : ip = n
        · subst hn
          rw [hy]
          exact min_le_right _ _
        · exact le_trans (min_le_left _ _) (ih.2 (Or.inr ⟨ip, by omega, hy⟩))

/-- The running `min_h_ratio` of the second loop is the least element of the set made of
the initial value `1e22` and the squared Euclidean norms of the rows of the deformation
gradients of the particles seen. -/
theorem cfl_min_h_ratio_isLeast (s : Solid 𝕜) (n : Nat) :
    IsLeast (insert (10 ^ 22 : 𝕜)
        {y | ∃ ip, ip < n ∧ ∃ r : Fin 3, y = ∑ k, s.F ip r k ^ 2})
      (cfl_min_h_ratio s n) := by
  have hrow : ∀ (ip : Nat) (r : Fin 3),
      s.F ip r 0 * s.F ip r 0 + s.F ip r 1 * s.F ip r 1 + s.F ip r 2 * s.F ip r 2
        = ∑ k, s.F ip r k ^ 2 := by
    intro ip r
    rw [Fin.sum_univ_three]
    ring
  induction n with
  | zero =>
    refine ⟨Or.inl rfl, ?_⟩
    rintro y (hy | ⟨ip, hip, _⟩)
    · rw [hy]; exact le_refl _
    · omega
  | succ n ih =>
    rw [cfl_min_h_ratio]
    simp only [MIN_eq_min, hrow]
    refine ⟨?_, ?_⟩
    · rcases min_choice (min (min (cfl_min_h_ratio s n) (∑ k, s.F n 0 k ^ 2))
          (∑ k, s.F n 1 k ^ 2)) (∑ k, s.F n 2 k ^ 2) with h | h
      · rw [h]
        rcases min_choice (min (cfl_min_h_ratio s n) (∑ k, s.F n 0 k ^ 2))
            (∑ k, s.F n 1 k ^ 2) with h | h
        · rw [h]
          rcases min_choice (cfl_min_h_ratio s n) (∑ k, s.F n 0 k ^ 2) with h | h
          · rw [h]
            rcases ih.1 with h1 | ⟨ip, hip, h1⟩
            · exact Or.inl h1
            · exact Or.inr ⟨ip, Nat.lt_succ_of_lt hip, h1⟩
          · rw [h]
            exact Or.inr ⟨n, Nat.lt_succ_self n, 0, rfl⟩
        · rw [h]
          exact Or.inr ⟨n, Nat.lt_succ_self n, 1, rfl⟩
      · rw [h]
        exact Or.inr ⟨n, Nat.lt_succ_self n, 2, rfl⟩
    · have h0 : min (min (min (cfl_min_h_ratio s n) (∑ k, s.F n 0 k ^ 2))
          (∑ k, s.F n 1 k ^ 2)) (∑ k, s.F n 2 k ^ 2) ≤ cfl_min_h_ratio s n :=
        le_trans (min_le_left _ _) (le_trans (min_le_left _ _) (min_le_left _ _))
      rintro y (hy | ⟨ip, hip, r, hy⟩)
      · exact le_trans h0 (ih.2 (Or.inl hy))
      · by_cases hn : ip = n
        · subst hn
          rw [hy]
          fin_cases r
          · exact le_trans (min_le_left _ _) (le_trans (min_le_left _ _) (min_le_right _ _))
          · exact le_trans (min_le_left _ _) (min_le_right _ _)
          · exact min_le_right _ _
        · exact le_trans h0 (ih.2 (Or.inr ⟨ip, by omega, r, hy⟩))

/-- The CFL reduction in the exact model of `update_stress`: when `update_stress` returns,
the new `dtCFL` is `min(old dtCFL, √c·cellsize·√h)`, where `c` is the least of `1e22` and
the quotients `rho[ip]/(K + four_third*G)`, and `h` is the least of `1e22` and the squared
Euclidean norms of the rows of the `F[ip]`; `c ≥ 0`, `min_inv_p_wave_speed = √c`, and
`dtCFL` does not increase. The call ends the run when some quotient is negative. -/
theorem update_stress_cfl_exact (m : Libm 𝕜) (dt : 𝕜) (method_style : String) (grid : Grid 𝕜)
    (mat : Mat 𝕜) (s : Solid 𝕜) :
    (∀ s', update_stress m dt method_style grid mat s = .ok s' →
        0 ≤ cfl_min_inv mat s s.np
        ∧ s'.min_inv_p_wave_speed = m.sqrt (cfl_min_inv mat s s.np)
        ∧ s'.dtCFL = min s.dtCFL
            (m.sqrt (cfl_min_inv mat s s.np) * grid.cellsize * m.sqrt (cfl_min_h_ratio s s.np))
        ∧ s'.dtCFL ≤ s.dtCFL)
    ∧ IsLeast (insert (10 ^ 22 : 𝕜)
          {y | ∃ ip, ip < s.np ∧ y = s.rho ip / (mat.K + four_third * mat.G)})
        (cfl_min_inv mat s s.np)
    ∧ IsLeast (insert (10 ^ 22 : 𝕜)
          {y | ∃ ip, ip < s.np ∧ ∃ r : Fin 3, y = ∑ k, s.F ip r k ^ 2})
        (cfl_min_h_ratio s s.np)
    ∧ ((∃ ip, ip < s.np ∧ s.rho ip / (mat.K + four_third * mat.G) < 0) →
        ∃ e, update_stress m dt method_style grid mat s = .error e) := by
  refine ⟨?_, cfl_min_inv_isLeast mat s s.np, cfl_min_h_ratio_isLeast s s.np, ?_⟩
  · intro s' h
    cases h1 : forLoop (update_stress_particle m dt (is_tlmpm method_style) (update_stress_nh mat)
        grid mat) s.np { s with min_inv_p_wave_speed := (10 ^ 22 : 𝕜) } with
    | error e =>
      unfold update_stress at h
      simp only [h1] at h
      cases h
    | ok s1 =>
      obtain ⟨hnp, hrho, hF, hmin, hdt⟩ := update_stress_first_loop_frame m dt _ _ grid mat _ _ s1 h1
      have hnp' : s1.np = s.np := hnp
      have hrho' : s1.rho = s.rho := hrho
      have hF' : s1.F = s.F := hF
      have hdt' : s1.dtCFL = s.dtCFL := hdt
      rcases update_stress_of_first_loop m dt method_style grid mat s s1 h1 hmin
        with ⟨_, herr⟩ | ⟨hgood, hok⟩
      · rw [herr] at h
        cases h
      · rw [hok] at h
        injection h with h
        subst h
        simp only [update_stress_finish, MIN_eq_min]
        rw [hnp', hdt', cfl_min_inv_congr mat s1 s hrho', cfl_min_h_ratio_congr s1 s hF']
        refine ⟨?_, rfl, rfl, min_le_left _ _⟩
        cases hn : s.np with
        | zero => simp [cfl_min_inv]
        | succ k =>
          have := hgood k (by omega)
          rw [cfl_min_inv_congr mat s1 s hrho'] at this
          exact not_lt.mp this
  · rintro ⟨ip, hip, hneg⟩
    cases h1 : forLoop (update_stress_particle m dt (is_tlmpm method_style) (update_stress_nh mat)
        grid mat) s.np { s with min_inv_p_wave_speed := (10 ^ 22 : 𝕜) } with
    | error e =>
      refine ⟨e, ?_⟩
      unfold update_stress
      simp only [h1]
    | ok s1 =>
      obtain ⟨hnp, hrho, _, hmin, _⟩ := update_stress_first_loop_frame m dt _ _ grid mat _ _ s1 h1
      have hnp' : s1.np = s.np := hnp
      have hrho' : s1.rho = s.rho := hrho
      rcases update_stress_of_first_loop m dt method_style grid mat s s1 h1 hmin
        with ⟨_, herr⟩ | ⟨hgood, _⟩
      · exact ⟨_, herr⟩
      · exfalso
        have hle := (cfl_min_inv_isLeast mat s (ip + 1)).2
          (Or.inr ⟨ip, Nat.lt_succ_self ip, rfl⟩)
        have := hgood ip (by omega)
        rw [cfl_min_inv_congr mat s1 s hrho'] at this
        exact this (lt_of_le_of_lt hle hneg)

/-- The square root of `10^22` is `10^11`. -/
theorem sqrt_ten_pow_22 : Real.sqrt (10 ^ 22) = 10 ^ 11 := by
  rw [show (10 : ℝ) ^ 22 = (10 ^ 11) ^ 2 by norm_num]
  exact Real.sqrt_sq (by positivity)

/-- The square root of `10^23` is not `10^11`. -/
theorem sqrt_ten_pow_23 : Real.sqrt (10 ^ 23) ≠ 10 ^ 11 := by
  intro h
  have h2 := Real.sq_sqrt (show (0 : ℝ) ≤ 10 ^ 23 by positivity)
  rw [h] at h2
  norm_num at h2

/-- C13, counterexample: one undeformed particle of density `1e23` with `K = 1`, `G = 0`,
unit cell size and `dtCFL = 1e22`. The quotient `rho/(K + 4G/3) = 1e23` exceeds the
initial value `1e22` of the running minimum, so the code returns `dtCFL = 1e11`, while
`min(old dtCFL, min_inv_c·cellsize·√min_h_ratio)` with `min_inv_c = √1e23` is not
`1e11`. -/
theorem update_stress_cfl_initial_value :
    ∃ s', update_stress (Libm.mk Real.sqrt Real.log Real.exp Real.rpow) (1 : ℝ) "tlmpm"
          (Grid.blank 1) (Mat.plain (10 ^ 23) 1 0 0 1) Solid.dense = .ok s'
      ∧ s'.dtCFL = 10 ^ 11
      ∧ cfl_bound_reference (Libm.mk Real.sqrt Real.log Real.exp Real.rpow) (Grid.blank 1)
          (Mat.plain (10 ^ 23) 1 0 0 1) (Solid.dense : Solid ℝ) = Real.sqrt (10 ^ 23)
      ∧ s'.dtCFL ≠ min (Solid.dense : Solid ℝ).dtCFL
          (cfl_bound_reference (Libm.mk Real.sqrt Real.log Real.exp Real.rpow) (Grid.blank 1)
            (Mat.plain (10 ^ 23) 1 0 0 1) (Solid.dense : Solid ℝ)) := by
  have hc : cfl_min_inv (Mat.plain (10 ^ 23) 1 0 0 1) (Solid.dense : Solid ℝ) 1 = 10 ^ 22 := by
    simp only [cfl_min_inv, MIN, Mat.plain, Solid.dense]
    norm_num
  have hh : cfl_min_h_ratio (Solid.dense : Solid ℝ) 1 = 1 := by
    simp only [cfl_min_h_ratio, MIN, Solid.dense, Solid.atRest, Matrix.one_fin_three]
    norm_num [Matrix.vecHead, Matrix.vecTail]
  have href : cfl_bound_reference (Libm.mk Real.sqrt Real.log Real.exp Real.rpow) (Grid.blank 1)
      (Mat.plain (10 ^ 23) 1 0 0 1) (Solid.dense : Solid ℝ) = Real.sqrt (10 ^ 23) := by
    simp only [cfl_bound_reference, min_upto, Mat.plain, Solid.dense, Solid.atRest, Solid.blank,
      Grid.blank, Fin.sum_univ_three, Matrix.one_fin_three]
    norm_num [Matrix.vecHead, Matrix.vecTail]
  obtain ⟨s', hs'⟩ := update_stress_neo_hookean_returns
    (Libm.mk Real.sqrt Real.log Real.exp Real.rpow) (1 : ℝ) "tlmpm" (Grid.blank 1)
    (Mat.plain (10 ^ 23) 1 0 0 1) Solid.dense rfl
    (fun i _ => by
      simp only [Mat.plain, Solid.dense]
      norm_num)
  have heq := update_stress_neo_hookean_eq
    (Libm.mk Real.sqrt Real.log Real.exp Real.rpow) (1 : ℝ) "tlmpm" (Grid.blank 1)
    (Mat.plain (10 ^ 23) 1 0 0 1) Solid.dense s' rfl hs'
  have hdt : s'.dtCFL = 10 ^ 11 := by
    rw [heq]
    simp only [update_stress_finish, MIN_eq_min]
    rw [cfl_min_inv_congr _ _ (Solid.dense : Solid ℝ) (by rfl),
      cfl_min_h_ratio_congr _ (Solid.dense : Solid ℝ) (by rfl)]
    have hnp : (update_stress_neo_hookean_after (Libm.mk Real.sqrt Real.log Real.exp Real.rpow)
        (Mat.plain (10 ^ 23) 1 0 0 1) (Solid.dense : Solid ℝ).np
        { (Solid.dense : Solid ℝ) with min_inv_p_wave_speed := (10 ^ 22 : ℝ) }).np = 1 := rfl
    have hd : (update_stress_neo_hookean_after (Libm.mk Real.sqrt Real.log Real.exp Real.rpow)
        (Mat.plain (10 ^ 23) 1 0 0 1) (Solid.dense : Solid ℝ).np
        { (Solid.dense : Solid ℝ) with min_inv_p_wave_speed := (10 ^ 22 : ℝ) }).dtCFL = 10 ^ 22 := rfl
    have hg : (Grid.blank (1 : ℝ)).cellsize = 1 := rfl
    rw [hnp, hd, hc, hh, hg, sqrt_ten_pow_22, Real.sqrt_one]
    norm_num
  refine ⟨s', hs', hdt, href, ?_⟩
  rw [hdt, href]
  have hd0 : (Solid.dense : Solid ℝ).dtCFL = 10 ^ 22 := rfl
  rw [hd0]
  intro h
  rcases min_choice ((10 : ℝ) ^ 22) (Real.sqrt (10 ^ 23)) with h1 | h1
  · rw [h1] at h
    norm_num at h
  · rw [h1] at h
    exact sqrt_ten_pow_23 h.symm

/-! ## Particle-to-grid transfer of mass: claim C14 -/

/-- Two grids with the same fields are equal. -/
theorem Grid.eq_of_grid_fields {𝕂 : Type} (g h : Grid 𝕂)
    (h_nnodes : g.nnodes = h.nnodes) (h_cellsize : g.cellsize = h.cellsize)
    (h_x : g.x = h.x) (h_x0 : g.x0 = h.x0) (h_v : g.v = h.v) (h_v_update : g.v_update = h.v_update)
    (h_mb : g.mb = h.mb) (h_f : g.f = h.f) (h_mass : g.mass = h.mass) : g = h := by
  cases g
  cases h
  simp only [Grid.mk.injEq]
  exact ⟨h_nnodes, h_cellsize, h_x, h_x0, h_v, h_v_update, h_mb, h_f, h_mass⟩

/-- The inner loop of `compute_mass_nodes` adds a finite sum to `mass[node]`. -/
theorem compute_mass_nodes_inner_loop (s : Solid 𝕜) (node k : Nat) (g : Grid 𝕜) :
    loop (fun j t =>
        let ip := s.neigh_np node j
        { t with mass := Function.update t.mass node (t.mass node + s.wf_np node j * s.mass ip) })
      k g
    = { g with mass := (Function.update g.mass node
          (g.mass node + ∑ j in Finset.range k, s.wf_np node j * s.mass (s.neigh_np node j))) } := by
  induction k with
  | zero =>
    simp only [loop, Finset.range_zero, Finset.sum_empty, add_zero, Function.update_eq_self]
  | succ k ih =>
    rw [loop, ih]
    simp only [Function.update_same, Function.update_idem, Finset.sum_range_succ, add_assoc]

/-- One iteration of the node loop of `compute_mass_nodes` writes `mass[node]` only. -/
theorem compute_mass_nodes_node_eq (reset : Bool) (s : Solid 𝕜) (node : Nat) (g : Grid 𝕜) :
    compute_mass_nodes_node reset s node g
      = { g with mass := (Function.update g.mass node
            ((if reset then 0 else g.mass node) + nodal_mass_sum s node)) } := by
  unfold compute_mass_nodes_node nodal_mass_sum
  simp only []
  rw [compute_mass_nodes_inner_loop]
  cases reset <;> simp [Function.update_idem]

/-- The node loop of `compute_mass_nodes` in closed form. -/
theorem compute_mass_nodes_loop (reset : Bool) (s : Solid 𝕜) (n : Nat) (g : Grid 𝕜) :
    loop (compute_mass_nodes_node reset s) n g
      = { g with mass := fun node =>
            if node < n then (if reset then 0 else g.mass node) + nodal_mass_sum s node
            else g.mass node } := by
  induction n with
  | zero =>
    simp only [loop]
    apply Grid.eq_of_grid_fields <;> simp
  | succ n ih =>
    rw [loop, ih, compute_mass_nodes_node_eq]
    simp only [lt_irrefl, if_false]
    congr 1
    exact update_below _ n _ _ _ rfl

/-- A sum over a multiset of entries listed by key is the double sum over the keys and
the positions in their lists. -/
theorem sum_entries {α : Type} (n : Nat) (cnt : Nat → Nat) (e : Nat → Nat → α) (f : α → 𝕜) :
    (((Multiset.range n).bind fun a => (Multiset.range (cnt a)).map (e a)).map f).sum
      = ∑ a in Finset.range n, ∑ j in Finset.range (cnt a), f (e a j) := by
  rw [Multiset.map_bind, Multiset.sum_bind]
  simp only [Multiset.map_map, Finset.sum_eq_multiset_sum, Finset.range_val, Function.comp]

/-- The nodal masses written by `compute_mass_nodes(true)` add up to the particle masses
when the node-keyed lists are the transpose of the particle-keyed lists and the weights of
every particle sum to 1. -/
theorem sum_nodal_mass_sum (nnodes : Nat) (s : Solid 𝕜)
    (ht : node_keyed_entries nnodes s = particle_keyed_entries s)
    (hw : ∀ ip, ip < s.np → ∑ k in Finset.range (s.numneigh_pn ip), s.wf_pn ip k = 1) :
    ∑ node in Finset.range nnodes, nodal_mass_sum s node = ∑ ip in Finset.range s.np, s.mass ip := by
  have h1 := sum_entries nnodes s.numneigh_np
    (fun node j => (node, s.neigh_np node j, s.wf_np node j))
    (fun e : Nat × Nat × 𝕜 => e.2.2 * s.mass e.2.1)
  have h2 := sum_entries s.np s.numneigh_pn
    (fun ip k => (s.neigh_pn ip k, ip, s.wf_pn ip k))
    (fun e : Nat × Nat × 𝕜 => e.2.2 * s.mass e.2.1)
  have h3 : ∑ node in Finset.range nnodes, nodal_mass_sum s node
      = ∑ ip in Finset.range s.np, ∑ k in Finset.range (s.numneigh_pn ip), s.wf_pn ip k * s.mass ip := by
    unfold nodal_mass_sum
    rw [← h1, ← h2]
    exact congrArg (fun M => (Multiset.map (fun e : Nat × Nat × 𝕜 => e.2.2 * s.mass e.2.1) M).sum) ht
  rw [h3]
  apply Finset.sum_congr rfl
  intro ip hip
  rw [← Finset.sum_mul, hw ip (Finset.mem_range.mp hip), one_mul]

/-- C14: after `compute_mass_nodes(reset)` every node below `nnodes` has
`mass[in] = (reset ? 0 : mass[in]) + Σ_{j < numneigh_np[in]} wf_np[in][j]*mass[neigh_np[in][j]]`
and nothing else in the grid has changed; and when the node-keyed lists are the transpose
of the particle-keyed lists and the weights of every particle sum to 1, the total nodal
mass after `compute_mass_nodes(true)` equals the total particle mass. -/
theorem compute_mass_nodes_conserves (reset : Bool) (s : Solid 𝕜) (grid : Grid 𝕜) :
    (∀ node, node < grid.nnodes →
        (compute_mass_nodes reset s grid).mass node
          = (if reset then 0 else grid.mass node)
            + ∑ j in Finset.range (s.numneigh_np node),
                s.wf_np node j * s.mass (s.neigh_np node j))
    ∧ (∀ node, grid.nnodes ≤ node → (compute_mass_nodes reset s grid).mass node = grid.mass node)
    ∧ (compute_mass_nodes reset s grid).nnodes = grid.nnodes
    ∧ (compute_mass_nodes reset s grid).v = grid.v
    ∧ (node_keyed_entries grid.nnodes s = particle_keyed_entries s →
        (∀ ip, ip < s.np → ∑ k in Finset.range (s.numneigh_pn ip), s.wf_pn ip k = 1) →
        ∑ node in Finset.range grid.nnodes, (compute_mass_nodes true s grid).mass node
          = ∑ ip in Finset.range s.np, s.mass ip) := by
  unfold compute_mass_nodes
  simp only [compute_mass_nodes_loop]
  refine ⟨?_, ?_, trivial, trivial, ?_⟩
  · intro node hnode
    simp only [hnode, if_true, nodal_mass_sum]
  · intro node hnode
    simp only [not_lt.mpr hnode, if_false]
  · intro ht hw
    rw [← sum_nodal_mass_sum grid.nnodes s ht hw]
    apply Finset.sum_congr rfl
    intro node hnode
    simp only [Finset.mem_range.mp hnode, if_true, zero_add]

/-- C14, witness: for the particle of `Solid.twoNodes` (mass 2, weights `1/4` and `3/4`)
the two nodes receive the masses `1/2` and `3/2`, which add up to 2. -/
theorem compute_mass_nodes_conserves_witness :
    (compute_mass_nodes true (Solid.twoNodes : Solid ℚ) Grid.twoNodes).mass 0 = 1 / 2
    ∧ (compute_mass_nodes true (Solid.twoNodes : Solid ℚ) Grid.twoNodes).mass 1 = 3 / 2
    ∧ ∑ node in Finset.range 2,
        (compute_mass_nodes true (Solid.twoNodes : Solid ℚ) Grid.twoNodes).mass node
      = ∑ ip in Finset.range 1, (Solid.twoNodes : Solid ℚ).mass ip := by
  have h := compute_mass_nodes_conserves true (Solid.twoNodes : Solid ℚ) Grid.twoNodes
  have h0 := h.1 0 (by decide)
  have h1 := h.1 1 (by decide)
  have ht : node_keyed_entries (Grid.twoNodes : Grid ℚ).nnodes (Solid.twoNodes : Solid ℚ)
      = particle_keyed_entries (Solid.twoNodes : Solid ℚ) := by
    unfold node_keyed_entries particle_keyed_entries
    simp only [Solid.twoNodes, Solid.singleCell, Solid.atRest, Solid.blank, Grid.twoNodes,
      Grid.blank]
    rfl
  have hw : ∀ ip, ip < (Solid.twoNodes : Solid ℚ).np →
      ∑ k in Finset.range ((Solid.twoNodes : Solid ℚ).numneigh_pn ip),
        (Solid.twoNodes : Solid ℚ).wf_pn ip k = 1 := by
    intro ip _
    simp only [Solid.twoNodes, Solid.singleCell]
    norm_num [Finset.sum_range_succ]
  refine ⟨?_, ?_, h.2.2.2.2 ht hw⟩
  · rw [h0]
    simp only [Solid.twoNodes, Solid.singleCell]
    norm_num [Finset.sum_range_succ]
  · rw [h1]
    simp only [Solid.twoNodes, Solid.singleCell]
    norm_num [Finset.sum_range_succ]

/-! ## Particle-to-grid transfer of velocity: claim C15 -/

/-- Dividing every term of a sum of vectors is dividing the sum. -/
theorem vdiv_sum (n : Nat) (f : Nat → Vector3d 𝕜) (c : 𝕜) :
    ∑ j in Finset.range n, vdiv (f j) c = vdiv (∑ j in Finset.range n, f j) c := by
  funext i
  simp only [vdiv, Finset.sum_apply, Finset.sum_div]

/-- The inner loop of `compute_velocity_nodes` computes a finite sum. -/
theorem compute_velocity_nodes_inner_loop (s : Solid 𝕜) (node k : Nat) :
    loop (fun j (vtemp : Vector3d 𝕜) =>
        let ip := s.neigh_np node j
        vtemp + (s.wf_np node j * s.mass ip) • s.v ip)
      k 0
    = ∑ j in Finset.range k, (s.wf_np node j * s.mass (s.neigh_np node j)) • s.v (s.neigh_np node j) := by
  induction k with
  | zero => simp only [loop, Finset.range_zero, Finset.sum_empty]
  | succ k ih => rw [loop, ih, Finset.sum_range_succ]

/-- One iteration of the node loop of `compute_velocity_nodes` writes `v[node]` only. -/
theorem compute_velocity_nodes_node_eq (reset : Bool) (s : Solid 𝕜) (node : Nat) (g : Grid 𝕜) :
    compute_velocity_nodes_node reset s node g
      = { g with v := (Function.update g.v node
            ((if reset then 0 else g.v node)
              + (if g.mass node > 0 then scatter_velocity s g node s.v else 0))) } := by
  unfold compute_velocity_nodes_node scatter_velocity
  simp only [compute_velocity_nodes_inner_loop]
  cases reset <;> by_cases hm : g.mass node > 0 <;>
    simp [hm, Function.update_idem]

/-- The node loop of `compute_velocity_nodes` in closed form. -/
theorem compute_velocity_nodes_loop (reset : Bool) (s : Solid 𝕜) (n : Nat) (g : Grid 𝕜) :
    loop (compute_velocity_nodes_node reset s) n g
      = { g with v := fun node =>
            if node < n then (if reset then 0 else g.v node)
              + (if g.mass node > 0 then scatter_velocity s g node s.v else 0)
            else g.v node } := by
  induction n with
  | zero =>
    simp only [loop]
    apply Grid.eq_of_grid_fields <;> simp
  | succ n ih =>
    rw [loop, ih, compute_velocity_nodes_node_eq]
    simp only [lt_irrefl, if_false, scatter_velocity]
    congr 1
    exact update_below _ n _ _ _ rfl

/-- The inner loop of `compute_velocity_nodes_APIC` adds a finite sum to `v[node]`. -/
theorem compute_velocity_nodes_APIC_inner_loop (s : Solid 𝕜) (node k : Nat) (g : Grid 𝕜) :
    loop (fun j t =>
        let ip := s.neigh_np node j
        let term := (s.wf_np node j * s.mass ip) • (s.v ip + (s.Fdot ip).mulVec (t.x0 node - s.x0 ip))
        { t with v := Function.update t.v node (t.v node + vdiv term (t.mass node)) })
      k g
    = { g with v := (Function.update g.v node
          (g.v node + ∑ j in Finset.range k,
            vdiv ((s.wf_np node j * s.mass (s.neigh_np node j)) •
              (s.v (s.neigh_np node j)
                + (s.Fdot (s.neigh_np node j)).mulVec (g.x0 node - s.x0 (s.neigh_np node j))))
              (g.mass node))) } := by
  induction k with
  | zero =>
    simp only [loop, Finset.range_zero, Finset.sum_empty, add_zero, Function.update_eq_self]
  | succ k ih =>
    rw [loop, ih]
    simp only [Function.update_same, Function.update_idem, Finset.sum_range_succ, add_assoc]

/-- One iteration of the node loop of `compute_velocity_nodes_APIC` writes `v[node]`
only. -/
theorem compute_velocity_nodes_APIC_node_eq (reset : Bool) (s : Solid 𝕜) (node : Nat)
    (g : Grid 𝕜) :
    compute_velocity_nodes_APIC_node reset s node g
      = { g with v := (Function.update g.v node
            ((if reset then 0 else g.v node)
              + (if g.mass node > 0 then scatter_velocity s g node
                  (fun ip => s.v ip + (s.Fdot ip).mulVec (g.x0 node - s.x0 ip)) else 0))) } := by
  unfold compute_velocity_nodes_APIC_node scatter_velocity
  simp only [compute_velocity_nodes_APIC_inner_loop, vdiv_sum]
  cases reset <;> by_cases hm : g.mass node > 0 <;>
    simp [hm, Function.update_idem]

/-- The node loop of `compute_velocity_nodes_APIC` in closed form. -/
theorem compute_velocity_nodes_APIC_loop (reset : Bool) (s : Solid 𝕜) (n : Nat) (g : Grid 𝕜) :
    loop (compute_velocity_nodes_APIC_node reset s) n g
      = { g with v := fun node =>
            if node < n then (if reset then 0 else g.v node)
              + (if g.mass node > 0 then scatter_velocity s g node
                  (fun ip => s.v ip + (s.Fdot ip).mulVec (g.x0 node - s.x0 ip)) else 0)
            else g.v node } := by
  induction n with
  | zero =>
    simp only [loop]
    apply Grid.eq_of_grid_fields <;> simp
  | succ n ih =>
    rw [loop, ih, compute_velocity_nodes_APIC_node_eq]
    simp only [lt_irrefl, if_false, scatter_velocity]
    congr 1
    exact update_below _ n _ _ _ rfl

/-- C15: after `compute_velocity_nodes(reset)` every node has
`v[in] = (reset ? 0 : v[in]) + q`, where `q = (Σ_j wf_np[in][j]*mass[p_j]*v[p_j]) / mass[in]`
when `mass[in] > 0` and `q = 0` otherwise; `compute_velocity_nodes_APIC` gives the same with
`v[p_j]` replaced by `v[p_j] + Fdot[p_j]*(x0[in] - x0[p_j])`. In particular with
`reset = true` a node with `mass[in] ≤ 0` has `v[in] = 0`. -/
theorem compute_velocity_nodes_scatter (reset : Bool) (s : Solid 𝕜) (grid : Grid 𝕜) :
    ∀ node, node < grid.nnodes →
      (compute_velocity_nodes reset s grid).v node
          = (if reset then 0 else grid.v node)
            + (if grid.mass node > 0 then
                vdiv (∑ j in Finset.range (s.numneigh_np node),
                    (s.wf_np node j * s.mass (s.neigh_np node j)) • s.v (s.neigh_np node j))
                  (grid.mass node)
              else 0)
      ∧ (compute_velocity_nodes_APIC reset s grid).v node
          = (if reset then 0 else grid.v node)
            + (if grid.mass node > 0 then
                vdiv (∑ j in Finset.range (s.numneigh_np node),
                    (s.wf_np node j * s.mass (s.neigh_np node j)) •
                      (s.v (s.neigh_np node j) + (s.Fdot (s.neigh_np node j)).mulVec
                        (grid.x0 node - s.x0 (s.neigh_np node j))))
                  (grid.mass node)
              else 0)
      ∧ (reset = true → ¬ grid.mass node > 0 →
          (compute_velocity_nodes reset s grid).v node = 0
          ∧ (compute_velocity_nodes_APIC reset s grid).v node = 0) := by
  intro node hnode
  unfold compute_velocity_nodes compute_velocity_nodes_APIC
  simp only [compute_velocity_nodes_loop, compute_velocity_nodes_APIC_loop, hnode, if_true,
    scatter_velocity]
  refine ⟨trivial, trivial, ?_⟩
  intro hr hm
  simp only [hr, hm, if_true, if_false, add_zero, and_self]

/-- The nodal masses that `compute_mass_nodes(true)` gives the grid of `Grid.twoNodes` from
the particle of `Solid.twoNodes`. -/
theorem compute_mass_nodes_twoNodes :
    (compute_mass_nodes true (Solid.twoNodes : Solid ℚ) Grid.twoNodes).nnodes = 2
    ∧ (compute_mass_nodes true (Solid.twoNodes : Solid ℚ) Grid.twoNodes).x0 0 = ![0, 0, 0]
    ∧ (compute_mass_nodes true (Solid.twoNodes : Solid ℚ) Grid.twoNodes).mass 0 = 1 / 2 := by
  unfold compute_mass_nodes
  rw [compute_mass_nodes_loop]
  refine ⟨rfl, ?_, ?_⟩
  · simp [Grid.twoNodes]
  · simp only [Grid.twoNodes, nodal_mass_sum, Solid.twoNodes, Solid.singleCell]
    norm_num [Finset.sum_range_succ]

/-- C15, witness: for the particle of `Solid.twoNodes` (velocity `(1,0,0)`,
`Fdot = diag(1,0,0)`, at `x0 = 3/4`) node 0 at `x0 = 0` with mass `1/2` receives the
velocity `(1,0,0)` from `compute_velocity_nodes` and `(1/4,0,0)` from the APIC variant. -/
theorem compute_velocity_nodes_scatter_witness :
    (compute_velocity_nodes true (Solid.twoNodes : Solid ℚ)
        (compute_mass_nodes true (Solid.twoNodes : Solid ℚ) Grid.twoNodes)).v 0 = ![1, 0, 0]
    ∧ (compute_velocity_nodes_APIC true (Solid.twoNodes : Solid ℚ)
        (compute_mass_nodes true (Solid.twoNodes : Solid ℚ) Grid.twoNodes)).v 0 = ![1 / 4, 0, 0] := by
  obtain ⟨hn, hx, hm⟩ := compute_mass_nodes_twoNodes
  have h := compute_velocity_nodes_scatter true (Solid.twoNodes : Solid ℚ)
    (compute_mass_nodes true (Solid.twoNodes : Solid ℚ) Grid.twoNodes) 0 (by rw [hn]; decide)
  rw [hm, hx] at h
  refine ⟨?_, ?_⟩
  · rw [h.1]
    simp only [Solid.twoNodes, Solid.singleCell]
    funext i
    fin_cases i <;> norm_num [vdiv, Finset.sum_range_succ]
  · rw [h.2.1]
    simp only [Solid.twoNodes, Solid.singleCell]
    funext i
    fin_cases i <;>
      norm_num [vdiv, Finset.sum_range_succ, Matrix.mulVec, Matrix.dotProduct, Fin.sum_univ_three,
        Matrix.vecHead, Matrix.vecTail]

/-! ## Position and velocity update of the particles: claims C16, C17 -/

/-- The flag `ul` is set for the Total-Lagrangian style "tlcpdi". -/
theorem is_not_tlmpm_tlcpdi : is_not_tlmpm "tlcpdi" = true := by decide

/-- The flag `ul` is not set for the style "tlmpm". -/
theorem is_not_tlmpm_tlmpm : is_not_tlmpm "tlmpm" = false := by decide

/-- The position that the step `dt = 1` gives the particle of `Solid.leaving`. -/
theorem leaving_position :
    (Solid.leaving : Solid ℚ).x 0 + (1 : ℚ) • (Solid.leaving : Solid ℚ).v_update 0 = ![3 / 2, 0, 0] := by
  simp only [Solid.leaving]
  funext i
  fin_cases i <;> norm_num

/-- C16, the code at the failing input: in the Total-Lagrangian style "tlcpdi", for one
particle at `(1/2,0,0)` with `v_update = (1,0,0)`, `dt = 1` and the box `[0,1]³`,
`update_particle_position` makes the domain check and ends the run; in "tlmpm" the same
call returns with the particle at `(3/2,0,0)`. -/
theorem update_particle_position_tlcpdi_checks_domain :
    update_particle_position inside_unit_box (1 : ℚ) "tlcpdi" Solid.leaving
        = .error "Error: Particle left the domain"
    ∧ ∃ s', update_particle_position inside_unit_box (1 : ℚ) "tlmpm" Solid.leaving = .ok s'
        ∧ s'.x 0 = ![3 / 2, 0, 0] := by
  have hnp : (Solid.leaving : Solid ℚ).np = 1 := rfl
  have hout : inside_unit_box (![3 / 2, 0, 0] : Vector3d ℚ) = 0 := by
    simp only [inside_unit_box]
    norm_num
  refine ⟨?_, ?_⟩
  · unfold update_particle_position
    simp only [hnp, forLoop, is_not_tlmpm_tlcpdi, update_particle_position_particle,
      Function.update_same, leaving_position, hout, if_true]
  · unfold update_particle_position
    simp only [hnp, forLoop, is_not_tlmpm_tlmpm, update_particle_position_particle,
      Function.update_same, leaving_position, Bool.false_eq_true, if_false]
    exact ⟨_, rfl, by simp only [Function.update_same]⟩

/-- The loop of `update_particle_velocities` in closed form. -/
theorem update_particle_velocities_loop (dt FLIP : 𝕜) (n : Nat) (s : Solid 𝕜) :
    loop (fun ip t =>
        let blend := (1 - FLIP) • t.v_update ip + FLIP • (t.v ip + dt • t.a ip)
        { t with v := Function.update t.v ip blend })
      n s
    = { s with v := (fun ip =>
          if ip < n then (1 - FLIP) • s.v_update ip + FLIP • (s.v ip + dt • s.a ip)
          else s.v ip) } := by
  induction n with
  | zero =>
    simp only [loop]
    apply Solid.eq_of_fields <;> simp
  | succ n ih =>
    rw [loop, ih]
    simp only [lt_irrefl, if_false]
    congr 1
    exact update_below _ n _ _ _ rfl

/-- A convex combination of two numbers lies between them. -/
theorem blend_between (t a b : 𝕜) (h0 : 0 ≤ t) (h1 : t ≤ 1) :
    min a b ≤ (1 - t) * a + t * b ∧ (1 - t) * a + t * b ≤ max a b := by
  have h1' : 0 ≤ 1 - t := sub_nonneg.mpr h1
  constructor
  · calc min a b = (1 - t) * min a b + t * min a b := by ring
      _ ≤ (1 - t) * a + t * b :=
        add_le_add (mul_le_mul_of_nonneg_left (min_le_left a b) h1')
          (mul_le_mul_of_nonneg_left (min_le_right a b) h0)
  · calc (1 - t) * a + t * b ≤ (1 - t) * max a b + t * max a b :=
        add_le_add (mul_le_mul_of_nonneg_left (le_max_left a b) h1')
          (mul_le_mul_of_nonneg_left (le_max_right a b) h0)
      _ = max a b := by ring

/-- C17: `update_particle_velocities(alpha)` sets
`v[ip] = (1 - alpha)*v_update[ip] + alpha*(v[ip] + dt*a[ip])` for every particle and
changes no other field; for `alpha = 0` the result is `v_update[ip]`, for `alpha = 1` it
is `v[ip] + dt*a[ip]`, and for `0 ≤ alpha ≤ 1` every component lies between those two
values. -/
theorem update_particle_velocities_blend (dt FLIP : 𝕜) (s : Solid 𝕜) :
    update_particle_velocities dt FLIP s
        = { s with v := (fun ip =>
              if ip < s.np then (1 - FLIP) • s.v_update ip + FLIP • (s.v ip + dt • s.a ip)
              else s.v ip) }
    ∧ (∀ ip, ip < s.np → (update_particle_velocities dt 0 s).v ip = s.v_update ip)
    ∧ (∀ ip, ip < s.np → (update_particle_velocities dt 1 s).v ip = s.v ip + dt • s.a ip)
    ∧ (0 ≤ FLIP → FLIP ≤ 1 → ∀ ip, ip < s.np → ∀ c : Fin 3,
        min (s.v_update ip c) ((s.v ip + dt • s.a ip) c)
            ≤ (update_particle_velocities dt FLIP s).v ip c
        ∧ (update_particle_velocities dt FLIP s).v ip c
            ≤ max (s.v_update ip c) ((s.v ip + dt • s.a ip) c)) := by
  unfold update_particle_velocities
  simp only [update_particle_velocities_loop]
  refine ⟨trivial, ?_, ?_, ?_⟩
  · intro ip hip
    simp only [hip, if_true, sub_zero, one_smul, zero_smul, add_zero]
  · intro ip hip
    simp only [hip, if_true, sub_self, one_smul, zero_smul, zero_add]
  · intro h0 h1 ip hip c
    simp only [hip, if_true, Pi.add_apply, Pi.smul_apply, smul_eq_mul]
    exact blend_between FLIP (s.v_update ip c) (s.v ip c + dt * s.a ip c) h0 h1

/-- C17, witness: with `dt = 1`, `v = (0,0,0)`, `a = (0,0,0)` and `v_update = (1,0,0)`, the
blend with `alpha = 1/4` gives the particle of `Solid.leaving` the velocity `(3/4,0,0)`,
between the FLIP value `(0,0,0)` and the PIC value `(1,0,0)`. -/
theorem update_particle_velocities_blend_witness :
    (update_particle_velocities (1 : ℚ) (1 / 4) Solid.leaving).v 0 = ![3 / 4, 0, 0]
    ∧ (update_particle_velocities (1 : ℚ) 0 Solid.leaving).v 0 = ![1, 0, 0]
    ∧ (update_particle_velocities (1 : ℚ) 1 Solid.leaving).v 0 = ![0, 0, 0] := by
  have h := update_particle_velocities_blend (1 : ℚ) (1 / 4) Solid.leaving
  refine ⟨?_, ?_, ?_⟩
  · rw [h.1]
    simp only [Solid.leaving, Solid.atRest, Solid.blank]
    funext i
    fin_cases i <;> norm_num
  · rw [h.2.1 0 Nat.one_pos]
    rfl
  · rw [h.2.2.1 0 Nat.one_pos]
    simp only [Solid.leaving, Solid.atRest, Solid.blank]
    funext i
    fin_cases i <;> norm_num

/-! ## The rate kernels: claims C18, C19 -/

/-- The statements of dimension 1 add `vn[i]*wfd[k]` to the entry `(0,0)` only. -/
theorem rate_accumulate_1d_apply (v w : Vector3d 𝕜) (M : Matrix3d 𝕜) (i k : Fin 3) :
    rate_accumulate_1d v w M i k
      = M i k + (if i.val < 1 ∧ k.val < 1 then v i * w k else 0) := by
  fin_cases i <;> fin_cases k <;> simp [rate_accumulate_1d, addAt]

/-- The statements of dimension 2 add `vn[i]*wfd[k]` to the entries with `i, k < 2`. -/
theorem rate_accumulate_2d_apply (v w : Vector3d 𝕜) (M : Matrix3d 𝕜) (i k : Fin 3) :
    rate_accumulate_2d v w M i k
      = M i k + (if i.val < 2 ∧ k.val < 2 then v i * w k else 0) := by
  fin_cases i <;> fin_cases k <;> simp [rate_accumulate_2d, addAt]

/-- The statements of dimension 3 add `vn[i]*wfd[k]` to every entry. -/
theorem rate_accumulate_3d_apply (v w : Vector3d 𝕜) (M : Matrix3d 𝕜) (i k : Fin 3) :
    rate_accumulate_3d v w M i k
      = M i k + (if i.val < 3 ∧ k.val < 3 then v i * w k else 0) := by
  fin_cases i <;> fin_cases k <;> simp [rate_accumulate_3d, addAt]

/-- The entries of the matrix accumulated by the inner loop of a rate kernel whose
statements add `vn[i]*wfd[k]` to the entries with `i, k < d`. -/
theorem rate_of_entry (d : Nat)
    (accumulate : Vector3d 𝕜 → Vector3d 𝕜 → Matrix3d 𝕜 → Matrix3d 𝕜)
    (hacc : ∀ v w M i k, accumulate v w M i k
      = M i k + (if i.val < d ∧ k.val < d then v i * w k else 0))
    (vn : Nat → Vector3d 𝕜) (s : Solid 𝕜) (ip : Nat) (i k : Fin 3) :
    rate_of accumulate vn s ip i k
      = if i.val < d ∧ k.val < d then
          ∑ j in Finset.range (s.numneigh_pn ip), vn (s.neigh_pn ip j) i * s.wfd_pn ip j k
        else 0 := by
  unfold rate_of
  generalize s.numneigh_pn ip = n
  induction n with
  | zero => simp [loop]
  | succ n ih =>
    rw [loop, hacc, ih]
    split_ifs
    · rw [Finset.sum_range_succ]
    · rw [add_zero]

/-- The inner loop of a UL rate kernel only rewrites `L[ip]`. -/
theorem rate_inner_loop_UL {𝕂 : Type}
    (accumulate : Vector3d 𝕂 → Vector3d 𝕂 → Matrix3d 𝕂 → Matrix3d 𝕂)
    (vn : Nat → Vector3d 𝕂) (ip k : Nat) (s : Solid 𝕂) :
    loop (fun j t =>
        let node := t.neigh_pn ip j
        { t with L := Function.update t.L ip (accumulate (vn node) (t.wfd_pn ip j) (t.L ip)) })
      k s
    = { s with L := (Function.update s.L ip
          (loop (fun j M => accumulate (vn (s.neigh_pn ip j)) (s.wfd_pn ip j) M) k (s.L ip))) } := by
  induction k with
  | zero =>
    simp only [loop]
    apply Solid.eq_of_fields <;> simp
  | succ k ih =>
    rw [loop, ih]
    simp only [loop, Function.update_same, Function.update_idem]

/-- One iteration of the particle loop of a UL rate kernel writes `L[ip]` only. -/
theorem rate_deformation_gradient_UL_particle_eq
    (accumulate : Vector3d 𝕜 → Vector3d 𝕜 → Matrix3d 𝕜 → Matrix3d 𝕜)
    (vn : Nat → Vector3d 𝕜) (ip : Nat) (s : Solid 𝕜) :
    rate_deformation_gradient_UL_particle accumulate vn ip s
      = { s with L := Function.update s.L ip (rate_of accumulate vn s ip) } := by
  unfold rate_deformation_gradient_UL_particle rate_of
  simp only []
  rw [rate_inner_loop_UL]
  simp only [Function.update_same, Function.update_idem]

/-- The particle loop of a UL rate kernel in closed form. -/
theorem rate_deformation_gradient_UL_loop
    (accumulate : Vector3d 𝕜 → Vector3d 𝕜 → Matrix3d 𝕜 → Matrix3d 𝕜)
    (vn : Nat → Vector3d 𝕜) (n : Nat) (s : Solid 𝕜) :
    loop (rate_deformation_gradient_UL_particle accumulate vn) n s
      = { s with L := fun i => if i < n then rate_of accumulate vn s i else s.L i } := by
  induction n with
  | zero =>
    simp only [loop]
    apply Solid.eq_of_fields <;> simp
  | succ n ih =>
    rw [loop, ih, rate_deformation_gradient_UL_particle_eq]
    simp only []
    congr 1
    exact update_below _ n _ _ _ rfl

/-- The entries written by `compute_rate_deformation_gradient_TL` in dimension 1, 2 or 3. -/
theorem compute_rate_deformation_gradient_TL_entry (dimension : Nat) (grid : Grid 𝕜)
    (s : Solid 𝕜) (hd : dimension = 1 ∨ dimension = 2 ∨ dimension = 3) (ip : Nat)
    (hip : ip < s.np) (i k : Fin 3) :
    (compute_rate_deformation_gradient_TL dimension grid s).Fdot ip i k
      = if i.val < dimension ∧ k.val < dimension then
          ∑ j in Finset.range (s.numneigh_pn ip), grid.v (s.neigh_pn ip j) i * s.wfd_pn ip j k
        else 0 := by
  rcases hd with hd | hd | hd <;> subst hd <;>
    simp only [compute_rate_deformation_gradient_TL, rate_deformation_gradient_TL_loop, hip,
      if_true, OfNat.ofNat_ne_one, Nat.succ_ne_self, if_false, OfNat.ofNat_eq_ofNat,
      Nat.reduceEqDiff]
  · exact rate_of_entry 1 _ rate_accumulate_1d_apply _ _ _ _ _
  · exact rate_of_entry 2 _ rate_accumulate_2d_apply _ _ _ _ _
  · exact rate_of_entry 3 _ rate_accumulate_3d_apply _ _ _ _ _

/-- The entries written by `compute_rate_deformation_gradient_UL_MUSL` in dimension 1, 2
or 3. -/
theorem compute_rate_deformation_gradient_UL_MUSL_entry (dimension : Nat) (grid : Grid 𝕜)
    (s : Solid 𝕜) (hd : dimension = 1 ∨ dimension = 2 ∨ dimension = 3) (ip : Nat)
    (hip : ip < s.np) (i k : Fin 3) :
    (compute_rate_deformation_gradient_UL_MUSL dimension grid s).L ip i k
      = if i.val < dimension ∧ k.val < dimension then
          ∑ j in Finset.range (s.numneigh_pn ip), grid.v (s.neigh_pn ip j) i * s.wfd_pn ip j k
        else 0 := by
  rcases hd with hd | hd | hd <;> subst hd <;>
    simp only [compute_rate_deformation_gradient_UL_MUSL, rate_deformation_gradient_UL_loop, hip,
      if_true, OfNat.ofNat_ne_one, Nat.succ_ne_self, if_false, OfNat.ofNat_eq_ofNat,
      Nat.reduceEqDiff]
  · exact rate_of_entry 1 _ rate_accumulate_1d_apply _ _ _ _ _
  · exact rate_of_entry 2 _ rate_accumulate_2d_apply _ _ _ _ _
  · exact rate_of_entry 3 _ rate_accumulate_3d_apply _ _ _ _ _

/-- The entries written by `compute_rate_deformation_gradient_UL_USL` in dimension 1, 2
or 3. -/
theorem compute_rate_deformation_gradient_UL_USL_entry (dimension : Nat) (grid : Grid 𝕜)
    (s : Solid 𝕜) (hd : dimension = 1 ∨ dimension = 2 ∨ dimension = 3) (ip : Nat)
    (hip : ip < s.np) (i k : Fin 3) :
    (compute_rate_deformation_gradient_UL_USL dimension grid s).L ip i k
      = if i.val < dimension ∧ k.val < dimension then
          ∑ j in Finset.range (s.numneigh_pn ip),
            grid.v_update (s.neigh_pn ip j) i * s.wfd_pn ip j k
        else 0 := by
  rcases hd with hd | hd | hd <;> subst hd <;>
    simp only [compute_rate_deformation_gradient_UL_USL, rate_deformation_gradient_UL_loop, hip,
      if_true, OfNat.ofNat_ne_one, Nat.succ_ne_self, if_false, OfNat.ofNat_eq_ofNat,
      Nat.reduceEqDiff]
  · exact rate_of_entry 1 _ rate_accumulate_1d_apply _ _ _ _ _
  · exact rate_of_entry 2 _ rate_accumulate_2d_apply _ _ _ _ _
  · exact rate_of_entry 3 _ rate_accumulate_3d_apply _ _ _ _ _

/-- A sum of products `vn[i]*wfd[k]` vanishes for an index beyond `d` when the components
of the velocities and of the weight gradients beyond `d` are zero. -/
theorem rate_sum_beyond (d n : Nat) (v w : Nat → Vector3d 𝕜) (i k : Fin 3)
    (h : ∀ j, j < n → ∀ c : Fin 3, d ≤ c.val → v j c = 0 ∧ w j c = 0)
    (hik : ¬ (i.val < d ∧ k.val < d)) :
    ∑ j in Finset.range n, v j i * w j k = 0 := by
  apply Finset.sum_eq_zero
  intro j hj
  have hj' := Finset.mem_range.mp hj
  by_cases hi : i.val < d
  · have hk : d ≤ k.val := by
      by_contra hk
      exact hik ⟨hi, by omega⟩
    rw [(h j hj' k hk).2, mul_zero]
  · rw [(h j hj' i (by omega)).1, zero_mul]

/-- C18: for dimension `d ∈ {1,2,3}` and every particle,
`compute_rate_deformation_gradient_TL` writes `Fdot(i,k) = Σ_j vn[in_j][i]*wfd_pn[ip][j][k]`
for `i, k < d` and 0 elsewhere, with `vn` the nodal `v`; the UL_MUSL kernel writes the same
to `L` with the nodal `v`, and the UL_USL kernel with the nodal `v_update`. When the
components beyond `d` of the nodal velocities and of the weight gradients are zero, each
kernel of dimension `d` writes the same matrix as that of dimension 3. -/
theorem compute_rate_deformation_gradient_kernels (dimension : Nat) (grid : Grid 𝕜)
    (s : Solid 𝕜) (hd : dimension = 1 ∨ dimension = 2 ∨ dimension = 3) (ip : Nat)
    (hip : ip < s.np) :
    (∀ i k : Fin 3,
      (compute_rate_deformation_gradient_TL dimension grid s).Fdot ip i k
        = if i.val < dimension ∧ k.val < dimension then
            ∑ j in Finset.range (s.numneigh_pn ip), grid.v (s.neigh_pn ip j) i * s.wfd_pn ip j k
          else 0)
    ∧ (∀ i k : Fin 3,
      (compute_rate_deformation_gradient_UL_MUSL dimension grid s).L ip i k
        = if i.val < dimension ∧ k.val < dimension then
            ∑ j in Finset.range (s.numneigh_pn ip), grid.v (s.neigh_pn ip j) i * s.wfd_pn ip j k
          else 0)
    ∧ (∀ i k : Fin 3,
      (compute_rate_deformation_gradient_UL_USL dimension grid s).L ip i k
        = if i.val < dimension ∧ k.val < dimension then
            ∑ j in Finset.range (s.numneigh_pn ip),
              grid.v_update (s.neigh_pn ip j) i * s.wfd_pn ip j k
          else 0)
    ∧ ((∀ j, j < s.numneigh_pn ip → ∀ c : Fin 3, dimension ≤ c.val →
          grid.v (s.neigh_pn ip j) c = 0 ∧ s.wfd_pn ip j c = 0) →
        (compute_rate_deformation_gradient_TL dimension grid s).Fdot ip
            = (compute_rate_deformation_gradient_TL 3 grid s).Fdot ip
        ∧ (compute_rate_deformation_gradient_UL_MUSL dimension grid s).L ip
            = (compute_rate_deformation_gradient_UL_MUSL 3 grid s).L ip)
    ∧ ((∀ j, j < s.numneigh_pn ip → ∀ c : Fin 3, dimension ≤ c.val →
          grid.v_update (s.neigh_pn ip j) c = 0 ∧ s.wfd_pn ip j c = 0) →
        (compute_rate_deformation_gradient_UL_USL dimension grid s).L ip
            = (compute_rate_deformation_gradient_UL_USL 3 grid s).L ip) := by
  have h3 : ∀ i k : Fin 3, i.val < 3 ∧ k.val < 3 := fun i k => ⟨i.isLt, k.isLt⟩
  refine ⟨fun i k => compute_rate_deformation_gradient_TL_entry dimension grid s hd ip hip i k,
    fun i k => compute_rate_deformation_gradient_UL_MUSL_entry dimension grid s hd ip hip i k,
    fun i k => compute_rate_deformation_gradient_UL_USL_entry dimension grid s hd ip hip i k,
    ?_, ?_⟩
  · intro h
    refine ⟨?_, ?_⟩
    · funext i k
      rw [compute_rate_deformation_gradient_TL_entry dimension grid s hd ip hip,
        compute_rate_deformation_gradient_TL_entry 3 grid s (Or.inr (Or.inr rfl)) ip hip,
        if_pos (h3 i k)]
      split_ifs with hik
      · rfl
      · exact (rate_sum_beyond dimension _ (fun j => grid.v (s.neigh_pn ip j))
          (fun j => s.wfd_pn ip j) i k h hik).symm
    · funext i k
      rw [compute_rate_deformation_gradient_UL_MUSL_entry dimension grid s hd ip hip,
        compute_rate_deformation_gradient_UL_MUSL_entry 3 grid s (Or.inr (Or.inr rfl)) ip hip,
        if_pos (h3 i k)]
      split_ifs with hik
      · rfl
      · exact (rate_sum_beyond dimension _ (fun j => grid.v (s.neigh_pn ip j))
          (fun j => s.wfd_pn ip j) i k h hik).symm
  · intro h
    funext i k
    rw [compute_rate_deformation_gradient_UL_USL_entry dimension grid s hd ip hip,
      compute_rate_deformation_gradient_UL_USL_entry 3 grid s (Or.inr (Or.inr rfl)) ip hip,
      if_pos (h3 i k)]
    split_ifs with hik
    · rfl
    · exact (rate_sum_beyond dimension _ (fun j => grid.v_update (s.neigh_pn ip j))
        (fun j => s.wfd_pn ip j) i k h hik).symm

/-- C18, witness: in dimension 1, for the particle of `Solid.singleCell` (weight gradients
`-1` and `1`) on the grid of `Grid.pulled`, the TL kernel writes `Fdot(0,0) = 1/100`, the
MUSL kernel `L(0,0) = 1/100`, the USL kernel `L(0,0) = 1/50`, every other entry is 0, and
the TL kernel of dimension 3 writes the same `Fdot`. -/
theorem compute_rate_deformation_gradient_kernels_witness :
    (compute_rate_deformation_gradient_TL 1 (Grid.pulled : Grid ℚ) Solid.singleCell).Fdot 0 0 0
        = 1 / 100
    ∧ (compute_rate_deformation_gradient_TL 1 (Grid.pulled : Grid ℚ) Solid.singleCell).Fdot 0 1 1
        = 0
    ∧ (compute_rate_deformation_gradient_UL_MUSL 1 (Grid.pulled : Grid ℚ) Solid.singleCell).L 0 0 0
        = 1 / 100
    ∧ (compute_rate_deformation_gradient_UL_USL 1 (Grid.pulled : Grid ℚ) Solid.singleCell).L 0 0 0
        = 1 / 50
    ∧ (compute_rate_deformation_gradient_TL 1 (Grid.pulled : Grid ℚ) Solid.singleCell).Fdot 0
        = (compute_rate_deformation_gradient_TL 3 (Grid.pulled : Grid ℚ) Solid.singleCell).Fdot 0 := by
  have h := compute_rate_deformation_gradient_kernels 1 (Grid.pulled : Grid ℚ) Solid.singleCell
    (Or.inl rfl) 0 Nat.one_pos
  have hz : ∀ j, j < (Solid.singleCell : Solid ℚ).numneigh_pn 0 → ∀ c : Fin 3, 1 ≤ c.val →
      (Grid.pulled : Grid ℚ).v ((Solid.singleCell : Solid ℚ).neigh_pn 0 j) c = 0
      ∧ (Solid.singleCell : Solid ℚ).wfd_pn 0 j c = 0 := by
    intro j _ c hc
    simp only [Grid.pulled, Solid.singleCell]
    fin_cases c
    · simp at hc
    · constructor <;> split_ifs <;> simp
    · constructor <;> split_ifs <;> simp
  refine ⟨?_, ?_, ?_, ?_, (h.2.2.2.1 hz).1⟩
  · rw [h.1 0 0]
    simp only [Grid.pulled, Solid.singleCell]
    norm_num [Finset.sum_range_succ]
  · rw [h.1 1 1]
    simp
  · rw [h.2.1 0 0]
    simp only [Grid.pulled, Solid.singleCell]
    norm_num [Finset.sum_range_succ]
  · rw [h.2.2.1 0 0]
    simp only [Grid.pulled, Solid.singleCell]
    norm_num [Finset.sum_range_succ]

/-- The APIC statements of dimension 1 add `vn[i]*dx[k]*wf` to the entry `(0,0)` only. -/
theorem apic_accumulate_1d_apply (v dx : Vector3d 𝕜) (wf : 𝕜) (M : Matrix3d 𝕜) (i k : Fin 3) :
    apic_accumulate_1d v dx wf M i k
      = M i k + (if i.val < 1 ∧ k.val < 1 then v i * dx k * wf else 0) := by
  fin_cases i <;> fin_cases k <;> simp [apic_accumulate_1d, addAt]

/-- The APIC statements of dimension 2 add `vn[i]*dx[k]*wf` to the entries with
`i, k < 2`. -/
theorem apic_accumulate_2d_apply (v dx : Vector3d 𝕜) (wf : 𝕜) (M : Matrix3d 𝕜) (i k : Fin 3) :
    apic_accumulate_2d v dx wf M i k
      = M i k + (if i.val < 2 ∧ k.val < 2 then v i * dx k * wf else 0) := by
  fin_cases i <;> fin_cases k <;> simp [apic_accumulate_2d, addAt]

/-- The APIC statements of dimension 3 add `vn[i]*dx[k]*wf` to every entry. -/
theorem apic_accumulate_3d_apply (v dx : Vector3d 𝕜) (wf : 𝕜) (M : Matrix3d 𝕜) (i k : Fin 3) :
    apic_accumulate_3d v dx wf M i k
      = M i k + (if i.val < 3 ∧ k.val < 3 then v i * dx k * wf else 0) := by
  fin_cases i <;> fin_cases k <;> simp [apic_accumulate_3d, addAt]

/-- The entries of the matrix accumulated by the inner loop of the APIC kernel. -/
theorem apic_rate_of_entry (d : Nat)
    (accumulate : Vector3d 𝕜 → Vector3d 𝕜 → 𝕜 → Matrix3d 𝕜 → Matrix3d 𝕜)
    (hacc : ∀ v dx wf M i k, accumulate v dx wf M i k
      = M i k + (if i.val < d ∧ k.val < d then v i * dx k * wf else 0))
    (x0n vn : Nat → Vector3d 𝕜) (s : Solid 𝕜) (ip : Nat) (i k : Fin 3) :
    apic_rate_of accumulate x0n vn s ip i k
      = if i.val < d ∧ k.val < d then
          ∑ j in Finset.range (s.numneigh_pn ip),
            vn (s.neigh_pn ip j) i * (x0n (s.neigh_pn ip j) - s.x0 ip) k * s.wf_pn ip j
        else 0 := by
  unfold apic_rate_of
  generalize s.numneigh_pn ip = n
  induction n with
  | zero => simp [loop]
  | succ n ih =>
    rw [loop, hacc, ih]
    split_ifs
    · rw [Finset.sum_range_succ]
    · rw [add_zero]

/-- The inner loop of the APIC rate kernel only rewrites `Fdot[ip]`. -/
theorem apic_inner_loop {𝕂 : Type} [Sub 𝕂]
    (accumulate : Vector3d 𝕂 → Vector3d 𝕂 → 𝕂 → Matrix3d 𝕂 → Matrix3d 𝕂)
    (x0n vn : Nat → Vector3d 𝕂) (ip k : Nat) (s : Solid 𝕂) :
    loop (fun j t =>
        let node := t.neigh_pn ip j
        let dx := x0n node - t.x0 ip
        { t with Fdot := Function.update t.Fdot ip (accumulate (vn node) dx (t.wf_pn ip j) (t.Fdot ip)) })
      k s
    = { s with Fdot := (Function.update s.Fdot ip
          (loop (fun j M => accumulate (vn (s.neigh_pn ip j)) (x0n (s.neigh_pn ip j) - s.x0 ip)
            (s.wf_pn ip j) M) k (s.Fdot ip))) } := by
  induction k with
  | zero =>
    simp only [loop]
    apply Solid.eq_of_fields <;> simp
  | succ k ih =>
    rw [loop, ih]
    simp only [loop, Function.update_same, Function.update_idem]

/-- One iteration of the particle loop of the APIC rate kernel writes `Fdot[ip]` only. -/
theorem rate_deformation_gradient_TL_APIC_particle_eq
    (accumulate : Vector3d 𝕜 → Vector3d 𝕜 → 𝕜 → Matrix3d 𝕜 → Matrix3d 𝕜)
    (x0n vn : Nat → Vector3d 𝕜) (ip : Nat) (s : Solid 𝕜) :
    rate_deformation_gradient_TL_APIC_particle accumulate x0n vn ip s
      = { s with Fdot := Function.update s.Fdot ip (apic_rate_of accumulate x0n vn s ip * s.Di ip) } := by
  unfold rate_deformation_gradient_TL_APIC_particle apic_rate_of
  simp only []
  rw [apic_inner_loop]
  simp only [Function.update_same, Function.update_idem]

/-- The particle loop of the APIC rate kernel in closed form. -/
theorem rate_deformation_gradient_TL_APIC_loop
    (accumulate : Vector3d 𝕜 → Vector3d 𝕜 → 𝕜 → Matrix3d 𝕜 → Matrix3d 𝕜)
    (x0n vn : Nat → Vector3d 𝕜) (n : Nat) (s : Solid 𝕜) :
    loop (rate_deformation_gradient_TL_APIC_particle accumulate x0n vn) n s
      = { s with Fdot := fun i =>
            if i < n then apic_rate_of accumulate x0n vn s i * s.Di i else s.Fdot i } := by
  induction n with
  | zero =>
    simp only [loop]
    apply Solid.eq_of_fields <;> simp
  | succ n ih =>
    rw [loop, ih, rate_deformation_gradient_TL_APIC_particle_eq]
    simp only []
    congr 1
    exact update_below _ n _ _ _ rfl

/-- The entries written by `compute_rate_deformation_gradient_TL_APIC` in dimension 1, 2
or 3, for any inertia tensor. -/
theorem compute_rate_deformation_gradient_TL_APIC_eq (dimension : Nat) (grid : Grid 𝕜)
    (s : Solid 𝕜) (hd : dimension = 1 ∨ dimension = 2 ∨ dimension = 3) (ip : Nat)
    (hip : ip < s.np) :
    ∃ A : Matrix3d 𝕜,
      (compute_rate_deformation_gradient_TL_APIC dimension grid s).Fdot ip = A * s.Di ip
      ∧ ∀ i k : Fin 3, A i k
        = if i.val < dimension ∧ k.val < dimension then
            ∑ j in Finset.range (s.numneigh_pn ip),
              grid.v_update (s.neigh_pn ip j) i * (grid.x0 (s.neigh_pn ip j) - s.x0 ip) k
                * s.wf_pn ip j
          else 0 := by
  rcases hd with hd | hd | hd <;> subst hd <;>
    simp only [compute_rate_deformation_gradient_TL_APIC, rate_deformation_gradient_TL_APIC_loop,
      hip, if_true, OfNat.ofNat_ne_one, Nat.succ_ne_self, if_false, OfNat.ofNat_eq_ofNat,
      Nat.reduceEqDiff]
  · exact ⟨_, rfl, fun i k => apic_rate_of_entry 1 _ apic_accumulate_1d_apply _ _ _ _ i k⟩
  · exact ⟨_, rfl, fun i k => apic_rate_of_entry 2 _ apic_accumulate_2d_apply _ _ _ _ i k⟩
  · exact ⟨_, rfl, fun i k => apic_rate_of_entry 3 _ apic_accumulate_3d_apply _ _ _ _ i k⟩

/-- A loop that writes the same matrix to `Di[ip]` for every particle, in closed form. -/
theorem loop_update_Di {𝕂 : Type} (M : Matrix3d 𝕂) (n : Nat) (s : Solid 𝕂) :
    loop (fun ip t => { t with Di := Function.update t.Di ip M }) n s
      = { s with Di := fun i => if i < n then M else s.Di i } := by
  induction n with
  | zero =>
    simp only [loop]
    apply Solid.eq_of_fields <;> simp
  | succ n ih =>
    rw [loop, ih]
    simp only []
    congr 1
    exact update_below _ n _ _ _ rfl

/-- The state left by `compute_inertia_tensor` for each of the four shape-function names. -/
theorem compute_inertia_tensor_eq (form_function : String) (c : 𝕜) (grid : Grid 𝕜) (s : Solid 𝕜)
    (hf : (form_function = "linear" ∧ c = 16 / 3) ∨ (form_function = "quadratic-spline" ∧ c = 4)
      ∨ (form_function = "cubic-spline" ∧ c = 3) ∨ (form_function = "Bernstein-quadratic" ∧ c = 12)) :
    compute_inertia_tensor form_function grid s
      = { s with Di := fun i =>
            if i < s.np then (c * (1 / (grid.cellsize * grid.cellsize))) • (1 : Matrix3d 𝕜)
            else s.Di i } := by
  have h1 : ("quadratic-spline" == "linear") = false := by decide
  have h2 : ("cubic-spline" == "linear") = false := by decide
  have h3 : ("cubic-spline" == "quadratic-spline") = false := by decide
  have h4 : ("Bernstein-quadratic" == "linear") = false := by decide
  have h5 : ("Bernstein-quadratic" == "quadratic-spline") = false := by decide
  have h6 : ("Bernstein-quadratic" == "cubic-spline") = false := by decide
  unfold compute_inertia_tensor
  rcases hf with ⟨hf, hc⟩ | ⟨hf, hc⟩ | ⟨hf, hc⟩ | ⟨hf, hc⟩ <;> subst hf <;> subst hc <;>
    simp only [beq_self_eq_true, if_true, h1, h2, h3, h4, h5, h6, Bool.false_eq_true, if_false] <;>
    exact loop_update_Di _ _ _

/-- C19: for each of the four names, `compute_inertia_tensor` sets
`Di[ip] = c/cellsize² * I` with `c = 16/3` ("linear"), 4 ("quadratic-spline"),
3 ("cubic-spline"), 12 ("Bernstein-quadratic") and changes nothing else; and
`compute_rate_deformation_gradient_TL_APIC` then gives
`Fdot(i,k) = (Σ_j v_update_node[in_j][i]*(x0n[in_j] - x0[ip])[k]*wf_pn[ip][j]) * c/cellsize²`
for `i, k < dimension` (and 0 for the other entries). -/
theorem compute_inertia_tensor_APIC_rate (form_function : String) (c : 𝕜) (dimension : Nat)
    (grid : Grid 𝕜) (s : Solid 𝕜)
    (hf : (form_function = "linear" ∧ c = 16 / 3) ∨ (form_function = "quadratic-spline" ∧ c = 4)
      ∨ (form_function = "cubic-spline" ∧ c = 3) ∨ (form_function = "Bernstein-quadratic" ∧ c = 12))
    (hd : dimension = 1 ∨ dimension = 2 ∨ dimension = 3) (ip : Nat) (hip : ip < s.np) :
    compute_inertia_tensor form_function grid s
        = { s with Di := (compute_inertia_tensor form_function grid s).Di }
    ∧ (compute_inertia_tensor form_function grid s).Di ip
        = (c / grid.cellsize ^ 2) • (1 : Matrix3d 𝕜)
    ∧ ∀ i k : Fin 3,
        (compute_rate_deformation_gradient_TL_APIC dimension grid
            (compute_inertia_tensor form_function grid s)).Fdot ip i k
          = (if i.val < dimension ∧ k.val < dimension then
              ∑ j in Finset.range (s.numneigh_pn ip),
                grid.v_update (s.neigh_pn ip j) i * (grid.x0 (s.neigh_pn ip j) - s.x0 ip) k
                  * s.wf_pn ip j
            else 0) * (c / grid.cellsize ^ 2) := by
  have hc : c * (1 / (grid.cellsize * grid.cellsize)) = c / grid.cellsize ^ 2 := by
    rw [mul_one_div, pow_two]
  have hDi := compute_inertia_tensor_eq form_function c grid s hf
  rw [hc] at hDi
  refine ⟨?_, ?_, ?_⟩
  · rw [hDi]
  · rw [hDi]
    simp only [hip, if_true]
  · intro i k
    obtain ⟨A, hA, hAe⟩ := compute_rate_deformation_gradient_TL_APIC_eq dimension grid
      (compute_inertia_tensor form_function grid s) hd ip (by rw [hDi]; exact hip)
    rw [hA, hDi]
    simp only [hip, if_true, Matrix.mul_smul, Matrix.mul_one, Matrix.smul_apply, smul_eq_mul]
    rw [hAe, hDi, mul_comm]

/-- C19, witness: in dimension 1 with the "linear" shape functions and unit cell size, the
particle of `Solid.twoNodes` (at `x0 = 3/4`, weights `1/4` and `3/4`) on the grid of
`Grid.pulled` (node 1 at `x0 = 1` with `v_update = 1/50`) gets `Di = (16/3)*I` and
`Fdot(0,0) = (1/50 * 1/4 * 3/4) * 16/3 = 1/50`. -/
theorem compute_inertia_tensor_APIC_rate_witness :
    (compute_inertia_tensor "linear" (Grid.pulled : Grid ℚ) Solid.twoNodes).Di 0
        = (16 / 3 : ℚ) • (1 : Matrix3d ℚ)
    ∧ (compute_rate_deformation_gradient_TL_APIC 1 (Grid.pulled : Grid ℚ)
        (compute_inertia_tensor "linear" (Grid.pulled : Grid ℚ) Solid.twoNodes)).Fdot 0 0 0
        = 1 / 50 := by
  have h := compute_inertia_tensor_APIC_rate "linear" (16 / 3 : ℚ) 1 (Grid.pulled : Grid ℚ)
    Solid.twoNodes (Or.inl ⟨rfl, rfl⟩) (Or.inl rfl) 0 Nat.one_pos
  have hcs : (Grid.pulled : Grid ℚ).cellsize = 1 := rfl
  rw [hcs] at h
  refine ⟨?_, ?_⟩
  · rw [h.2.1]
    norm_num
  · rw [h.2.2 0 0]
    simp only [Grid.pulled, Grid.twoNodes, Solid.twoNodes, Solid.singleCell]
    norm_num [Finset.sum_range_succ]

/-! ## Copying a particle: claim C26 -/

/-- C26, the code at the failing input: `copy_particle(0, 1)` on the two particles of
`Solid.pair` leaves `v_update[1] = v[0] = (1,0,0)` instead of `v_update[0] = (2,0,0)`, and
leaves `ptag[1] = 2`, `strain_el[1] = 0`, `Di[1] = 0`, `mask[1] = 0` where particle 0 has
`ptag = 1`, `strain_el = I`, `Di = I`, `mask = 1`; and `copy_particle(0, 0)` changes
`v_update[0]` from `(2,0,0)` to `(1,0,0)`. -/
theorem copy_particle_misses_fields :
    (copy_particle 0 1 (Solid.pair : Solid ℚ)).v_update 1 = ![1, 0, 0]
    ∧ (Solid.pair : Solid ℚ).v_update 0 = ![2, 0, 0]
    ∧ (copy_particle 0 1 (Solid.pair : Solid ℚ)).ptag 1 = 2
    ∧ (Solid.pair : Solid ℚ).ptag 0 = 1
    ∧ (copy_particle 0 1 (Solid.pair : Solid ℚ)).strain_el 1 = 0
    ∧ (Solid.pair : Solid ℚ).strain_el 0 = 1
    ∧ (copy_particle 0 1 (Solid.pair : Solid ℚ)).Di 1 = 0
    ∧ (Solid.pair : Solid ℚ).Di 0 = 1
    ∧ (copy_particle 0 1 (Solid.pair : Solid ℚ)).mask 1 = 0
    ∧ (Solid.pair : Solid ℚ).mask 0 = 1
    ∧ (copy_particle 0 0 (Solid.pair : Solid ℚ)).v_update 0 = ![1, 0, 0]
    ∧ copy_particle 0 0 (Solid.pair : Solid ℚ) ≠ Solid.pair := by
  have hv : (copy_particle 0 0 (Solid.pair : Solid ℚ)).v_update 0 = ![1, 0, 0] := by
    simp [copy_particle, Solid.pair]
  refine ⟨by simp [copy_particle, Solid.pair], rfl, rfl, rfl, by simp [copy_particle, Solid.pair],
    by simp [Solid.pair], by simp [copy_particle, Solid.pair], by simp [Solid.pair], rfl, rfl, hv, ?_⟩
  intro h
  rw [h] at hv
  have := congrFun hv 0
  simp [Solid.pair] at this

/-! ## Scenario S3, damage accumulation: claim C28 -/

/-- Bounds for the exponential that enters the failure strain of scenario S3. -/
theorem exp_S3_bounds :
    (49327 / 100000 : ℝ) < Real.exp (-212 / 100 * (1 / 3))
      ∧ Real.exp (-212 / 100 * (1 / 3)) < 49330 / 100000 := by
  have hx : |(-212 / 100 * (1 / 3) : ℝ)| ≤ 1 := by
    rw [abs_le]; constructor <;> norm_num
  have h := Real.exp_bound hx (show 0 < 8 by norm_num)
  rw [abs_le] at h
  have habs : |(-212 / 100 * (1 / 3) : ℝ)| = 53 / 75 := by
    rw [abs_of_neg (by norm_num)]; norm_num
  rw [habs] at h
  norm_num [Finset.sum_range_succ, Nat.factorial] at h
  constructor <;> linarith [h.1, h.2]

/-- The failure strain of scenario S3 at triaxiality `1/3`, for any strain rate. -/
theorem jc_failure_strain_S3 (epsdot : ℝ) :
    DamageJohnsonCook.scenario_S3.jc_failure_strain (Libm.mk Real.sqrt Real.log Real.exp Real.rpow)
        (1 / 3) epsdot
      = 5 / 100 + 344 / 100 * Real.exp (-212 / 100 * (1 / 3)) := by
  simp [DamageJohnsonCook.jc_failure_strain, DamageJohnsonCook.scenario_S3]

/-- The failure strain of scenario S3 lies between 1.7468 and 1.7470. -/
theorem jc_failure_strain_S3_bounds :
    (17468 / 10000 : ℝ) < 5 / 100 + 344 / 100 * Real.exp (-212 / 100 * (1 / 3))
      ∧ 5 / 100 + 344 / 100 * Real.exp (-212 / 100 * (1 / 3)) < (17470 / 10000 : ℝ) := by
  obtain ⟨h1, h2⟩ := exp_S3_bounds
  constructor <;> linarith

/-- The pair `(damage_init, damage)` after `k` calls of scenario S3: `damage_init` grows
by `inc/eps_f` per call and `damage` follows the linear ramp. -/
theorem compute_damage_calls_S3 (pH : ℝ) (Sdev : Matrix3d ℝ) (epsdot : ℝ)
    (htriax : DamageJohnsonCook.triax (Libm.mk Real.sqrt Real.log Real.exp Real.rpow) pH Sdev = 1 / 3)
    (k : Nat) :
    compute_damage_calls (Libm.mk Real.sqrt Real.log Real.exp Real.rpow)
        DamageJohnsonCook.scenario_S3 pH Sdev epsdot (1 / 100) k
      = .ok ((k : ℝ) * (1 / 100 / (5 / 100 + 344 / 100 * Real.exp (-212 / 100 * (1 / 3)))),
          damage_ramp ((k : ℝ) * (1 / 100 / (5 / 100 + 344 / 100 * Real.exp (-212 / 100 * (1 / 3)))))) := by
  have hpos : (0 : ℝ) < 1 / 100 / (5 / 100 + 344 / 100 * Real.exp (-212 / 100 * (1 / 3))) := by
    have := jc_failure_strain_S3_bounds.1
    apply div_pos (by norm_num)
    linarith
  induction k with
  | zero =>
    simp only [compute_damage_calls, Nat.cast_zero, zero_mul, damage_ramp]
    norm_num
  | succ k ih =>
    rw [compute_damage_calls, ih]
    simp only []
    rw [compute_damage_eq, htriax, jc_failure_strain_S3]
    have hstep : (k : ℝ) * (1 / 100 / (5 / 100 + 344 / 100 * Real.exp (-212 / 100 * (1 / 3))))
        + 1 / 100 / (5 / 100 + 344 / 100 * Real.exp (-212 / 100 * (1 / 3)))
        = ((k + 1 : Nat) : ℝ) * (1 / 100 / (5 / 100 + 344 / 100 * Real.exp (-212 / 100 * (1 / 3)))) := by
      push_cast
      ring
    rw [hstep]
    congr 2
    unfold damage_ramp
    by_cases h1 : ((k + 1 : Nat) : ℝ)
        * (1 / 100 / (5 / 100 + 344 / 100 * Real.exp (-212 / 100 * (1 / 3)))) ≥ 1
    · rw [if_pos h1, if_pos h1]
    · rw [if_neg h1, if_neg h1]
      have hk : ¬ ((k : ℝ) * (1 / 100 / (5 / 100 + 344 / 100 * Real.exp (-212 / 100 * (1 / 3)))) ≥ 1) := by
        intro hge
        apply h1
        rw [← hstep]
        linarith
      rw [if_neg hk]

/-- The pressure `-300` with the deviator `diag(598, -299, -299)` is a stress state of
triaxiality `1/3`. -/
theorem triax_one_third :
    DamageJohnsonCook.triax (Libm.mk Real.sqrt Real.log Real.exp Real.rpow) (-300)
      ((299 : ℝ) • Sdev_uniaxial) = 1 / 3 := by
  have hsq : squaredNorm ((299 : ℝ) • (Sdev_uniaxial : Matrix3d ℝ)) = 6 * 299 ^ 2 := by
    simp [squaredNorm, Sdev_uniaxial, Matrix.vecHead, Matrix.vecTail]
    norm_num
  have hvm : DamageJohnsonCook.vm (Libm.mk Real.sqrt Real.log Real.exp Real.rpow)
      ((299 : ℝ) • Sdev_uniaxial) = 897 := by
    unfold DamageJohnsonCook.vm norm
    simp only [hsq]
    rw [← Real.sqrt_mul (by norm_num : (0 : ℝ) ≤ 3 / 2)]
    rw [show (3 / 2 : ℝ) * (6 * 299 ^ 2) = 897 ^ 2 by norm_num]
    exact Real.sqrt_sq (by norm_num)
  unfold DamageJohnsonCook.triax
  simp only [hvm]
  norm_num

/-- C28: in scenario S3, for a stress state of triaxiality `1/3` and a plastic-strain
increment of 0.01 per call, starting from `damage_init = damage = 0`: the failure strain
is `eps_f = 0.05 + 3.44*exp(-2.12/3)` (between 1.7468 and 1.7470), every call returns,
`damage_init` after `k` calls is `k*0.01/eps_f`, which is below 1 for `k < 175` and at
least 1 from `k = 175` on, and `damage` is 0 for `k < 175`, below 1 for `k < 193` and
equal to 1 from `k = 193` on. -/
theorem compute_damage_scenario_S3 (pH : ℝ) (Sdev : Matrix3d ℝ) (epsdot : ℝ)
    (htriax : DamageJohnsonCook.triax (Libm.mk Real.sqrt Real.log Real.exp Real.rpow) pH Sdev = 1 / 3) :
    DamageJohnsonCook.scenario_S3.jc_failure_strain (Libm.mk Real.sqrt Real.log Real.exp Real.rpow)
        (DamageJohnsonCook.triax (Libm.mk Real.sqrt Real.log Real.exp Real.rpow) pH Sdev) epsdot
      = 5 / 100 + 344 / 100 * Real.exp (-212 / 100 / 3)
    ∧ (17468 / 10000 : ℝ) < 5 / 100 + 344 / 100 * Real.exp (-212 / 100 / 3)
    ∧ 5 / 100 + 344 / 100 * Real.exp (-212 / 100 / 3) < (17470 / 10000 : ℝ)
    ∧ ∀ k : Nat, ∃ damage_init damage : ℝ,
        compute_damage_calls (Libm.mk Real.sqrt Real.log Real.exp Real.rpow)
            DamageJohnsonCook.scenario_S3 pH Sdev epsdot (1 / 100) k = .ok (damage_init, damage)
        ∧ damage_init = (k : ℝ) * (1 / 100) / (5 / 100 + 344 / 100 * Real.exp (-212 / 100 / 3))
        ∧ (k < 175 → damage_init < 1 ∧ damage = 0)
        ∧ (175 ≤ k → 1 ≤ damage_init)
        ∧ (k < 193 → damage < 1)
        ∧ (193 ≤ k → damage = 1) := by
  have he : (-212 / 100 / 3 : ℝ) = -212 / 100 * (1 / 3) := by ring
  rw [he, htriax]
  obtain ⟨hlo, hhi⟩ := jc_failure_strain_S3_bounds
  refine ⟨jc_failure_strain_S3 epsdot, hlo, hhi, ?_⟩
  intro k
  have hfpos : (0 : ℝ) < 5 / 100 + 344 / 100 * Real.exp (-212 / 100 * (1 / 3)) := by linarith
  refine ⟨_, _, compute_damage_calls_S3 pH Sdev epsdot htriax k, by ring, ?_, ?_, ?_, ?_⟩
  · intro hk
    have hk' : (k : ℝ) ≤ 174 := by exact_mod_cast Nat.lt_succ_iff.mp hk
    have hlt : (k : ℝ) * (1 / 100 / (5 / 100 + 344 / 100 * Real.exp (-212 / 100 * (1 / 3)))) < 1 := by
      rw [← mul_div_assoc, div_lt_one hfpos]
      linarith
    refine ⟨hlt, ?_⟩
    unfold damage_ramp
    rw [if_neg (not_le.mpr hlt)]
  · intro hk
    have hk' : (175 : ℝ) ≤ k := by exact_mod_cast hk
    rw [← mul_div_assoc, le_div_iff₀ hfpos]
    linarith
  · intro hk
    have hk' : (k : ℝ) ≤ 192 := by exact_mod_cast Nat.lt_succ_iff.mp hk
    unfold damage_ramp MIN
    split_ifs with h1 h2
    · have : ((k : ℝ) * (1 / 100 / (5 / 100 + 344 / 100 * Real.exp (-212 / 100 * (1 / 3)))) - 1) * 10 < 1 := h2
      exact this
    · exfalso
      apply h2
      have hlt : (k : ℝ) * (1 / 100 / (5 / 100 + 344 / 100 * Real.exp (-212 / 100 * (1 / 3)))) < 11 / 10 := by
        rw [← mul_div_assoc, div_lt_iff₀ hfpos]
        linarith
      linarith
    · norm_num
  · intro hk
    have hk' : (193 : ℝ) ≤ k := by exact_mod_cast hk
    have hge : (11 / 10 : ℝ) ≤ (k : ℝ) * (1 / 100 / (5 / 100 + 344 / 100 * Real.exp (-212 / 100 * (1 / 3)))) := by
      rw [← mul_div_assoc, le_div_iff₀ hfpos]
      linarith
    unfold damage_ramp MIN
    rw [if_pos (by linarith : _ ≥ (1 : ℝ))]
    rw [if_neg (by linarith)]

/-- C28, witness: with pressure `-300` and deviator `diag(598, -299, -299)` (triaxiality
`1/3`), `damage_init` is below 1 after call 174 and at least 1 after call 175, and
`damage` is below 1 after call 192 and equal to 1 after call 193. -/
theorem compute_damage_scenario_S3_witness :
    ∃ di174 d174 di175 d175 di192 d192 di193 d193 : ℝ,
      compute_damage_calls (Libm.mk Real.sqrt Real.log Real.exp Real.rpow)
          DamageJohnsonCook.scenario_S3 (-300) ((299 : ℝ) • Sdev_uniaxial) 0 (1 / 100) 174
        = .ok (di174, d174)
      ∧ compute_damage_calls (Libm.mk Real.sqrt Real.log Real.exp Real.rpow)
          DamageJohnsonCook.scenario_S3 (-300) ((299 : ℝ) • Sdev_uniaxial) 0 (1 / 100) 175
        = .ok (di175, d175)
      ∧ compute_damage_calls (Libm.mk Real.sqrt Real.log Real.exp Real.rpow)
          DamageJohnsonCook.scenario_S3 (-300) ((299 : ℝ) • Sdev_uniaxial) 0 (1 / 100) 192
        = .ok (di192, d192)
      ∧ compute_damage_calls (Libm.mk Real.sqrt Real.log Real.exp Real.rpow)
          DamageJohnsonCook.scenario_S3 (-300) ((299 : ℝ) • Sdev_uniaxial) 0 (1 / 100) 193
        = .ok (di193, d193)
      ∧ di174 < 1 ∧ 1 ≤ di175 ∧ d174 = 0 ∧ d192 < 1 ∧ d193 = 1 := by
  have h := (compute_damage_scenario_S3 (-300) ((299 : ℝ) • Sdev_uniaxial) 0 triax_one_third).2.2.2
  obtain ⟨di174, d174, h174, _, ha, _, _, _⟩ := h 174
  obtain ⟨di175, d175, h175, _, _, hb, _, _⟩ := h 175
  obtain ⟨di192, d192, h192, _, _, _, hc, _⟩ := h 192
  obtain ⟨di193, d193, h193, _, _, _, _, hd⟩ := h 193
  exact ⟨di174, d174, di175, d175, di192, d192, di193, d193, h174, h175, h192, h193,
    (ha (by norm_num)).1, hb (by norm_num), (ha (by norm_num)).2, hc (by norm_num), hd (by norm_num)⟩

/-! ## Scenario S2, the Johnson-Cook strength step: claim C27 -/

/-- The trial deviator of scenario S2 is `diag(1.6e8, -0.8e8, -0.8e8)`. -/
theorem sigmaTrial_dev_S2 :
    (StrengthJohnsonCook.steel : StrengthJohnsonCook 𝕜).sigmaTrial_dev 1 0 D_scenario_S2
      = !![16 * 10 ^ 7, 0, 0; 0, -(8 * 10 ^ 7), 0; 0, 0, -(8 * 10 ^ 7)] := by
  unfold StrengthJohnsonCook.sigmaTrial_dev Deviator D_scenario_S2 StrengthJohnsonCook.steel
  ext i j
  rw [Matrix.one_fin_three]
  simp only [Matrix.trace_fin_three, Matrix.smul_apply, Matrix.add_apply, Matrix.sub_apply,
    Matrix.zero_apply, smul_eq_mul]
  fin_cases i <;> fin_cases j <;> simp [Matrix.vecHead, Matrix.vecTail] <;> norm_num

/-- The trial von Mises stress of scenario S2 is `2.4e8`. -/
theorem J2_S2 :
    Real.sqrt (3 / 2) * norm (Libm.mk Real.sqrt Real.log Real.exp Real.rpow)
        ((StrengthJohnsonCook.steel : StrengthJohnsonCook ℝ).sigmaTrial_dev 1 0 D_scenario_S2)
      = 24 * 10 ^ 7 := by
  rw [sigmaTrial_dev_S2]
  have hsq : squaredNorm (!![16 * 10 ^ 7, 0, 0; 0, -(8 * 10 ^ 7), 0; 0, 0, -(8 * 10 ^ 7)]
      : Matrix3d ℝ) = 384 * 10 ^ 14 := by
    simp [squaredNorm, Matrix.vecHead, Matrix.vecTail]
    norm_num
  unfold norm
  simp only [hsq]
  rw [← Real.sqrt_mul (by norm_num : (0 : ℝ) ≤ 3 / 2)]
  rw [show (3 / 2 : ℝ) * (384 * 10 ^ 14) = (24 * 10 ^ 7) ^ 2 by norm_num]
  exact Real.sqrt_sq (by norm_num)

/-- At zero plastic strain the yield stress of the steel is at least `A = 3.5e8`, for
every strain rate. -/
theorem yieldStress_steel_ge (epsdot : ℝ) :
    (350 * 10 ^ 6 : ℝ) ≤ (StrengthJohnsonCook.steel : StrengthJohnsonCook ℝ).yieldStress
      (Libm.mk Real.sqrt Real.log Real.exp Real.rpow) 0 epsdot := by
  unfold StrengthJohnsonCook.yieldStress StrengthJohnsonCook.steel
  simp only [Real.rpow_eq_pow]
  rw [Real.zero_rpow (by norm_num), mul_zero, add_zero]
  have hmax : (1 : ℝ) ≤ MAX (epsdot / 1) 1 := by
    unfold MAX
    split_ifs with h
    · exact le_of_lt h
    · exact le_refl _
  have h1 : (1 : ℝ) ≤ (1 + MAX (epsdot / 1) 1) ^ (22 / 1000 : ℝ) :=
    Real.one_le_rpow (by linarith) (by norm_num)
  nlinarith

/-- In scenario S2 the strength model returns the trial deviator and a zero increment. -/
theorem update_deviatoric_stress_S2 (epsdot : ℝ) :
    (StrengthJohnsonCook.steel : StrengthJohnsonCook ℝ).update_deviatoric_stress
        (Libm.mk Real.sqrt Real.log Real.exp Real.rpow) 1 0 D_scenario_S2 0 epsdot
      = (!![16 * 10 ^ 7, 0, 0; 0, -(8 * 10 ^ 7), 0; 0, 0, -(8 * 10 ^ 7)], 0) := by
  unfold StrengthJohnsonCook.update_deviatoric_stress
  simp only []
  rw [J2_S2, if_pos (lt_of_lt_of_le (by norm_num) (yieldStress_steel_ge epsdot)),
    sigmaTrial_dev_S2]

/-- C27 (amended): in scenario S2 (`G = 80e9`, `A = 350e6`, `B = 275e6`, `n = 0.36`,
`C = 0.022`, `epsdot0 = 1`, previous stress 0, `D = diag(1, -0.5, -0.5)·1e-3`, `dt = 1`,
`eff_plastic_strain = 0`) and for every strain rate, the trial `J2` is `2.4e8`, which is
below `A` and below the yield stress, so `update_deviatoric_stress` takes the elastic
branch: it returns the trial deviator `diag(1.6e8, -0.8e8, -0.8e8)`, for which
`sqrt(3/2)*||sigma_dev|| = 2.4e8`, and the plastic-strain increment is 0. -/
theorem update_deviatoric_stress_scenario_S2 (epsdot : ℝ) :
    Real.sqrt (3 / 2) * norm (Libm.mk Real.sqrt Real.log Real.exp Real.rpow)
        ((StrengthJohnsonCook.steel : StrengthJohnsonCook ℝ).sigmaTrial_dev 1 0 D_scenario_S2)
      = 24 * 10 ^ 7
    ∧ (24 * 10 ^ 7 : ℝ) < (StrengthJohnsonCook.steel : StrengthJohnsonCook ℝ).A
    ∧ (StrengthJohnsonCook.steel : StrengthJohnsonCook ℝ).A
        ≤ (StrengthJohnsonCook.steel : StrengthJohnsonCook ℝ).yieldStress
            (Libm.mk Real.sqrt Real.log Real.exp Real.rpow) 0 epsdot
    ∧ (StrengthJohnsonCook.steel : StrengthJohnsonCook ℝ).update_deviatoric_stress
          (Libm.mk Real.sqrt Real.log Real.exp Real.rpow) 1 0 D_scenario_S2 0 epsdot
        = (!![16 * 10 ^ 7, 0, 0; 0, -(8 * 10 ^ 7), 0; 0, 0, -(8 * 10 ^ 7)], 0)
    ∧ Real.sqrt (3 / 2) * norm (Libm.mk Real.sqrt Real.log Real.exp Real.rpow)
        ((StrengthJohnsonCook.steel : StrengthJohnsonCook ℝ).update_deviatoric_stress
          (Libm.mk Real.sqrt Real.log Real.exp Real.rpow) 1 0 D_scenario_S2 0 epsdot).1
      = 24 * 10 ^ 7 := by
  refine ⟨J2_S2, ?_, ?_, update_deviatoric_stress_S2 epsdot, ?_⟩
  · simp only [StrengthJohnsonCook.steel]
    norm_num
  · have h := yieldStress_steel_ge epsdot
    simp only [StrengthJohnsonCook.steel] at h ⊢
    exact h
  · rw [update_deviatoric_stress_S2]
    have h := J2_S2
    rw [sigmaTrial_dev_S2] at h
    exact h

/-- C27, counterexample: in scenario S2 at strain rate 0 the trial `J2` is not above `A`,
the returned deviator has `sqrt(3/2)*||sigma_dev||` further than 0.1% from `A`, and the
plastic-strain increment is not `(J2 - A)/(3G)`. -/
theorem update_deviatoric_stress_S2_elastic :
    ¬ (Real.sqrt (3 / 2) * norm (Libm.mk Real.sqrt Real.log Real.exp Real.rpow)
        ((StrengthJohnsonCook.steel : StrengthJohnsonCook ℝ).sigmaTrial_dev 1 0 D_scenario_S2)
      > (StrengthJohnsonCook.steel : StrengthJohnsonCook ℝ).A)
    ∧ ¬ (|Real.sqrt (3 / 2) * norm (Libm.mk Real.sqrt Real.log Real.exp Real.rpow)
        ((StrengthJohnsonCook.steel : StrengthJohnsonCook ℝ).update_deviatoric_stress
          (Libm.mk Real.sqrt Real.log Real.exp Real.rpow) 1 0 D_scenario_S2 0 0).1
        - (StrengthJohnsonCook.steel : StrengthJohnsonCook ℝ).A|
      ≤ (StrengthJohnsonCook.steel : StrengthJohnsonCook ℝ).A / 1000)
    ∧ ((StrengthJohnsonCook.steel : StrengthJohnsonCook ℝ).update_deviatoric_stress
          (Libm.mk Real.sqrt Real.log Real.exp Real.rpow) 1 0 D_scenario_S2 0 0).2
      ≠ (Real.sqrt (3 / 2) * norm (Libm.mk Real.sqrt Real.log Real.exp Real.rpow)
            ((StrengthJohnsonCook.steel : StrengthJohnsonCook ℝ).sigmaTrial_dev 1 0 D_scenario_S2)
          - (StrengthJohnsonCook.steel : StrengthJohnsonCook ℝ).A)
        / (3 * (StrengthJohnsonCook.steel : StrengthJohnsonCook ℝ).G_) := by
  have hJ := J2_S2
  have hJ' := J2_S2
  rw [sigmaTrial_dev_S2] at hJ'
  rw [update_deviatoric_stress_S2, hJ]
  simp only [hJ', StrengthJohnsonCook.steel]
  refine ⟨by norm_num, ?_, by norm_num⟩
  rw [abs_of_neg (by norm_num)]
  norm_num

/-! ## The elastic strain of a failed particle: claim C21 -/

/-- The damage call that `update_stress` makes for the failed particle returns
`damage_init = 2` and `damage = 1`. -/
theorem update_stress_damage_call_failed :
    update_stress_damage_call (1 : ℝ) (Grid.blank 1)
        (Mat.johnsonCook (Libm.mk Real.sqrt Real.log Real.exp Real.rpow) 1 1 1 0 1
          StrengthJohnsonCook.steel (some DamageJohnsonCook.scenario_S3))
        (EOS.linear 1 1)
        (StrengthJohnsonCook.steel.toStrength (Libm.mk Real.sqrt Real.log Real.exp Real.rpow) 1)
        Solid.failed 0
      = .ok (2, 1) := by
  unfold update_stress_damage_call
  simp only [Mat.johnsonCook, Option.map_some', DamageJohnsonCook.toDamage,
    StrengthJohnsonCook.toStrength, Solid.failed, Solid.atRest, Solid.blank,
    update_deviatoric_stress_S2, compute_damage_eq]
  simp only [zero_div, add_zero]
  rw [if_pos (by norm_num)]
  unfold MIN
  norm_num

/-- C21, evaluated at the failing input: for a particle that has failed (`damage = 1`)
and carries the elastic trial deviator `diag(1.6e8, -0.8e8, -0.8e8)`, `update_stress`
returns, the damage after the call of the damage model is 1, the test `damage > 1e-10`
of line 904 holds, so `strain_el` is assigned the sum of the trace part and
`sigma_dev/(G*(1 - damage))`, and the divisor `G*(1 - damage)` is zero. -/
theorem update_stress_failed_particle_divides_by_zero :
    ∃ s', update_stress (Libm.mk Real.sqrt Real.log Real.exp Real.rpow) (1 : ℝ) "tlmpm"
          (Grid.blank 1)
          (Mat.johnsonCook (Libm.mk Real.sqrt Real.log Real.exp Real.rpow) 1 1 1 0 1
            StrengthJohnsonCook.steel (some DamageJohnsonCook.scenario_S3))
          Solid.failed = .ok s'
      ∧ s'.damage 0 = 1
      ∧ s'.damage 0 > 1 / 10 ^ 10
      ∧ s'.strain_el 0
          = ((1 * ((Solid.failed : Solid ℝ).D 0).trace
                + ((Solid.failed : Solid ℝ).strain_el 0).trace) / 3) • (1 : Matrix3d ℝ)
            + (1 / ((Mat.johnsonCook (Libm.mk Real.sqrt Real.log Real.exp Real.rpow) 1 1 1 0 1
                  StrengthJohnsonCook.steel (some DamageJohnsonCook.scenario_S3)).G
                * (1 - s'.damage 0)))
              • (!![16 * 10 ^ 7, 0, 0; 0, -(8 * 10 ^ 7), 0; 0, 0, -(8 * 10 ^ 7)] : Matrix3d ℝ)
      ∧ (Mat.johnsonCook (Libm.mk Real.sqrt Real.log Real.exp Real.rpow) 1 1 1 0 1
            StrengthJohnsonCook.steel (some DamageJohnsonCook.scenario_S3)).G
          * (1 - s'.damage 0) = 0 := by
  rcases update_stress_eos_strength_eq
    (Libm.mk Real.sqrt Real.log Real.exp Real.rpow) (1 : ℝ) "tlmpm" (Grid.blank 1)
    (Mat.johnsonCook (Libm.mk Real.sqrt Real.log Real.exp Real.rpow) 1 1 1 0 1
      StrengthJohnsonCook.steel (some DamageJohnsonCook.scenario_S3)) (EOS.linear 1 1)
    (StrengthJohnsonCook.steel.toStrength (Libm.mk Real.sqrt Real.log Real.exp Real.rpow) 1)
    rfl rfl Solid.failed
    with ⟨⟨i, hi, e, hb⟩, _⟩ | ⟨_, ⟨i, hi, hb⟩, _⟩ | ⟨_, _, hok⟩
  · have hi0 : i = 0 := by
      have : i < 1 := hi
      omega
    subst hi0
    rw [update_stress_damage_call_failed] at hb
    cases hb
  · exfalso
    have h4 : (0 : ℝ) < four_third := four_third_pos
    have := cfl_min_inv_nonneg
      (Mat.johnsonCook (Libm.mk Real.sqrt Real.log Real.exp Real.rpow) 1 1 1 0 1
        StrengthJohnsonCook.steel (some DamageJohnsonCook.scenario_S3))
      (Solid.failed : Solid ℝ) (i + 1) (fun j _ => by
        simp only [Mat.johnsonCook, StrengthJohnsonCook.steel, Solid.failed, Solid.atRest]
        positivity)
    exact absurd hb (not_lt.mpr this)
  · refine ⟨_, hok, ?_⟩
    have hnp : (Solid.failed : Solid ℝ).np = 1 := rfl
    have hcall := update_stress_damage_call_failed
    have hcall' : update_stress_damage_call (1 : ℝ) (Grid.blank 1)
        (Mat.johnsonCook (Libm.mk Real.sqrt Real.log Real.exp Real.rpow) 1 1 1 0 1
          StrengthJohnsonCook.steel (some DamageJohnsonCook.scenario_S3))
        (EOS.linear 1 1)
        (StrengthJohnsonCook.steel.toStrength (Libm.mk Real.sqrt Real.log Real.exp Real.rpow) 1)
        { (Solid.failed : Solid ℝ) with min_inv_p_wave_speed := (10 ^ 22 : ℝ) } 0
        = .ok (2, 1) := hcall
    simp only [update_stress_finish, update_stress_eos_strength_after, hcall']
    simp only [hnp, Nat.lt_one_iff, if_true]
    have hr : (StrengthJohnsonCook.steel.toStrength
        (Libm.mk Real.sqrt Real.log Real.exp Real.rpow) (1 : ℝ)).update_deviatoric_stress
        ((Solid.failed : Solid ℝ).sigma 0) ((Solid.failed : Solid ℝ).D 0)
        ((Solid.failed : Solid ℝ).eff_plastic_strain 0)
        ((Solid.failed : Solid ℝ).eff_plastic_strain_rate 0) ((Solid.failed : Solid ℝ).damage 0)
        = (!![16 * 10 ^ 7, 0, 0; 0, -(8 * 10 ^ 7), 0; 0, 0, -(8 * 10 ^ 7)], 0) :=
      update_deviatoric_stress_S2 0
    refine ⟨trivial, by norm_num, ?_, by norm_num⟩
    rw [if_pos (by norm_num), hr]

/-! ## Scenario S4, the CFL bound under compression: claim C29 -/

/-- When `update_stress` returns, the new `dtCFL` is the smaller of the old one and
`√c·cellsize·√h` with `c` and `h` the two running minima of the second loop. -/
theorem update_stress_dtCFL (m : Libm 𝕜) (dt : 𝕜) (method_style : String) (grid : Grid 𝕜)
    (mat : Mat 𝕜) (s s' : Solid 𝕜) (h : update_stress m dt method_style grid mat s = .ok s') :
    s'.dtCFL = min s.dtCFL
      (m.sqrt (cfl_min_inv mat s s.np) * grid.cellsize * m.sqrt (cfl_min_h_ratio s s.np)) := by
  cases h1 : forLoop (update_stress_particle m dt (is_tlmpm method_style) (update_stress_nh mat)
      grid mat) s.np { s with min_inv_p_wave_speed := (10 ^ 22 : 𝕜) } with
  | error e =>
    unfold update_stress at h
    simp only [h1] at h
    cases h
  | ok s1 =>
    obtain ⟨hnp, hrho, hF, hmin, hdt⟩ := update_stress_first_loop_frame m dt _ _ grid mat _ _ s1 h1
    have hnp' : s1.np = s.np := hnp
    have hrho' : s1.rho = s.rho := hrho
    have hF' : s1.F = s.F := hF
    have hdt' : s1.dtCFL = s.dtCFL := hdt
    rcases update_stress_of_first_loop m dt method_style grid mat s s1 h1 hmin
      with ⟨_, herr⟩ | ⟨_, hok⟩
    · rw [herr] at h
      cases h
    · rw [hok] at h
      injection h with h
      subst h
      simp only [update_stress_finish, MIN_eq_min]
      rw [hnp', hdt', cfl_min_inv_congr mat s1 s hrho', cfl_min_h_ratio_congr s1 s hF']

/-- For a body of uniform density `rho` the running minimum of the second loop is the
smaller of `1e22` and `rho/(K + four_third*G)`. -/
theorem cfl_min_inv_uniform (mat : Mat 𝕜) (s : Solid 𝕜) (rho : 𝕜) (n : Nat)
    (hrho : ∀ ip, ip < n → s.rho ip = rho) (hn : 0 < n) :
    cfl_min_inv mat s n = min (10 ^ 22) (rho / (mat.K + four_third * mat.G)) := by
  induction n with
  | zero => omega
  | succ n ih =>
    rw [cfl_min_inv, MIN_eq_min, hrho n (Nat.lt_succ_self n)]
    cases n with
    | zero => rfl
    | succ k =>
      rw [ih (fun ip hip => hrho ip (Nat.lt_succ_of_lt hip)) (Nat.succ_pos k)]
      rw [min_assoc, min_self]

/-- For a body all of whose particles have `F = diag(1/2, 1, 1)` the running
`min_h_ratio` of the second loop is `1/4`. -/
theorem cfl_min_h_ratio_compressed (s : Solid 𝕜) (n : Nat)
    (hF : ∀ ip, ip < n → s.F ip = !![1 / 2, 0, 0; 0, 1, 0; 0, 0, 1]) (hn : 0 < n) :
    cfl_min_h_ratio s n = 1 / 4 := by
  induction n with
  | zero => omega
  | succ n ih =>
    rw [cfl_min_h_ratio]
    simp only [hF n (Nat.lt_succ_self n)]
    cases n with
    | zero =>
      simp only [cfl_min_h_ratio, MIN]
      norm_num [Matrix.vecHead, Matrix.vecTail]
    | succ k =>
      rw [ih (fun ip hip => hF ip (Nat.lt_succ_of_lt hip)) (Nat.succ_pos k)]
      simp only [MIN]
      norm_num [Matrix.vecHead, Matrix.vecTail]

/-- For a body all of whose particles have `F = I` the running `min_h_ratio` of the
second loop is `1`. -/
theorem cfl_min_h_ratio_undeformed (s : Solid 𝕜) (n : Nat)
    (hF : ∀ ip, ip < n → s.F ip = 1) (hn : 0 < n) :
    cfl_min_h_ratio s n = 1 := by
  induction n with
  | zero => omega
  | succ n ih =>
    rw [cfl_min_h_ratio]
    simp only [hF n (Nat.lt_succ_self n), Matrix.one_fin_three]
    cases n with
    | zero =>
      simp only [cfl_min_h_ratio, MIN]
      norm_num [Matrix.vecHead, Matrix.vecTail]
    | succ k =>
      rw [ih (fun ip hip => hF ip (Nat.lt_succ_of_lt hip)) (Nat.succ_pos k)]
      simp only [MIN]
      norm_num [Matrix.vecHead, Matrix.vecTail]

/-- C29 (amended): scenario S4. Let `u` be a homogeneous undeformed body (`F = I`,
density `rho0`) and `c` the same body compressed to `F = diag(0.5, 1, 1)` with the density
`rho = rho0/det F = 2*rho0` set by the deformation update, both with
`0 ≤ rho0/(K + four_third*G)` and `2*rho0/(K + four_third*G) ≤ 1e22`. Then `update_stress`
on `c` finds `min_h_ratio = 0.25`; when it returns (it does for a Neo-Hookean material),
`dtCFL` is the smaller of its old value and the bound
`sqrt(2*rho0/(K + four_third*G))*cellsize*0.5`, and this bound is `sqrt(2)/2` times the
bound `sqrt(rho0/(K + four_third*G))*cellsize` that `update_stress` computes for `u`. -/
theorem update_stress_cfl_scenario_S4 (dt : ℝ) (method_style : String) (grid : Grid ℝ)
    (mat : Mat ℝ) (u c : Solid ℝ) (rho0 : ℝ)
    (hu_np : 0 < u.np) (hc_np : 0 < c.np)
    (hu_F : ∀ ip, ip < u.np → u.F ip = 1)
    (hu_rho : ∀ ip, ip < u.np → u.rho ip = rho0)
    (hc_F : ∀ ip, ip < c.np → c.F ip = !![1 / 2, 0, 0; 0, 1, 0; 0, 0, 1])
    (hc_rho0 : ∀ ip, ip < c.np → c.rho0 ip = rho0)
    (hc_rho : ∀ ip, ip < c.np → c.rho ip = c.rho0 ip / determinant (c.F ip))
    (hq0 : 0 ≤ rho0 / (mat.K + four_third * mat.G))
    (hq : 2 * rho0 / (mat.K + four_third * mat.G) ≤ 10 ^ 22) :
    cfl_min_h_ratio c c.np = 1 / 4
    ∧ (∀ c', update_stress (Libm.mk Real.sqrt Real.log Real.exp Real.rpow) dt method_style grid
          mat c = .ok c' →
        c'.dtCFL = min c.dtCFL
          (Real.sqrt (2 * rho0 / (mat.K + four_third * mat.G)) * grid.cellsize * (1 / 2)))
    ∧ (∀ u', update_stress (Libm.mk Real.sqrt Real.log Real.exp Real.rpow) dt method_style grid
          mat u = .ok u' →
        u'.dtCFL = min u.dtCFL
          (Real.sqrt (rho0 / (mat.K + four_third * mat.G)) * grid.cellsize))
    ∧ Real.sqrt (2 * rho0 / (mat.K + four_third * mat.G)) * grid.cellsize * (1 / 2)
        = Real.sqrt 2 / 2 * (Real.sqrt (rho0 / (mat.K + four_third * mat.G)) * grid.cellsize)
    ∧ (update_stress_nh mat = true →
        (∃ c', update_stress (Libm.mk Real.sqrt Real.log Real.exp Real.rpow) dt method_style grid
          mat c = .ok c')
        ∧ ∃ u', update_stress (Libm.mk Real.sqrt Real.log Real.exp Real.rpow) dt method_style grid
          mat u = .ok u') := by
  have hdet : determinant (!![1 / 2, 0, 0; 0, 1, 0; 0, 0, 1] : Matrix3d ℝ) = 1 / 2 := by
    simp [determinant, Matrix.vecHead, Matrix.vecTail]
  have hc_rho2 : ∀ ip, ip < c.np → c.rho ip = 2 * rho0 := by
    intro ip hip
    rw [hc_rho ip hip, hc_F ip hip, hc_rho0 ip hip, hdet]
    ring
  have hh_c := cfl_min_h_ratio_compressed c c.np hc_F hc_np
  have hh_u := cfl_min_h_ratio_undeformed u u.np hu_F hu_np
  have hi_c := cfl_min_inv_uniform mat c (2 * rho0) c.np hc_rho2 hc_np
  have hi_u := cfl_min_inv_uniform mat u rho0 u.np hu_rho hu_np
  have hq2 : rho0 / (mat.K + four_third * mat.G) ≤ 10 ^ 22 := by
    have : 2 * rho0 / (mat.K + four_third * mat.G)
        = 2 * (rho0 / (mat.K + four_third * mat.G)) := by ring
    rw [this] at hq
    linarith
  rw [min_eq_right hq] at hi_c
  rw [min_eq_right hq2] at hi_u
  have hsqrt4 : Real.sqrt (1 / 4) = 1 / 2 := by
    rw [show (1 / 4 : ℝ) = (1 / 2) ^ 2 by norm_num]
    exact Real.sqrt_sq (by norm_num)
  refine ⟨hh_c, ?_, ?_, ?_, ?_⟩
  · intro c' h
    have := update_stress_dtCFL _ dt method_style grid mat c c' h
    simp only [] at this
    rw [this, hi_c, hh_c, hsqrt4]
  · intro u' h
    have := update_stress_dtCFL _ dt method_style grid mat u u' h
    simp only [] at this
    rw [this, hi_u, hh_u, Real.sqrt_one, mul_one]
  · rw [show 2 * rho0 / (mat.K + four_third * mat.G)
        = 2 * (rho0 / (mat.K + four_third * mat.G)) by ring,
      Real.sqrt_mul (by norm_num : (0 : ℝ) ≤ 2)]
    ring
  · intro hnh
    refine ⟨update_stress_neo_hookean_returns _ dt method_style grid mat c hnh ?_,
      update_stress_neo_hookean_returns _ dt method_style grid mat u hnh ?_⟩
    · intro i hi
      rw [hc_rho2 i hi]
      have : 2 * rho0 / (mat.K + four_third * mat.G)
          = 2 * (rho0 / (mat.K + four_third * mat.G)) := by ring
      rw [this]
      linarith
    · intro i hi
      rw [hu_rho i hi]
      exact hq0

/-- C29, witness: for the particle of `Solid.compressed` and the particle of
`Solid.undeformed` with `K = 2`, `G = 0` and unit cell size, `update_stress` returns
`dtCFL = min(1e22, sqrt(1)*1*0.5)` and `dtCFL = min(1e22, sqrt(1/2)*1)`. -/
theorem update_stress_cfl_scenario_S4_witness :
    cfl_min_h_ratio (Solid.compressed : Solid ℝ) 1 = 1 / 4
    ∧ (∃ c', update_stress (Libm.mk Real.sqrt Real.log Real.exp Real.rpow) (1 : ℝ) "tlmpm"
          (Grid.blank 1) (Mat.plain 1 2 0 0 1) Solid.compressed = .ok c'
        ∧ c'.dtCFL = min (10 ^ 22) (Real.sqrt (2 * 1 / (2 + four_third * 0)) * 1 * (1 / 2)))
    ∧ (∃ u', update_stress (Libm.mk Real.sqrt Real.log Real.exp Real.rpow) (1 : ℝ) "tlmpm"
          (Grid.blank 1) (Mat.plain 1 2 0 0 1) Solid.undeformed = .ok u'
        ∧ u'.dtCFL = min (10 ^ 22) (Real.sqrt (1 / (2 + four_third * 0)) * 1)) := by
  have hdet : determinant (!![1 / 2, 0, 0; 0, 1, 0; 0, 0, 1] : Matrix3d ℝ) = 1 / 2 := by
    simp [determinant, Matrix.vecHead, Matrix.vecTail]
  have h := update_stress_cfl_scenario_S4 1 "tlmpm" (Grid.blank 1) (Mat.plain 1 2 0 0 1)
    Solid.undeformed Solid.compressed 1 Nat.one_pos Nat.one_pos
    (fun _ _ => rfl) (fun _ _ => rfl) (fun _ _ => rfl) (fun _ _ => rfl)
    (fun _ _ => by
      simp only [Solid.compressed, Solid.atRest, hdet]
      norm_num)
    (by simp only [Mat.plain]; norm_num)
    (by simp only [Mat.plain]; norm_num)
  obtain ⟨h1, h2, h3, _, h5⟩ := h
  obtain ⟨⟨c', hc'⟩, ⟨u', hu'⟩⟩ := h5 rfl
  exact ⟨h1, ⟨c', hc', h2 c' hc'⟩, ⟨u', hu', h3 u' hu'⟩⟩

/-- C29, counterexample: with `K = 2`, `G = 0` and unit cell size the compressed particle
(`F = diag(0.5, 1, 1)`, `rho = 2`) gets `dtCFL = 0.5` and the undeformed particle
(`F = I`, `rho = 1`) gets `dtCFL = sqrt(1/2)`, so the compressed bound is not 0.5 times the
undeformed one. -/
theorem update_stress_cfl_S4_ratio :
    ∃ c' u', update_stress (Libm.mk Real.sqrt Real.log Real.exp Real.rpow) (1 : ℝ) "tlmpm"
          (Grid.blank 1) (Mat.plain 1 2 0 0 1) Solid.compressed = .ok c'
      ∧ update_stress (Libm.mk Real.sqrt Real.log Real.exp Real.rpow) (1 : ℝ) "tlmpm"
          (Grid.blank 1) (Mat.plain 1 2 0 0 1) Solid.undeformed = .ok u'
      ∧ c'.dtCFL = 1 / 2
      ∧ u'.dtCFL = Real.sqrt (1 / 2)
      ∧ c'.dtCFL ≠ 1 / 2 * u'.dtCFL := by
  obtain ⟨c', hc'⟩ := update_stress_neo_hookean_returns
    (Libm.mk Real.sqrt Real.log Real.exp Real.rpow) (1 : ℝ) "tlmpm" (Grid.blank 1)
    (Mat.plain 1 2 0 0 1) Solid.compressed rfl
    (fun i _ => by
      simp only [Mat.plain, Solid.compressed]
      norm_num)
  obtain ⟨u', hu'⟩ := update_stress_neo_hookean_returns
    (Libm.mk Real.sqrt Real.log Real.exp Real.rpow) (1 : ℝ) "tlmpm" (Grid.blank 1)
    (Mat.plain 1 2 0 0 1) Solid.undeformed rfl
    (fun i _ => by
      simp only [Mat.plain, Solid.undeformed, Solid.atRest]
      norm_num)
  have hsqrt4 : Real.sqrt (1 / 4) = 1 / 2 := by
    rw [show (1 / 4 : ℝ) = (1 / 2) ^ 2 by norm_num]
    exact Real.sqrt_sq (by norm_num)
  have hhalf_le : Real.sqrt (1 / 2) ≤ 1 := by
    rw [Real.sqrt_le_one]
    norm_num
  have hc := update_stress_dtCFL _ 1 "tlmpm" (Grid.blank 1) (Mat.plain 1 2 0 0 1)
    (Solid.compressed : Solid ℝ) c' hc'
  have hu := update_stress_dtCFL _ 1 "tlmpm" (Grid.blank 1) (Mat.plain 1 2 0 0 1)
    (Solid.undeformed : Solid ℝ) u' hu'
  have hci : cfl_min_inv (Mat.plain 1 2 0 0 1) (Solid.compressed : Solid ℝ) 1 = 1 := by
    simp only [cfl_min_inv, MIN, Mat.plain, Solid.compressed]
    norm_num
  have hch : cfl_min_h_ratio (Solid.compressed : Solid ℝ) 1 = 1 / 4 :=
    cfl_min_h_ratio_compressed _ 1 (fun _ _ => rfl) Nat.one_pos
  have hui : cfl_min_inv (Mat.plain 1 2 0 0 1) (Solid.undeformed : Solid ℝ) 1 = 1 / 2 := by
    simp only [cfl_min_inv, MIN, Mat.plain, Solid.undeformed, Solid.atRest]
    norm_num
  have huh : cfl_min_h_ratio (Solid.undeformed : Solid ℝ) 1 = 1 :=
    cfl_min_h_ratio_undeformed _ 1 (fun _ _ => rfl) Nat.one_pos
  have hcd : c'.dtCFL = 1 / 2 := by
    rw [hc]
    have hnp : (Solid.compressed : Solid ℝ).np = 1 := rfl
    have hd : (Solid.compressed : Solid ℝ).dtCFL = 10 ^ 22 := rfl
    have hg : (Grid.blank (1 : ℝ)).cellsize = 1 := rfl
    simp only [hnp, hd, hg, hci, hch, hsqrt4, Real.sqrt_one]
    norm_num
  have hud : u'.dtCFL = Real.sqrt (1 / 2) := by
    rw [hu]
    have hnp : (Solid.undeformed : Solid ℝ).np = 1 := rfl
    have hd : (Solid.undeformed : Solid ℝ).dtCFL = 10 ^ 22 := rfl
    have hg : (Grid.blank (1 : ℝ)).cellsize = 1 := rfl
    simp only [hnp, hd, hg, hui, huh, Real.sqrt_one, mul_one]
    apply min_eq_right
    have : (1 : ℝ) ≤ 10 ^ 22 := by norm_num
    linarith
  refine ⟨c', u', hc', hu', hcd, hud, ?_⟩
  rw [hcd, hud]
  intro h
  have h1 : Real.sqrt (1 / 2) = 1 := by linarith
  have h2 := Real.sq_sqrt (show (0 : ℝ) ≤ 1 / 2 by norm_num)
  rw [h1] at h2
  norm_num at h2

/-! ## Scenario S1, uniaxial tension of one cell: claim C30 -/

/-- The determinant of `diag(g, 1, 1)`. -/
theorem determinant_diag (g : 𝕜) :
    determinant (!![g, 0, 0; 0, 1, 0; 0, 0, 1] : Matrix3d 𝕜) = g := by
  simp [determinant, Matrix.vecHead, Matrix.vecTail]

/-- The first entry of the inverse of `diag(g, 1, 1)`. -/
theorem inverse_diag_entry (g : 𝕜) :
    inverse (!![g, 0, 0; 0, 1, 0; 0, 0, 1] : Matrix3d 𝕜) 0 0 = 1 / g := by
  simp [inverse, determinant, cofactors, Matrix.vecHead, Matrix.vecTail]

/-- One time step of scenario S1 on a particle with `F = diag(f, 1, 1)` between the two
nodes of `Grid.pulled`: the step returns, `F` becomes `diag(f + 1e-4, 1, 1)`, `J` becomes
`f + 1e-4` and `sigma(0,0)` becomes `G*(J - 1/J)`. -/
theorem scenario_S1_step_eq (m : Libm 𝕜) (s : Solid 𝕜) (f : 𝕜) (hf : 0 < f)
    (hnp : s.np = 1) (hF : s.F 0 = !![f, 0, 0; 0, 1, 0; 0, 0, 1])
    (hnn : s.numneigh_pn 0 = 2) (hneigh : ∀ j, s.neigh_pn 0 j = j)
    (hwfd : ∀ j, s.wfd_pn 0 j = if j = 0 then ![-1, 0, 0] else ![1, 0, 0])
    (hrho0 : s.rho0 0 = 1) :
    ∃ s', scenario_S1_step m Grid.pulled (Mat.plain 1 1 (1 / 2) 0 1) s = .ok s'
      ∧ s'.np = 1 ∧ s'.F 0 = !![f + 1 / 10 ^ 4, 0, 0; 0, 1, 0; 0, 0, 1]
      ∧ s'.numneigh_pn 0 = 2 ∧ (∀ j, s'.neigh_pn 0 j = j)
      ∧ (∀ j, s'.wfd_pn 0 j = if j = 0 then ![-1, 0, 0] else ![1, 0, 0])
      ∧ s'.rho0 0 = 1
      ∧ s'.J 0 = f + 1 / 10 ^ 4
      ∧ s'.sigma 0 0 0 = 1 / 2 * ((f + 1 / 10 ^ 4) - 1 / (f + 1 / 10 ^ 4)) := by
  have hg : (0 : 𝕜) < f + 1 / 10 ^ 4 := by positivity
  have hFdot : (compute_rate_deformation_gradient_TL 1 Grid.pulled s).Fdot 0
      = !![1 / 100, 0, 0; 0, 0, 0; 0, 0, 0] := by
    ext i k
    rw [compute_rate_deformation_gradient_TL_entry 1 _ s (Or.inl rfl) 0 (by omega)]
    simp only [hnn, Finset.sum_range_succ, Finset.sum_range_zero, hneigh, hwfd, Grid.pulled]
    fin_cases i <;> fin_cases k <;> simp [Matrix.vecHead, Matrix.vecTail]
  have hs1 : compute_rate_deformation_gradient_TL 1 Grid.pulled s
      = { s with Fdot := fun i =>
            if i < s.np then rate_of rate_accumulate_1d (Grid.pulled : Grid 𝕜).v s i
            else s.Fdot i } := by
    simp only [compute_rate_deformation_gradient_TL, if_true, rate_deformation_gradient_TL_loop]
  have hF' : deformation_update (is_tlmpm "tlmpm") (1 / 100)
      ((compute_rate_deformation_gradient_TL 1 Grid.pulled s).F 0)
      ((compute_rate_deformation_gradient_TL 1 Grid.pulled s).Fdot 0)
      ((compute_rate_deformation_gradient_TL 1 Grid.pulled s).L 0)
      = !![f + 1 / 10 ^ 4, 0, 0; 0, 1, 0; 0, 0, 1] := by
    rw [hFdot]
    have : (compute_rate_deformation_gradient_TL 1 Grid.pulled s).F 0 = s.F 0 := by rw [hs1]
    rw [this, hF, is_tlmpm_tlmpm]
    simp only [deformation_update, if_true]
    ext i k
    simp only [Matrix.add_apply, Matrix.smul_apply, smul_eq_mul]
    fin_cases i <;> fin_cases k <;> simp [Matrix.vecHead, Matrix.vecTail]
    norm_num
  have hnp1 : (compute_rate_deformation_gradient_TL 1 Grid.pulled s).np = 1 := by
    rw [hs1]; exact hnp
  rcases update_deformation_gradient_eq (fun F _ => (true, 1, F)) (1 / 100 : 𝕜) "tlmpm"
    (Mat.plain 1 1 (1 / 2) 0 1) (compute_rate_deformation_gradient_TL 1 Grid.pulled s)
    with ⟨⟨i, hi, hfail⟩, _⟩ | ⟨_, hok2⟩
  · exfalso
    rw [hnp1] at hi
    have hi0 : i = 0 := by omega
    subst hi0
    unfold update_deformation_gradient_fails_at at hfail
    simp only [hF', determinant_diag] at hfail
    rcases hfail with h | ⟨h, _⟩
    · exact absurd h (not_lt.mpr (le_of_lt hg))
    · simp [has_eos_and_strength, Mat.plain] at h
  · rw [hnp1] at hok2
    have hrho : ∀ i, i < (update_deformation_gradient_after (fun F _ => (true, 1, F))
          (1 / 100 : 𝕜) "tlmpm" (Mat.plain 1 1 (1 / 2) 0 1) 1
          (compute_rate_deformation_gradient_TL 1 Grid.pulled s)).np →
        0 ≤ (update_deformation_gradient_after (fun F _ => (true, 1, F))
          (1 / 100 : 𝕜) "tlmpm" (Mat.plain 1 1 (1 / 2) 0 1) 1
          (compute_rate_deformation_gradient_TL 1 Grid.pulled s)).rho i
          / ((Mat.plain 1 1 (1 / 2) 0 1 : Mat 𝕜).K
            + four_third * (Mat.plain 1 1 (1 / 2) 0 1 : Mat 𝕜).G) := by
      intro i hi
      have hi' : i < 1 := by
        have : (update_deformation_gradient_after (fun F _ => (true, 1, F))
          (1 / 100 : 𝕜) "tlmpm" (Mat.plain 1 1 (1 / 2) 0 1) 1
          (compute_rate_deformation_gradient_TL 1 Grid.pulled s)).np = 1 := hnp1
        omega
      have hi0 : i = 0 := by omega
      subst hi0
      have h4 : (0 : 𝕜) < four_third := four_third_pos
      simp only [update_deformation_gradient_after, Nat.lt_one_iff, if_true, hF', determinant_diag]
      have : (compute_rate_deformation_gradient_TL 1 Grid.pulled s).rho0 0 = 1 := by
        rw [hs1]; exact hrho0
      rw [this]
      simp only [Mat.plain]
      positivity
    obtain ⟨s3, hs3⟩ := update_stress_neo_hookean_returns m (1 / 100 : 𝕜) "tlmpm" Grid.pulled
      (Mat.plain 1 1 (1 / 2) 0 1) _ rfl hrho
    have heq := update_stress_neo_hookean_eq m (1 / 100 : 𝕜) "tlmpm" Grid.pulled
      (Mat.plain 1 1 (1 / 2) 0 1) _ s3 rfl hs3
    refine ⟨s3, ?_, ?_⟩
    · unfold scenario_S1_step
      simp only [hok2, hs3]
    · rw [heq]
      simp only [update_stress_finish, update_stress_neo_hookean_after,
        update_deformation_gradient_after, Nat.lt_one_iff, if_true, hF', determinant_diag]
      rw [hs1]
      refine ⟨hnp, trivial, hnn, hneigh, hwfd, hrho0, ?_⟩
      simp only [hnp, Nat.lt_one_iff, if_true, Matrix.smul_apply, Matrix.mul_apply,
        Matrix.transpose_apply, Matrix.add_apply, Matrix.sub_apply, Fin.sum_univ_three,
        smul_eq_mul, inverse_diag_entry, Mat.plain]
      simp [Matrix.vecHead, Matrix.vecTail]
      field_simp
      ring

/-- After `k` steps of scenario S1 the particle has `F = diag(1 + k·1e-4, 1, 1)`,
`J = 1 + k·1e-4` and `sigma(0,0) = G*(J - 1/J)`. -/
theorem scenario_S1_eq (m : Libm 𝕜) (k : Nat) :
    ∃ s, scenario_S1 m Grid.pulled (Mat.plain 1 1 (1 / 2) 0 1) Solid.singleCell k = .ok s
      ∧ s.np = 1 ∧ s.F 0 = !![1 + (k : 𝕜) / 10 ^ 4, 0, 0; 0, 1, 0; 0, 0, 1]
      ∧ s.numneigh_pn 0 = 2 ∧ (∀ j, s.neigh_pn 0 j = j)
      ∧ (∀ j, s.wfd_pn 0 j = if j = 0 then ![-1, 0, 0] else ![1, 0, 0])
      ∧ s.rho0 0 = 1
      ∧ s.J 0 = 1 + (k : 𝕜) / 10 ^ 4
      ∧ s.sigma 0 0 0 = 1 / 2 * ((1 + (k : 𝕜) / 10 ^ 4) - 1 / (1 + (k : 𝕜) / 10 ^ 4)) := by
  induction k with
  | zero =>
    refine ⟨Solid.singleCell, rfl, rfl, ?_, rfl, fun _ => rfl, fun _ => rfl, rfl, ?_, ?_⟩
    · simp only [Solid.singleCell, Solid.atRest, Nat.cast_zero, zero_div, add_zero,
        Matrix.one_fin_three]
    · simp [Solid.singleCell, Solid.atRest]
    · simp [Solid.singleCell, Solid.atRest, Solid.blank]
  | succ k ih =>
    obtain ⟨s, hs, hnp, hF, hnn, hneigh, hwfd, hrho0, _, _⟩ := ih
    obtain ⟨s', hs', h⟩ := scenario_S1_step_eq m s (1 + (k : 𝕜) / 10 ^ 4) (by positivity)
      hnp hF hnn hneigh hwfd hrho0
    have hk : (1 : 𝕜) + (k : 𝕜) / 10 ^ 4 + 1 / 10 ^ 4 = 1 + ((k + 1 : Nat) : 𝕜) / 10 ^ 4 := by
      push_cast
      ring
    rw [hk] at h
    refine ⟨s', ?_, h⟩
    rw [scenario_S1, hs]
    exact hs'

/-- C30 (amended): scenario S1. In 1D tlmpm with a Neo-Hookean material (`G = 0.5`,
`lambda = 0`), one particle between a node at rest and a node held at velocity 0.01 (cell
size 1, shape-function gradients `-1` and `1`), `dt = 0.01`: every step of
`compute_rate_deformation_gradient_TL`, `update_deformation_gradient` and `update_stress`
returns and adds `0.01*dt = 1e-4` to `F[0,0]`, so after `k` steps `F = diag(1 + k·1e-4, 1, 1)`,
`J = 1 + k·1e-4` and `sigma[0,0] = G*(J - 1/J)`, which is positive for `k ≥ 1`; after 100
steps `F[0,0] = 1.01`, `J = 1.01` and `sigma[0,0] > 0`. -/
theorem scenario_S1_stretch (m : Libm 𝕜) :
    (∀ k : Nat, ∃ s,
        scenario_S1 m Grid.pulled (Mat.plain 1 1 (1 / 2) 0 1) Solid.singleCell k = .ok s
        ∧ s.F 0 = !![1 + (k : 𝕜) / 10 ^ 4, 0, 0; 0, 1, 0; 0, 0, 1]
        ∧ s.J 0 = 1 + (k : 𝕜) / 10 ^ 4
        ∧ s.sigma 0 0 0 = 1 / 2 * (s.J 0 - 1 / s.J 0)
        ∧ (1 ≤ k → 0 < s.sigma 0 0 0))
    ∧ ∃ s, scenario_S1 m Grid.pulled (Mat.plain 1 1 (1 / 2) 0 1) Solid.singleCell 100 = .ok s
        ∧ s.F 0 0 0 = 101 / 100 ∧ s.J 0 = 101 / 100 ∧ 0 < s.sigma 0 0 0 := by
  have hgen : ∀ k : Nat, ∃ s,
      scenario_S1 m Grid.pulled (Mat.plain 1 1 (1 / 2) 0 1) Solid.singleCell k = .ok s
      ∧ s.F 0 = !![1 + (k : 𝕜) / 10 ^ 4, 0, 0; 0, 1, 0; 0, 0, 1]
      ∧ s.J 0 = 1 + (k : 𝕜) / 10 ^ 4
      ∧ s.sigma 0 0 0 = 1 / 2 * (s.J 0 - 1 / s.J 0)
      ∧ (1 ≤ k → 0 < s.sigma 0 0 0) := by
    intro k
    obtain ⟨s, hs, _, hF, _, _, _, _, hJ, hsig⟩ := scenario_S1_eq m k
    refine ⟨s, hs, hF, hJ, by rw [hsig, hJ], ?_⟩
    intro hk
    rw [hsig]
    have hk' : (1 : 𝕜) ≤ (k : 𝕜) := by exact_mod_cast hk
    have hpos : (0 : 𝕜) < (k : 𝕜) / 10 ^ 4 := by positivity
    have hlt : 1 / (1 + (k : 𝕜) / 10 ^ 4) < 1 := by
      rw [div_lt_one (by linarith)]
      linarith
    linarith
  refine ⟨hgen, ?_⟩
  obtain ⟨s, hs, hF, hJ, _, hpos⟩ := hgen 100
  refine ⟨s, hs, ?_, ?_, hpos (by norm_num)⟩
  · rw [hF]
    simp [Matrix.vecHead, Matrix.vecTail]
    norm_num
  · rw [hJ]
    norm_num

/-- C30, counterexample: after 100 steps of scenario S1 (over the reals) `F[0,0]` is
`1.01`, further than `1e-6` from `2.0`, and `J` is `1.01`, not `2.0`. -/
theorem scenario_S1_not_doubled :
    ∃ s, scenario_S1 (Libm.mk Real.sqrt Real.log Real.exp Real.rpow) Grid.pulled
          (Mat.plain 1 1 (1 / 2) 0 1) (Solid.singleCell : Solid ℝ) 100 = .ok s
      ∧ s.F 0 0 0 = 101 / 100
      ∧ ¬ (|s.F 0 0 0 - 2| ≤ 1 / 10 ^ 6)
      ∧ s.J 0 ≠ 2 := by
  obtain ⟨s, hs, _, hF, _, _, _, _, hJ, _⟩ :=
    scenario_S1_eq (Libm.mk Real.sqrt Real.log Real.exp Real.rpow) 100
  have hF00 : s.F 0 0 0 = 101 / 100 := by
    rw [hF]
    simp [Matrix.vecHead, Matrix.vecTail]
    norm_num
  refine ⟨s, hs, hF00, ?_, ?_⟩
  · rw [hF00, abs_of_neg (by norm_num)]
    norm_num
  · rw [hJ]
    norm_num

/-! ## The tags assigned by `populate`: claim C25 -/

/-- A loop that adds `g proc` for the `proc` satisfying a test computes the sum of the
`g proc` over them. -/
theorem loop_conditional_sum (c : Nat → Prop) [DecidablePred c] (g : Nat → Nat) (n : Nat) :
    loop (fun proc acc => if c proc then acc + g proc else acc) n 0
      = ∑ proc in Finset.range n, if c proc then g proc else 0 := by
  induction n with
  | zero => rfl
  | succ n ih =>
    rw [loop, ih, Finset.sum_range_succ]
    split_ifs <;> simp

/-- On a rank `me < nprocs` the loop of lines 1365-1378 leaves in `ptag0` the sum of the
`np_local` of the ranks below `me`. -/
theorem populate_ptag0_eq {𝕂 : Type} (env : PopulateEnv 𝕂) (l : Nat) (hme : env.me < env.nprocs) :
    populate_ptag0 env l = ∑ proc in Finset.range env.me, env.np_local_of proc := by
  unfold populate_ptag0
  simp only []
  rw [loop_conditional_sum (fun proc => env.me > proc) (populate_np_local_all env l) env.nprocs]
  rw [← Finset.sum_filter]
  have hfilter : (Finset.range env.nprocs).filter (fun proc => env.me > proc)
      = Finset.range env.me := by
    ext q
    simp only [Finset.mem_filter, Finset.mem_range]
    omega
  rw [hfilter]
  apply Finset.sum_congr rfl
  intro q hq
  have : q ≠ env.me := by
    have := Finset.mem_range.mp hq
    omega
  simp only [populate_np_local_all, this, if_false]

/-- The fields that the initialisation loop of `populate` gives the particles below `n`,
and the fields that it leaves alone. -/
theorem populate_initialise_loop_fields (mat : Mat 𝕜) (vol_ mass_ : 𝕜) (ptag0 : Nat)
    (s : Solid 𝕜) (n : Nat) :
    (loop (populate_initialise_particle mat vol_ mass_ ptag0) n s).np = s.np
    ∧ (loop (populate_initialise_particle mat vol_ mass_ ptag0) n s).np_local = s.np_local
    ∧ (loop (populate_initialise_particle mat vol_ mass_ ptag0) n s).x = s.x
    ∧ (loop (populate_initialise_particle mat vol_ mass_ ptag0) n s).x0 = s.x0
    ∧ ∀ i, i < n →
        (loop (populate_initialise_particle mat vol_ mass_ ptag0) n s).ptag i = ptag0 + i + 1
        ∧ (loop (populate_initialise_particle mat vol_ mass_ ptag0) n s).vol0 i = vol_
        ∧ (loop (populate_initialise_particle mat vol_ mass_ ptag0) n s).vol i = vol_
        ∧ (loop (populate_initialise_particle mat vol_ mass_ ptag0) n s).mass i = mass_
        ∧ (loop (populate_initialise_particle mat vol_ mass_ ptag0) n s).F i = 1
        ∧ (loop (populate_initialise_particle mat vol_ mass_ ptag0) n s).J i = 1 := by
  induction n with
  | zero => exact ⟨rfl, rfl, rfl, rfl, fun i hi => absurd hi (Nat.not_lt_zero i)⟩
  | succ n ih =>
    obtain ⟨h1, h2, h3, h4, h5⟩ := ih
    rw [loop]
    refine ⟨h1, h2, h3, h4, ?_⟩
    intro i hi
    by_cases h : i = n
    · subst h
      simp [populate_initialise_particle]
    · have hlt : i < n := by omega
      simp only [populate_initialise_particle, Function.update_noteq h]
      exact h5 i hlt

/-- The result of `populate_finish` when the creation loops return the state `st`: the
local count is the number of accepted points, the global count is the sum over the ranks,
and the `i`-th local particle gets the tag `ptag0 + i + 1`, unit `F` and `J`, and the
volume and the mass of an integration point. -/
theorem populate_finish_fields [FloorRing 𝕜] (env : PopulateEnv 𝕜) (grid : Grid 𝕜) (mat : Mat 𝕜)
    (nsub : Int × Int × Int) (pts : IntPoints 𝕜) (s : Solid 𝕜) (st : Solid 𝕜 × Nat)
    (h : populate_create env grid.cellsize nsub pts
      (nsub.1 * nsub.2.1 * nsub.2.2 * (pts.nip : Int)) s = .ok st) :
    ∃ s', populate_finish env grid mat nsub pts s = .ok s'
      ∧ s'.np_local = st.2
      ∧ s'.np = mpi_allreduce_sum env.nprocs (populate_np_local_all env st.2)
      ∧ s'.x = st.1.x ∧ s'.x0 = st.1.x0
      ∧ ∀ i, i < st.2 →
          s'.ptag i = populate_ptag0 env st.2 + i + 1
          ∧ s'.vol0 i = (if env.dimension = 1 then grid.cellsize
              else if env.dimension = 2 then grid.cellsize * grid.cellsize
              else grid.cellsize * grid.cellsize * grid.cellsize) / (pts.nip : 𝕜)
          ∧ s'.vol i = s'.vol0 i
          ∧ s'.mass i = mat.rho0 * (if env.dimension = 1 then grid.cellsize
              else if env.dimension = 2 then grid.cellsize * grid.cellsize
              else grid.cellsize * grid.cellsize * grid.cellsize) / (pts.nip : 𝕜)
          ∧ s'.F i = 1 ∧ s'.J i = 1 := by
  unfold populate_finish
  simp only [h]
  refine ⟨_, rfl, ?_⟩
  unfold populate_initialise
  simp only []
  obtain ⟨h1, h2, h3, h4, h5⟩ := populate_initialise_loop_fields mat
    ((if env.dimension = 1 then grid.cellsize
      else if env.dimension = 2 then grid.cellsize * grid.cellsize
      else grid.cellsize * grid.cellsize * grid.cellsize) / (pts.nip : 𝕜))
    (mat.rho0 * (if env.dimension = 1 then grid.cellsize
      else if env.dimension = 2 then grid.cellsize * grid.cellsize
      else grid.cellsize * grid.cellsize * grid.cellsize) / (pts.nip : 𝕜))
    (populate_ptag0 env st.2)
    { st.1 with np_local := st.2,
                np := mpi_allreduce_sum env.nprocs (populate_np_local_all env st.2) }
    st.2
  refine ⟨h2, h1, h3, h4, ?_⟩
  intro i hi
  obtain ⟨a, b, c, d, e, f⟩ := h5 i hi
  exact ⟨a, b, c.trans b.symm, d, e, f⟩

/-- The sums of the counts of the ranks below `r` grow with `r`. -/
theorem prefix_count_mono (count : Nat → Nat) {r r' : Nat} (h : r ≤ r') :
    ∑ q in Finset.range r, count q ≤ ∑ q in Finset.range r', count q :=
  Finset.sum_le_sum_of_subset (Finset.range_mono h)

/-- Every number from 1 to the sum of the counts of `P` ranks lies in the block of exactly
one rank. -/
theorem prefix_count_cover (count : Nat → Nat) (P t : Nat) (h1 : 1 ≤ t)
    (h2 : t ≤ ∑ q in Finset.range P, count q) :
    ∃ r i, r < P ∧ i < count r ∧ t = ∑ q in Finset.range r, count q + i + 1 := by
  induction P with
  | zero =>
    simp only [Finset.range_zero, Finset.sum_empty] at h2
    omega
  | succ P ih =>
    by_cases h : t ≤ ∑ q in Finset.range P, count q
    · obtain ⟨r, i, hr, hi, ht⟩ := ih h
      exact ⟨r, i, Nat.lt_succ_of_lt hr, hi, ht⟩
    · rw [Finset.sum_range_succ] at h2
      refine ⟨P, t - (∑ q in Finset.range P, count q) - 1, Nat.lt_succ_self P, ?_, ?_⟩
      · omega
      · omega

/-- C25: tag assignment in `populate`. For ranks `0, ..., P-1` with per-rank counts
`count` (each rank seeing the counts of the others through the broadcasts): on rank `r`
the tag base `ptag0` is the sum of the counts of the lower ranks and the global `np` is
the sum of all counts; when the creation loops return `count r` particles, `populate_finish`
returns with `np_local = count r`, that `np`, and `ptag[i] = ptag0 + i + 1` for the `i`-th
local particle. Hence the tags are pairwise distinct across ranks, every tag on a lower
rank is smaller than every tag on a higher rank, and the tags are exactly `1, ..., np`. -/
theorem populate_tags [FloorRing 𝕜] (P : Nat) (count : Nat → Nat) (env : Nat → PopulateEnv 𝕜)
    (henv : ∀ r, r < P → (env r).me = r ∧ (env r).nprocs = P
      ∧ ∀ q, q ≠ r → (env r).np_local_of q = count q) :
    (∀ r, r < P →
        populate_ptag0 (env r) (count r) = ∑ q in Finset.range r, count q
        ∧ mpi_allreduce_sum (env r).nprocs (populate_np_local_all (env r) (count r))
            = ∑ q in Finset.range P, count q)
    ∧ (∀ r, r < P → ∀ (grid : Grid 𝕜) (mat : Mat 𝕜) (nsub : Int × Int × Int) (pts : IntPoints 𝕜)
          (s : Solid 𝕜) (st : Solid 𝕜 × Nat),
        populate_create (env r) grid.cellsize nsub pts
            (nsub.1 * nsub.2.1 * nsub.2.2 * (pts.nip : Int)) s = .ok st →
        st.2 = count r →
        ∃ s', populate_finish (env r) grid mat nsub pts s = .ok s'
          ∧ s'.np_local = count r
          ∧ s'.np = ∑ q in Finset.range P, count q
          ∧ ∀ i, i < count r → s'.ptag i = ∑ q in Finset.range r, count q + i + 1)
    ∧ (∀ r r' i i', r < P → r' < P → i < count r → i' < count r' →
        populate_ptag0 (env r) (count r) + i + 1 = populate_ptag0 (env r') (count r') + i' + 1 →
        r = r' ∧ i = i')
    ∧ (∀ r r' i i', r < r' → r' < P → i < count r → i' < count r' →
        populate_ptag0 (env r) (count r) + i + 1 < populate_ptag0 (env r') (count r') + i' + 1)
    ∧ (∀ t, (1 ≤ t ∧ t ≤ ∑ q in Finset.range P, count q)
        ↔ ∃ r i, r < P ∧ i < count r ∧ t = populate_ptag0 (env r) (count r) + i + 1) := by
  have hbase : ∀ r, r < P →
      populate_ptag0 (env r) (count r) = ∑ q in Finset.range r, count q := by
    intro r hr
    obtain ⟨hme, hn, hc⟩ := henv r hr
    rw [populate_ptag0_eq (env r) (count r) (by rw [hme, hn]; exact hr), hme]
    apply Finset.sum_congr rfl
    intro q hq
    exact hc q (by
      have := Finset.mem_range.mp hq
      omega)
  have hnp : ∀ r, r < P →
      mpi_allreduce_sum (env r).nprocs (populate_np_local_all (env r) (count r))
        = ∑ q in Finset.range P, count q := by
    intro r hr
    obtain ⟨hme, hn, hc⟩ := henv r hr
    unfold mpi_allreduce_sum
    rw [hn]
    apply Finset.sum_congr rfl
    intro q _
    unfold populate_np_local_all
    rw [hme]
    split_ifs with h
    · rw [h]
    · exact hc q h
  have hblock : ∀ r, r < P → ∀ i, i < count r →
      ∑ q in Finset.range r, count q + i + 1 ≤ ∑ q in Finset.range (r + 1), count q := by
    intro r _ i hi
    rw [Finset.sum_range_succ]
    omega
  have hord : ∀ r r' i i', r < r' → r' < P → i < count r → i' < count r' →
      ∑ q in Finset.range r, count q + i + 1 < ∑ q in Finset.range r', count q + i' + 1 := by
    intro r r' i i' hrr hr' hi _
    have h1 := hblock r (by omega) i hi
    have h2 := prefix_count_mono count (show r + 1 ≤ r' by omega)
    omega
  refine ⟨fun r hr => ⟨hbase r hr, hnp r hr⟩, ?_, ?_, ?_, ?_⟩
  · intro r hr grid mat nsub pts s st hst hcount
    obtain ⟨s', hs', h1, h2, _, _, h5⟩ := populate_finish_fields (env r) grid mat nsub pts s st hst
    refine ⟨s', hs', h1.trans hcount, ?_, ?_⟩
    · rw [h2, hcount]
      exact hnp r hr
    · intro i hi
      rw [(h5 i (by rw [hcount]; exact hi)).1, hcount, hbase r hr]
  · intro r r' i i' hr hr' hi hi' heq
    rw [hbase r hr, hbase r' hr'] at heq
    rcases Nat.lt_trichotomy r r' with h | h | h
    · have := hord r r' i i' h hr' hi hi'
      omega
    · subst h
      exact ⟨rfl, by omega⟩
    · have := hord r' r i' i h hr hi' hi
      omega
  · intro r r' i i' hrr hr' hi hi'
    rw [hbase r (by omega), hbase r' hr']
    exact hord r r' i i' hrr hr' hi hi'
  · intro t
    constructor
    · rintro ⟨h1, h2⟩
      obtain ⟨r, i, hr, hi, ht⟩ := prefix_count_cover count P t h1 h2
      exact ⟨r, i, hr, hi, by rw [hbase r hr]; exact ht⟩
    · rintro ⟨r, i, hr, hi, ht⟩
      rw [hbase r hr] at ht
      have h1 := hblock r hr i hi
      have h2 := prefix_count_mono count (show r + 1 ≤ P by omega)
      omega

/-- C25, witness: two ranks with 2 and 3 particles; rank 0 assigns the tags from 1 and
rank 1 the tags from 3, both find `np = 5`, and the first tag of rank 1 is above the last
tag of rank 0. -/
theorem populate_tags_witness :
    populate_ptag0 (PopulateEnv.line (2 : ℚ) 0 1 1 0 2 (fun q => if q = 0 then 2 else 3)) 2 = 0
    ∧ populate_ptag0 (PopulateEnv.line (2 : ℚ) 1 2 1 1 2 (fun q => if q = 0 then 2 else 3)) 3 = 2
    ∧ mpi_allreduce_sum 2 (populate_np_local_all
        (PopulateEnv.line (2 : ℚ) 1 2 1 1 2 (fun q => if q = 0 then 2 else 3)) 3) = 5
    ∧ populate_ptag0 (PopulateEnv.line (2 : ℚ) 0 1 1 0 2 (fun q => if q = 0 then 2 else 3)) 2
        + 1 + 1
      < populate_ptag0 (PopulateEnv.line (2 : ℚ) 1 2 1 1 2 (fun q => if q = 0 then 2 else 3)) 3
        + 0 + 1 := by
  have h := populate_tags 2 (fun q => if q = 0 then 2 else 3)
    (fun r => PopulateEnv.line (2 : ℚ) (r : ℚ) ((r : ℚ) + 1) 1 r 2
      (fun q => if q = 0 then 2 else 3))
    (fun r _ => ⟨rfl, rfl, fun _ _ => rfl⟩)
  obtain ⟨h1, _, _, h4, _⟩ := h
  have h0 := (h1 0 (by norm_num)).1
  have h1' := h1 1 (by norm_num)
  have hord := h4 0 1 1 0 (by norm_num) (by norm_num) (by norm_num) (by norm_num)
  refine ⟨?_, ?_, ?_, ?_⟩
  · simpa using h0
  · have := h1'.1
    simp only [Finset.sum_range_one, if_true] at this
    simpa [PopulateEnv.line] using this
  · have := h1'.2
    simp only [Finset.sum_range_succ, Finset.sum_range_zero] at this
    simpa [PopulateEnv.line] using this
  · simpa [PopulateEnv.line] using hord

/-! ## `Solid::populate`: claims C22, C23, C24 -/

/-- A call that returns a state satisfying `P` returns. -/
theorem returns_with_ok {σ : Type} (r : Except String σ) (P : σ → Prop)
    (h : returns_with r P) : ∃ s, r = .ok s ∧ P s := by
  cases r with
  | ok s => exact ⟨s, rfl, h⟩
  | error e => exact absurd h (fun h => h)

/-- `populate` never returns normally: whenever the statements before its last line
have run through, the last line ends the run. -/
theorem populate_of_body [FloorRing 𝕜] (fuel : Nat) (m : Libm 𝕜) (env : PopulateEnv 𝕜)
    (grid : Grid 𝕜) (mat : Mat 𝕜) (s s' : Solid 𝕜)
    (h : populate_body fuel m env grid mat s = some (.ok s')) :
    populate fuel m env grid mat s = some (.error "") := by
  unfold populate
  rw [h]

/-- The statements of `populate` before its last line, once the region is known, the
rounding loops have ended and the integration points are chosen. -/
theorem populate_body_eq_finish [FloorRing 𝕜] (fuel : Nat) (m : Libm 𝕜) (env : PopulateEnv 𝕜)
    (grid : Grid 𝕜) (mat : Mat 𝕜) (s : Solid 𝕜) (nsub : Int × Int × Int) (pts : IntPoints 𝕜)
    (hregion : env.iregion ≠ -1)
    (hcounts : populate_counts fuel env grid.cellsize = some nsub)
    (hpts : populate_intpoints m env.np_per_cell env.dimension s.nc grid.cellsize = .ok pts) :
    populate_body fuel m env grid mat s = some (populate_finish env grid mat nsub pts s) := by
  unfold populate_body
  rw [if_neg hregion, hcounts]
  simp only [hpts]

/-- C23, evaluated at the failing input: in dimension 1 the first `nip` rows of the table
`intpoints` all carry the offset `-xi` along the first axis, for two and for three
particles per cell; and populating the single cell `[0,1]` of a 1D problem with three
particles per cell (no CPDI, cell size 1) creates three particles that all lie at
`x = 0.5 - 0.3873 = 0.1127`. -/
theorem populate_dimension_one_points_coincide (m : Libm ℚ) :
    (∀ (nc : Nat) (delta : ℚ), ∃ pts, populate_intpoints m 2 1 nc delta = .ok pts
        ∧ pts.nip = 2
        ∧ pts.intpoints.getD (3 * 0 + 0) 0 = -pts.xi
        ∧ pts.intpoints.getD (3 * 1 + 0) 0 = -pts.xi)
    ∧ (∀ (nc : Nat) (delta : ℚ), ∃ pts, populate_intpoints m 3 1 nc delta = .ok pts
        ∧ pts.nip = 3
        ∧ pts.intpoints.getD (3 * 0 + 0) 0 = -pts.xi
        ∧ pts.intpoints.getD (3 * 1 + 0) 0 = -pts.xi
        ∧ pts.intpoints.getD (3 * 2 + 0) 0 = -pts.xi)
    ∧ ∃ s', populate_body 10 m (PopulateEnv.line 1 0 1 3 0 1 (fun _ => 0)) (Grid.blank 1)
          (Mat.plain 1 1 1 0 1) (Solid.blank 0) = some (.ok s')
        ∧ s'.np_local = 3
        ∧ s'.x0 0 0 = 1127 / 10000 ∧ s'.x0 1 0 = 1127 / 10000 ∧ s'.x0 2 0 = 1127 / 10000 := by
  refine ⟨fun nc delta => ⟨_, rfl, rfl, rfl, rfl⟩, fun nc delta => ⟨_, rfl, rfl, rfl, rfl, rfl⟩, ?_⟩
  have hbody := populate_body_eq_finish 10 m (PopulateEnv.line 1 0 1 3 0 1 (fun _ => 0))
    (Grid.blank 1) (Mat.plain 1 1 1 0 1) (Solid.blank 0) (2, 1, 1)
    { xi := 7746 / 10000 / 2, lp := 1 * (1 / 6), nip := 3, intpoints := intpoints_3 (7746 / 10000 / 2) }
    (by decide) (by decide!) rfl
  have h : returns_with
      (populate_finish (PopulateEnv.line (1 : ℚ) 0 1 3 0 1 (fun _ => 0)) (Grid.blank 1)
        (Mat.plain 1 1 1 0 1) (2, 1, 1)
        { xi := 7746 / 10000 / 2, lp := 1 * (1 / 6), nip := 3,
          intpoints := intpoints_3 (7746 / 10000 / 2) }
        (Solid.blank 0))
      (fun s' => s'.np_local = 3
        ∧ s'.x0 0 0 = 1127 / 10000 ∧ s'.x0 1 0 = 1127 / 10000 ∧ s'.x0 2 0 = 1127 / 10000) := by
    decide!
  obtain ⟨s', hs', hP⟩ := returns_with_ok _ _ h
  exact ⟨s', by rw [hbody, hs'], hP⟩

/-- C24, evaluated at the failing input: the box `[0,2]` in one dimension with cell size
`1/2` and one particle per cell. A single rank owning the whole box creates the four
particles at `0.25, 0.75, 1.25, 1.75`. Split between two ranks, rank 0 (subdomain `[0,1]`)
creates the two particles at `0.25` and `0.75`, and rank 1 (subdomain `[1,2]`) starts its
loop at `nsubx0 = 2` while the positions add `noffset = 2` as well, so that its only
candidate is `x = 2.25` and it creates no particle. -/
theorem populate_two_ranks_miss_points (m : Libm ℚ) :
    (∃ s, populate_body 10 m (PopulateEnv.line 2 0 2 1 0 1 (fun _ => 0)) (Grid.blank (1 / 2))
          (Mat.plain 1 1 1 0 1) (Solid.blank 0) = some (.ok s)
        ∧ s.np_local = 4 ∧ s.np = 4
        ∧ s.x0 0 0 = 1 / 4 ∧ s.x0 1 0 = 3 / 4 ∧ s.x0 2 0 = 5 / 4 ∧ s.x0 3 0 = 7 / 4)
    ∧ (∃ s0, populate_body 10 m (PopulateEnv.line 2 0 1 1 0 2 (fun _ => 0)) (Grid.blank (1 / 2))
          (Mat.plain 1 1 1 0 1) (Solid.blank 0) = some (.ok s0)
        ∧ s0.np_local = 2 ∧ s0.np = 2
        ∧ s0.x0 0 0 = 1 / 4 ∧ s0.x0 1 0 = 3 / 4)
    ∧ (∃ s1, populate_body 10 m (PopulateEnv.line 2 1 2 1 1 2 (fun q => if q = 0 then 2 else 0))
          (Grid.blank (1 / 2)) (Mat.plain 1 1 1 0 1) (Solid.blank 0) = some (.ok s1)
        ∧ s1.np_local = 0 ∧ s1.np = 2
        ∧ s1.x0 0 0 = 9 / 4) := by
  have hbody := populate_body_eq_finish 10 m (PopulateEnv.line 2 0 2 1 0 1 (fun _ => 0))
    (Grid.blank (1 / 2)) (Mat.plain 1 1 1 0 1) (Solid.blank 0) (5, 1, 1)
    { xi := 1 / 2, lp := 1 / 2 * (1 / 2), nip := 1, intpoints := [0, 0, 0] }
    (by decide) (by decide!) rfl
  have hbody0 := populate_body_eq_finish 10 m (PopulateEnv.line 2 0 1 1 0 2 (fun _ => 0))
    (Grid.blank (1 / 2)) (Mat.plain 1 1 1 0 1) (Solid.blank 0) (3, 1, 1)
    { xi := 1 / 2, lp := 1 / 2 * (1 / 2), nip := 1, intpoints := [0, 0, 0] }
    (by decide) (by decide!) rfl
  have hbody1 := populate_body_eq_finish 10 m
    (PopulateEnv.line 2 1 2 1 1 2 (fun q => if q = 0 then 2 else 0))
    (Grid.blank (1 / 2)) (Mat.plain 1 1 1 0 1) (Solid.blank 0) (3, 1, 1)
    { xi := 1 / 2, lp := 1 / 2 * (1 / 2), nip := 1, intpoints := [0, 0, 0] }
    (by decide) (by decide!) rfl
  have h : returns_with
      (populate_finish (PopulateEnv.line (2 : ℚ) 0 2 1 0 1 (fun _ => 0)) (Grid.blank (1 / 2))
        (Mat.plain 1 1 1 0 1) (5, 1, 1)
        { xi := 1 / 2, lp := 1 / 2 * (1 / 2), nip := 1, intpoints := [0, 0, 0] } (Solid.blank 0))
      (fun s => s.np_local = 4 ∧ s.np = 4
        ∧ s.x0 0 0 = 1 / 4 ∧ s.x0 1 0 = 3 / 4 ∧ s.x0 2 0 = 5 / 4 ∧ s.x0 3 0 = 7 / 4) := by
    decide!
  have h0 : returns_with
      (populate_finish (PopulateEnv.line (2 : ℚ) 0 1 1 0 2 (fun _ => 0)) (Grid.blank (1 / 2))
        (Mat.plain 1 1 1 0 1) (3, 1, 1)
        { xi := 1 / 2, lp := 1 / 2 * (1 / 2), nip := 1, intpoints := [0, 0, 0] } (Solid.blank 0))
      (fun s => s.np_local = 2 ∧ s.np = 2 ∧ s.x0 0 0 = 1 / 4 ∧ s.x0 1 0 = 3 / 4) := by
    decide!
  have h1 : returns_with
      (populate_finish (PopulateEnv.line (2 : ℚ) 1 2 1 1 2 (fun q => if q = 0 then 2 else 0))
        (Grid.blank (1 / 2)) (Mat.plain 1 1 1 0 1) (3, 1, 1)
        { xi := 1 / 2, lp := 1 / 2 * (1 / 2), nip := 1, intpoints := [0, 0, 0] } (Solid.blank 0))
      (fun s => s.np_local = 0 ∧ s.np = 2 ∧ s.x0 0 0 = 9 / 4) := by
    decide!
  obtain ⟨s, hs, hP⟩ := returns_with_ok _ _ h
  obtain ⟨s0, hs0, hP0⟩ := returns_with_ok _ _ h0
  obtain ⟨s1, hs1, hP1⟩ := returns_with_ok _ _ h1
  exact ⟨⟨s, by rw [hbody, hs], hP⟩, ⟨s0, by rw [hbody0, hs0], hP0⟩, ⟨s1, by rw [hbody1, hs1], hP1⟩⟩

/-- A fallible loop returns when every iteration returns from a state that satisfies the
invariant, and the invariant holds of the state returned. -/
theorem forLoop_returns {σ ε : Type} (P : Nat → σ → Prop) (body : Nat → σ → Except ε σ)
    (n : Nat) (s : σ) (h0 : P 0 s)
    (hstep : ∀ i t, i < n → P i t → ∃ t', body i t = .ok t' ∧ P (i + 1) t') :
    ∃ s', forLoop body n s = .ok s' ∧ P n s' := by
  induction n with
  | zero => exact ⟨s, rfl, h0⟩
  | succ n ih =>
    obtain ⟨t, ht, hP⟩ := ih (fun i t hi => hstep i t (Nat.lt_succ_of_lt hi))
    obtain ⟨t', ht', hP'⟩ := hstep n t (Nat.lt_succ_self n) hP
    exact ⟨t', by rw [forLoop, ht]; exact ht', hP'⟩

/-- A lattice point `0.1*(n + 0.5)` lies in `[0,1]` exactly for `n < 10`. -/
theorem cube_coordinate_inside (n : Nat) :
    ((0 : ℚ) ≤ (n : ℚ) + 2⁻¹ ∧ (10 : ℚ)⁻¹ * ((n : ℚ) + 2⁻¹) ≤ 1) ↔ n < 10 := by
  have h0 : (0 : ℚ) ≤ n := Nat.cast_nonneg n
  constructor
  · rintro ⟨_, h⟩
    have : (n : ℚ) < 10 := by
      by_contra hn
      have : (10 : ℚ) ≤ n := not_lt.mp hn
      have : (10 : ℚ)⁻¹ * ((n : ℚ) + 2⁻¹) > 1 := by norm_num; linarith
      linarith
    exact_mod_cast this
  · intro h
    have : (n : ℚ) ≤ 9 := by exact_mod_cast Nat.lt_succ_iff.mp h
    constructor
    · positivity
    · norm_num
      linarith

/-- The innermost statement of the creation loops on the unit cube: the lattice point
`(a, b, c)` is written to the slot `l` and accepted exactly when it is a cell centre. -/
theorem populate_create_point_cube_eq (a b c : Nat) (s : Solid ℚ) (l : Nat) (hl : l ≤ 1000) :
    populate_create_point (PopulateEnv.cube : PopulateEnv ℚ) (1 / 10)
        (fun _ => 0) (fun _ => 0)
        { xi := 1 / 2, lp := 1 / 10 * (1 / 2), nip := 1, intpoints := [0, 0, 0] } 1331
        (0 + (a : Int)) (0 + (b : Int)) (0 + (c : Int)) 0 (s, l)
      = .ok ({ s with
          x := Function.update s.x l
            ![1 / 10 * ((a : ℚ) + 1 / 2), 1 / 10 * ((b : ℚ) + 1 / 2), 1 / 10 * ((c : ℚ) + 1 / 2)]
          x0 := Function.update s.x0 l
            ![1 / 10 * ((a : ℚ) + 1 / 2), 1 / 10 * ((b : ℚ) + 1 / 2), 1 / 10 * ((c : ℚ) + 1 / 2)] },
        if a < 10 ∧ b < 10 ∧ c < 10 then l + 1 else l) := by
  have hnot : ¬ ((l : Int) ≥ 1331) := by omega
  unfold populate_create_point
  simp only [hnot, if_false, PopulateEnv.cube]
  have hget0 : ([0, 0, 0] : List ℚ).getD (3 * 0 + 0) 0 = 0 := rfl
  have hget1 : ([0, 0, 0] : List ℚ).getD (3 * 0 + 1) 0 = 0 := rfl
  have hget2 : ([0, 0, 0] : List ℚ).getD (3 * 0 + 2) 0 = 0 := rfl
  simp only [hget0, hget1, hget2]
  have ha := cube_coordinate_inside a
  have hb := cube_coordinate_inside b
  have hc := cube_coordinate_inside c
  by_cases hacc : a < 10 ∧ b < 10 ∧ c < 10
  · obtain ⟨h1, h2, h3⟩ := hacc
    simp [Matrix.vecHead, Matrix.vecTail, ha.mpr h1, hb.mpr h2, hc.mpr h3, h1, h2, h3]
  · have hreg : ¬ (((0 : ℚ) ≤ (a : ℚ) + 2⁻¹ ∧ (10 : ℚ)⁻¹ * ((a : ℚ) + 2⁻¹) ≤ 1)
        ∧ ((0 : ℚ) ≤ (b : ℚ) + 2⁻¹ ∧ (10 : ℚ)⁻¹ * ((b : ℚ) + 2⁻¹) ≤ 1)
        ∧ ((0 : ℚ) ≤ (c : ℚ) + 2⁻¹ ∧ (10 : ℚ)⁻¹ * ((c : ℚ) + 2⁻¹) ≤ 1)) := by
      rintro ⟨h1, h2, h3⟩
      exact hacc ⟨ha.mp h1, hb.mp h2, hc.mp h3⟩
    simp only [and_assoc] at hreg
    simp [Matrix.vecHead, Matrix.vecTail, hreg, hacc]

/-- The innermost statement of the creation loops on the unit cube keeps the invariant:
the counter is the number of cell centres visited so far, and the slots below it hold
these centres in the order of the loops. -/
theorem populate_create_point_cube (a b c : Nat) (ha : a < 11) (hb : b < 11) (hc : c < 11)
    (st : Solid ℚ × Nat) (hl : st.2 = cube_count a b c)
    (hQ : ∀ r, r < st.2 → st.1.x0 r = cube_centre r ∧ st.1.x r = cube_centre r) :
    ∃ st', populate_create_point (PopulateEnv.cube : PopulateEnv ℚ) (1 / 10)
          (fun _ => 0) (fun _ => 0)
          { xi := 1 / 2, lp := 1 / 10 * (1 / 2), nip := 1, intpoints := [0, 0, 0] } 1331
          (0 + (a : Int)) (0 + (b : Int)) (0 + (c : Int)) 0 st = .ok st'
      ∧ st'.2 = cube_count a b (c + 1)
      ∧ ∀ r, r < st'.2 → st'.1.x0 r = cube_centre r ∧ st'.1.x r = cube_centre r := by
  obtain ⟨s, l⟩ := st
  simp only at hl hQ
  have hl1000 : l ≤ 1000 := by
    rw [hl]
    unfold cube_count
    split_ifs <;> omega
  refine ⟨_, populate_create_point_cube_eq a b c s l hl1000, ?_, ?_⟩
  · simp only [hl]
    unfold cube_count
    split_ifs <;> omega
  · intro r hr
    simp only at hr ⊢
    by_cases hacc : a < 10 ∧ b < 10 ∧ c < 10
    · obtain ⟨h1, h2, h3⟩ := hacc
      rw [if_pos ⟨h1, h2, h3⟩] at hr
      have hcnt : l = 100 * a + 10 * b + c := by
        rw [hl]
        unfold cube_count
        rw [if_neg (by omega), if_neg (by omega), min_eq_left (by omega)]
      by_cases hrl : r = l
      · subst hrl
        simp only [Function.update_same]
        have hcentre : (cube_centre r : Vector3d ℚ)
            = ![1 / 10 * ((a : ℚ) + 1 / 2), 1 / 10 * ((b : ℚ) + 1 / 2),
                1 / 10 * ((c : ℚ) + 1 / 2)] := by
          unfold cube_centre
          have e1 : r / 100 = a := by omega
          have e2 : r / 10 % 10 = b := by omega
          have e3 : r % 10 = c := by omega
          rw [e1, e2, e3]
        exact ⟨hcentre.symm, hcentre.symm⟩
      · rw [Function.update_noteq hrl, Function.update_noteq hrl]
        exact hQ r (by omega)
    · rw [if_neg hacc] at hr
      have hrl : r ≠ l := by omega
      rw [Function.update_noteq hrl, Function.update_noteq hrl]
      exact hQ r hr

/-- The creation loops of `populate` on the unit cube with cell size `1/10`: the lower
bound, the offsets and the first indices of the loops are all zero. -/
theorem populate_create_cube_eq (pts : IntPoints ℚ) (np_local : Int) (s : Solid ℚ) :
    populate_create (PopulateEnv.cube : PopulateEnv ℚ) (1 / 10) (11, 11, 11) pts np_local s
      = forLoop (fun a => forLoop (fun b => forLoop (fun c =>
            forLoop (populate_create_point (PopulateEnv.cube : PopulateEnv ℚ) (1 / 10)
              (fun _ => 0) (fun _ => 0) pts np_local
              (0 + (a : Int)) (0 + (b : Int)) (0 + (c : Int))) pts.nip) 11) 11) 11 (s, 0) := by
  have hB : (if (PopulateEnv.cube : PopulateEnv ℚ).is_TL then populate_solidlo PopulateEnv.cube
      else (PopulateEnv.cube : PopulateEnv ℚ).boxlo) = fun _ => 0 := by
    funext c
    fin_cases c <;> simp [PopulateEnv.cube, populate_solidlo]
  have hsub : ∀ c, (PopulateEnv.cube : PopulateEnv ℚ).sublo c = 0 := fun _ => rfl
  have hZ : int_of_double (((int_of_double ((0 : ℚ) - 0) : Int) : ℚ) / (1 / 10)) = 0 := by
    simp [int_of_double]
  have hN : int_of_double (MAX (0 : ℚ) (0 - 0) / (1 / 10)) = 0 := by
    simp [int_of_double, MAX]
  unfold populate_create forRange
  simp only [hB, hsub, hZ, hN]
  rfl

/-- The creation loops of `populate` on the unit cube return with 1000 accepted points, the
cell centres in the order of the loops. -/
theorem populate_create_cube (s : Solid ℚ) :
    ∃ st, populate_create (PopulateEnv.cube : PopulateEnv ℚ) (1 / 10) (11, 11, 11)
          { xi := 1 / 2, lp := 1 / 10 * (1 / 2), nip := 1, intpoints := [0, 0, 0] } 1331 s = .ok st
      ∧ st.2 = 1000
      ∧ ∀ r, r < 1000 → st.1.x0 r = cube_centre r ∧ st.1.x r = cube_centre r := by
  rw [populate_create_cube_eq]
  have houter := forLoop_returns
    (fun a (st : Solid ℚ × Nat) => st.2 = cube_count a 0 0
      ∧ ∀ r, r < st.2 → st.1.x0 r = cube_centre r ∧ st.1.x r = cube_centre r)
    (fun a => forLoop (fun b => forLoop (fun c =>
      forLoop (populate_create_point (PopulateEnv.cube : PopulateEnv ℚ) (1 / 10)
        (fun _ => 0) (fun _ => 0)
        { xi := 1 / 2, lp := 1 / 10 * (1 / 2), nip := 1, intpoints := [0, 0, 0] } 1331
        (0 + (a : Int)) (0 + (b : Int)) (0 + (c : Int))) 1) 11) 11)
    11 (s, 0) ⟨rfl, fun r hr => absurd hr (Nat.not_lt_zero r)⟩ ?_
  · obtain ⟨st, hst, hl, hQ⟩ := houter
    refine ⟨st, hst, hl, ?_⟩
    intro r hr
    exact hQ r (by rw [hl]; exact hr)
  · intro a st ha hP
    have hmiddle := forLoop_returns
      (fun b (st : Solid ℚ × Nat) => st.2 = cube_count a b 0
        ∧ ∀ r, r < st.2 → st.1.x0 r = cube_centre r ∧ st.1.x r = cube_centre r)
      (fun b => forLoop (fun c =>
        forLoop (populate_create_point (PopulateEnv.cube : PopulateEnv ℚ) (1 / 10)
          (fun _ => 0) (fun _ => 0)
          { xi := 1 / 2, lp := 1 / 10 * (1 / 2), nip := 1, intpoints := [0, 0, 0] } 1331
          (0 + (a : Int)) (0 + (b : Int)) (0 + (c : Int))) 1) 11)
      11 st hP ?_
    · obtain ⟨st', hst', hl, hQ⟩ := hmiddle
      refine ⟨st', hst', ?_, hQ⟩
      rw [hl]
      unfold cube_count
      split_ifs <;> omega
    · intro b st hb hP
      have hinner := forLoop_returns
        (fun c (st : Solid ℚ × Nat) => st.2 = cube_count a b c
          ∧ ∀ r, r < st.2 → st.1.x0 r = cube_centre r ∧ st.1.x r = cube_centre r)
        (fun c =>
          forLoop (populate_create_point (PopulateEnv.cube : PopulateEnv ℚ) (1 / 10)
            (fun _ => 0) (fun _ => 0)
            { xi := 1 / 2, lp := 1 / 10 * (1 / 2), nip := 1, intpoints := [0, 0, 0] } 1331
            (0 + (a : Int)) (0 + (b : Int)) (0 + (c : Int))) 1)
        11 st hP ?_
      · obtain ⟨st', hst', hl, hQ⟩ := hinner
        refine ⟨st', hst', ?_, hQ⟩
        rw [hl]
        unfold cube_count
        split_ifs <;> omega
      · intro c st hc hP
        obtain ⟨st', hst', hl, hQ⟩ := populate_create_point_cube a b c ha hb hc st hP.1 hP.2
        exact ⟨st', by simp only [forLoop]; exact hst', hl, hQ⟩

/-- C22, evaluated at the failing input: on the unit cube `[0,1]^3` with cell size `1/10`
and one particle per cell, the statements of `populate` before its last line create 1000
particles (`np_local = np = 1000`) at the centres of the `10×10×10` cells, with the tags
`1, ..., 1000`, each of volume `1/1000` (summing to 1) and with `F = I` and `J = 1`; the
last line then ends the run, so that `populate` does not complete. -/
theorem populate_cube_ends_with_error (m : Libm ℚ) :
    populate 20 m PopulateEnv.cube (Grid.blank (1 / 10)) (Mat.plain 1 1 1 0 1) (Solid.blank 0)
      = some (.error "")
    ∧ ∃ s', populate_body 20 m PopulateEnv.cube (Grid.blank (1 / 10)) (Mat.plain 1 1 1 0 1)
          (Solid.blank 0) = some (.ok s')
        ∧ s'.np_local = 1000 ∧ s'.np = 1000
        ∧ (∀ i, i < 1000 →
            s'.x0 i = cube_centre i ∧ s'.x i = cube_centre i
            ∧ s'.ptag i = i + 1 ∧ s'.vol i = 1 / 1000 ∧ s'.vol0 i = 1 / 1000
            ∧ s'.F i = 1 ∧ s'.J i = 1)
        ∧ ∑ i in Finset.range 1000, s'.vol i = 1 := by
  have hbody := populate_body_eq_finish 20 m (PopulateEnv.cube : PopulateEnv ℚ)
    (Grid.blank (1 / 10)) (Mat.plain 1 1 1 0 1) (Solid.blank 0) (11, 11, 11)
    { xi := 1 / 2, lp := 1 / 10 * (1 / 2), nip := 1, intpoints := [0, 0, 0] }
    (by decide) (by decide!) rfl
  obtain ⟨st, hst, hl, hpos⟩ := populate_create_cube (Solid.blank 0)
  obtain ⟨s', hs', h1, h2, h3, h4, h5⟩ := populate_finish_fields (PopulateEnv.cube : PopulateEnv ℚ)
    (Grid.blank (1 / 10)) (Mat.plain 1 1 1 0 1) (11, 11, 11)
    { xi := 1 / 2, lp := 1 / 10 * (1 / 2), nip := 1, intpoints := [0, 0, 0] } (Solid.blank 0)
    st hst
  have hfields : ∀ i, i < 1000 →
      s'.x0 i = cube_centre i ∧ s'.x i = cube_centre i
      ∧ s'.ptag i = i + 1 ∧ s'.vol i = 1 / 1000 ∧ s'.vol0 i = 1 / 1000
      ∧ s'.F i = 1 ∧ s'.J i = 1 := by
    intro i hi
    obtain ⟨a, b, c, _, e, f⟩ := h5 i (by rw [hl]; exact hi)
    have hp : populate_ptag0 (PopulateEnv.cube : PopulateEnv ℚ) st.2 = 0 := by
      simp [populate_ptag0, PopulateEnv.cube, loop]
    have hv : s'.vol0 i = 1 / 1000 := by
      rw [b]
      simp only [PopulateEnv.cube, Grid.blank]
      norm_num
    refine ⟨?_, ?_, ?_, c.trans hv, hv, e, f⟩
    · rw [h4]
      exact (hpos i hi).1
    · rw [h3]
      exact (hpos i hi).2
    · rw [a, hp]
      omega
  have hbody' : populate_body 20 m PopulateEnv.cube (Grid.blank (1 / 10)) (Mat.plain 1 1 1 0 1)
      (Solid.blank 0) = some (.ok s') := by rw [hbody, hs']
  refine ⟨populate_of_body 20 m _ _ _ _ s' hbody', s', hbody', ?_, ?_, hfields, ?_⟩
  · rw [h1, hl]
  · rw [h2, hl]
    simp [mpi_allreduce_sum, populate_np_local_all, PopulateEnv.cube]
  · rw [Finset.sum_congr rfl (fun i hi => (hfields i (Finset.mem_range.mp hi)).2.2.2.1)]
    simp

/-! ## The arguments of the `solid` command: claim C31 -/

/-- C31 (amended): the argument parsing of the `solid` command (the checks of the
constructor followed by `options`) succeeds exactly when a method is defined, the token
list has exactly five tokens `<id> <region-id> <particles-per-cell> <material-id>
<cellsize>` and the material is known; it then returns the material index and passes the
fifth token to `grid->setup` when the grid has no cell size yet. Fewer than three tokens
fail in the constructor, three or four tokens fail in `options` with "not enough
arguments", an unknown material fails, and more than five tokens fail with "too many
arguments". The particles-per-cell value is not looked at by the argument parsing:
`populate` rejects a value other than 1, 2 or 3 when it chooses the integration points. -/
theorem Solid_parse_args_five_tokens (m : Libm 𝕜) (method_defined : Bool)
    (find_material : String → Int) (cellsize_is_zero : Bool) (args : List String) :
    ((∃ r, Solid_parse_args method_defined find_material cellsize_is_zero args = .ok r)
      ↔ method_defined = true ∧ args.length = 5 ∧ find_material (args.getD 3 "") ≠ -1)
    ∧ (method_defined = true → args.length = 5 → find_material (args.getD 3 "") ≠ -1 →
        Solid_parse_args method_defined find_material cellsize_is_zero args
          = .ok (some (find_material (args.getD 3 ""),
              if cellsize_is_zero then some (args.getD 4 "") else none)))
    ∧ (method_defined = true → args.length < 3 →
        Solid_parse_args method_defined find_material cellsize_is_zero args
          = .error "Error: solid command not enough arguments.")
    ∧ (method_defined = true → 3 ≤ args.length → args.length < 5 →
        Solid_parse_args method_defined find_material cellsize_is_zero args
          = .error "Error: not enough arguments.")
    ∧ (method_defined = true → 5 ≤ args.length → find_material (args.getD 3 "") = -1 →
        Solid_parse_args method_defined find_material cellsize_is_zero args = .error "")
    ∧ (method_defined = true → 5 < args.length → find_material (args.getD 3 "") ≠ -1 →
        Solid_parse_args method_defined find_material cellsize_is_zero args
          = .error "Error: too many arguments.")
    ∧ ∀ (np_per_cell : Int) (dimension nc : Nat) (delta : 𝕜),
        (∃ e, populate_intpoints m np_per_cell dimension nc delta = .error e)
          ↔ (np_per_cell ≠ 1 ∧ np_per_cell ≠ 2 ∧ np_per_cell ≠ 3) := by
  have hok : method_defined = true → args.length = 5 → find_material (args.getD 3 "") ≠ -1 →
      Solid_parse_args method_defined find_material cellsize_is_zero args
        = .ok (some (find_material (args.getD 3 ""),
            if cellsize_is_zero then some (args.getD 4 "") else none)) := by
    intro hm h5 hmat
    have h3' : ¬ args.length < 3 := by omega
    have h5' : ¬ args.length < 3 + 2 := by omega
    have h3'' : args.length > 3 := by omega
    have hne : ¬ 3 + 1 + 1 ≠ args.length := by omega
    simp only [Solid_parse_args, Solid_check_args, Solid_options, hm, Bool.not_true,
      Bool.false_eq_true, if_false, h3', h5', h3'', if_true, hmat, hne]
  have hshort : method_defined = true → args.length < 3 →
      Solid_parse_args method_defined find_material cellsize_is_zero args
        = .error "Error: solid command not enough arguments." := by
    intro hm h3
    simp [Solid_parse_args, Solid_check_args, hm, h3]
  have hfew : method_defined = true → 3 ≤ args.length → args.length < 5 →
      Solid_parse_args method_defined find_material cellsize_is_zero args
        = .error "Error: not enough arguments." := by
    intro hm h3 h5
    have h3' : ¬ args.length < 3 := by omega
    have h5' : args.length < 3 + 2 := by omega
    simp [Solid_parse_args, Solid_check_args, Solid_options, hm, h3', h5']
  have hmat : method_defined = true → 5 ≤ args.length → find_material (args.getD 3 "") = -1 →
      Solid_parse_args method_defined find_material cellsize_is_zero args = .error "" := by
    intro hm h5 hmat
    have h3' : ¬ args.length < 3 := by omega
    have h5' : ¬ args.length < 3 + 2 := by omega
    have h3'' : args.length > 3 := by omega
    simp only [Solid_parse_args, Solid_check_args, Solid_options, hm, Bool.not_true,
      Bool.false_eq_true, if_false, h3', h5', h3'', if_true, hmat]
  have hmany : method_defined = true → 5 < args.length → find_material (args.getD 3 "") ≠ -1 →
      Solid_parse_args method_defined find_material cellsize_is_zero args
        = .error "Error: too many arguments." := by
    intro hm h5 hmat
    have h3' : ¬ args.length < 3 := by omega
    have h5' : ¬ args.length < 3 + 2 := by omega
    have h3'' : args.length > 3 := by omega
    have hne : 3 + 1 + 1 ≠ args.length := by omega
    simp only [Solid_parse_args, Solid_check_args, Solid_options, hm, Bool.not_true,
      Bool.false_eq_true, if_false, h3', h5', h3'', if_true, hmat]
    rw [if_pos hne]
  refine ⟨?_, hok, hshort, hfew, hmat, hmany, ?_⟩
  · constructor
    · rintro ⟨r, hr⟩
      cases hm : method_defined with
      | false =>
        rw [hm] at hr
        simp [Solid_parse_args, Solid_check_args] at hr
      | true =>
        rcases Nat.lt_or_ge args.length 3 with h3 | h3
        · rw [hshort hm h3] at hr
          cases hr
        · rcases Nat.lt_or_ge args.length 5 with h5 | h5
          · rw [hfew hm h3 h5] at hr
            cases hr
          · by_cases hfm : find_material (args.getD 3 "") = -1
            · rw [hmat hm h5 hfm] at hr
              cases hr
            · rcases Nat.lt_or_ge 5 args.length with h6 | h6
              · rw [hmany hm h6 hfm] at hr
                cases hr
              · exact ⟨rfl, by omega, hfm⟩
    · rintro ⟨hm, h5, hfm⟩
      exact ⟨_, hok hm h5 hfm⟩
  · intro np_per_cell dimension nc delta
    unfold populate_intpoints
    constructor
    · rintro ⟨e, he⟩
      refine ⟨?_, ?_, ?_⟩ <;> intro h <;> simp [h] at he
    · rintro ⟨h1, h2, h3⟩
      exact ⟨"Error: solid command 4th argument should be 1 or 2", by simp [h1, h2, h3]⟩

/-- C31, counterexample: with a method defined and the material `steel` known, the four
tokens `s1 box 1 steel` are refused with "not enough arguments"; with the fifth token
`0.1` the parsing succeeds. -/
theorem Solid_parse_args_four_tokens :
    Solid_parse_args true (fun name => if name = "steel" then 0 else -1) true
        ["s1", "box", "1", "steel"]
      = .error "Error: not enough arguments."
    ∧ Solid_parse_args true (fun name => if name = "steel" then 0 else -1) true
        ["s1", "box", "1", "steel", "0.1"]
      = .ok (some (0, some "0.1")) := by
  constructor <;> rfl

/-! ## The name of the dump file: claim C33 -/

/-- For a pattern `a*b` whose first asterisk follows the text `a`, the file name is `a`,
the decimal timestep, and `b`. -/
theorem DumpPyPlot_write_fdump_asterisk (a b : List Char) (ntimestep : Nat)
    (ha : '*' ∉ a) (hlen : (a ++ '*' :: b).length < 2 ^ 64) :
    DumpPyPlot_write_fdump (a ++ '*' :: b) ntimestep = .ok (a ++ to_string ntimestep ++ b) := by
  have hfind : string_find (a ++ '*' :: b) '*' = a.length := by
    unfold string_find
    rw [if_pos (by simp)]
    induction a with
    | nil => simp
    | cons c a ih =>
      have hc : c ≠ '*' := fun h => ha (by simp [h])
      have ha' : '*' ∉ a := fun h => ha (List.mem_cons_of_mem c h)
      simp only [List.cons_append, List.length_cons] at hlen ⊢
      rw [List.indexOf_cons_ne _ hc, ih ha' (by omega)]
  simp only [List.length_append, List.length_cons] at hlen
  have hsub : size_t_sub (size_t_sub (a ++ '*' :: b).length a.length) 1 = b.length := by
    simp only [size_t_sub, List.length_append, List.length_cons]
    omega
  have hadd : size_t_add a.length 1 = a.length + 1 := by
    simp only [size_t_add]
    omega
  unfold DumpPyPlot_write_fdump
  simp only [hfind, hsub, hadd, ge_iff_le, Nat.zero_le, if_true, string_substr]
  rw [if_neg (by simp)]
  simp only [List.drop_zero, List.take_left']
  by_cases hb : b.length > 0
  · rw [if_pos hb, if_neg (by simp)]
    have hdrop : List.drop (a.length + 1) (a ++ '*' :: b) = b := by
      rw [List.drop_append_eq_append_drop]
      simp
    simp only [hdrop, List.take_length]
  · rw [if_neg hb]
    have : b = [] := List.length_eq_zero.mp (by omega)
    simp [this]

/-- For a non-empty pattern without an asterisk the file name is the pattern, the decimal
timestep, and the pattern once more. -/
theorem DumpPyPlot_write_fdump_no_asterisk (filename : List Char) (ntimestep : Nat)
    (hno : '*' ∉ filename) (hne : 0 < filename.length) (hlen : filename.length < 2 ^ 64) :
    DumpPyPlot_write_fdump filename ntimestep
      = .ok (filename ++ to_string ntimestep ++ filename) := by
  have hfind : string_find filename '*' = npos := by
    unfold string_find
    rw [if_neg hno]
  have hsub : size_t_sub (size_t_sub filename.length npos) 1 = filename.length := by
    simp only [size_t_sub, npos]
    omega
  have hadd : size_t_add npos 1 = 0 := by
    simp [size_t_add, npos]
  unfold DumpPyPlot_write_fdump
  simp only [hfind, hsub, hadd, ge_iff_le, Nat.zero_le, if_true, string_substr]
  rw [if_neg (by simp)]
  simp only [List.drop_zero, List.take_length]
  rw [if_pos (show filename.length > 0 from hne), if_neg (by simp)]
  simp only []
  rw [List.take_of_length_le (by simp only [npos]; omega)]

/-- C33, evaluated at the failing input: for the pattern `dump.png`, which contains no
asterisk, the name used at timestep 5 is `dump.png5dump.png` and not `dump.png`; for the
pattern `dump_*.png` it is `dump_5.png`. -/
theorem DumpPyPlot_write_fdump_without_asterisk :
    DumpPyPlot_write_fdump "dump.png".toList 5 = .ok "dump.png5dump.png".toList
    ∧ DumpPyPlot_write_fdump "dump.png".toList 5 ≠ .ok "dump.png".toList
    ∧ DumpPyPlot_write_fdump "dump_*.png".toList 5 = .ok "dump_5.png".toList := by
  have h1 : DumpPyPlot_write_fdump "dump.png".toList 5 = .ok "dump.png5dump.png".toList :=
    DumpPyPlot_write_fdump_no_asterisk "dump.png".toList 5 (by decide) (by decide) (by decide)
  refine ⟨h1, ?_, ?_⟩
  · rw [h1]
    intro h
    injection h with h
    exact absurd h (by decide)
  · exact DumpPyPlot_write_fdump_asterisk "dump_".toList ".png".toList 5 (by decide) (by decide)

/-! ## The command-line scan: claim C40 -/

/-- At an argument that is neither `-in` nor `-i` the loop of the constructor of `MPM`
tests its condition again with the same `iarg`: it does not end, whatever the fuel. -/
theorem MPM_command_line_loop_stuck (arg : List String) (iarg inflag : Nat)
    (hi : iarg < arg.length) (h1 : arg.getD iarg "" ≠ "-in") (h2 : arg.getD iarg "" ≠ "-i")
    (fuel : Nat) : MPM_command_line_loop arg fuel iarg inflag = none := by
  induction fuel with
  | zero => rfl
  | succ fuel ih =>
    rw [MPM_command_line_loop, if_pos hi, if_neg (by
      rintro (h | h)
      · exact h1 h
      · exact h2 h)]
    exact ih

/-- C40, evaluated at the failing input: for the argument vector `karamelo input.mpm` the
loop over the arguments never ends, and neither does it for
`karamelo -in input.mpm -echo`, whose third argument follows a complete `-in <file>` pair;
for `karamelo -in input.mpm` it ends with `inflag = 2`, and for `karamelo -i` it exits with
"Invalid command-line argument". -/
theorem MPM_command_line_does_not_end :
    (∀ fuel, MPM_command_line ["karamelo", "input.mpm"] fuel = none)
    ∧ (∀ fuel, MPM_command_line ["karamelo", "-in", "input.mpm", "-echo"] fuel = none)
    ∧ MPM_command_line ["karamelo", "-in", "input.mpm"] 2 = some (.ok 2)
    ∧ MPM_command_line ["karamelo", "-i"] 1 = some (.error "Invalid command-line argument") := by
  refine ⟨?_, ?_, by rfl, by rfl⟩
  · intro fuel
    exact MPM_command_line_loop_stuck _ 1 0 (by decide) (by decide) (by decide) fuel
  · intro fuel
    cases fuel with
    | zero => rfl
    | succ fuel =>
      have h := MPM_command_line_loop_stuck ["karamelo", "-in", "input.mpm", "-echo"] 3 2
        (by decide) (by decide) (by decide) fuel
      unfold MPM_command_line
      rw [MPM_command_line_loop]
      simpa using h

/-! ## The yield surface of the Johnson-Cook return: claim C35 -/

/-- Scaling a matrix scales its squared Frobenius norm by the square of the factor. -/
theorem squaredNorm_smul (c : 𝕜) (M : Matrix3d 𝕜) : squaredNorm (c • M) = c ^ 2 * squaredNorm M := by
  simp only [squaredNorm, Matrix.smul_apply, smul_eq_mul]
  ring

/-- Over the reals, scaling a matrix scales its Frobenius norm by the absolute value of
the factor. -/
theorem norm_smul_real (c : ℝ) (M : Matrix3d ℝ) :
    norm (Libm.mk Real.sqrt Real.log Real.exp Real.rpow) (c • M)
      = |c| * norm (Libm.mk Real.sqrt Real.log Real.exp Real.rpow) M := by
  unfold norm
  simp only [squaredNorm_smul]
  rw [Real.sqrt_mul (sq_nonneg c), Real.sqrt_sq_eq_abs]

/-- C35: over the reals, for `G > 0` and a yield stress `Y > 0`, whatever the previous
stress and `D`: the deviator returned by `update_deviatoric_stress` is traceless, its von
Mises stress `sqrt(3/2)*||result||` is `min(J2, Y)` with `J2` the von Mises stress of the
trial deviator, so it does not exceed `Y`; the plastic-strain increment is
`max(0, J2 - Y)/(3G)`, which is non-negative; and the branch that divides by `J2` is taken
only when `J2 ≥ Y > 0`. -/
theorem update_deviatoric_stress_yield_surface (dt : ℝ) (p : StrengthJohnsonCook ℝ)
    (sigma D : Matrix3d ℝ) (eff_plastic_strain epsdot : ℝ) (hG : 0 < p.G_)
    (hY : 0 < p.yieldStress (Libm.mk Real.sqrt Real.log Real.exp Real.rpow) eff_plastic_strain
      epsdot) :
    (p.update_deviatoric_stress (Libm.mk Real.sqrt Real.log Real.exp Real.rpow) dt sigma D
        eff_plastic_strain epsdot).1.trace = 0
    ∧ Real.sqrt (3 / 2) * norm (Libm.mk Real.sqrt Real.log Real.exp Real.rpow)
        (p.update_deviatoric_stress (Libm.mk Real.sqrt Real.log Real.exp Real.rpow) dt sigma D
          eff_plastic_strain epsdot).1
      = min (Real.sqrt (3 / 2) * norm (Libm.mk Real.sqrt Real.log Real.exp Real.rpow)
            (p.sigmaTrial_dev dt sigma D))
          (p.yieldStress (Libm.mk Real.sqrt Real.log Real.exp Real.rpow) eff_plastic_strain epsdot)
    ∧ Real.sqrt (3 / 2) * norm (Libm.mk Real.sqrt Real.log Real.exp Real.rpow)
        (p.update_deviatoric_stress (Libm.mk Real.sqrt Real.log Real.exp Real.rpow) dt sigma D
          eff_plastic_strain epsdot).1
      ≤ p.yieldStress (Libm.mk Real.sqrt Real.log Real.exp Real.rpow) eff_plastic_strain epsdot
    ∧ (p.update_deviatoric_stress (Libm.mk Real.sqrt Real.log Real.exp Real.rpow) dt sigma D
        eff_plastic_strain epsdot).2
      = max 0 (Real.sqrt (3 / 2) * norm (Libm.mk Real.sqrt Real.log Real.exp Real.rpow)
            (p.sigmaTrial_dev dt sigma D)
          - p.yieldStress (Libm.mk Real.sqrt Real.log Real.exp Real.rpow) eff_plastic_strain epsdot)
        / (3 * p.G_)
    ∧ 0 ≤ (p.update_deviatoric_stress (Libm.mk Real.sqrt Real.log Real.exp Real.rpow) dt sigma D
        eff_plastic_strain epsdot).2
    ∧ (Real.sqrt (3 / 2) * norm (Libm.mk Real.sqrt Real.log Real.exp Real.rpow)
          (p.sigmaTrial_dev dt sigma D)
        < p.yieldStress (Libm.mk Real.sqrt Real.log Real.exp Real.rpow) eff_plastic_strain epsdot →
        p.update_deviatoric_stress (Libm.mk Real.sqrt Real.log Real.exp Real.rpow) dt sigma D
          eff_plastic_strain epsdot = (p.sigmaTrial_dev dt sigma D, 0))
    ∧ (¬ Real.sqrt (3 / 2) * norm (Libm.mk Real.sqrt Real.log Real.exp Real.rpow)
          (p.sigmaTrial_dev dt sigma D)
        < p.yieldStress (Libm.mk Real.sqrt Real.log Real.exp Real.rpow) eff_plastic_strain epsdot →
        0 < Real.sqrt (3 / 2) * norm (Libm.mk Real.sqrt Real.log Real.exp Real.rpow)
          (p.sigmaTrial_dev dt sigma D)
        ∧ p.update_deviatoric_stress (Libm.mk Real.sqrt Real.log Real.exp Real.rpow) dt sigma D
            eff_plastic_strain epsdot
          = ((p.yieldStress (Libm.mk Real.sqrt Real.log Real.exp Real.rpow) eff_plastic_strain
                epsdot
              / (Real.sqrt (3 / 2) * norm (Libm.mk Real.sqrt Real.log Real.exp Real.rpow)
                (p.sigmaTrial_dev dt sigma D))) • p.sigmaTrial_dev dt sigma D,
            (Real.sqrt (3 / 2) * norm (Libm.mk Real.sqrt Real.log Real.exp Real.rpow)
                (p.sigmaTrial_dev dt sigma D)
              - p.yieldStress (Libm.mk Real.sqrt Real.log Real.exp Real.rpow) eff_plastic_strain
                epsdot) / (3 * p.G_))) := by
  have htr := trace_update_deviatoric_stress (Libm.mk Real.sqrt Real.log Real.exp Real.rpow) dt p
    sigma D eff_plastic_strain epsdot
  refine ⟨htr, ?_⟩
  generalize hYdef : p.yieldStress (Libm.mk Real.sqrt Real.log Real.exp Real.rpow)
    eff_plastic_strain epsdot = Y at hY ⊢
  have hres : p.update_deviatoric_stress (Libm.mk Real.sqrt Real.log Real.exp Real.rpow) dt sigma D
      eff_plastic_strain epsdot
      = if Real.sqrt (3 / 2) * norm (Libm.mk Real.sqrt Real.log Real.exp Real.rpow)
            (p.sigmaTrial_dev dt sigma D) < Y
        then (p.sigmaTrial_dev dt sigma D, 0)
        else ((Y / (Real.sqrt (3 / 2) * norm (Libm.mk Real.sqrt Real.log Real.exp Real.rpow)
                (p.sigmaTrial_dev dt sigma D))) • p.sigmaTrial_dev dt sigma D,
              (Real.sqrt (3 / 2) * norm (Libm.mk Real.sqrt Real.log Real.exp Real.rpow)
                (p.sigmaTrial_dev dt sigma D) - Y) / (3 * p.G_)) := by
    unfold StrengthJohnsonCook.update_deviatoric_stress
    simp only [hYdef]
  have h3G : 0 < 3 * p.G_ := by linarith
  rw [hres]
  by_cases h : Real.sqrt (3 / 2) * norm (Libm.mk Real.sqrt Real.log Real.exp Real.rpow)
      (p.sigmaTrial_dev dt sigma D) < Y
  · rw [if_pos h]
    refine ⟨(min_eq_left (le_of_lt h)).symm, le_of_lt h, ?_, le_refl _, fun _ => rfl,
      fun h' => absurd h h'⟩
    simp only []
    rw [max_eq_left (by linarith), zero_div]
  · have hge := not_lt.mp h
    have hpos : 0 < Real.sqrt (3 / 2) * norm (Libm.mk Real.sqrt Real.log Real.exp Real.rpow)
        (p.sigmaTrial_dev dt sigma D) := lt_of_lt_of_le hY hge
    have key : ∀ a n : ℝ, 0 < a * n → a * (Y / (a * n) * n) = Y := by
      intro a n han
      have ha : a ≠ 0 := left_ne_zero_of_mul (ne_of_gt han)
      have hn : n ≠ 0 := right_ne_zero_of_mul (ne_of_gt han)
      field_simp
      ring
    have hvm : Real.sqrt (3 / 2) * norm (Libm.mk Real.sqrt Real.log Real.exp Real.rpow)
        ((Y / (Real.sqrt (3 / 2) * norm (Libm.mk Real.sqrt Real.log Real.exp Real.rpow)
          (p.sigmaTrial_dev dt sigma D))) • p.sigmaTrial_dev dt sigma D) = Y := by
      rw [norm_smul_real, abs_of_pos (div_pos hY hpos)]
      exact key _ _ hpos
    rw [if_neg h]
    refine ⟨?_, ?_, ?_, ?_, fun h' => absurd h' h, fun _ => ⟨hpos, rfl⟩⟩
    · simp only []
      rw [hvm]
      exact (min_eq_right hge).symm
    · simp only []
      rw [hvm]
    · simp only []
      rw [max_eq_right (by linarith)]
    · exact div_nonneg (by linarith) (le_of_lt h3G)

/-- C35, witness: for the steel of scenario S2 (`G = 80e9`, yield stress at least `3.5e8`)
with the strain rate of scenario S2, the returned deviator is traceless, its von Mises
stress does not exceed the yield stress, and the plastic-strain increment is
non-negative. -/
theorem update_deviatoric_stress_yield_surface_witness :
    ((StrengthJohnsonCook.steel : StrengthJohnsonCook ℝ).update_deviatoric_stress
        (Libm.mk Real.sqrt Real.log Real.exp Real.rpow) 1 0 D_scenario_S2 0 0).1.trace = 0
    ∧ Real.sqrt (3 / 2) * norm (Libm.mk Real.sqrt Real.log Real.exp Real.rpow)
        ((StrengthJohnsonCook.steel : StrengthJohnsonCook ℝ).update_deviatoric_stress
          (Libm.mk Real.sqrt Real.log Real.exp Real.rpow) 1 0 D_scenario_S2 0 0).1
      ≤ (StrengthJohnsonCook.steel : StrengthJohnsonCook ℝ).yieldStress
          (Libm.mk Real.sqrt Real.log Real.exp Real.rpow) 0 0
    ∧ 0 ≤ ((StrengthJohnsonCook.steel : StrengthJohnsonCook ℝ).update_deviatoric_stress
        (Libm.mk Real.sqrt Real.log Real.exp Real.rpow) 1 0 D_scenario_S2 0 0).2 := by
  have h := update_deviatoric_stress_yield_surface 1 StrengthJohnsonCook.steel 0 D_scenario_S2 0 0
    (by simp only [StrengthJohnsonCook.steel]; norm_num)
    (lt_of_lt_of_le (by norm_num) (yieldStress_steel_ge 0))
  exact ⟨h.1, h.2.2.1, h.2.2.2.2.1⟩

/-! ## The CPDI domain vectors written by `populate`: claim C34 -/

/-- C34, evaluated at the failing input: in dimension 3 with half-length `lp = 1/2`, for the
accepted particle `l = 0` of a solid whose arrays are zero, the statements of lines
1283-1296 leave `rp[1] = (lp, 0, 0)` instead of `(0, lp, 0)`, `rp[2] = 0` and
`rp0[2] = (lp, 0, 0)` instead of `(0, 0, lp)`; the first vectors `rp[0] = rp0[0] = (lp, 0, 0)`
and `rp0[1] = (0, lp, 0)` are as intended, and in dimension 2 both arrays get
`(lp, 0, 0)` and `(0, lp, 0)`. The same values are found after populating the single cell
`[0,1]^3` (cell size 1, one particle per cell, `nc = 8`) with a CPDI method. -/
theorem populate_domain_vectors_third_direction (m : Libm ℚ) :
    (populate_domain_vectors 3 (1 / 2) 0 (Solid.blank 0 : Solid ℚ)).rp 0 = ![1 / 2, 0, 0]
    ∧ (populate_domain_vectors 3 (1 / 2) 0 (Solid.blank 0 : Solid ℚ)).rp0 0 = ![1 / 2, 0, 0]
    ∧ (populate_domain_vectors 3 (1 / 2) 0 (Solid.blank 0 : Solid ℚ)).rp0 1 = ![0, 1 / 2, 0]
    ∧ (populate_domain_vectors 3 (1 / 2) 0 (Solid.blank 0 : Solid ℚ)).rp 1 = ![1 / 2, 0, 0]
    ∧ (populate_domain_vectors 3 (1 / 2) 0 (Solid.blank 0 : Solid ℚ)).rp 2 = ![0, 0, 0]
    ∧ (populate_domain_vectors 3 (1 / 2) 0 (Solid.blank 0 : Solid ℚ)).rp0 2 = ![1 / 2, 0, 0]
    ∧ (populate_domain_vectors 2 (1 / 2) 0 (Solid.blank 0 : Solid ℚ)).rp 0 = ![1 / 2, 0, 0]
    ∧ (populate_domain_vectors 2 (1 / 2) 0 (Solid.blank 0 : Solid ℚ)).rp0 0 = ![1 / 2, 0, 0]
    ∧ (populate_domain_vectors 2 (1 / 2) 0 (Solid.blank 0 : Solid ℚ)).rp 1 = ![0, 1 / 2, 0]
    ∧ (populate_domain_vectors 2 (1 / 2) 0 (Solid.blank 0 : Solid ℚ)).rp0 1 = ![0, 1 / 2, 0]
    ∧ ∃ s', populate_body 10 m PopulateEnv.cube_CPDI (Grid.blank 1) (Mat.plain 1 1 1 0 1)
          { (Solid.blank 0 : Solid ℚ) with nc := 8 } = some (.ok s')
        ∧ s'.np_local = 1
        ∧ s'.rp 1 0 = 1 / 2 ∧ s'.rp 1 1 = 0 ∧ s'.rp 1 2 = 0
        ∧ s'.rp 2 0 = 0 ∧ s'.rp 2 1 = 0 ∧ s'.rp 2 2 = 0
        ∧ s'.rp0 2 0 = 1 / 2 ∧ s'.rp0 2 1 = 0 ∧ s'.rp0 2 2 = 0 := by
  have hbody := populate_body_eq_finish 10 m (PopulateEnv.cube_CPDI : PopulateEnv ℚ)
    (Grid.blank 1) (Mat.plain 1 1 1 0 1) { (Solid.blank 0 : Solid ℚ) with nc := 8 } (2, 2, 2)
    { xi := 1 / 2, lp := 1 * (1 / 2), nip := 1, intpoints := [0, 0, 0] }
    (by decide) (by decide!) rfl
  have h : returns_with
      (populate_finish (PopulateEnv.cube_CPDI : PopulateEnv ℚ) (Grid.blank 1)
        (Mat.plain 1 1 1 0 1) (2, 2, 2)
        { xi := 1 / 2, lp := 1 * (1 / 2), nip := 1, intpoints := [0, 0, 0] }
        { (Solid.blank 0 : Solid ℚ) with nc := 8 })
      (fun s' => s'.np_local = 1
        ∧ s'.rp 1 0 = 1 / 2 ∧ s'.rp 1 1 = 0 ∧ s'.rp 1 2 = 0
        ∧ s'.rp 2 0 = 0 ∧ s'.rp 2 1 = 0 ∧ s'.rp 2 2 = 0
        ∧ s'.rp0 2 0 = 1 / 2 ∧ s'.rp0 2 1 = 0 ∧ s'.rp0 2 2 = 0) := by
    decide!
  obtain ⟨s', hs', hP⟩ := returns_with_ok _ _ h
  refine ⟨?_, ?_, ?_, ?_, ?_, ?_, ?_, ?_, ?_, ?_, s', by rw [hbody, hs'], hP⟩ <;>
    (funext c; fin_cases c <;> simp [populate_domain_vectors, setAt, Solid.blank])

/-! ## The Neo-Hookean Cauchy stress in closed form: claim C36 -/

/-- The matrix `F*PK1ᵀ` of the Neo-Hookean branch when `Finv` is the inverse of `F`. -/
theorem neo_hookean_F_mul_PK1_transpose (m : Libm 𝕜) (G lambda : 𝕜) (F Finv : Matrix3d 𝕜) (J : 𝕜)
    (hinv : F * Finv = 1) :
    F * (G • (F - Finv.transpose) + (lambda * m.log J) • Finv.transpose).transpose
      = G • (F * F.transpose - 1) + (lambda * m.log J) • (1 : Matrix3d 𝕜) := by
  rw [Matrix.transpose_add, Matrix.transpose_smul, Matrix.transpose_smul, Matrix.transpose_sub,
    Matrix.transpose_transpose, Matrix.mul_add, Matrix.mul_smul, Matrix.mul_smul, Matrix.mul_sub,
    hinv]

/-- C36: over the reals, for a particle whose `F` is invertible with `Finv = F⁻¹` and
`J = det F > 0`, the Neo-Hookean branch of `update_stress` (which returns when
`K + four_third*G > 0` and no density is negative) leaves
`sigma = (G*(F*Fᵀ - I) + lambda*ln(J)*I)/J`, a symmetric matrix; and for
`F = diag(f, 1, 1)` with `f > 1`, `G > 0` and `lambda ≥ 0` its `(0,0)` entry is positive. -/
theorem update_stress_neo_hookean_symmetric (dt : ℝ) (method_style : String) (grid : Grid ℝ)
    (mat : Mat ℝ) (s : Solid ℝ) (ip : Nat) (hnh : update_stress_nh mat = true)
    (hip : ip < s.np) (hinv : s.F ip * s.Finv ip = 1) (hJ : s.J ip = determinant (s.F ip))
    (hJpos : 0 < s.J ip) :
    (0 < mat.K + four_third * mat.G → (∀ i, i < s.np → 0 ≤ s.rho i) →
        ∃ s', update_stress (Libm.mk Real.sqrt Real.log Real.exp Real.rpow) dt method_style grid
          mat s = .ok s')
    ∧ ∀ s', update_stress (Libm.mk Real.sqrt Real.log Real.exp Real.rpow) dt method_style grid
          mat s = .ok s' →
        0 < determinant (s.F ip)
        ∧ s'.sigma ip = (1 / determinant (s.F ip)) •
            (mat.G • (s.F ip * (s.F ip).transpose - 1)
              + (mat.lambda * Real.log (determinant (s.F ip))) • (1 : Matrix3d ℝ))
        ∧ (s'.sigma ip).transpose = s'.sigma ip
        ∧ ∀ f : ℝ, 1 < f → s.F ip = !![f, 0, 0; 0, 1, 0; 0, 0, 1] → 0 < mat.G → 0 ≤ mat.lambda →
            0 < s'.sigma ip 0 0 := by
  constructor
  · intro hK hrho
    exact update_stress_neo_hookean_returns _ dt method_style grid mat s hnh
      (fun i hi => div_nonneg (hrho i hi) (le_of_lt hK))
  · intro s' hs'
    have hsig : s'.sigma ip = (1 / determinant (s.F ip)) •
        (mat.G • (s.F ip * (s.F ip).transpose - 1)
          + (mat.lambda * Real.log (determinant (s.F ip))) • (1 : Matrix3d ℝ)) := by
      rw [update_stress_neo_hookean_eq _ dt method_style grid mat s s' hnh hs']
      simp only [update_stress_finish, update_stress_neo_hookean_after, hip, if_true]
      have hmul := neo_hookean_F_mul_PK1_transpose
        (Libm.mk Real.sqrt Real.log Real.exp Real.rpow) mat.G mat.lambda (s.F ip) (s.Finv ip)
        (s.J ip) hinv
      simp only [] at hmul
      rw [hmul, hJ]
    refine ⟨by rw [← hJ]; exact hJpos, hsig, ?_, ?_⟩
    · rw [hsig]
      simp only [Matrix.transpose_smul, Matrix.transpose_add, Matrix.transpose_sub,
        Matrix.transpose_mul, Matrix.transpose_transpose, Matrix.transpose_one]
    · intro f hf hF hG hlam
      rw [hsig, hF, determinant_diag]
      have hlog : 0 < Real.log f := Real.log_pos hf
      have hf0 : 0 < f := by linarith
      rw [Matrix.one_fin_three]
      simp only [Matrix.smul_apply, Matrix.add_apply, Matrix.sub_apply, Matrix.mul_apply,
        Matrix.transpose_apply, Fin.sum_univ_three, smul_eq_mul]
      simp [Matrix.vecHead, Matrix.vecTail]
      have h1 : 0 < mat.G * (f * f - 1) := mul_pos hG (by nlinarith)
      have h2 : 0 ≤ mat.lambda * Real.log f := mul_nonneg hlam (le_of_lt hlog)
      have h3 : 0 < f⁻¹ := inv_pos.mpr hf0
      exact mul_pos h3 (by linarith)

/-- C36, witness: for the particle of `Solid.stretched` (`F = diag(2, 1, 1)`, `J = 2`) with
`G = lambda = K = 1`, `update_stress` returns a symmetric stress with a positive `(0,0)`
entry. -/
theorem update_stress_neo_hookean_symmetric_witness :
    ∃ s', update_stress (Libm.mk Real.sqrt Real.log Real.exp Real.rpow) (1 : ℝ) "tlmpm"
          (Grid.blank 1) (Mat.plain 1 1 1 1 1) Solid.stretched = .ok s'
      ∧ (s'.sigma 0).transpose = s'.sigma 0
      ∧ 0 < s'.sigma 0 0 0 := by
  have hinv : (Solid.stretched : Solid ℝ).F 0 * (Solid.stretched : Solid ℝ).Finv 0 = 1 := by
    simp only [Solid.stretched]
    rw [Matrix.one_fin_three]
    ext i j
    simp only [Matrix.mul_apply, Fin.sum_univ_three]
    fin_cases i <;> fin_cases j <;> simp [Matrix.vecHead, Matrix.vecTail]
  have hJ : (Solid.stretched : Solid ℝ).J 0 = determinant ((Solid.stretched : Solid ℝ).F 0) := by
    simp only [Solid.stretched, determinant_diag]
  have h := update_stress_neo_hookean_symmetric 1 "tlmpm" (Grid.blank 1) (Mat.plain 1 1 1 1 1)
    Solid.stretched 0 rfl Nat.one_pos hinv hJ (by simp only [Solid.stretched]; norm_num)
  have hpos : (0 : ℝ) < (Mat.plain (1 : ℝ) 1 1 1 1).K + four_third * (Mat.plain (1 : ℝ) 1 1 1 1).G := by
    have := four_third_pos (𝕜 := ℝ)
    simp only [Mat.plain]
    positivity
  obtain ⟨s', hs'⟩ := h.1 hpos (fun _ _ => by simp only [Solid.stretched]; norm_num)
  obtain ⟨_, _, hsym, hten⟩ := h.2 s' hs'
  exact ⟨s', hs', hsym, hten 2 (by norm_num) rfl (by simp only [Mat.plain]; norm_num)
    (by simp only [Mat.plain]; norm_num)⟩

/-! ## The initial velocity of the particles: claim C32 -/

/-- Writing the three components of a vector in turn, each one only when its flag is set. -/
theorem setAt_components {𝕂 : Type} (v : Nat → Vector3d 𝕂) (ip : Nat) (bx b_y bz : Bool)
    (ex ey ez : 𝕂) :
    (let v1 := if bx then setAt v ip 0 ex else v
     let v2 := if b_y then setAt v1 ip 1 ey else v1
     if bz then setAt v2 ip 2 ez else v2)
      = Function.update v ip
          ![if bx then ex else v ip 0, if b_y then ey else v ip 1, if bz then ez else v ip 2] := by
  cases bx <;> cases b_y <;> cases bz <;>
    simp only [setAt, if_true, if_false, Bool.false_eq_true, Function.update_same,
      Function.update_idem] <;>
    (funext i
     by_cases hi : i = ip
     · subst hi
       simp only [Function.update_same]
       funext c
       fin_cases c <;> simp [Function.update]
     · simp only [Function.update_noteq hi])

/-- One iteration of the particle loop writes `v[ip]` only. -/
theorem initial_integrate_particle_eq {𝕂 : Type} (fix : FixInitialVelocityParticles 𝕂) (ip : Nat)
    (s : Solid 𝕂) :
    fix.initial_integrate_particle ip s
      = { s with v := Function.update s.v ip (initial_velocity_after fix (ip + 1) s ip) } := by
  unfold FixInitialVelocityParticles.initial_integrate_particle initial_velocity_after
  by_cases hm : s.mask ip &&& fix.groupbit ≠ 0
  · have h := setAt_components s.v ip fix.xset fix.yset fix.zset
      (fix.xvalue (s.x ip 0) (s.x ip 1) (s.x ip 2)) (fix.yvalue (s.x ip 0) (s.x ip 1) (s.x ip 2))
      (fix.zvalue (s.x ip 0) (s.x ip 1) (s.x ip 2))
    simp only [hm, if_true, Nat.lt_succ_self, and_self, not_false_eq_true, ne_eq] at h ⊢
    rw [← h]
    cases fix.xset <;> cases fix.yset <;> cases fix.zset <;> rfl
  · simp only [hm, if_false, and_false, Function.update_eq_self]

/-- The particle loop of `initial_integrate` in closed form: only `v` changes. -/
theorem initial_integrate_loop {𝕂 : Type} (fix : FixInitialVelocityParticles 𝕂) (n : Nat)
    (s : Solid 𝕂) :
    loop fix.initial_integrate_particle n s
      = { s with v := initial_velocity_after fix n s } := by
  induction n with
  | zero =>
    simp only [loop]
    apply Solid.eq_of_fields <;> simp only []
    funext i
    simp [initial_velocity_after]
  | succ n ih =>
    rw [loop, ih, initial_integrate_particle_eq]
    simp only []
    congr 1
    funext i
    unfold initial_velocity_after
    by_cases hi : i = n
    · subst hi
      simp
    · rw [Function.update_noteq hi]
      have : (i < n + 1) ↔ (i < n) := by omega
      simp only [this]

/-- A loop that rewrites the entry `i` of an array from its old value, for every `i` below
`n`, in closed form. -/
theorem loop_update_each {α : Type} (f : α → α) (n : Nat) (a : Nat → α) :
    loop (fun i (t : Nat → α) => Function.update t i (f (t i))) n a
      = fun i => if i < n then f (a i) else a i := by
  induction n with
  | zero =>
    funext i
    simp [loop]
  | succ n ih =>
    rw [loop, ih]
    simp only [lt_irrefl, if_false]
    exact update_below _ n _ _ _ rfl

/-- C32: `initial_integrate` returns the solids unchanged at every timestep other than 1.
At timestep 1 it changes, in every solid of the domain (when the group is not tied to a
solid) or in the solid of the group, only the array `v`: for a particle `ip < np_local`
whose mask has the group bit, each component whose flag is set becomes the value of its
expression at `x[ip]`, and every other component, particle and field is kept. The
constructor sets the flag of a component exactly when its token is not the literal `NULL`,
and then stores the parsed token. -/
theorem initial_integrate_sets_velocity (fix : FixInitialVelocityParticles 𝕜)
    (ntimestep : Int) (nsolids : Nat) (solids : Nat → Solid 𝕜) :
    (ntimestep ≠ 1 → fix.initial_integrate ntimestep nsolids solids = solids)
    ∧ (fix.solid = -1 → ∀ isolid,
        fix.initial_integrate 1 nsolids solids isolid
          = if isolid < nsolids then
              { solids isolid with
                v := initial_velocity_after fix (solids isolid).np_local (solids isolid) }
            else solids isolid)
    ∧ (0 ≤ fix.solid → ∀ isolid,
        fix.initial_integrate 1 nsolids solids isolid
          = if isolid = fix.solid.toNat then
              { solids isolid with
                v := initial_velocity_after fix (solids isolid).np_local (solids isolid) }
            else solids isolid)
    ∧ (∀ (parsev : String → 𝕜 → 𝕜 → 𝕜 → 𝕜) (pon : String) (groupbit : Nat) (solid : Int)
          (args : List String) (created : FixInitialVelocityParticles 𝕜),
        FixInitialVelocityParticles.create parsev pon groupbit solid args = .ok created →
        (created.xset = true ↔ args.getD 3 "" ≠ "NULL")
        ∧ (created.yset = true ↔ args.getD 4 "" ≠ "NULL")
        ∧ (created.zset = true ↔ args.getD 5 "" ≠ "NULL")
        ∧ (created.xset = true → created.xvalue = parsev (args.getD 3 ""))
        ∧ (created.yset = true → created.yvalue = parsev (args.getD 4 ""))
        ∧ (created.zset = true → created.zvalue = parsev (args.getD 5 "")))
    ∧ ∀ (s : Solid 𝕜) (ip : Nat),
        initial_velocity_after fix s.np_local s ip 0
            = (if ip < s.np_local ∧ s.mask ip &&& fix.groupbit ≠ 0 ∧ fix.xset = true
               then fix.xvalue (s.x ip 0) (s.x ip 1) (s.x ip 2) else s.v ip 0)
        ∧ initial_velocity_after fix s.np_local s ip 1
            = (if ip < s.np_local ∧ s.mask ip &&& fix.groupbit ≠ 0 ∧ fix.yset = true
               then fix.yvalue (s.x ip 0) (s.x ip 1) (s.x ip 2) else s.v ip 1)
        ∧ initial_velocity_after fix s.np_local s ip 2
            = (if ip < s.np_local ∧ s.mask ip &&& fix.groupbit ≠ 0 ∧ fix.zset = true
               then fix.zvalue (s.x ip 0) (s.x ip 1) (s.x ip 2) else s.v ip 2) := by
  refine ⟨?_, ?_, ?_, ?_, ?_⟩
  · intro h
    unfold FixInitialVelocityParticles.initial_integrate
    rw [if_pos h]
  · intro hs isolid
    unfold FixInitialVelocityParticles.initial_integrate
    rw [if_neg (by decide), if_pos hs, loop_update_each]
    simp only [FixInitialVelocityParticles.initial_integrate_solid, initial_integrate_loop]
  · intro hs isolid
    unfold FixInitialVelocityParticles.initial_integrate
    have hne : fix.solid ≠ -1 := by omega
    rw [if_neg (by decide), if_neg hne]
    by_cases hi : isolid = fix.solid.toNat
    · subst hi
      simp only [Function.update_same, if_true,
        FixInitialVelocityParticles.initial_integrate_solid, initial_integrate_loop]
    · rw [Function.update_noteq hi, if_neg hi]
  · intro parsev pon groupbit solid args created h
    unfold FixInitialVelocityParticles.create at h
    by_cases h6 : args.length < 6
    · rw [if_pos h6] at h
      cases h
    · by_cases hp : pon ≠ "particles" ∧ pon ≠ "all"
      · rw [if_neg h6, if_pos hp] at h
        cases h
      · rw [if_neg h6, if_neg hp] at h
        injection h with h
        subst h
        simp only [decide_eq_true_eq]
        refine ⟨trivial, trivial, trivial, ?_, ?_, ?_⟩ <;> intro hset <;> rw [if_pos hset]
  · intro s ip
    unfold initial_velocity_after
    by_cases h : ip < s.np_local ∧ s.mask ip &&& fix.groupbit ≠ 0
    · rw [if_pos h]
      obtain ⟨h1, h2⟩ := h
      cases fix.xset <;> cases fix.yset <;> cases fix.zset <;> simp [h1, h2]
    · rw [if_neg h]
      have hx : ∀ b : Bool, ¬ (ip < s.np_local ∧ s.mask ip &&& fix.groupbit ≠ 0 ∧ b = true) :=
        fun b hb => h ⟨hb.1, hb.2.1⟩
      rw [if_neg (hx _), if_neg (hx _), if_neg (hx _)]
      exact ⟨rfl, rfl, rfl⟩

/-! ## Kinematics and stress take the same branch: claim C38 -/

/-- The flag `nh` of `update_deformation_gradient` is the negation of the flag `nh` of
`update_stress`. -/
theorem has_eos_and_strength_eq_not_nh {𝕂 : Type} (mat : Mat 𝕂) :
    has_eos_and_strength mat = !update_stress_nh mat := by
  unfold has_eos_and_strength update_stress_nh
  cases mat.eos <;> cases mat.strength <;> rfl

/-- When a sub-model is missing, the loop body of `update_deformation_gradient` does not
call the polar decomposition. -/
theorem update_deformation_gradient_particle_without_PolDec
    (PolDec PolDec' : Matrix3d 𝕜 → Bool → Bool × Matrix3d 𝕜 × Matrix3d 𝕜)
    (dt : 𝕜) (method_style : String) (mat : Mat 𝕜) (h : has_eos_and_strength mat = false) :
    update_deformation_gradient_particle PolDec dt method_style mat
      = update_deformation_gradient_particle PolDec' dt method_style mat := by
  funext ip s
  unfold update_deformation_gradient_particle
  simp only [h, Bool.false_eq_true, if_false]

/-- C38: for every material the two kernels take matching branches. When both an EOS and a
strength model are present, `update_stress` runs the EOS + strength body, and whenever
`update_deformation_gradient` returns it has set, for every particle, `R` to the rotation
of the polar decomposition of the new `F` and `D` from the current `L` (in tlmpm with
`L = Fdot*Finv` of the new `F`, rotated by the new `R`). When a sub-model is missing,
`update_stress` runs the Neo-Hookean body, which does not read `R`, `D` or `L`, and
`update_deformation_gradient` neither calls the polar decomposition nor changes `R`, `D`
and `L`. -/
theorem update_deformation_gradient_update_stress_branches
    (PolDec : Matrix3d 𝕜 → Bool → Bool × Matrix3d 𝕜 × Matrix3d 𝕜) (m : Libm 𝕜)
    (dt : 𝕜) (method_style : String) (grid : Grid 𝕜) (mat : Mat 𝕜) (s : Solid 𝕜) :
    has_eos_and_strength mat = !update_stress_nh mat
    ∧ (∀ eos strength, mat.eos = some eos → mat.strength = some strength →
        (∀ ip t, update_stress_particle m dt (is_tlmpm method_style) (update_stress_nh mat) grid
            mat ip t
          = update_stress_eos_strength dt (is_tlmpm method_style) grid mat eos strength ip t)
        ∧ ∀ s', update_deformation_gradient PolDec dt method_style mat s = .ok s' →
            ∀ ip, ip < s.np →
              s'.F ip = deformation_update (is_tlmpm method_style) dt (s.F ip) (s.Fdot ip) (s.L ip)
              ∧ s'.Finv ip = inverse (s'.F ip)
              ∧ s'.R ip = (PolDec (s'.F ip) false).2.1
              ∧ (is_tlmpm method_style = true →
                  s'.L ip = s.Fdot ip * s'.Finv ip
                  ∧ s'.D ip = (1 / 2 : 𝕜) •
                      ((s'.R ip).transpose * (s'.L ip + (s'.L ip).transpose) * s'.R ip))
              ∧ (is_tlmpm method_style = false →
                  s'.L ip = s.L ip
                  ∧ s'.D ip = (1 / 2 : 𝕜) • (s'.L ip + (s'.L ip).transpose)))
    ∧ ((mat.eos = none ∨ mat.strength = none) →
        (∀ ip t, update_stress_particle m dt (is_tlmpm method_style) (update_stress_nh mat) grid
            mat ip t
          = .ok (update_stress_neo_hookean m mat ip t))
        ∧ (∀ ip t (R D L : Nat → Matrix3d 𝕜),
            update_stress_neo_hookean m mat ip { t with R := R, D := D, L := L }
              = { update_stress_neo_hookean m mat ip t with R := R, D := D, L := L })
        ∧ (∀ PolDec', update_deformation_gradient PolDec' dt method_style mat s
            = update_deformation_gradient PolDec dt method_style mat s)
        ∧ ∀ s', update_deformation_gradient PolDec dt method_style mat s = .ok s' →
            s'.R = s.R ∧ s'.D = s.D ∧ s'.L = s.L) := by
  refine ⟨has_eos_and_strength_eq_not_nh mat, ?_, ?_⟩
  · intro eos strength he hs
    have hnh : update_stress_nh mat = false := by simp [update_stress_nh, he, hs]
    have hb : has_eos_and_strength mat = true := by simp [has_eos_and_strength, he, hs]
    refine ⟨?_, ?_⟩
    · intro ip t
      simp [update_stress_particle, hnh, he, hs]
    · intro s' hs' ip hip
      rcases update_deformation_gradient_eq PolDec dt method_style mat s with ⟨_, herr⟩ | ⟨_, hok⟩
      · rw [herr] at hs'
        cases hs'
      · rw [hok] at hs'
        injection hs' with hs'
        subst hs'
        simp only [update_deformation_gradient_after, hip, hb, if_true, and_self, Bool.true_and]
        refine ⟨trivial, trivial, trivial, ?_, ?_⟩
        · intro htl
          simp only [htl, if_true, and_self]
        · intro htl
          simp only [htl, Bool.false_eq_true, if_false, and_self]
  · intro hnone
    have hnh : update_stress_nh mat = true := (update_stress_nh_iff mat).mpr hnone
    have hb : has_eos_and_strength mat = false := by
      rw [has_eos_and_strength_eq_not_nh, hnh]
      rfl
    refine ⟨?_, ?_, ?_, ?_⟩
    · intro ip t
      simp [update_stress_particle, hnh]
    · intro ip t R D L
      rfl
    · intro PolDec'
      unfold update_deformation_gradient
      rw [update_deformation_gradient_particle_without_PolDec PolDec' PolDec dt method_style mat hb]
    · intro s' hs'
      rcases update_deformation_gradient_eq PolDec dt method_style mat s with ⟨_, herr⟩ | ⟨_, hok⟩
      · rw [herr] at hs'
        cases hs'
      · rw [hok] at hs'
        injection hs' with hs'
        subst hs'
        simp only [update_deformation_gradient_after, hb, Bool.false_eq_true, and_false, if_false,
          Bool.false_and, ite_self, and_self]

/-! ## Momentum in the particle-to-grid scatter: claim C37 -/

/-- When the node-keyed lists are the transpose of the particle-keyed lists, every entry of
a node's list names a particle below `np` and carries a weight of that particle's list. -/
theorem node_entry_of_transpose {𝕂 : Type} (nnodes : Nat) (s : Solid 𝕂)
    (ht : node_keyed_entries nnodes s = particle_keyed_entries s)
    (node j : Nat) (hnode : node < nnodes) (hj : j < s.numneigh_np node) :
    ∃ ip k, ip < s.np ∧ k < s.numneigh_pn ip ∧ s.neigh_np node j = ip
      ∧ s.wf_np node j = s.wf_pn ip k := by
  have hmem : (node, s.neigh_np node j, s.wf_np node j) ∈ node_keyed_entries nnodes s := by
    unfold node_keyed_entries
    rw [Multiset.mem_bind]
    refine ⟨node, Multiset.mem_range.mpr hnode, ?_⟩
    rw [Multiset.mem_map]
    exact ⟨j, Multiset.mem_range.mpr hj, rfl⟩
  rw [ht] at hmem
  unfold particle_keyed_entries at hmem
  rw [Multiset.mem_bind] at hmem
  obtain ⟨ip, hip, hmem⟩ := hmem
  rw [Multiset.mem_map] at hmem
  obtain ⟨k, hk, heq⟩ := hmem
  simp only [Prod.mk.injEq] at heq
  exact ⟨ip, k, Multiset.mem_range.mp hip, Multiset.mem_range.mp hk, heq.2.1.symm, heq.2.2.symm⟩

/-- The momentum that the scatter gives a node: the nodal mass times the nodal velocity is
the sum of the weighted particle momenta, also at a node without mass. -/
theorem nodal_momentum_component (s : Solid 𝕜) (node : Nat) (c : Fin 3)
    (hw : ∀ j, j < s.numneigh_np node → 0 ≤ s.wf_np node j)
    (hm : ∀ j, j < s.numneigh_np node → 0 < s.mass (s.neigh_np node j)) :
    nodal_mass_sum s node
        * (if nodal_mass_sum s node > 0 then
            vdiv (∑ j in Finset.range (s.numneigh_np node),
              (s.wf_np node j * s.mass (s.neigh_np node j)) • s.v (s.neigh_np node j))
              (nodal_mass_sum s node)
           else 0) c
      = ∑ j in Finset.range (s.numneigh_np node),
          s.wf_np node j * s.mass (s.neigh_np node j) * s.v (s.neigh_np node j) c := by
  have hterm : ∀ j, j ∈ Finset.range (s.numneigh_np node) →
      0 ≤ s.wf_np node j * s.mass (s.neigh_np node j) := by
    intro j hj
    exact mul_nonneg (hw j (Finset.mem_range.mp hj)) (le_of_lt (hm j (Finset.mem_range.mp hj)))
  by_cases hpos : nodal_mass_sum s node > 0
  · rw [if_pos hpos]
    simp only [vdiv, Finset.sum_apply, Pi.smul_apply, smul_eq_mul]
    rw [mul_div_cancel₀ _ (ne_of_gt hpos)]
  · rw [if_neg hpos]
    have hzero : nodal_mass_sum s node = 0 :=
      le_antisymm (not_lt.mp hpos) (Finset.sum_nonneg hterm)
    have hall := (Finset.sum_eq_zero_iff_of_nonneg hterm).mp hzero
    rw [hzero, zero_mul]
    symm
    apply Finset.sum_eq_zero
    intro j hj
    rw [hall j hj, zero_mul]

/-- C37: when the node-keyed neighbour lists are the transpose of the particle-keyed lists,
all weights are non-negative and sum to 1 for each particle, and all particle masses are
positive, then after `compute_mass_nodes(true)` followed by `compute_velocity_nodes(true)`
the total nodal momentum `Σ_in mass[in]*v[in]` equals the total particle momentum
`Σ_ip mass[ip]*v[ip]`. -/
theorem compute_velocity_nodes_conserves_momentum (s : Solid 𝕜) (grid : Grid 𝕜)
    (ht : node_keyed_entries grid.nnodes s = particle_keyed_entries s)
    (hnn : ∀ ip, ip < s.np → ∀ k, k < s.numneigh_pn ip → 0 ≤ s.wf_pn ip k)
    (hw : ∀ ip, ip < s.np → ∑ k in Finset.range (s.numneigh_pn ip), s.wf_pn ip k = 1)
    (hm : ∀ ip, ip < s.np → 0 < s.mass ip) :
    ∑ node in Finset.range grid.nnodes,
        (compute_velocity_nodes true s (compute_mass_nodes true s grid)).mass node
          • (compute_velocity_nodes true s (compute_mass_nodes true s grid)).v node
      = ∑ ip in Finset.range s.np, s.mass ip • s.v ip := by
  have hg : ∀ node, node < grid.nnodes →
      (compute_velocity_nodes true s (compute_mass_nodes true s grid)).mass node
        = nodal_mass_sum s node
      ∧ (compute_velocity_nodes true s (compute_mass_nodes true s grid)).v node
        = (if nodal_mass_sum s node > 0 then
            vdiv (∑ j in Finset.range (s.numneigh_np node),
              (s.wf_np node j * s.mass (s.neigh_np node j)) • s.v (s.neigh_np node j))
              (nodal_mass_sum s node)
           else 0) := by
    intro node hnode
    unfold compute_velocity_nodes compute_mass_nodes
    simp only [compute_velocity_nodes_loop, compute_mass_nodes_loop, hnode, if_true, zero_add,
      scatter_velocity, and_self]
  funext c
  rw [Finset.sum_apply, Finset.sum_apply]
  have h1 := sum_entries grid.nnodes s.numneigh_np
    (fun node j => (node, s.neigh_np node j, s.wf_np node j))
    (fun e : Nat × Nat × 𝕜 => e.2.2 * s.mass e.2.1 * s.v e.2.1 c)
  have h2 := sum_entries s.np s.numneigh_pn
    (fun ip k => (s.neigh_pn ip k, ip, s.wf_pn ip k))
    (fun e : Nat × Nat × 𝕜 => e.2.2 * s.mass e.2.1 * s.v e.2.1 c)
  have hleft : ∑ node in Finset.range grid.nnodes,
      ((compute_velocity_nodes true s (compute_mass_nodes true s grid)).mass node
        • (compute_velocity_nodes true s (compute_mass_nodes true s grid)).v node) c
      = ∑ node in Finset.range grid.nnodes, ∑ j in Finset.range (s.numneigh_np node),
          s.wf_np node j * s.mass (s.neigh_np node j) * s.v (s.neigh_np node j) c := by
    apply Finset.sum_congr rfl
    intro node hnode
    have hnode' := Finset.mem_range.mp hnode
    obtain ⟨hmass, hv⟩ := hg node hnode'
    rw [hmass, hv, Pi.smul_apply, smul_eq_mul]
    apply nodal_momentum_component s node c
    · intro j hj
      obtain ⟨ip, k, hip, hk, _, hwf⟩ := node_entry_of_transpose grid.nnodes s ht node j hnode' hj
      rw [hwf]
      exact hnn ip hip k hk
    · intro j hj
      obtain ⟨ip, k, hip, _, hn, _⟩ := node_entry_of_transpose grid.nnodes s ht node j hnode' hj
      rw [hn]
      exact hm ip hip
  rw [hleft, ← h1]
  have hswap := congrArg
    (fun M => (Multiset.map (fun e : Nat × Nat × 𝕜 => e.2.2 * s.mass e.2.1 * s.v e.2.1 c) M).sum) ht
  simp only [node_keyed_entries, particle_keyed_entries] at hswap
  rw [hswap, h2]
  apply Finset.sum_congr rfl
  intro ip hip
  simp only [Pi.smul_apply, smul_eq_mul]
  rw [← Finset.sum_mul, ← Finset.sum_mul, hw ip (Finset.mem_range.mp hip), one_mul]

/-- C37, witness: for the particle of `Solid.twoNodes` (mass 2, velocity `(1,0,0)`, weights
`1/4` and `3/4` on the two nodes) the nodal momenta add up to the particle momentum. -/
theorem compute_velocity_nodes_conserves_momentum_witness :
    ∑ node in Finset.range (Grid.twoNodes : Grid ℚ).nnodes,
        (compute_velocity_nodes true (Solid.twoNodes : Solid ℚ)
            (compute_mass_nodes true (Solid.twoNodes : Solid ℚ) Grid.twoNodes)).mass node
          • (compute_velocity_nodes true (Solid.twoNodes : Solid ℚ)
            (compute_mass_nodes true (Solid.twoNodes : Solid ℚ) Grid.twoNodes)).v node
      = ∑ ip in Finset.range (Solid.twoNodes : Solid ℚ).np,
          (Solid.twoNodes : Solid ℚ).mass ip • (Solid.twoNodes : Solid ℚ).v ip := by
  apply compute_velocity_nodes_conserves_momentum (Solid.twoNodes : Solid ℚ) Grid.twoNodes
  · unfold node_keyed_entries particle_keyed_entries
    simp only [Solid.twoNodes, Solid.singleCell, Solid.atRest, Solid.blank, Grid.twoNodes,
      Grid.blank]
    rfl
  · intro ip _ k _
    simp only [Solid.twoNodes]
    split_ifs <;> norm_num
  · intro ip _
    simp only [Solid.twoNodes, Solid.singleCell]
    norm_num [Finset.sum_range_succ]
  · intro ip _
    simp only [Solid.twoNodes]
    norm_num

/-! ## The allocation bound of `populate`: claim C39 -/

/-- The position of an iteration in two nested loops is below the number of iterations. -/
theorem nested_index_lt (x m y n : Nat) (hx : x < m) (hy : y < n) : x * n + y < m * n := by
  have h : (x + 1) * n ≤ m * n := Nat.mul_le_mul_right n hx
  rw [Nat.add_mul, Nat.one_mul] at h
  omega

/-- Four nested fallible loops whose innermost body returns whenever a counter is below the
total number of iterations, and raises the counter by at most one, return; a property kept
by the body holds of the result and the counter is at most the number of iterations. -/
theorem forLoop_nested_count {σ ε : Type} (Q : σ → Prop) (cnt : σ → Nat) (A B C N : Nat)
    (body : Nat → Nat → Nat → Nat → σ → Except ε σ)
    (hstep : ∀ a b c ip st, a < A → b < B → c < C → ip < N → Q st → cnt st < A * B * C * N →
      ∃ st', body a b c ip st = .ok st' ∧ Q st' ∧ cnt st' ≤ cnt st + 1)
    (s : σ) (h0 : Q s) (hc0 : cnt s = 0) :
    ∃ st, forLoop (fun a => forLoop (fun b => forLoop (fun c => forLoop (body a b c) N) C) B) A s
        = .ok st ∧ Q st ∧ cnt st ≤ A * B * C * N := by
  have houter := forLoop_returns
    (fun a (st : σ) => Q st ∧ cnt st ≤ a * B * C * N)
    (fun a => forLoop (fun b => forLoop (fun c => forLoop (body a b c) N) C) B)
    A s ⟨h0, by rw [hc0]; exact Nat.zero_le _⟩ ?_
  · exact houter
  · intro a st ha hP
    have hmiddle := forLoop_returns
      (fun b (st : σ) => Q st ∧ cnt st ≤ (a * B + b) * C * N)
      (fun b => forLoop (fun c => forLoop (body a b c) N) C)
      B st ⟨hP.1, by simpa using hP.2⟩ ?_
    · obtain ⟨st', hst', hQ, hl⟩ := hmiddle
      refine ⟨st', hst', hQ, ?_⟩
      have e : (a + 1) * B * C * N = (a * B + B) * C * N := by ring
      rw [e]
      exact hl
    · intro b st hb hP
      have hinner := forLoop_returns
        (fun c (st : σ) => Q st ∧ cnt st ≤ ((a * B + b) * C + c) * N)
        (fun c => forLoop (body a b c) N)
        C st ⟨hP.1, by simpa using hP.2⟩ ?_
      · obtain ⟨st', hst', hQ, hl⟩ := hinner
        refine ⟨st', hst', hQ, ?_⟩
        have e : (a * B + (b + 1)) * C * N = ((a * B + b) * C + C) * N := by ring
        rw [e]
        exact hl
      · intro c st hc hP
        have hpoint := forLoop_returns
          (fun ip (st : σ) => Q st ∧ cnt st ≤ ((a * B + b) * C + c) * N + ip)
          (body a b c)
          N st ⟨hP.1, by simpa using hP.2⟩ ?_
        · obtain ⟨st', hst', hQ, hl⟩ := hpoint
          refine ⟨st', hst', hQ, ?_⟩
          have e : ((a * B + b) * C + (c + 1)) * N = ((a * B + b) * C + c) * N + N := by ring
          rw [e]
          exact hl
        · intro ip st hip hP
          have h1 : a * B + b < A * B := nested_index_lt a A b B ha hb
          have h2 : (a * B + b) * C + c < A * B * C := nested_index_lt _ _ c C h1 hc
          have h3 : ((a * B + b) * C + c) * N + ip < A * B * C * N :=
            nested_index_lt _ _ ip N h2 hip
          obtain ⟨st', hst', hQ, hl⟩ :=
            hstep a b c ip st ha hb hc hip hP.1 (lt_of_le_of_lt hP.2 h3)
          exact ⟨st', hst', hQ, by omega⟩

/-- The conversion `(int) x` of a non-negative double is non-negative. -/
theorem int_of_double_nonneg [FloorRing 𝕜] (x : 𝕜) (hx : 0 ≤ x) : 0 ≤ int_of_double x := by
  unfold int_of_double
  rw [if_pos hx]
  exact Int.floor_nonneg.mpr hx

/-- The CPDI domain vectors of the particle `l` are written below `dim*(l+1)`, and the
positions are left as they were. -/
theorem populate_domain_vectors_frame (dim : Nat) (lp : 𝕜) (l : Nat) (s : Solid 𝕜)
    (hdim : 1 ≤ dim) :
    (populate_domain_vectors dim lp l s).x = s.x
      ∧ (populate_domain_vectors dim lp l s).x0 = s.x0
      ∧ ∀ idx, dim * (l + 1) ≤ idx →
          (populate_domain_vectors dim lp l s).rp idx = s.rp idx
            ∧ (populate_domain_vectors dim lp l s).rp0 idx = s.rp0 idx := by
  have hmul : dim * (l + 1) = dim * l + dim := by ring
  by_cases h2 : dim ≥ 2
  · by_cases h3 : dim = 3
    · simp only [populate_domain_vectors, if_pos h2, if_pos h3]
      refine ⟨trivial, trivial, fun idx hidx => ?_⟩
      have n0 : idx ≠ dim * l := by omega
      have n1 : idx ≠ dim * l + 1 := by omega
      have n2 : idx ≠ dim * l + 2 := by omega
      simp only [setAt, Function.update_noteq n0, Function.update_noteq n1,
        Function.update_noteq n2, and_self]
    · simp only [populate_domain_vectors, if_pos h2, if_neg h3]
      refine ⟨trivial, trivial, fun idx hidx => ?_⟩
      have n0 : idx ≠ dim * l := by omega
      have n1 : idx ≠ dim * l + 1 := by omega
      simp only [setAt, Function.update_noteq n0, Function.update_noteq n1, and_self]
  · simp only [populate_domain_vectors, if_neg h2]
    refine ⟨trivial, trivial, fun idx hidx => ?_⟩
    have n0 : idx ≠ dim * l := by omega
    simp only [setAt, Function.update_noteq n0, and_self]

/-- The body of the creation loops ends the run exactly when the counter `l` has reached
the number of particles allocated. -/
theorem populate_create_point_error_iff (env : PopulateEnv 𝕜) (delta : 𝕜)
    (boundlo : Vector3d 𝕜) (noffset : Fin 3 → Int) (pts : IntPoints 𝕜) (np_local : Int)
    (i j k : Int) (ip : Nat) (st : Solid 𝕜 × Nat) :
    (∃ e, populate_create_point env delta boundlo noffset pts np_local i j k ip st = .error e)
      ↔ np_local ≤ (st.2 : Int) := by
  unfold populate_create_point
  by_cases hl : (st.2 : Int) ≥ np_local
  · rw [if_pos hl]
    exact ⟨fun _ => hl, fun _ => ⟨"", rfl⟩⟩
  · rw [if_neg hl]
    constructor
    · rintro ⟨e, he⟩
      simp only [] at he
      split_ifs at he
    · intro h
      exact absurd h hl

/-- One pass through the body of the creation loops with the counter `l` below the number
of particles allocated: it returns, raises the counter by at most one, and writes the
positions at `l` and the domain vectors below `dim*(l+1)` only. -/
theorem populate_create_point_in_bounds (env : PopulateEnv 𝕜) (delta : 𝕜)
    (boundlo : Vector3d 𝕜) (noffset : Fin 3 → Int) (pts : IntPoints 𝕜) (np_local : Int)
    (i j k : Int) (ip : Nat) (s0 : Solid 𝕜) (st : Solid 𝕜 × Nat)
    (hdim : 1 ≤ env.dimension) (hl : (st.2 : Int) < np_local)
    (hx : ∀ idx : Nat, np_local ≤ (idx : Int) →
      st.1.x idx = s0.x idx ∧ st.1.x0 idx = s0.x0 idx)
    (hrp : ∀ idx : Nat, (env.dimension : Int) * np_local ≤ (idx : Int) →
      st.1.rp idx = s0.rp idx ∧ st.1.rp0 idx = s0.rp0 idx) :
    ∃ st', populate_create_point env delta boundlo noffset pts np_local i j k ip st = .ok st'
      ∧ ((∀ idx : Nat, np_local ≤ (idx : Int) →
            st'.1.x idx = s0.x idx ∧ st'.1.x0 idx = s0.x0 idx)
        ∧ ∀ idx : Nat, (env.dimension : Int) * np_local ≤ (idx : Int) →
            st'.1.rp idx = s0.rp idx ∧ st'.1.rp0 idx = s0.rp0 idx)
      ∧ st'.2 ≤ st.2 + 1 := by
  obtain ⟨s, l⟩ := st
  simp only at hl hx hrp
  have hne : ∀ idx : Nat, np_local ≤ (idx : Int) → idx ≠ l := by
    intro idx hidx h
    rw [h] at hidx
    exact absurd hl (not_lt.mpr hidx)
  have hbound : ∀ idx : Nat, (env.dimension : Int) * np_local ≤ (idx : Int) →
      env.dimension * (l + 1) ≤ idx := by
    intro idx hidx
    have h1 : ((l + 1 : Nat) : Int) ≤ np_local := by push_cast; omega
    have h2 : (env.dimension : Int) * ((l + 1 : Nat) : Int) ≤ (env.dimension : Int) * np_local :=
      mul_le_mul_of_nonneg_left h1 (Int.ofNat_nonneg _)
    have h3 : ((env.dimension * (l + 1) : Nat) : Int) ≤ (idx : Int) := by
      push_cast
      push_cast at h2
      exact le_trans h2 hidx
    exact_mod_cast h3
  have key : ∃ p : Vector3d 𝕜, ∀ s1 : Solid 𝕜,
      s1 = { s with x := Function.update s.x l p, x0 := Function.update s.x0 l p } →
      (populate_create_point env delta boundlo noffset pts np_local i j k ip (s, l) = .ok (s1, l)
        ∨ populate_create_point env delta boundlo noffset pts np_local i j k ip (s, l)
            = .ok (s1, l + 1)
        ∨ populate_create_point env delta boundlo noffset pts np_local i j k ip (s, l)
            = .ok (populate_domain_vectors env.dimension pts.lp l s1, l + 1)) := by
    refine ⟨![boundlo 0 + delta * (((noffset 0 + i : Int) : 𝕜) + 1 / 2
          + pts.intpoints.getD (3 * ip + 0) 0),
        boundlo 1 + delta * (((noffset 1 + j : Int) : 𝕜) + 1 / 2
          + pts.intpoints.getD (3 * ip + 1) 0),
        if env.dimension = 3 then boundlo 2 + delta * (((noffset 2 + k : Int) : 𝕜) + 1 / 2
          + pts.intpoints.getD (3 * ip + 2) 0) else 0], ?_⟩
    intro s1 hs1
    subst hs1
    unfold populate_create_point
    rw [if_neg (not_le.mpr hl)]
    simp only []
    split_ifs <;>
      first
      | exact Or.inl rfl
      | exact Or.inr (Or.inl rfl)
      | exact Or.inr (Or.inr rfl)
  obtain ⟨p, hkey⟩ := key
  have hx1 : ∀ idx : Nat, np_local ≤ (idx : Int) →
      Function.update s.x l p idx = s0.x idx ∧ Function.update s.x0 l p idx = s0.x0 idx := by
    intro idx hidx
    rw [Function.update_noteq (hne idx hidx), Function.update_noteq (hne idx hidx)]
    exact hx idx hidx
  rcases hkey _ rfl with h | h | h
  · exact ⟨_, h, ⟨hx1, hrp⟩, Nat.le_succ _⟩
  · exact ⟨_, h, ⟨hx1, hrp⟩, le_refl _⟩
  · obtain ⟨ex, ex0, erp⟩ := populate_domain_vectors_frame env.dimension pts.lp l
      { s with x := Function.update s.x l p, x0 := Function.update s.x0 l p } hdim
    refine ⟨_, h, ⟨fun idx hidx => ?_, fun idx hidx => ?_⟩, le_refl _⟩
    · simp only [ex, ex0]
      exact hx1 idx hidx
    · obtain ⟨e1, e2⟩ := erp idx (hbound idx hidx)
      simp only [e1, e2]
      exact hrp idx hidx

/-- C39: for a positive cell size and a subdomain whose lower bound is not below the lower
bound `boundlo` of the lattice in any direction, the first indices `nsubx0`, `nsuby0`,
`nsubz0` of the creation loops of `populate` are non-negative. The body of the loops ends
the run exactly when the counter `l` has reached `np_local = nsubx*nsuby*nsubz*nip`, and
the loops return: at the start of every iteration `l` is below `np_local`, so the branch
of the error is never taken. The counter ends at most at `np_local` (at 0 when no iteration
ran), the positions `x`, `x0` are left untouched from index `np_local` on and, in dimension
at least 1, the domain vectors `rp`, `rp0` from index `dim*np_local` on. The integers are
those of the mathematics: the product is taken without overflow. -/
theorem populate_create_within_allocation [FloorRing 𝕜] (env : PopulateEnv 𝕜) (delta : 𝕜)
    (nsub : Int × Int × Int) (pts : IntPoints 𝕜) (s : Solid 𝕜)
    (hdelta : 0 < delta)
    (hlo : ∀ c, (if env.is_TL then populate_solidlo env else env.boxlo) c ≤ env.sublo c)
    (hdim : 1 ≤ env.dimension) :
    (∀ c, 0 ≤ int_of_double (((int_of_double
        (env.sublo c - (if env.is_TL then populate_solidlo env else env.boxlo) c) : Int) : 𝕜)
          / delta))
    ∧ (∀ boundlo noffset i j k ip st,
        (∃ e, populate_create_point env delta boundlo noffset pts
            (nsub.1 * nsub.2.1 * nsub.2.2 * (pts.nip : Int)) i j k ip st = .error e)
          ↔ nsub.1 * nsub.2.1 * nsub.2.2 * (pts.nip : Int) ≤ (st.2 : Int))
    ∧ ∃ st, populate_create env delta nsub pts (nsub.1 * nsub.2.1 * nsub.2.2 * (pts.nip : Int)) s
          = .ok st
        ∧ (st.2 : Int) ≤ max 0 (nsub.1 * nsub.2.1 * nsub.2.2 * (pts.nip : Int))
        ∧ (∀ idx : Nat, nsub.1 * nsub.2.1 * nsub.2.2 * (pts.nip : Int) ≤ (idx : Int) →
            st.1.x idx = s.x idx ∧ st.1.x0 idx = s.x0 idx)
        ∧ (∀ idx : Nat,
            (env.dimension : Int) * (nsub.1 * nsub.2.1 * nsub.2.2 * (pts.nip : Int)) ≤ (idx : Int) →
            st.1.rp idx = s.rp idx ∧ st.1.rp0 idx = s.rp0 idx) := by
  have hstart : ∀ c, 0 ≤ int_of_double (((int_of_double
      (env.sublo c - (if env.is_TL then populate_solidlo env else env.boxlo) c) : Int) : 𝕜)
        / delta) := by
    intro c
    apply int_of_double_nonneg
    apply div_nonneg _ (le_of_lt hdelta)
    exact_mod_cast int_of_double_nonneg _ (sub_nonneg.mpr (hlo c))
  refine ⟨hstart, fun boundlo noffset i j k ip st =>
    populate_create_point_error_iff env delta boundlo noffset pts _ i j k ip st, ?_⟩
  have hprod : ∀ A B C : Nat, 0 < A → 0 < B → 0 < C →
      A = (nsub.1 - int_of_double (((int_of_double
        (env.sublo 0 - (if env.is_TL then populate_solidlo env else env.boxlo) 0) : Int) : 𝕜)
          / delta)).toNat →
      B = (nsub.2.1 - int_of_double (((int_of_double
        (env.sublo 1 - (if env.is_TL then populate_solidlo env else env.boxlo) 1) : Int) : 𝕜)
          / delta)).toNat →
      C = (nsub.2.2 - int_of_double (((int_of_double
        (env.sublo 2 - (if env.is_TL then populate_solidlo env else env.boxlo) 2) : Int) : 𝕜)
          / delta)).toNat →
      ((A * B * C * pts.nip : Nat) : Int) ≤ nsub.1 * nsub.2.1 * nsub.2.2 * (pts.nip : Int) := by
    intro A B C hA hB hC eA eB eC
    have h0 := hstart 0
    have h1 := hstart 1
    have h2 := hstart 2
    have hA1 : (A : Int) ≤ nsub.1 := by omega
    have hB1 : (B : Int) ≤ nsub.2.1 := by omega
    have hC1 : (C : Int) ≤ nsub.2.2 := by omega
    have hA0 : (0 : Int) ≤ A := Int.ofNat_nonneg A
    have hB0 : (0 : Int) ≤ B := Int.ofNat_nonneg B
    have hC0 : (0 : Int) ≤ C := Int.ofNat_nonneg C
    have hN0 : (0 : Int) ≤ pts.nip := Int.ofNat_nonneg _
    push_cast
    have hAB : (A : Int) * B ≤ nsub.1 * nsub.2.1 :=
      mul_le_mul hA1 hB1 hB0 (le_trans hA0 hA1)
    have hABC : (A : Int) * B * C ≤ nsub.1 * nsub.2.1 * nsub.2.2 :=
      mul_le_mul hAB hC1 hC0 (le_trans (mul_nonneg hA0 hB0) hAB)
    exact mul_le_mul_of_nonneg_right hABC hN0
  have hloops := forLoop_nested_count
    (fun st : Solid 𝕜 × Nat =>
      (∀ idx : Nat, nsub.1 * nsub.2.1 * nsub.2.2 * (pts.nip : Int) ≤ (idx : Int) →
        st.1.x idx = s.x idx ∧ st.1.x0 idx = s.x0 idx)
      ∧ ∀ idx : Nat,
        (env.dimension : Int) * (nsub.1 * nsub.2.1 * nsub.2.2 * (pts.nip : Int)) ≤ (idx : Int) →
        st.1.rp idx = s.rp idx ∧ st.1.rp0 idx = s.rp0 idx)
    (fun st : Solid 𝕜 × Nat => st.2)
    (nsub.1 - int_of_double (((int_of_double
        (env.sublo 0 - (if env.is_TL then populate_solidlo env else env.boxlo) 0) : Int) : 𝕜)
          / delta)).toNat
    (nsub.2.1 - int_of_double (((int_of_double
        (env.sublo 1 - (if env.is_TL then populate_solidlo env else env.boxlo) 1) : Int) : 𝕜)
          / delta)).toNat
    (nsub.2.2 - int_of_double (((int_of_double
        (env.sublo 2 - (if env.is_TL then populate_solidlo env else env.boxlo) 2) : Int) : 𝕜)
          / delta)).toNat
    pts.nip
    (fun a b c => populate_create_point env delta
      (if env.is_TL then populate_solidlo env else env.boxlo)
      (fun c => int_of_double
        (MAX 0 (env.sublo c - (if env.is_TL then populate_solidlo env else env.boxlo) c) / delta))
      pts (nsub.1 * nsub.2.1 * nsub.2.2 * (pts.nip : Int))
      (int_of_double (((int_of_double
        (env.sublo 0 - (if env.is_TL then populate_solidlo env else env.boxlo) 0) : Int) : 𝕜)
          / delta) + (a : Int))
      (int_of_double (((int_of_double
        (env.sublo 1 - (if env.is_TL then populate_solidlo env else env.boxlo) 1) : Int) : 𝕜)
          / delta) + (b : Int))
      (int_of_double (((int_of_double
        (env.sublo 2 - (if env.is_TL then populate_solidlo env else env.boxlo) 2) : Int) : 𝕜)
          / delta) + (c : Int)))
    ?_ (s, 0) ⟨fun _ _ => ⟨rfl, rfl⟩, fun _ _ => ⟨rfl, rfl⟩⟩ rfl
  · obtain ⟨st, hst, ⟨hx, hrp⟩, hcnt⟩ := hloops
    refine ⟨st, hst, ?_, hx, hrp⟩
    simp only at hcnt
    rcases Nat.eq_zero_or_pos st.2 with h0 | hpos
    · rw [h0]
      exact le_max_left _ _
    · have hne : _ * pts.nip ≠ 0 := Nat.pos_iff_ne_zero.mp (lt_of_lt_of_le hpos hcnt)
      have hABC := (Nat.mul_ne_zero_iff.mp hne).1
      have hAB := (Nat.mul_ne_zero_iff.mp hABC).1
      have hA := Nat.pos_of_ne_zero (Nat.mul_ne_zero_iff.mp hAB).1
      have hB := Nat.pos_of_ne_zero (Nat.mul_ne_zero_iff.mp hAB).2
      have hC := Nat.pos_of_ne_zero (Nat.mul_ne_zero_iff.mp hABC).2
      have hle := hprod _ _ _ hA hB hC rfl rfl rfl
      exact le_trans (le_trans (by exact_mod_cast hcnt) hle) (le_max_right _ _)
  · intro a b c ip st ha hb hc hip hQ hlt
    simp only at hlt
    have hle := hprod _ _ _ (Nat.lt_of_le_of_lt (Nat.zero_le a) ha)
      (Nat.lt_of_le_of_lt (Nat.zero_le b) hb) (Nat.lt_of_le_of_lt (Nat.zero_le c) hc) rfl rfl rfl
    have hl : (st.2 : Int) < nsub.1 * nsub.2.1 * nsub.2.2 * (pts.nip : Int) :=
      lt_of_lt_of_le (by exact_mod_cast hlt) hle
    exact populate_create_point_in_bounds env delta _ _ pts _ _ _ _ ip s st hdim hl hQ.1 hQ.2

/-- C39, witness: on the unit cube with a CPDI method, cell size `1/10`, `11×11×11` cells
and one point per cell (`np_local = 1331`), the creation loops return with at most 1331
accepted points. -/
theorem populate_create_within_allocation_witness :
    ∃ st, populate_create (PopulateEnv.cube_CPDI : PopulateEnv ℚ) (1 / 10) (11, 11, 11)
          { xi := 1 / 2, lp := 1 / 10 * (1 / 2), nip := 1, intpoints := [0, 0, 0] }
          (11 * 11 * 11 * ((1 : Nat) : Int)) { Solid.blank 0 with nc := 8 } = .ok st
      ∧ (st.2 : Int) ≤ max 0 (11 * 11 * 11 * ((1 : Nat) : Int)) := by
  have hlo : ∀ c, (if (PopulateEnv.cube_CPDI : PopulateEnv ℚ).is_TL
        then populate_solidlo (PopulateEnv.cube_CPDI : PopulateEnv ℚ)
        else (PopulateEnv.cube_CPDI : PopulateEnv ℚ).boxlo) c
      ≤ (PopulateEnv.cube_CPDI : PopulateEnv ℚ).sublo c := by
    intro c
    fin_cases c <;> simp [PopulateEnv.cube_CPDI, PopulateEnv.cube, populate_solidlo]
  obtain ⟨_, _, st, hst, hle, _, _⟩ :=
    populate_create_within_allocation (PopulateEnv.cube_CPDI : PopulateEnv ℚ) (1 / 10)
      (11, 11, 11) { xi := 1 / 2, lp := 1 / 10 * (1 / 2), nip := 1, intpoints := [0, 0, 0] }
      { Solid.blank 0 with nc := 8 } (by norm_num) hlo (by decide)
  exact ⟨st, hst, hle⟩

/-! ## Johnson-Cook strength: claim C7 -/

/-- Two doubles that compare with `<` are not NaN. -/
theorem Double.not_isnan_of_lt (a b : Double 𝕜) (h : a.lt b = true) :
    a.isnan = false ∧ b.isnan = false := by
  cases a <;> cases b <;> simp [Double.lt, Double.isnan] at h ⊢

/-- The macro `MIN` returns a NaN exactly when its second argument is one. -/
theorem Double.isnan_MIN (a b : Double 𝕜) : (Double.MIN a b).isnan = b.isnan := by
  unfold Double.MIN
  by_cases hlt : a.lt b = true
  · rw [if_pos hlt, (Double.not_isnan_of_lt a b hlt).1, (Double.not_isnan_of_lt a b hlt).2]
  · rw [if_neg hlt]

/-- The macro `MIN` returns one of its arguments. -/
theorem Double.MIN_eq_or (a b : Double 𝕜) :
    Double.MIN a b = a ∨ Double.MIN a b = b := by
  unfold Double.MIN
  split
  · exact Or.inl rfl
  · exact Or.inr rfl

/-- No double is below itself. -/
theorem Double.lt_self (a : Double 𝕜) : a.lt a = false := by
  cases a <;> simp [Double.lt]

/-- The comparison of doubles is transitive. -/
theorem Double.lt_of_lt_of_lt (x a b : Double 𝕜) (h1 : x.lt a = true) (h2 : a.lt b = true) :
    x.lt b = true := by
  cases x <;> cases a <;> cases b <;> simp [Double.lt] at h1 h2 ⊢
  exact lt_trans h1 h2

/-- A double below `b` is below every double that is neither NaN nor below `b`. -/
theorem Double.lt_of_lt_of_not_lt (x a b : Double 𝕜) (h1 : x.lt b = true)
    (h2 : a.lt b = false) (ha : a.isnan = false) : x.lt a = true := by
  cases x <;> cases a <;> cases b <;> simp [Double.lt, Double.isnan] at h1 h2 ha ⊢
  exact lt_of_lt_of_le h1 h2

/-- A double below `MIN(a, b)` is below `b`, and below `a` when `a` is not NaN. -/
theorem Double.lt_of_lt_MIN (x a b : Double 𝕜) (h : x.lt (Double.MIN a b) = true)
    (ha : a.isnan = false) : x.lt a = true ∧ x.lt b = true := by
  unfold Double.MIN at h
  by_cases hlt : a.lt b = true
  · rw [if_pos hlt] at h
    exact ⟨h, Double.lt_of_lt_of_lt x a b h hlt⟩
  · rw [if_neg hlt] at h
    exact ⟨Double.lt_of_lt_of_not_lt x a b h (by simpa using hlt) ha, h⟩

/-- On finite values the macro `MIN` of doubles is the macro `MIN` of the exact model. -/
theorem Double.MIN_finite (a b : 𝕜) :
    Double.MIN (.finite a) (.finite b) = .finite (Karamelo.MIN a b) := by
  unfold Double.MIN Karamelo.MIN
  simp only [Double.lt, decide_eq_true_eq]
  split <;> rfl

/-- The second loop of `update_stress` on doubles, when the running minimum is neither NaN
nor negative after any particle. -/
theorem cfl_double_loop_ok (rho : Nat → Double 𝕜) (F : Nat → Fin 3 → Fin 3 → Double 𝕜)
    (K G : Double 𝕜) (n : Nat)
    (h : ∀ i, i < n → (cfl_min_inv_double rho K G (i + 1)).isnan = false
      ∧ (cfl_min_inv_double rho K G (i + 1)).lt (.finite 0) = false) :
    forLoop (update_stress_cfl_double_particle rho F K G) n (.finite (10 ^ 22), .finite (10 ^ 22))
      = .ok (cfl_min_inv_double rho K G n, cfl_min_h_ratio_double F n) := by
  induction n with
  | zero => rfl
  | succ n ih =>
    rw [forLoop, ih (fun i hi => h i (Nat.lt_succ_of_lt hi))]
    obtain ⟨hn1, hn2⟩ := h n (Nat.lt_succ_self n)
    rw [cfl_min_inv_double, cfl_quotient_double] at hn1 hn2
    simp only [update_stress_cfl_double_particle, hn1, hn2, Bool.false_eq_true, if_false]
    rfl

/-- The second loop of `update_stress` on doubles ends the run when the running minimum is
NaN or negative after some particle. -/
theorem cfl_double_loop_error (rho : Nat → Double 𝕜) (F : Nat → Fin 3 → Fin 3 → Double 𝕜)
    (K G : Double 𝕜) (n : Nat)
    (h : ∃ i, i < n ∧ ((cfl_min_inv_double rho K G (i + 1)).isnan = true
      ∨ (cfl_min_inv_double rho K G (i + 1)).lt (.finite 0) = true)) :
    forLoop (update_stress_cfl_double_particle rho F K G) n (.finite (10 ^ 22), .finite (10 ^ 22))
      = .error "" := by
  induction n with
  | zero => obtain ⟨i, hi, _⟩ := h; omega
  | succ n ih =>
    by_cases hprev : ∃ i, i < n ∧ ((cfl_min_inv_double rho K G (i + 1)).isnan = true
        ∨ (cfl_min_inv_double rho K G (i + 1)).lt (.finite 0) = true)
    · rw [forLoop, ih hprev]
    · have hall : ∀ i, i < n → (cfl_min_inv_double rho K G (i + 1)).isnan = false
          ∧ (cfl_min_inv_double rho K G (i + 1)).lt (.finite 0) = false := by
        intro i hi
        constructor
        · by_contra hb
          exact hprev ⟨i, hi, Or.inl (by simpa using hb)⟩
        · by_contra hb
          exact hprev ⟨i, hi, Or.inr (by simpa using hb)⟩
      rw [forLoop, cfl_double_loop_ok rho F K G n hall]
      obtain ⟨i, hi, hb⟩ := h
      have hin : i = n := by
        by_contra hne
        obtain ⟨h1, h2⟩ := hall i (by omega)
        rcases hb with hb | hb
        · rw [h1] at hb
          cases hb
        · rw [h2] at hb
          cases hb
      subst hin
      rw [cfl_min_inv_double, cfl_quotient_double] at hb
      simp only [update_stress_cfl_double_particle]
      rcases hb with hb | hb
      · rw [if_pos hb]
      · by_cases hnan : (Double.MIN (cfl_min_inv_double rho K G i)
            ((rho i).div (K.add ((Double.finite four_third).mul G)))).isnan = true
        · rw [if_pos hnan]
        · rw [if_neg hnan, if_pos hb]

/-- The CFL reduction on doubles in closed form, when the second loop does not end the
run. -/
theorem update_stress_cfl_double_of_loop (m : Libm 𝕜) (np : Nat) (rho : Nat → Double 𝕜)
    (F : Nat → Fin 3 → Fin 3 → Double 𝕜) (K G cellsize dtCFL : Double 𝕜)
    (h : ∀ i, i < np → (cfl_min_inv_double rho K G (i + 1)).isnan = false
      ∧ (cfl_min_inv_double rho K G (i + 1)).lt (.finite 0) = false) :
    update_stress_cfl_double m np rho F K G cellsize dtCFL
      = if (Double.MIN dtCFL (cfl_bound_double m np rho F K G cellsize)).isnan then .error ""
        else .ok (Double.sqrt m (cfl_min_inv_double rho K G np),
          Double.MIN dtCFL (cfl_bound_double m np rho F K G cellsize)) := by
  unfold update_stress_cfl_double
  rw [cfl_double_loop_ok rho F K G np h]
  rfl

/-- When no quotient among the first `n` is NaN, the running minimum is not NaN. -/
theorem cfl_min_inv_double_not_nan (rho : Nat → Double 𝕜) (K G : Double 𝕜) (n : Nat)
    (h : ∀ ip, ip < n → (cfl_quotient_double rho K G ip).isnan = false) :
    (cfl_min_inv_double rho K G n).isnan = false := by
  cases n with
  | zero => rfl
  | succ k =>
    rw [cfl_min_inv_double, Double.isnan_MIN]
    exact h k (Nat.lt_succ_self k)

/-- When no quotient among the first `n` is NaN, the running minimum on doubles is the
least of `1e22` and these quotients. -/
theorem cfl_min_inv_double_least (rho : Nat → Double 𝕜) (K G : Double 𝕜) (n : Nat)
    (h : ∀ ip, ip < n → (cfl_quotient_double rho K G ip).isnan = false) :
    (cfl_min_inv_double rho K G n = .finite (10 ^ 22)
        ∨ ∃ ip, ip < n ∧ cfl_min_inv_double rho K G n = cfl_quotient_double rho K G ip)
    ∧ (Double.finite (10 ^ 22)).lt (cfl_min_inv_double rho K G n) = false
    ∧ ∀ ip, ip < n →
        (cfl_quotient_double rho K G ip).lt (cfl_min_inv_double rho K G n) = false := by
  induction n with
  | zero =>
    refine ⟨Or.inl rfl, Double.lt_self _, ?_⟩
    intro ip hip
    omega
  | succ n ih =>
    obtain ⟨hmem, hlit, hle⟩ := ih (fun ip hip => h ip (Nat.lt_succ_of_lt hip))
    have hc := cfl_min_inv_double_not_nan rho K G n (fun ip hip => h ip (Nat.lt_succ_of_lt hip))
    rw [cfl_min_inv_double]
    refine ⟨?_, ?_, ?_⟩
    · rcases Double.MIN_eq_or (cfl_min_inv_double rho K G n) (cfl_quotient_double rho K G n)
        with e | e
      · rw [e]
        rcases hmem with h1 | ⟨ip, hip, h1⟩
        · exact Or.inl h1
        · exact Or.inr ⟨ip, Nat.lt_succ_of_lt hip, h1⟩
      · exact Or.inr ⟨n, Nat.lt_succ_self n, e⟩
    · by_contra hb
      have := (Double.lt_of_lt_MIN _ _ _ (by simpa using hb) hc).1
      rw [hlit] at this
      cases this
    · intro ip hip
      by_contra hb
      obtain ⟨h1, h2⟩ := Double.lt_of_lt_MIN _ _ _ (by simpa using hb) hc
      by_cases hn : ip = n
      · subst hn
        rw [Double.lt_self] at h2
        cases h2
      · rw [hle ip (by omega)] at h1
        cases h1

/-- The running minimum `min_h_ratio` of the exact model is non-negative. -/
theorem cfl_min_h_ratio_nonneg (s : Solid 𝕜) (n : Nat) : 0 ≤ cfl_min_h_ratio s n := by
  induction n with
  | zero => simp [cfl_min_h_ratio]
  | succ n ih =>
    rw [cfl_min_h_ratio]
    simp only [MIN_eq_min]
    refine le_min (le_min (le_min ih ?_) ?_) ?_ <;>
      exact add_nonneg (add_nonneg (mul_self_nonneg _) (mul_self_nonneg _)) (mul_self_nonneg _)

/-- The running minimum `min_inv_p_wave_speed` of the exact model does not increase. -/
theorem cfl_min_inv_le_prefix (mat : Mat 𝕜) (s : Solid 𝕜) (i k : Nat) :
    cfl_min_inv mat s (i + k) ≤ cfl_min_inv mat s i := by
  induction k with
  | zero => exact le_refl _
  | succ k ih =>
    rw [← Nat.add_assoc, cfl_min_inv, MIN_eq_min]
    exact le_trans (min_le_left _ _) ih

/-- On finite values with `K + four_third*G ≠ 0` the running minimum
`min_inv_p_wave_speed` on doubles is the one of the exact model. -/
theorem cfl_min_inv_double_finite (mat : Mat 𝕜) (s : Solid 𝕜)
    (hKG : mat.K + four_third * mat.G ≠ 0) (n : Nat) :
    cfl_min_inv_double (fun ip => .finite (s.rho ip)) (.finite mat.K) (.finite mat.G) n
      = .finite (cfl_min_inv mat s n) := by
  induction n with
  | zero => rfl
  | succ n ih =>
    rw [cfl_min_inv_double, ih, cfl_min_inv, ← Double.MIN_finite]
    simp only [cfl_quotient_double, Double.mul, Double.add, Double.div, if_neg hKG]

/-- On finite values the running minimum `min_h_ratio` on doubles is the one of the exact
model. -/
theorem cfl_min_h_ratio_double_finite (s : Solid 𝕜) (n : Nat) :
    cfl_min_h_ratio_double (fun ip i j => .finite (s.F ip i j)) n
      = .finite (cfl_min_h_ratio s n) := by
  induction n with
  | zero => rfl
  | succ n ih =>
    rw [cfl_min_h_ratio_double, ih, cfl_min_h_ratio]
    simp only [cfl_row_double, Double.mul, Double.add, Double.MIN_finite]

/-- On finite values with `K + four_third*G ≠ 0`, when `update_stress` returns in the exact
model, the CFL reduction on doubles returns the same `min_inv_p_wave_speed` and the same
`dtCFL`. -/
theorem update_stress_cfl_double_finite (m : Libm 𝕜) (dt : 𝕜) (method_style : String)
    (grid : Grid 𝕜) (mat : Mat 𝕜) (s s' : Solid 𝕜) (hKG : mat.K + four_third * mat.G ≠ 0)
    (h : update_stress m dt method_style grid mat s = .ok s') :
    update_stress_cfl_double m s.np (fun ip => .finite (s.rho ip))
        (fun ip i j => .finite (s.F ip i j)) (.finite mat.K) (.finite mat.G)
        (.finite grid.cellsize) (.finite s.dtCFL)
      = .ok (.finite s'.min_inv_p_wave_speed, .finite s'.dtCFL) := by
  obtain ⟨hc, hmin, hdt, _⟩ := (update_stress_cfl_exact m dt method_style grid mat s).1 s' h
  have hprefix : ∀ i, i < s.np → 0 ≤ cfl_min_inv mat s (i + 1) := by
    intro i hi
    have hle := cfl_min_inv_le_prefix mat s (i + 1) (s.np - (i + 1))
    rw [show i + 1 + (s.np - (i + 1)) = s.np by omega] at hle
    exact le_trans hc hle
  rw [update_stress_cfl_double_of_loop]
  · simp only [cfl_bound_double, cfl_min_inv_double_finite mat s hKG,
      cfl_min_h_ratio_double_finite, Double.sqrt, if_neg (not_lt.mpr hc),
      if_neg (not_lt.mpr (cfl_min_h_ratio_nonneg s s.np)), Double.mul, Double.MIN_finite,
      Double.isnan, Bool.false_eq_true, if_false]
    rw [hmin, hdt, MIN_eq_min]
  · intro i hi
    rw [cfl_min_inv_double_finite mat s hKG]
    simp only [Double.isnan, Double.lt, decide_eq_false_iff_not, not_lt, true_and]
    exact hprefix i hi

/-- The second loop of `update_stress` on doubles ends the run when the quotient
`rho[ip]/(K + four_third*G)` of some particle is NaN or negative. -/
theorem cfl_min_inv_double_of_quotient (rho : Nat → Double 𝕜) (K G : Double 𝕜) (ip : Nat)
    (h : (cfl_quotient_double rho K G ip).isnan = true
      ∨ (cfl_quotient_double rho K G ip).lt (.finite 0) = true) :
    (cfl_min_inv_double rho K G (ip + 1)).isnan = true
      ∨ (cfl_min_inv_double rho K G (ip + 1)).lt (.finite 0) = true := by
  rcases h with h | h
  · left
    rw [cfl_min_inv_double, Double.isnan_MIN]
    exact h
  · right
    rw [cfl_min_inv_double]
    unfold Double.MIN
    by_cases hlt : (cfl_min_inv_double rho K G ip).lt (cfl_quotient_double rho K G ip) = true
    · rw [if_pos hlt]
      exact Double.lt_of_lt_of_lt _ _ _ hlt h
    · rw [if_neg hlt]
      exact h

/-- C13 (amended): the CFL reduction of `update_stress` (lines 863 and 916-941) on doubles
with their special values. With `c` the running minimum `min_inv_p_wave_speed`, started at
`1e22` and lowered by `MIN` to the quotient `rho[ip]/(K + four_third*G)` of every particle
(`four_third` being the decimal literal of the source), and `h` the running minimum
`min_h_ratio`, started at `1e22` and lowered to the squared norms of the rows of `F[ip]`:
the call is fatal when `c` is NaN or negative after some particle, which happens when the
quotient of some particle is NaN or negative, and it is then fatal when the new `dtCFL` is
NaN; otherwise it returns `min_inv_p_wave_speed = sqrt(c)` and
`dtCFL = MIN(old dtCFL, sqrt(c)*cellsize*sqrt(h))`. The new `dtCFL` is NaN exactly when the
bound is, and the old `dtCFL` is never below it. After a particle `c` is NaN exactly when
the quotient of that particle is, and when no quotient is NaN it is the least of `1e22`
and the quotients. For finite values with `K + four_third*G ≠ 0`, when `update_stress`
returns in the exact model it returns the same two numbers, with `c` and `h` the least of
`1e22` and the quotients, and of `1e22` and the squared row norms. -/
theorem update_stress_cfl (m : Libm 𝕜) (np : Nat) (rho : Nat → Double 𝕜)
    (F : Nat → Fin 3 → Fin 3 → Double 𝕜) (K G cellsize dtCFL : Double 𝕜) :
    ((∃ ip, ip < np ∧ ((cfl_min_inv_double rho K G (ip + 1)).isnan = true
          ∨ (cfl_min_inv_double rho K G (ip + 1)).lt (.finite 0) = true)) →
        update_stress_cfl_double m np rho F K G cellsize dtCFL = .error "")
    ∧ ((∃ ip, ip < np ∧ ((cfl_quotient_double rho K G ip).isnan = true
          ∨ (cfl_quotient_double rho K G ip).lt (.finite 0) = true)) →
        update_stress_cfl_double m np rho F K G cellsize dtCFL = .error "")
    ∧ ((∀ ip, ip < np → (cfl_min_inv_double rho K G (ip + 1)).isnan = false
          ∧ (cfl_min_inv_double rho K G (ip + 1)).lt (.finite 0) = false) →
        update_stress_cfl_double m np rho F K G cellsize dtCFL
          = if (Double.MIN dtCFL (cfl_bound_double m np rho F K G cellsize)).isnan
            then .error ""
            else .ok (Double.sqrt m (cfl_min_inv_double rho K G np),
              Double.MIN dtCFL (cfl_bound_double m np rho F K G cellsize)))
    ∧ (Double.MIN dtCFL (cfl_bound_double m np rho F K G cellsize)).isnan
        = (cfl_bound_double m np rho F K G cellsize).isnan
    ∧ dtCFL.lt (Double.MIN dtCFL (cfl_bound_double m np rho F K G cellsize)) = false
    ∧ (∀ n, (cfl_min_inv_double rho K G (n + 1)).isnan = (cfl_quotient_double rho K G n).isnan)
    ∧ (∀ n, (∀ ip, ip < n → (cfl_quotient_double rho K G ip).isnan = false) →
        (cfl_min_inv_double rho K G n = .finite (10 ^ 22)
            ∨ ∃ ip, ip < n ∧ cfl_min_inv_double rho K G n = cfl_quotient_double rho K G ip)
        ∧ (Double.finite (10 ^ 22)).lt (cfl_min_inv_double rho K G n) = false
        ∧ ∀ ip, ip < n →
            (cfl_quotient_double rho K G ip).lt (cfl_min_inv_double rho K G n) = false)
    ∧ ∀ (dt : 𝕜) (method_style : String) (grid : Grid 𝕜) (mat : Mat 𝕜) (s s' : Solid 𝕜),
        mat.K + four_third * mat.G ≠ 0 →
        update_stress m dt method_style grid mat s = .ok s' →
        update_stress_cfl_double m s.np (fun ip => .finite (s.rho ip))
            (fun ip i j => .finite (s.F ip i j)) (.finite mat.K) (.finite mat.G)
            (.finite grid.cellsize) (.finite s.dtCFL)
          = .ok (.finite s'.min_inv_p_wave_speed, .finite s'.dtCFL)
        ∧ s'.min_inv_p_wave_speed = m.sqrt (cfl_min_inv mat s s.np)
        ∧ s'.dtCFL = min s.dtCFL
            (m.sqrt (cfl_min_inv mat s s.np) * grid.cellsize * m.sqrt (cfl_min_h_ratio s s.np))
        ∧ s'.dtCFL ≤ s.dtCFL
        ∧ IsLeast (insert (10 ^ 22 : 𝕜)
              {y | ∃ ip, ip < s.np ∧ y = s.rho ip / (mat.K + four_third * mat.G)})
            (cfl_min_inv mat s s.np)
        ∧ IsLeast (insert (10 ^ 22 : 𝕜)
              {y | ∃ ip, ip < s.np ∧ ∃ r : Fin 3, y = ∑ k, s.F ip r k ^ 2})
            (cfl_min_h_ratio s s.np) := by
  refine ⟨?_, ?_, ?_, Double.isnan_MIN _ _, ?_, ?_, ?_, ?_⟩
  · intro h
    unfold update_stress_cfl_double
    rw [cfl_double_loop_error rho F K G np h]
  · rintro ⟨ip, hip, h⟩
    unfold update_stress_cfl_double
    rw [cfl_double_loop_error rho F K G np
      ⟨ip, hip, cfl_min_inv_double_of_quotient rho K G ip h⟩]
  · intro h
    exact update_stress_cfl_double_of_loop m np rho F K G cellsize dtCFL h
  · unfold Double.MIN
    by_cases hlt : dtCFL.lt (cfl_bound_double m np rho F K G cellsize) = true
    · rw [if_pos hlt]
      exact Double.lt_self _
    · rw [if_neg hlt]
      simpa using hlt
  · intro n
    rw [cfl_min_inv_double, Double.isnan_MIN]
  · intro n h
    exact cfl_min_inv_double_least rho K G n h
  · intro dt method_style grid mat s s' hKG h
    obtain ⟨_, hmin, hdt, hle⟩ := (update_stress_cfl_exact m dt method_style grid mat s).1 s' h
    exact ⟨update_stress_cfl_double_finite m dt method_style grid mat s s' hKG h, hmin, hdt, hle,
      (update_stress_cfl_exact m dt method_style grid mat s).2.1,
      (update_stress_cfl_exact m dt method_style grid mat s).2.2.1⟩

/-- C13, witness: one particle with unit `F`, unit cell size and `dtCFL = 1e22`, over the
reals. With `rho = 0` and `K = G = 0` the quotient is zero divided by zero, a NaN, and the
call is fatal. With `rho = 1` and `K = G = 0` the quotient is `+inf`, the minimum stays
`1e22`, and the call returns `min_inv_p_wave_speed = dtCFL = 1e11`. With `rho = 1`, `K = 1`,
`G = 0` and a cell size that is NaN the new `dtCFL` is NaN and the call is fatal. -/
theorem update_stress_cfl_witness :
    update_stress_cfl_double (Libm.mk Real.sqrt Real.log Real.exp Real.rpow) 1
        (fun _ => .finite 0) (fun _ i j => .finite (if i = j then 1 else 0))
        (.finite 0) (.finite 0) (.finite 1) (.finite (10 ^ 22)) = .error ""
    ∧ update_stress_cfl_double (Libm.mk Real.sqrt Real.log Real.exp Real.rpow) 1
        (fun _ => .finite 1) (fun _ i j => .finite (if i = j then 1 else 0))
        (.finite 0) (.finite 0) (.finite 1) (.finite (10 ^ 22))
      = .ok (.finite (10 ^ 11), .finite (10 ^ 11))
    ∧ update_stress_cfl_double (Libm.mk Real.sqrt Real.log Real.exp Real.rpow) 1
        (fun _ => .finite 1) (fun _ i j => .finite (if i = j then 1 else 0))
        (.finite 1) (.finite 0) .nan (.finite (10 ^ 22)) = .error "" := by
  have hq0 : cfl_quotient_double (fun _ => Double.finite (0 : ℝ)) (.finite 0) (.finite 0) 0
      = .nan := by
    simp [cfl_quotient_double, Double.mul, Double.add, Double.div]
  have hq1 : cfl_quotient_double (fun _ => Double.finite (1 : ℝ)) (.finite 0) (.finite 0) 0
      = .pos_inf := by
    simp [cfl_quotient_double, Double.mul, Double.add, Double.div]
  have hq2 : cfl_quotient_double (fun _ => Double.finite (1 : ℝ)) (.finite 1) (.finite 0) 0
      = .finite 1 := by
    simp [cfl_quotient_double, Double.mul, Double.add, Double.div]
  have hc1 : cfl_min_inv_double (fun _ => Double.finite (1 : ℝ)) (.finite 0) (.finite 0) 1
      = .finite (10 ^ 22) := by
    rw [cfl_min_inv_double, hq1]
    simp [cfl_min_inv_double, Double.MIN, Double.lt]
  have hc2 : cfl_min_inv_double (fun _ => Double.finite (1 : ℝ)) (.finite 1) (.finite 0) 1
      = .finite 1 := by
    rw [cfl_min_inv_double, hq2]
    simp only [cfl_min_inv_double, Double.MIN_finite, MIN]
    norm_num
  have hh : cfl_min_h_ratio_double
      (fun _ i j => Double.finite (if i = j then (1 : ℝ) else 0)) 1 = .finite 1 := by
    simp only [cfl_min_h_ratio_double, cfl_row_double, Double.mul, Double.add,
      Double.MIN_finite, MIN]
    simp
    norm_num
  refine ⟨?_, ?_, ?_⟩
  · exact (update_stress_cfl (Libm.mk Real.sqrt Real.log Real.exp Real.rpow) 1
      (fun _ => .finite 0) (fun _ i j => .finite (if i = j then 1 else 0))
      (.finite 0) (.finite 0) (.finite 1) (.finite (10 ^ 22))).2.1
      ⟨0, Nat.one_pos, Or.inl (by rw [hq0]; rfl)⟩
  · rw [(update_stress_cfl (Libm.mk Real.sqrt Real.log Real.exp Real.rpow) 1
      (fun _ => .finite 1) (fun _ i j => .finite (if i = j then 1 else 0))
      (.finite 0) (.finite 0) (.finite 1) (.finite (10 ^ 22))).2.2.1
      (fun ip hip => by
        have : ip = 0 := by omega
        subst this
        rw [hc1]
        simp [Double.isnan, Double.lt])]
    simp only [cfl_bound_double, hc1, hh, Double.sqrt, Double.mul]
    have e1 : ¬ ((10 : ℝ) ^ 22 < 0) := by norm_num
    have e2 : ¬ ((1 : ℝ) < 0) := by norm_num
    simp only [if_neg e1, if_neg e2, Double.mul, Double.MIN_finite, Double.isnan,
      Bool.false_eq_true, if_false, sqrt_ten_pow_22, Real.sqrt_one, mul_one, MIN]
    norm_num
  · rw [(update_stress_cfl (Libm.mk Real.sqrt Real.log Real.exp Real.rpow) 1
      (fun _ => .finite 1) (fun _ i j => .finite (if i = j then 1 else 0))
      (.finite 1) (.finite 0) .nan (.finite (10 ^ 22))).2.2.1
      (fun ip hip => by
        have : ip = 0 := by omega
        subst this
        rw [hc2]
        simp [Double.isnan, Double.lt])]
    simp only [cfl_bound_double, hc2, hh, Double.sqrt, Double.mul]
    have e2 : ¬ ((1 : ℝ) < 0) := by norm_num
    simp only [if_neg e2, Double.mul, Double.MIN, Double.lt, Double.isnan,
      Bool.false_eq_true, if_false, if_true]

end Lemmas

end Karamelo
